import Mathlib

/-! TetrisC : game area, blocks and round controller.

A shallow embedding of `field.c`, of the controller in `main.c`
(`drop_block`, `timer_handler`, `init_game`) and of the block operations
declared in `block.h`, followed by the properties proved about them.

Conventions.
* A C `int` is an `Int`; the two dimensions of a `Field`, which count rows and
  columns, are `Nat`. Signed overflow is undefined in C and is not modelled:
  the counters `level`, `rows`, `score` are unbounded integers.
* The matrix `grid[ROWS][COLUMNS]` is a total function from (row, column) to a
  cell tag; an assignment `grid[r][c] = v` is `Grid.set`.
* A counted `for` loop is `for_up` / `for_down`; the number of trips is computed
  from the bounds, so the loop functions are total.
-/

namespace TetrisC

/-! ## shared.h -/

/-- Number of rows of the game area (`#define ROWS 22`). -/
def ROWS : Nat := 22

/-- Number of columns of the game area (`#define COLUMNS 11`). -/
def COLUMNS : Nat := 11

/-- Max number of cells that constitute a block (`#define BLOCK_MAX_SIZE 5`). -/
def BLOCK_MAX_SIZE : Nat := 5

/-- Tag `BG` of `enum type`: the empty cell. -/
def BG : Int := 0

/-- Tag `F` of `enum type`, the first real block type. -/
def F : Int := 1

/-- Tag `I_SHORT` of `enum type`, the last real block type. -/
def I_SHORT : Int := 15

/-- Tag `GHOST` of `enum type`. -/
def GHOST : Int := 16

/-- The 2D matrix of a field, as a function from row and column to the tag. -/
abbrev Grid := Int → Int → Int

/-- The assignment `grid[r][c] = v`. -/
def Grid.set (g : Grid) (r c v : Int) : Grid :=
  fun r' c' => if r' = r ∧ c' = c then v else g r' c'

/-- The `Field` struct of shared.h: `rows`, `cols` and the matrix `grid`. -/
structure Field where
  rows : Nat
  cols : Nat
  grid : Grid

/-! ## Counted loops -/

/-- The loop `for (i = i0; i < hi; i++) s = body(i, s)`, with `n` trips left at most. -/
def loop_up {σ : Type} (hi : Int) (body : Int → σ → σ) : Nat → Int → σ → σ
  | 0, _, s => s
  | n + 1, i, s => if i < hi then loop_up hi body n (i + 1) (body i s) else s

/-- The loop `for (i = lo; i < hi; i++) s = body(i, s)`. -/
def for_up {σ : Type} (lo hi : Int) (body : Int → σ → σ) (s : σ) : σ :=
  loop_up hi body (hi - lo).toNat lo s

/-- The loop `for (i = i0; i > lo; i--) s = body(i, s)`, with `n` trips left at most. -/
def loop_down {σ : Type} (lo : Int) (body : Int → σ → σ) : Nat → Int → σ → σ
  | 0, _, s => s
  | n + 1, i, s => if i > lo then loop_down lo body n (i - 1) (body i s) else s

/-- The loop `for (i = hi; i > lo; i--) s = body(i, s)`. -/
def for_down {σ : Type} (hi lo : Int) (body : Int → σ → σ) (s : σ) : σ :=
  loop_down lo body (hi - lo).toNat hi s

/-! ## field.c -/

/-- The function `clear_field`: write `BG` in each grid cell. -/
def clear_field (f : Field) : Field :=
  { f with
    grid := for_up 0 f.rows
      (fun row g => for_up 0 f.cols (fun col g' => g'.set row col BG) g) f.grid }

/-- The function `init_field`: set the dimensions, then `clear_field`. -/
def init_field (f : Field) (rows cols : Nat) : Field :=
  clear_field { f with rows := rows, cols := cols }

/-- Inner loop of `find_row_field`,
`while (col < f->cols && f->grid[row][col] != BG) col++;`: the value of `col`
at exit, with `n` trips left at most. -/
def scan_row (f : Field) (row : Int) : Nat → Int → Int
  | 0, col => col
  | n + 1, col =>
    if col < f.cols ∧ f.grid row col ≠ BG then scan_row f row n (col + 1) else col

/-- Outer loop of `find_row_field`, `for (row = to; row >= from; row--)`, with its
early `return row` and the final `return -1`; `n` trips left at most. -/
def find_row_loop (f : Field) (from_ : Int) : Nat → Int → Int
  | 0, _ => -1
  | n + 1, row =>
    if row ≥ from_ then
      if scan_row f row f.cols 0 = f.cols then row
      else find_row_loop f from_ n (row - 1)
    else -1

/-- The function `find_row_field`: the first completed row met from `to` down to
`from`, or `-1`. -/
def find_row_field (f : Field) (from_ to_ : Int) : Int :=
  find_row_loop f from_ (to_ - from_ + 1).toNat to_

/-- The function `clear_row_field`: copy each row into the following one, from
`row_to_clear` up to row 1, then delete the first row. -/
def clear_row_field (f : Field) (row_to_clear : Int) : Field :=
  { f with
    grid := for_up 0 f.cols (fun col g => g.set 0 col BG)
      (for_down row_to_clear 0
        (fun row g => for_up 0 f.cols (fun col g' => g'.set row col (g' (row - 1) col)) g)
        f.grid) }

/-- A row with no `BG` cell on the columns `[0, cols)`. -/
def Field.completed (f : Field) (r : Int) : Prop :=
  ∀ c : Int, 0 ≤ c → c < f.cols → f.grid r c ≠ BG

/-- A row whose cells on the columns `[0, cols)` are all `BG`. -/
def Field.empty_row (f : Field) (r : Int) : Prop :=
  ∀ c : Int, 0 ≤ c → c < f.cols → f.grid r c = BG

/-- The find/clear loop of `timer_handler` (main.c, lines 154 to 166) as it acts on
the field alone, over the fixed band `[lo, hi]`:
`r = find_row_field(f, lo, hi); while (r != -1) { clear_row_field(f, r); count++;
r = find_row_field(f, lo, hi); }`.
The result is the final field with the number of rows cleared, or `none` when
the loop is still running after `fuel` tests of its condition. -/
def field_cascade (lo hi : Int) : Nat → Field → Option (Field × Nat)
  | 0, _ => none
  | fuel + 1, f =>
    if find_row_field f lo hi ≠ -1 then
      (field_cascade lo hi fuel (clear_row_field f (find_row_field f lo hi))).map
        (fun p => (p.1, p.2 + 1))
    else some (f, 0)

/-! ## block.h

The file block.c is not part of the sources at hand: only block.h (the
declarations), the calls in main.c and the test check_block.c are. The block
operations below are therefore modelled from the specification (sections 3,
4.2 and 4.3), and the geometry table is a parameter `sh`. -/

/-- The `Block` struct of shared.h. -/
structure Block where
  type : Int
  rot : Int
  row : Int
  col : Int
  mark : Int

/-- The `enum direction` of shared.h. -/
inductive Direction where
  | LEFT
  | RIGHT
  | DOWN
  deriving DecidableEq

/-- Row step of a direction. -/
def Direction.drow : Direction → Int
  | .LEFT => 0
  | .RIGHT => 0
  | .DOWN => 1

/-- Column step of a direction. -/
def Direction.dcol : Direction → Int
  | .LEFT => -1
  | .RIGHT => 1
  | .DOWN => 0

/-- Modelled from the spec: the piece geometry table of block.c, which is missing.
"A static mapping from (piece-kind, rotation-index) to a fixed-size set of
relative cell offsets around an anchor": `sh kind rot` is the list of the
(row, column) offsets of the cells. -/
abbrev Shapes := Int → Int → List (Int × Int)

/-- Modelled from the spec: the constraints on the missing geometry table.
Each of the 15 real kinds has, in each of the 4 rotations, at least one and at
most `BLOCK_MAX_SIZE` offsets, all inside the 5 x 5 window centred on the anchor. -/
def Shapes.valid (sh : Shapes) : Prop :=
  ∀ kind rot : Int, F ≤ kind → kind ≤ I_SHORT → 0 ≤ rot → rot < 4 →
    sh kind rot ≠ [] ∧ (sh kind rot).length ≤ BLOCK_MAX_SIZE ∧
    ∀ d ∈ sh kind rot, -2 ≤ d.1 ∧ d.1 ≤ 2 ∧ -2 ≤ d.2 ∧ d.2 ≤ 2

/-- Modelled from the spec: the occupied cells of a piece (block.c is missing).
"Occupied cells = anchor + offsets(kind, rotation)". -/
def Block.cells (sh : Shapes) (b : Block) : List (Int × Int) :=
  (sh b.type b.rot).map (fun d => (b.row + d.1, b.col + d.2))

/-- Modelled from the spec: `init_block` of the missing block.c. It sets the type,
the rotation and the anchor; the tag written on the grid is the kind. -/
def init_block (b : Block) (type rot row col : Int) : Block :=
  { b with type := type, rot := rot, row := row, col := col, mark := type }

/-- Modelled from the spec: `init_ghost_block` of the missing block.c. As
`init_block`, with the tag `GHOST`. -/
def init_ghost_block (b : Block) (type rot row col : Int) : Block :=
  { b with type := type, rot := rot, row := row, col := col, mark := GHOST }

/-- The assignment of one tag to a list of cells; a cell with a negative row is
above the grid and nothing is written for it. -/
def Grid.fill (g : Grid) (cells : List (Int × Int)) (v : Int) : Grid :=
  cells.foldl (fun g' p => if 0 ≤ p.1 then g'.set p.1 p.2 v else g') g

/-- Modelled from the spec: `erase_block` of the missing block.c. "Writes `EMPTY`
into every currently-occupied cell"; the cells with a negative row are off the
grid. -/
def erase_block (sh : Shapes) (b : Block) (f : Field) : Field :=
  { f with grid := f.grid.fill (b.cells sh) BG }

/-- Modelled from the spec: `write_block` (stamp) of the missing block.c. "Writes
`tag` into every occupied cell"; the cells with a negative row are off the
grid. -/
def write_block (sh : Shapes) (b : Block) (f : Field) : Field :=
  { f with grid := f.grid.fill (b.cells sh) b.mark }

/-- Modelled from the spec: `update_block` of the missing block.c. "Erase at old
position, adopt new rotation/anchor, stamp at new position". -/
def update_block (sh : Shapes) (b : Block) (f : Field) (new_rot new_row new_col : Int) :
    Block × Field :=
  let f1 := erase_block sh b f
  let b1 := { b with rot := new_rot, row := new_row, col := new_col }
  (b1, write_block sh b1 f1)

/-- Greatest element of a list of integers, `d` for the empty list. -/
def list_max (d : Int) : List Int → Int
  | [] => d
  | x :: xs => xs.foldl max x

/-- Least element of a list of integers, `d` for the empty list. -/
def list_min (d : Int) : List Int → Int
  | [] => d
  | x :: xs => xs.foldl min x

/-- Modelled from the spec: `get_limit_high_block` of the missing block.c, the
"max row index occupied by a cell of the block" (block.h). -/
def get_limit_high_block (sh : Shapes) (b : Block) : Int :=
  list_max b.row ((b.cells sh).map Prod.fst)

/-- Modelled from the spec: `get_limit_low_block` of the missing block.c, the
"min row index occupied by a cell of the block" (block.h). -/
def get_limit_low_block (sh : Shapes) (b : Block) : Int :=
  list_min b.row ((b.cells sh).map Prod.fst)

/-- Modelled from the spec: the feasibility test shared by `can_move_block` and
`can_rotate_block` (block.c is missing), for one resulting cell `p` of the piece
`b`. The cell is refused when it is "out of column bounds, below the last row, or
already occupied by a tag that is neither `EMPTY` nor this piece's own current
cell". A cell above the grid (negative row) holds no tag. Every other tag on the
grid, `GHOST` included, refuses the cell. -/
def cell_free (sh : Shapes) (b : Block) (f : Field) (p : Int × Int) : Bool :=
  decide (0 ≤ p.2) && decide (p.2 < f.cols) && decide (p.1 < f.rows) &&
    (decide (p.1 < 0) || decide (f.grid p.1 p.2 = BG) || decide (p ∈ b.cells sh))

/-- Modelled from the spec: `can_move_block` of the missing block.c. "For each
occupied cell, compute the cell after translating one step in `direction`";
the move is possible when every resulting cell passes `cell_free`. -/
def can_move_block (sh : Shapes) (b : Block) (f : Field) (dir : Direction) : Bool :=
  (b.cells sh).all (fun p => cell_free sh b f (p.1 + dir.drow, p.2 + dir.dcol))

/-- Modelled from the spec: `can_rotate_block` of the missing block.c. "Identical
feasibility test but using the offsets of `(rotation+1) mod 4` at the same
anchor". -/
def can_rotate_block (sh : Shapes) (b : Block) (f : Field) : Bool :=
  (Block.cells sh { b with rot := (b.rot + 1) % 4 }).all (fun p => cell_free sh b f p)

/-- Modelled from the spec: `move_block` of the missing block.c. "Performs `update`
with anchor shifted by one step". -/
def move_block (sh : Shapes) (b : Block) (f : Field) (dir : Direction) : Block × Field :=
  update_block sh b f b.rot (b.row + dir.drow) (b.col + dir.dcol)

/-- Modelled from the spec: `rotate_block` of the missing block.c. "Performs
`update` with `rotation = (rotation+1) mod 4`, same anchor". -/
def rotate_block (sh : Shapes) (b : Block) (f : Field) : Block × Field :=
  update_block sh b f ((b.rot + 1) % 4) b.row b.col

/-- Modelled from the spec: a sample geometry table (the table of block.c is
missing), in which every kind is the bar of three cells, horizontal in the
rotations 0 and 2 and vertical in the rotations 1 and 3. -/
def bar_shapes : Shapes :=
  fun _ rot => if rot % 2 = 0 then [(0, -1), (0, 0), (0, 1)] else [(-1, 0), (0, 0), (1, 0)]

/-- The four actions of the loop of `test_block_move` (check_block.c). -/
inductive Action where
  | rotate
  | down
  | left
  | right
  deriving DecidableEq

/-- One trip of the loop of `test_block_move` (check_block.c, lines 105 to 131):
the action is performed only when its `can_rotate_block` / `can_move_block` test
returns true. -/
def test_action (sh : Shapes) (a : Action) (s : Block × Field) : Block × Field :=
  match a with
  | .rotate => if can_rotate_block sh s.1 s.2 then rotate_block sh s.1 s.2 else s
  | .down => if can_move_block sh s.1 s.2 .DOWN then move_block sh s.1 s.2 .DOWN else s
  | .left => if can_move_block sh s.1 s.2 .LEFT then move_block sh s.1 s.2 .LEFT else s
  | .right => if can_move_block sh s.1 s.2 .RIGHT then move_block sh s.1 s.2 .RIGHT else s

/-- A finite sequence of guarded actions, as performed by `test_block_move`. -/
def test_actions (sh : Shapes) (acts : List Action) (s : Block × Field) : Block × Field :=
  acts.foldl (fun s' a => test_action sh a s') s

/-- The piece `b` is stamped on the settled field `f0`, none of its cells lying on
a settled cell: `f` is `f0` with the tag of `b` on the cells of `b`. -/
def Stamped (sh : Shapes) (f0 : Field) (b : Block) (f : Field) : Prop :=
  f.rows = f0.rows ∧ f.cols = f0.cols ∧
  (∀ p ∈ b.cells sh, 0 ≤ p.1 → f0.grid p.1 p.2 = BG) ∧
  f.grid = f0.grid.fill (b.cells sh) b.mark

/-! ## main.c : the round controller -/

/-- Max level (`#define LEVEL_CAP 10`). -/
def LEVEL_CAP : Int := 10

/-- Number of completed rows required to level up (`#define ROWS_PER_LEVEL 5`). -/
def ROWS_PER_LEVEL : Int := 5

/-- Score for single row completed (`#define SCORE_PER_ROW 100`). -/
def SCORE_PER_ROW : Int := 100

/-- Bonus for multiple rows completed (`#define BONUS_EXPONENT 2`). -/
def BONUS_EXPONENT : Nat := 2

/-- Bonus for disabling the ghost option (`#define BONUS_GHOST_OFF 2`). -/
def BONUS_GHOST_OFF : Int := 2

/-- Initial block fall interval in milliseconds (`#define INIT_VALUE_MILLIS 800`). -/
def INIT_VALUE_MILLIS : Int := 800

/-- Interval to subtract per level, in milliseconds
(`#define INTERVAL_REDUCTION_PER_LEVEL_MILLIS 50`). -/
def INTERVAL_REDUCTION_PER_LEVEL_MILLIS : Int := 50

/-- Value `GAME_RUNNING` of `enum game_status`. -/
def GAME_RUNNING : Int := 0

/-- Value `GAME_MENU` of `enum game_status`. -/
def GAME_MENU : Int := 1

/-- Value `GAME_OVER` of `enum game_status`. -/
def GAME_OVER : Int := 2

/-- Value `OPT_GHOST_ON` of `enum ghost_option`. -/
def OPT_GHOST_ON : Int := 0

/-- Value `OPT_GHOST_OFF` of `enum ghost_option`. -/
def OPT_GHOST_OFF : Int := 1

/-- The file-scope variables of main.c, with the two pieces of the environment
that the controller acts on: `tv_nsec` is `it_spec.it_value.tv_nsec` of timer.c as
last passed to `timer_settime` (0 disarms the timer), and `rand` lists the values
that the next calls of `rand()` return. The windows of gui.c are not part of the
state: the `refresh_*` and `reset_*` calls are left out. -/
structure Game where
  level : Int
  rows : Int
  score : Int
  status : Int
  curr_field : Field
  next_field : Field
  curr_block : Block
  ghost_block : Block
  next_block : Block
  option_ghost : Int
  option_color : Int
  tv_nsec : Int
  rand : Nat → Nat

/-- The function `start_timer` of timer.c: the value and the interval of the timer
are set to `interval_millis*1000000` nanoseconds. -/
def start_timer (g : Game) (interval_millis : Int) : Game :=
  { g with tv_nsec := interval_millis * 1000000 }

/-- The function `stop_timer` of timer.c: the value and the interval are set to 0. -/
def stop_timer (g : Game) : Game :=
  { g with tv_nsec := 0 }

/-- The loop `while (cond(s)) s = body(s);`. The result is `none` when the loop is
still running after `fuel` tests of its condition. -/
def while_loop {σ : Type} (cond : σ → Bool) (body : σ → σ) : Nat → σ → Option σ
  | 0, _ => none
  | fuel + 1, s => if cond s then while_loop cond body fuel (body s) else some s

/-- The two statements `init_block(next_block, rand() % I_SHORT + 1, rand() % 4,
BLOCK_MAX_SIZE / 2, BLOCK_MAX_SIZE / 2)` of `drop_block` and `init_game`. The two
calls of `rand()` are taken in the order of the arguments. -/
def init_next_block (g : Game) : Game :=
  { g with
    next_block := init_block g.next_block ((g.rand 0 : Int) % I_SHORT + 1) ((g.rand 1 : Int) % 4)
      ((BLOCK_MAX_SIZE / 2 : Nat) : Int) ((BLOCK_MAX_SIZE / 2 : Nat) : Int),
    rand := fun n => g.rand (n + 2) }

/-- The part of `drop_block` (main.c, lines 104 to 111) that positions the ghost
when the option is enabled. -/
def drop_ghost (sh : Shapes) (fuel : Nat) (g : Game) : Option Game :=
  if g.option_ghost = OPT_GHOST_ON then
    (while_loop (fun s : Block × Field => can_move_block sh s.1 s.2 .DOWN)
        (fun s => move_block sh s.1 s.2 .DOWN) fuel
        (init_ghost_block g.ghost_block g.next_block.type g.next_block.rot
          (-(BLOCK_MAX_SIZE : Int)) ((COLUMNS / 2 : Nat) : Int), g.curr_field)).map
      (fun s => { g with ghost_block := s.1, curr_field := write_block sh s.1 s.2 })
  else some g

/-- The part of `drop_block` (main.c, lines 113 to 119) that creates the current
block and moves it down until its first cell appears on the screen. -/
def drop_curr (sh : Shapes) (fuel : Nat) (g : Game) : Option Game :=
  (while_loop
      (fun s : Block × Field =>
        decide (get_limit_high_block sh s.1 < 0) && can_move_block sh s.1 s.2 .DOWN)
      (fun s => move_block sh s.1 s.2 .DOWN) fuel
      (init_block g.curr_block g.next_block.type g.next_block.rot
        (-(BLOCK_MAX_SIZE : Int)) ((COLUMNS / 2 : Nat) : Int), g.curr_field)).map
    (fun s => { g with curr_block := s.1, curr_field := write_block sh s.1 s.2 })

/-- The part of `drop_block` (main.c, lines 121 to 125) that draws the next block
and writes it on the cleared preview field. -/
def drop_next (sh : Shapes) (g : Game) : Game :=
  let g1 := init_next_block g
  let g2 := { g1 with next_field := clear_field g1.next_field }
  { g2 with next_field := write_block sh g2.next_block g2.next_field }

/-- The function `drop_block` of main.c. -/
def drop_block (sh : Shapes) (fuel : Nat) (g : Game) : Option Game :=
  ((drop_ghost sh fuel g).bind (drop_curr sh fuel)).map (drop_next sh)

/-- The score added by `timer_handler` (main.c, lines 169 and 170) for
`rows_count` rows completed simultaneously:
`SCORE_PER_ROW*(int)pow(rows_count, BONUS_EXPONENT)*bonus`. The value of `pow` on
these small integers is the exact square, so the integer power is used. -/
def score_increment (option_ghost rows_count : Int) : Int :=
  SCORE_PER_ROW * rows_count ^ BONUS_EXPONENT
    * (if option_ghost = OPT_GHOST_OFF then BONUS_GHOST_OFF else 1)

/-- The body of the loop `while (row_to_clear != -1)` of `timer_handler` (main.c,
lines 157 to 166), on the state made of the game, `row_to_clear` and
`rows_count`. The test `rows % ROWS_PER_LEVEL == 0` is a divisibility test, the
same for the remainder of C and for `%` on `Int`. -/
def cascade_body (sh : Shapes) (s : Game × Int × Int) : Game × Int × Int :=
  let rows := s.1.rows + 1
  let level := if rows % ROWS_PER_LEVEL = 0 ∧ s.1.level < LEVEL_CAP
    then s.1.level + 1 else s.1.level
  let g := { s.1 with
    curr_field := clear_row_field s.1.curr_field s.2.1, rows := rows, level := level }
  (g,
    find_row_field g.curr_field (get_limit_low_block sh g.curr_block)
      (get_limit_high_block sh g.curr_block),
    s.2.2 + 1)

/-- The level after `n` more cleared rows, as the loop of `timer_handler` updates
it: one test `rows % ROWS_PER_LEVEL == 0 && level < LEVEL_CAP` per cleared row. -/
def levels_after : Nat → Int → Int → Int
  | 0, level, _ => level
  | n + 1, level, rows =>
    levels_after n
      (if (rows + 1) % ROWS_PER_LEVEL = 0 ∧ level < LEVEL_CAP then level + 1 else level)
      (rows + 1)

/-- Indicator (1 or 0) of the test `col == f->cols` of `find_row_field` on row `r`. -/
def completed_ind (f : Field) (r : Int) : Nat :=
  if scan_row f r f.cols 0 = f.cols then 1 else 0

/-- Number of completed rows among the rows `[0, m)`. -/
def completed_below (f : Field) : Nat → Nat
  | 0 => 0
  | m + 1 => completed_below f m + completed_ind f m

/-- The state of the loop of `timer_handler` at its exit, from the game `g` and the
count `k` at its entry and from the final field and the number of cleared rows. -/
def cascade_result (g : Game) (k : Int) (p : Field × Nat) : Game × Int × Int :=
  ({ g with
      curr_field := p.1, rows := g.rows + p.2, level := levels_after p.2 g.level g.rows },
    -1, k + p.2)

/-- The function `timer_handler` of main.c. -/
def timer_handler (sh : Shapes) (fuel : Nat) (g : Game) : Option Game :=
  if can_move_block sh g.curr_block g.curr_field .DOWN then
    some { g with
      curr_block := (move_block sh g.curr_block g.curr_field .DOWN).1,
      curr_field := (move_block sh g.curr_block g.curr_field .DOWN).2 }
  else
    let g0 := stop_timer g
    if get_limit_low_block sh g0.curr_block < 0 then
      some { g0 with status := GAME_OVER }
    else
      (while_loop (fun s : Game × Int × Int => decide (s.2.1 ≠ -1)) (cascade_body sh) fuel
          (g0,
            find_row_field g0.curr_field (get_limit_low_block sh g0.curr_block)
              (get_limit_high_block sh g0.curr_block),
            0)).bind fun s =>
        (drop_block sh fuel
            { s.1 with score := s.1.score + score_increment s.1.option_ghost s.2.2 }).map
          fun g1 =>
            start_timer g1
              (INIT_VALUE_MILLIS - INTERVAL_REDUCTION_PER_LEVEL_MILLIS * (g1.level - 1))

/-- The function `init_game` of main.c. -/
def init_game (sh : Shapes) (fuel : Nat) (g : Game) : Option Game :=
  let g1 := { g with level := 1, rows := 0, score := 0 }
  let g2 := { g1 with curr_field := init_field g1.curr_field ROWS COLUMNS }
  let g3 := { g2 with next_field := init_field g2.next_field BLOCK_MAX_SIZE BLOCK_MAX_SIZE }
  drop_block sh fuel (init_next_block g3)

/-- The states of a round: those reached from `init_game` by ticks of the timer. -/
inductive TickReachable (sh : Shapes) : Game → Prop where
  | init (fuel : Nat) (g0 g : Game) : init_game sh fuel g0 = some g → TickReachable sh g
  | tick (fuel : Nat) (g g' : Game) :
      TickReachable sh g → timer_handler sh fuel g = some g' → TickReachable sh g'

/-- The function `update_ghost` of main.c: the ghost takes the rotation and the
anchor of the current block, moves down while it can, and the current block is
updated at its own position so that it is written over the ghost. -/
def update_ghost (sh : Shapes) (fuel : Nat) (g : Game) : Option Game :=
  (while_loop (fun s : Block × Field => can_move_block sh s.1 s.2 .DOWN)
      (fun s => move_block sh s.1 s.2 .DOWN) fuel
      (update_block sh g.ghost_block g.curr_field
        g.curr_block.rot g.curr_block.row g.curr_block.col)).map
    fun s =>
      { g with
        ghost_block := s.1,
        curr_block := (update_block sh g.curr_block s.2
          g.curr_block.rot g.curr_block.row g.curr_block.col).1,
        curr_field := (update_block sh g.curr_block s.2
          g.curr_block.rot g.curr_block.row g.curr_block.col).2 }

/-- The left half of `fix_block_position` (main.c, lines 231 to 254), on the
current block and the current field. -/
def fix_left (sh : Shapes) (s : Block × Field) : Block × Field :=
  if can_move_block sh s.1 s.2 .LEFT then
    let s1 := move_block sh s.1 s.2 .LEFT
    if can_rotate_block sh s1.1 s1.2 then rotate_block sh s1.1 s1.2
    else if can_move_block sh s1.1 s1.2 .LEFT then
      let s2 := move_block sh s1.1 s1.2 .LEFT
      if can_rotate_block sh s2.1 s2.2 then rotate_block sh s2.1 s2.2
      else
        let s3 := move_block sh s2.1 s2.2 .RIGHT
        move_block sh s3.1 s3.2 .RIGHT
    else move_block sh s1.1 s1.2 .RIGHT
  else s

/-- The right half of `fix_block_position` (main.c, lines 257 to 281), on the
current block and the current field. -/
def fix_right (sh : Shapes) (s : Block × Field) : Block × Field :=
  if can_move_block sh s.1 s.2 .RIGHT then
    let s1 := move_block sh s.1 s.2 .RIGHT
    if can_rotate_block sh s1.1 s1.2 then rotate_block sh s1.1 s1.2
    else if can_move_block sh s1.1 s1.2 .RIGHT then
      let s2 := move_block sh s1.1 s1.2 .RIGHT
      if can_rotate_block sh s2.1 s2.2 then rotate_block sh s2.1 s2.2
      else
        let s3 := move_block sh s2.1 s2.2 .LEFT
        move_block sh s3.1 s3.2 .LEFT
    else move_block sh s1.1 s1.2 .LEFT
  else s

/-- The function `fix_block_position` of main.c, on the current block and the
current field: the left half, then the right half, which is not an `else`. -/
def fix_block_position (sh : Shapes) (s : Block × Field) : Block × Field :=
  fix_right sh (fix_left sh s)

/-- The keys that `game_loop` distinguishes (`KEY_UP`, `KEY_DOWN`, `KEY_LEFT`,
`KEY_RIGHT` of ncurses, `KEY_SPACE`, `KEY_MENU`, `KEY_RETURN` of main.c), and any
other key. -/
inductive Key where
  | UP
  | DOWN
  | LEFT
  | RIGHT
  | SPACE
  | MENU
  | RETURN
  | OTHER
  deriving DecidableEq

/-- Value `MENU_PLAY` of `enum game_menu`. -/
def MENU_PLAY : Int := 0

/-- Value `MENU_RESTART` of `enum game_menu`. -/
def MENU_RESTART : Int := 1

/-- Value `MENU_BACK` of `enum game_menu`. -/
def MENU_BACK : Int := 2

/-- Value `GAME_OVER_RESTART` of `enum game_over`. -/
def GAME_OVER_RESTART : Int := 0

/-- Value `GAME_OVER_BACK` of `enum game_over`. -/
def GAME_OVER_BACK : Int := 1

/-- The state of `game_loop`: the game, the two local selectors of `game_loop`, the
two selectors `game_menu_select` and `game_over_select` of gui.c, and whether
`game_loop` has returned. -/
structure Loop where
  game : Game
  menu_selection : Int
  game_over_selection : Int
  game_menu_select : Int
  game_over_select : Int
  returned : Bool

/-- The function `scroll_down_game_menu` of gui.c: the new value of
`game_menu_select`, which is also the value returned. -/
def scroll_down_game_menu (game_menu_select : Int) : Int :=
  Int.tmod (game_menu_select + 1) (MENU_BACK + 1)

/-- The function `scroll_up_game_menu` of gui.c: the new value of
`game_menu_select`, which is also the value returned. -/
def scroll_up_game_menu (game_menu_select : Int) : Int :=
  Int.tmod (game_menu_select - 1 + (MENU_BACK + 1)) (MENU_BACK + 1)

/-- The function `scroll_down_game_over_win` of gui.c: the new value of
`game_over_select`, which is also the value returned. -/
def scroll_down_game_over_win (game_over_select : Int) : Int :=
  Int.tmod (game_over_select + 1) (GAME_OVER_BACK + 1)

/-- The function `scroll_up_game_over_win` of gui.c: the new value of
`game_over_select`, which is also the value returned. -/
def scroll_up_game_over_win (game_over_select : Int) : Int :=
  Int.tmod (game_over_select - 1 + (GAME_OVER_BACK + 1)) (GAME_OVER_BACK + 1)

/-- The statement `if (option_ghost == OPT_GHOST_ON) { update_ghost(); }` of the
key handlers of `game_loop`. -/
def ghost_sync (sh : Shapes) (fuel : Nat) (g : Game) : Option Game :=
  if g.option_ghost = OPT_GHOST_ON then update_ghost sh fuel g else some g

/-- The two statements `move_block(curr_block, curr_field, dir)` and the ghost
update that follows it in the key handlers. -/
def key_move (sh : Shapes) (fuel : Nat) (dir : Direction) (g : Game) : Option Game :=
  if can_move_block sh g.curr_block g.curr_field dir then
    ghost_sync sh fuel { g with
      curr_block := (move_block sh g.curr_block g.curr_field dir).1,
      curr_field := (move_block sh g.curr_block g.curr_field dir).2 }
  else some g

/-- The case `KEY_UP` of `game_loop` while the game is running: rotate, or fix the
position of the block, then update the ghost. -/
def key_up (sh : Shapes) (fuel : Nat) (g : Game) : Option Game :=
  if can_rotate_block sh g.curr_block g.curr_field then
    ghost_sync sh fuel { g with
      curr_block := (rotate_block sh g.curr_block g.curr_field).1,
      curr_field := (rotate_block sh g.curr_block g.curr_field).2 }
  else
    ghost_sync sh fuel { g with
      curr_block := (fix_block_position sh (g.curr_block, g.curr_field)).1,
      curr_field := (fix_block_position sh (g.curr_block, g.curr_field)).2 }

/-- The case `KEY_SPACE` of `game_loop` while the game is running: the block falls
while it can move down, then the ghost is updated. -/
def key_space (sh : Shapes) (fuel : Nat) (g : Game) : Option Game :=
  (while_loop (fun s : Block × Field => can_move_block sh s.1 s.2 .DOWN)
      (fun s => move_block sh s.1 s.2 .DOWN) fuel (g.curr_block, g.curr_field)).bind
    fun s => ghost_sync sh fuel { g with curr_block := s.1, curr_field := s.2 }

/-- The body of the input loop of `game_loop` for one key, while the game is
running (main.c, lines 315 to 381). -/
def key_running (sh : Shapes) (fuel : Nat) (k : Key) (l : Loop) : Option Loop :=
  match k with
  | .UP => (key_up sh fuel l.game).map fun g => { l with game := g }
  | .DOWN => (key_move sh fuel .DOWN l.game).map fun g => { l with game := g }
  | .LEFT => (key_move sh fuel .LEFT l.game).map fun g => { l with game := g }
  | .RIGHT => (key_move sh fuel .RIGHT l.game).map fun g => { l with game := g }
  | .SPACE => (key_space sh fuel l.game).map fun g => { l with game := g }
  | .MENU => some { l with game := { stop_timer l.game with status := GAME_MENU } }
  | _ => some l

/-- The body of the input loop of `game_loop` for one key, while the game menu is
open (main.c, lines 382 to 426). -/
def key_menu (sh : Shapes) (fuel : Nat) (k : Key) (l : Loop) : Option Loop :=
  match k with
  | .UP =>
    some { l with
      game_menu_select := scroll_up_game_menu l.game_menu_select,
      menu_selection := scroll_up_game_menu l.game_menu_select }
  | .DOWN =>
    some { l with
      game_menu_select := scroll_down_game_menu l.game_menu_select,
      menu_selection := scroll_down_game_menu l.game_menu_select }
  | .RETURN =>
    if l.menu_selection = MENU_PLAY then
      some { l with
        game_menu_select := MENU_PLAY,
        game := start_timer { l.game with status := GAME_RUNNING }
          (INIT_VALUE_MILLIS - INTERVAL_REDUCTION_PER_LEVEL_MILLIS * (l.game.level - 1)) }
    else if l.menu_selection = MENU_RESTART then
      (init_game sh fuel l.game).map fun g =>
        { l with
          game_menu_select := MENU_PLAY,
          game := start_timer { g with status := GAME_RUNNING } INIT_VALUE_MILLIS,
          menu_selection := MENU_PLAY }
    else if l.menu_selection = MENU_BACK then
      some { l with game_menu_select := MENU_PLAY, returned := true }
    else some l
  | _ => some l

/-- The body of the input loop of `game_loop` for one key, after a game over
(main.c, lines 427 to 462). -/
def key_game_over (sh : Shapes) (fuel : Nat) (k : Key) (l : Loop) : Option Loop :=
  match k with
  | .UP =>
    some { l with
      game_over_select := scroll_up_game_over_win l.game_over_select,
      game_over_selection := scroll_up_game_over_win l.game_over_select }
  | .DOWN =>
    some { l with
      game_over_select := scroll_down_game_over_win l.game_over_select,
      game_over_selection := scroll_down_game_over_win l.game_over_select }
  | .RETURN =>
    if l.game_over_selection = GAME_OVER_RESTART then
      (init_game sh fuel { l.game with status := GAME_RUNNING }).map fun g =>
        { l with
          game_menu_select := MENU_PLAY,
          game := start_timer g INIT_VALUE_MILLIS,
          game_over_selection := GAME_OVER_RESTART }
    else if l.game_over_selection = GAME_OVER_BACK then
      some { l with game_menu_select := MENU_PLAY, returned := true }
    else some l
  | _ => some l

/-- The body of the input loop of `game_loop` for one key (main.c, lines 314 to
463). -/
def key_event (sh : Shapes) (fuel : Nat) (k : Key) (l : Loop) : Option Loop :=
  if l.game.status = GAME_RUNNING then key_running sh fuel k l
  else if l.game.status = GAME_MENU then key_menu sh fuel k l
  else if l.game.status = GAME_OVER then key_game_over sh fuel k l
  else some l

/-- One execution of the signal handler `timer_handler` within `game_loop`; in its
game over branch the handler also calls `reset_game_over_win`, which sets
`game_over_select` of gui.c. -/
def tick_event (sh : Shapes) (fuel : Nat) (l : Loop) : Option Loop :=
  (timer_handler sh fuel l.game).map fun g =>
    { l with
      game := g,
      game_over_select :=
        if can_move_block sh l.game.curr_block l.game.curr_field .DOWN = false ∧
            get_limit_low_block sh l.game.curr_block < 0
        then GAME_OVER_RESTART else l.game_over_select }

/-- The start of `game_loop` (main.c, lines 292 to 311), entered from `main` with
`status = GAME_RUNNING`: `init_game`, then `start_timer(INIT_VALUE_MILLIS)`. The
selector `game_menu_select` of gui.c is `MENU_PLAY` at every entry
(`init_windows`, `reset_game_menu`); `game_over_select` is the value that gui.c
holds at that time. -/
def game_loop_start (sh : Shapes) (fuel : Nat) (g : Game) (game_over_select : Int) :
    Option Loop :=
  (init_game sh fuel { g with status := GAME_RUNNING }).map fun g1 =>
    { game := start_timer g1 INIT_VALUE_MILLIS,
      menu_selection := MENU_PLAY, game_over_selection := GAME_OVER_RESTART,
      game_menu_select := MENU_PLAY, game_over_select := game_over_select,
      returned := false }

/-- The states of `game_loop` between two handlers, when each handler runs to its
end before the next one starts: those reached from its start by keys and by ticks
of the timer, a tick being delivered only while the timer is armed. The signal of
the timer can also be delivered inside a key handler (`make_timer` of timer.c
blocks no signal): such a run is not a run of this relation, and
`key_move_interrupted` gives the one that bears on the position of the block. -/
inductive LoopReachable (sh : Shapes) : Loop → Prop where
  | start (fuel : Nat) (g : Game) (sel : Int) (l : Loop) :
      game_loop_start sh fuel g sel = some l → LoopReachable sh l
  | key (fuel : Nat) (k : Key) (l l' : Loop) :
      LoopReachable sh l → l.returned = false → key_event sh fuel k l = some l' →
      LoopReachable sh l'
  | tick (fuel : Nat) (l l' : Loop) :
      LoopReachable sh l → l.returned = false → l.game.tv_nsec ≠ 0 →
      tick_event sh fuel l = some l' → LoopReachable sh l'

/-! ## Sample data and definitions used in the statements and proofs -/

/-- A settled field of four rows and three columns with one settled cell. -/
def settled_4x3 : Field :=
  { rows := 4, cols := 3, grid := fun r c => if r = 3 ∧ c = 0 then 30 else 0 }

/-- A bar of kind `I` (tag 3) above the grid, anchored at row -5 and column 1. -/
def bar_above : Block :=
  { type := 3, rot := 0, row := -5, col := 1, mark := 3 }

/-- A bar of kind `I` (tag 3) lying on row 0, anchored at column 1. -/
def bar_row0 : Block :=
  { type := 3, rot := 0, row := 0, col := 1, mark := 3 }

/-- An empty field of one row and three columns. -/
def empty_1x3 : Field :=
  { rows := 1, cols := 3, grid := fun _ _ => BG }

/-- Number of the rows `R1 < R2 < R3` that lie below row `s` (have a greater index). -/
def below3 (R1 R2 R3 s : Int) : Int :=
  if s < R1 then 3 else if s < R2 then 2 else if s < R3 then 1 else 0

/-- What a falling loop keeps: the type, the rotation, the column and the tag of
the block, and the dimensions of the field. -/
def FallInv (b : Block) (f : Field) (s : Block × Field) : Prop :=
  s.1.type = b.type ∧ s.1.rot = b.rot ∧ s.1.col = b.col ∧ s.1.mark = b.mark ∧
  s.2.rows = f.rows ∧ s.2.cols = f.cols

/-- The statistics, the options and the timer are the same in two states. -/
def SameStats (g g' : Game) : Prop :=
  g'.level = g.level ∧ g'.rows = g.rows ∧ g'.score = g.score ∧ g'.status = g.status ∧
  g'.option_ghost = g.option_ghost ∧ g'.option_color = g.option_color ∧
  g'.tv_nsec = g.tv_nsec

/-- What `drop_block` does to the current block and to the current field: the
block has the type and the rotation of the former next block, the tag of that
type, the anchor column `COLUMNS / 2`, and the field keeps its dimensions. -/
def Spawned (g g' : Game) : Prop :=
  g'.curr_block.type = g.next_block.type ∧ g'.curr_block.rot = g.next_block.rot ∧
  g'.curr_block.col = ((COLUMNS / 2 : Nat) : Int) ∧ g'.curr_block.mark = g.next_block.type ∧
  g'.curr_field.rows = g.curr_field.rows ∧ g'.curr_field.cols = g.curr_field.cols

/-- The state of the game after the cascade of `timer_handler` and the update of
the score, before `drop_block`: the timer is stopped, the field is `f'` and `n`
rows have been cleared. -/
def after_cascade (g : Game) (f' : Field) (n : Nat) : Game :=
  { g with
    tv_nsec := 0, curr_field := f', rows := g.rows + n,
    level := levels_after n g.level g.rows,
    score := g.score + score_increment g.option_ghost n }

/-- A 22 x 11 field on which a bar has landed on the last row: row 21 is made of
settled cells (tag 1) and of the three cells of the bar (tag 3, columns 4 to 6),
and the other rows are empty. -/
def landed_field : Field :=
  { rows := ROWS, cols := COLUMNS,
    grid := fun r c =>
      if 0 ≤ c ∧ c < 11 then (if r = 21 then (if 4 ≤ c ∧ c ≤ 6 then 3 else 1) else 0)
      else 0 }

/-- The field `landed_field` with, in addition, a row 20 made of settled cells
only. -/
def stacked_field : Field :=
  { rows := ROWS, cols := COLUMNS,
    grid := fun r c =>
      if 0 ≤ c ∧ c < 11 then
        (if r = 20 then 1 else if r = 21 then (if 4 ≤ c ∧ c ≤ 6 then 3 else 1) else 0)
      else 0 }

/-- A state of the game in which the current block, a horizontal bar, lies on the
last row of `landed_field`. -/
def landed_game : Game :=
  { level := 1, rows := 0, score := 0, status := GAME_RUNNING,
    curr_field := landed_field,
    next_field := { rows := 5, cols := 5, grid := fun _ _ => 0 },
    curr_block := { type := 3, rot := 0, row := 21, col := 5, mark := 3 },
    ghost_block := { type := 3, rot := 0, row := 21, col := 5, mark := GHOST },
    next_block := { type := 3, rot := 1, row := 2, col := 2, mark := 3 },
    option_ghost := OPT_GHOST_ON, option_color := 0, tv_nsec := 800000000,
    rand := fun n => n }

/-- The state `landed_game` on the field `stacked_field`. -/
def stacked_game : Game :=
  { landed_game with curr_field := stacked_field }

/-- A state of the game in which the current block, a vertical bar, is blocked by a
settled cell while two of its cells are still above the screen. -/
def stuck_game : Game :=
  { landed_game with
    curr_field :=
      { rows := ROWS, cols := COLUMNS,
        grid := fun r c => if c = 5 then (if r = 0 then 3 else if 1 ≤ r then 1 else 0) else 0 },
    curr_block := { type := 3, rot := 1, row := -1, col := 5, mark := 3 },
    option_ghost := OPT_GHOST_OFF }

/-- A state of the game in which the current block, a horizontal bar, is on row 3
of an otherwise empty field. -/
def falling_game : Game :=
  { landed_game with
    curr_field :=
      { rows := ROWS, cols := COLUMNS,
        grid := fun r c => if r = 3 ∧ 4 ≤ c ∧ c ≤ 6 then 3 else 0 },
    curr_block := { type := 3, rot := 0, row := 3, col := 5, mark := 3 },
    option_ghost := OPT_GHOST_OFF }

/-- The relation between the level and the counter of cleared rows. -/
def LevelInv (level rows : Int) : Prop :=
  0 ≤ rows ∧ ((rows < 45 ∧ level = 1 + rows / 5) ∨ (45 ≤ rows ∧ level = 10))

/-- A field with three rows and two columns whose middle row is completed. -/
def field_3x2 : Field :=
  { rows := 3, cols := 2, grid := fun r _ => if r = 1 then 7 else 0 }

/-- A field with five rows and two columns whose rows 1, 2 and 4 are completed. -/
def field_5x2 : Field :=
  { rows := 5, cols := 2,
    grid := fun r c => if r = 1 ∨ r = 2 ∨ r = 4 then 7 else if r = 3 ∧ c = 0 then 7 else 0 }

/-- The tag of a cell that `cell_free` accepts for a cell that is not the piece's
own: `BG`. -/
def passable (v : Int) : Prop := v = BG

/-- The opposite of a lateral direction (and `DOWN` for `DOWN`). -/
def Direction.opp : Direction → Direction
  | .LEFT => .RIGHT
  | .RIGHT => .LEFT
  | .DOWN => .DOWN

/-- One half of `fix_block_position`, for the direction `dir` of its probes: the
function `fix_left` is the half for `LEFT` and `fix_right` the half for `RIGHT`. -/
def fix_half (sh : Shapes) (dir : Direction) (s : Block × Field) : Block × Field :=
  if can_move_block sh s.1 s.2 dir then
    let s1 := move_block sh s.1 s.2 dir
    if can_rotate_block sh s1.1 s1.2 then rotate_block sh s1.1 s1.2
    else if can_move_block sh s1.1 s1.2 dir then
      let s2 := move_block sh s1.1 s1.2 dir
      if can_rotate_block sh s2.1 s2.2 then rotate_block sh s2.1 s2.2
      else
        let s3 := move_block sh s2.1 s2.2 dir.opp
        move_block sh s3.1 s3.2 dir.opp
    else move_block sh s1.1 s1.2 dir.opp
  else s

/-- The probe by one step in the direction `dir` gives a feasible rotation. -/
def probe1 (sh : Shapes) (dir : Direction) (s : Block × Field) : Prop :=
  can_move_block sh s.1 s.2 dir = true ∧
  can_rotate_block sh (move_block sh s.1 s.2 dir).1 (move_block sh s.1 s.2 dir).2 = true

/-- The probe by two steps in the direction `dir` is made (the probe by one step
did not give a feasible rotation) and gives a feasible rotation. -/
def probe2 (sh : Shapes) (dir : Direction) (s : Block × Field) : Prop :=
  can_move_block sh s.1 s.2 dir = true ∧
  can_rotate_block sh (move_block sh s.1 s.2 dir).1 (move_block sh s.1 s.2 dir).2 = false ∧
  can_move_block sh (move_block sh s.1 s.2 dir).1 (move_block sh s.1 s.2 dir).2 dir = true ∧
  can_rotate_block sh
    (move_block sh (move_block sh s.1 s.2 dir).1 (move_block sh s.1 s.2 dir).2 dir).1
    (move_block sh (move_block sh s.1 s.2 dir).1 (move_block sh s.1 s.2 dir).2 dir).2 = true

/-- A field of five rows and three columns that holds a vertical bar in its last
column. -/
def wall_right_field : Field :=
  { rows := 5, cols := 3, grid := fun r c => if c = 2 ∧ 1 ≤ r ∧ r ≤ 3 then 3 else 0 }

/-- A vertical bar against the right wall of `wall_right_field`. -/
def wall_right_bar : Block :=
  { type := 3, rot := 1, row := 2, col := 2, mark := 3 }

/-- A field of five rows and three columns that holds a vertical bar in its first
column. -/
def wall_left_field : Field :=
  { rows := 5, cols := 3, grid := fun r c => if c = 0 ∧ 1 ≤ r ∧ r ≤ 3 then 3 else 0 }

/-- A vertical bar against the left wall of `wall_left_field`. -/
def wall_left_bar : Block :=
  { type := 3, rot := 1, row := 2, col := 0, mark := 3 }

/-- Two grids with the same content for `cell_free`: each cell holds the same tag
in both, or a passable tag in both. -/
def GhostEq (g g' : Grid) : Prop :=
  ∀ r c : Int, g r c = g' r c ∨ (passable (g r c) ∧ passable (g' r c))

/-- The grid `g'` is the grid `g` in which cells that held a passable tag may hold
`BG`. -/
def Fades (g g' : Grid) : Prop :=
  ∀ r c : Int, g' r c = g r c ∨ (passable (g r c) ∧ g' r c = BG)

/-- The grid of a field from which the cells of a block are erased. -/
def base (sh : Shapes) (b : Block) (g : Grid) : Grid :=
  g.fill (b.cells sh) BG

/-- Every cell of the block on the grid holds the tag of the block. -/
def Marked (sh : Shapes) (s : Block × Field) : Prop :=
  ∀ p ∈ s.1.cells sh, 0 ≤ p.1 → s.2.grid p.1 p.2 = s.1.mark

/-- Two states with the same block, the same dimensions and, once the block is
erased, the same content. -/
def Alike (sh : Shapes) (s s' : Block × Field) : Prop :=
  s'.1 = s.1 ∧ s'.2.rows = s.2.rows ∧ s'.2.cols = s.2.cols ∧
    GhostEq (base sh s.1 s.2.grid) (base sh s'.1 s'.2.grid)

/-- Two blocks at the same position: same type, rotation, row and column (the tags
may differ, as for the current block and its ghost). -/
def SamePos (b b' : Block) : Prop :=
  b'.type = b.type ∧ b'.rot = b.rot ∧ b'.row = b.row ∧ b'.col = b.col

/-- Two states whose blocks are at the same position, with the same dimensions
and, once the blocks are erased, the same content. -/
def Akin (sh : Shapes) (s s' : Block × Field) : Prop :=
  SamePos s.1 s'.1 ∧ s'.2.rows = s.2.rows ∧ s'.2.cols = s.2.cols ∧
    GhostEq (base sh s.1 s.2.grid) (base sh s'.1 s'.2.grid)

/-- The cells of the block `b` when its anchor is on row `k`. -/
def cells_at (sh : Shapes) (b : Block) (k : Int) : List (Int × Int) :=
  (sh b.type b.rot).map (fun d => (k + d.1, b.col + d.2))

/-- The cell `(r, c)` of the grid has been covered by the block that fell from the
position of `s` to the position of `t`. -/
def Visited (sh : Shapes) (s t : Block × Field) (r c : Int) : Prop :=
  ∃ k : Int, s.1.row ≤ k ∧ k ≤ t.1.row ∧ (r, c) ∈ cells_at sh s.1 k ∧ 0 ≤ r

/-- The state in which the loop of `update_ghost` starts: the ghost at the rotation
and the anchor of the current block. -/
def ghost_start (sh : Shapes) (g : Game) : Block × Field :=
  update_block sh g.ghost_block g.curr_field g.curr_block.rot g.curr_block.row g.curr_block.col

/-- The game after `update_ghost`, from the state `t` in which its loop ends. -/
def ghost_done (sh : Shapes) (g : Game) (t : Block × Field) : Game :=
  { g with
    ghost_block := t.1,
    curr_block := (update_block sh g.curr_block t.2
      g.curr_block.rot g.curr_block.row g.curr_block.col).1,
    curr_field := (update_block sh g.curr_block t.2
      g.curr_block.rot g.curr_block.row g.curr_block.col).2 }

/-- Every cell of the block has its column inside the field and its row above the
end of the field. -/
def InBounds (sh : Shapes) (b : Block) (f : Field) : Prop :=
  ∀ p ∈ b.cells sh, 0 ≤ p.2 ∧ p.2 < f.cols ∧ p.1 < f.rows

/-- The type of a block is one of the kinds `F` to `I_SHORT` and its rotation one of
the four rotations. -/
def ValidBlock (b : Block) : Prop :=
  F ≤ b.type ∧ b.type ≤ I_SHORT ∧ 0 ≤ b.rot ∧ b.rot < 4

/-- The primitive steps of the controller on the state of the game: the guarded
moves and rotations of the current block, `fix_block_position`, `update_ghost`,
the changes of status with their timer calls, and the two outcomes of a tick that
finds the current block blocked. -/
inductive Prim (sh : Shapes) : Game → Game → Prop where
  | move (g : Game) (dir : Direction) :
      can_move_block sh g.curr_block g.curr_field dir = true →
      Prim sh g { g with
        curr_block := (move_block sh g.curr_block g.curr_field dir).1,
        curr_field := (move_block sh g.curr_block g.curr_field dir).2 }
  | rotate (g : Game) :
      can_rotate_block sh g.curr_block g.curr_field = true →
      Prim sh g { g with
        curr_block := (rotate_block sh g.curr_block g.curr_field).1,
        curr_field := (rotate_block sh g.curr_block g.curr_field).2 }
  | fix (g : Game) :
      can_rotate_block sh g.curr_block g.curr_field = false →
      Prim sh g { g with
        curr_block := (fix_block_position sh (g.curr_block, g.curr_field)).1,
        curr_field := (fix_block_position sh (g.curr_block, g.curr_field)).2 }
  | ghost (fuel : Nat) (g g1 : Game) :
      g.option_ghost = OPT_GHOST_ON → update_ghost sh fuel g = some g1 → Prim sh g g1
  | pause (g : Game) : Prim sh g { stop_timer g with status := GAME_MENU }
  | resume (g : Game) :
      Prim sh g (start_timer { g with status := GAME_RUNNING }
        (INIT_VALUE_MILLIS - INTERVAL_REDUCTION_PER_LEVEL_MILLIS * (g.level - 1)))
  | restart_menu (fuel : Nat) (g g1 : Game) :
      init_game sh fuel g = some g1 →
      Prim sh g (start_timer { g1 with status := GAME_RUNNING } INIT_VALUE_MILLIS)
  | restart_over (fuel : Nat) (g g1 : Game) :
      init_game sh fuel { g with status := GAME_RUNNING } = some g1 →
      Prim sh g (start_timer g1 INIT_VALUE_MILLIS)
  | game_over (g : Game) :
      can_move_block sh g.curr_block g.curr_field .DOWN = false →
      get_limit_low_block sh g.curr_block < 0 →
      Prim sh g { stop_timer g with status := GAME_OVER }
  | land (fuel : Nat) (g : Game) (p : Field × Nat) (gd : Game) :
      can_move_block sh g.curr_block g.curr_field .DOWN = false →
      0 ≤ get_limit_low_block sh g.curr_block →
      field_cascade (get_limit_low_block sh g.curr_block)
        (get_limit_high_block sh g.curr_block) fuel g.curr_field = some p →
      drop_block sh fuel (after_cascade g p.1 p.2) = some gd →
      Prim sh g (start_timer gd
        (INIT_VALUE_MILLIS - INTERVAL_REDUCTION_PER_LEVEL_MILLIS * (gd.level - 1)))

/-- The timer is stopped, or runs with the interval of the current level. -/
def TimerInv (g : Game) : Prop :=
  g.tv_nsec = 0 ∨
  g.tv_nsec
    = (INIT_VALUE_MILLIS - INTERVAL_REDUCTION_PER_LEVEL_MILLIS * (g.level - 1)) * 1000000

/-- The invariant of `game_loop` on the position of the blocks: the main field has
`ROWS` rows and `COLUMNS` columns, the current block is inside it, the next block
has a valid type and rotation and, when the ghost option is enabled, the ghost is
inside the field and has the type of the current block. -/
def GameInv (sh : Shapes) (g : Game) : Prop :=
  g.curr_field.rows = ROWS ∧ g.curr_field.cols = COLUMNS ∧
  InBounds sh g.curr_block g.curr_field ∧ ValidBlock g.next_block ∧
  (g.option_ghost = OPT_GHOST_ON →
    InBounds sh g.ghost_block g.curr_field ∧ g.ghost_block.type = g.curr_block.type)

/-- A call of `move_block` (with its direction) or of `rotate_block`. -/
inductive Call where
  | move (dir : Direction)
  | rotate

/-- The test that the controller is expected to have made before a call, in the
state (block and field) in which the call is made: `can_move_block` for the
direction of a `move_block`, `can_rotate_block` for a `rotate_block`. -/
def call_ok (sh : Shapes) (c : (Block × Field) × Call) : Bool :=
  match c.2 with
  | .move dir => can_move_block sh c.1.1 c.1.2 dir
  | .rotate => can_rotate_block sh c.1.1 c.1.2

/-- The calls of `move_block` made by a loop `while (cond) move_block(b, f, DOWN);`
within `fuel` tests of its condition, each with the state in which it is made. -/
def fall_calls (sh : Shapes) (cond : Block × Field → Bool) :
    Nat → Block × Field → List ((Block × Field) × Call)
  | 0, _ => []
  | fuel + 1, s =>
    if cond s then (s, Call.move .DOWN) :: fall_calls sh cond fuel (move_block sh s.1 s.2 .DOWN)
    else []

/-- The calls of `move_block` and `rotate_block` made by one half of
`fix_block_position` (main.c, lines 231 to 254 for `LEFT`, 257 to 281 for
`RIGHT`), each with the state in which it is made. The moves in the direction
`dir.opp` are the moves that the code makes without a test. -/
def fix_half_calls (sh : Shapes) (dir : Direction) (s : Block × Field) :
    List ((Block × Field) × Call) :=
  if can_move_block sh s.1 s.2 dir then
    let s1 := move_block sh s.1 s.2 dir
    (s, Call.move dir) ::
      if can_rotate_block sh s1.1 s1.2 then [(s1, Call.rotate)]
      else if can_move_block sh s1.1 s1.2 dir then
        let s2 := move_block sh s1.1 s1.2 dir
        (s1, Call.move dir) ::
          if can_rotate_block sh s2.1 s2.2 then [(s2, Call.rotate)]
          else
            let s3 := move_block sh s2.1 s2.2 dir.opp
            [(s2, Call.move dir.opp), (s3, Call.move dir.opp)]
      else [(s1, Call.move dir.opp)]
  else []

/-- The calls made by `fix_block_position`: those of its left half, then those of
its right half, which starts in the state left by the left half. -/
def fix_block_position_calls (sh : Shapes) (s : Block × Field) :
    List ((Block × Field) × Call) :=
  fix_half_calls sh .LEFT s ++ fix_half_calls sh .RIGHT (fix_left sh s)

/-- The calls of `move_block` made by `update_ghost`. -/
def update_ghost_calls (sh : Shapes) (fuel : Nat) (g : Game) : List ((Block × Field) × Call) :=
  fall_calls sh (fun s => can_move_block sh s.1 s.2 .DOWN) fuel
    (update_block sh g.ghost_block g.curr_field
      g.curr_block.rot g.curr_block.row g.curr_block.col)

/-- The calls made by the ghost update of the key handlers. -/
def ghost_sync_calls (sh : Shapes) (fuel : Nat) (g : Game) : List ((Block × Field) × Call) :=
  if g.option_ghost = OPT_GHOST_ON then update_ghost_calls sh fuel g else []

/-- The calls made by the handlers of `KEY_DOWN`, `KEY_LEFT` and `KEY_RIGHT`. -/
def key_move_calls (sh : Shapes) (fuel : Nat) (dir : Direction) (g : Game) :
    List ((Block × Field) × Call) :=
  if can_move_block sh g.curr_block g.curr_field dir then
    ((g.curr_block, g.curr_field), Call.move dir) ::
      ghost_sync_calls sh fuel { g with
        curr_block := (move_block sh g.curr_block g.curr_field dir).1,
        curr_field := (move_block sh g.curr_block g.curr_field dir).2 }
  else []

/-- The calls made by the handler of `KEY_UP`. -/
def key_up_calls (sh : Shapes) (fuel : Nat) (g : Game) : List ((Block × Field) × Call) :=
  if can_rotate_block sh g.curr_block g.curr_field then
    ((g.curr_block, g.curr_field), Call.rotate) ::
      ghost_sync_calls sh fuel { g with
        curr_block := (rotate_block sh g.curr_block g.curr_field).1,
        curr_field := (rotate_block sh g.curr_block g.curr_field).2 }
  else
    fix_block_position_calls sh (g.curr_block, g.curr_field) ++
      ghost_sync_calls sh fuel { g with
        curr_block := (fix_block_position sh (g.curr_block, g.curr_field)).1,
        curr_field := (fix_block_position sh (g.curr_block, g.curr_field)).2 }

/-- The calls made by the handler of `KEY_SPACE`. -/
def key_space_calls (sh : Shapes) (fuel : Nat) (g : Game) : List ((Block × Field) × Call) :=
  fall_calls sh (fun s => can_move_block sh s.1 s.2 .DOWN) fuel (g.curr_block, g.curr_field) ++
    match while_loop (fun s : Block × Field => can_move_block sh s.1 s.2 .DOWN)
        (fun s => move_block sh s.1 s.2 .DOWN) fuel (g.curr_block, g.curr_field) with
    | some s => ghost_sync_calls sh fuel { g with curr_block := s.1, curr_field := s.2 }
    | none => []

/-- The calls of `move_block` made by `drop_block`: the loop of the ghost when the
option is enabled, then the loop of the current block. -/
def drop_block_calls (sh : Shapes) (fuel : Nat) (g : Game) : List ((Block × Field) × Call) :=
  (if g.option_ghost = OPT_GHOST_ON then
      fall_calls sh (fun s => can_move_block sh s.1 s.2 .DOWN) fuel
        (init_ghost_block g.ghost_block g.next_block.type g.next_block.rot
          (-(BLOCK_MAX_SIZE : Int)) ((COLUMNS / 2 : Nat) : Int), g.curr_field)
    else []) ++
    match drop_ghost sh fuel g with
    | some g1 =>
      fall_calls sh
        (fun s => decide (get_limit_high_block sh s.1 < 0) && can_move_block sh s.1 s.2 .DOWN)
        fuel
        (init_block g1.curr_block g1.next_block.type g1.next_block.rot
          (-(BLOCK_MAX_SIZE : Int)) ((COLUMNS / 2 : Nat) : Int), g1.curr_field)
    | none => []

/-- The calls made by `init_game`: those of its `drop_block`. -/
def init_game_calls (sh : Shapes) (fuel : Nat) (g : Game) : List ((Block × Field) × Call) :=
  let g1 := { g with level := 1, rows := 0, score := 0 }
  let g2 := { g1 with curr_field := init_field g1.curr_field ROWS COLUMNS }
  let g3 := { g2 with next_field := init_field g2.next_field BLOCK_MAX_SIZE BLOCK_MAX_SIZE }
  drop_block_calls sh fuel (init_next_block g3)

/-- The calls made by `timer_handler`: the move down of its first branch, or the
calls of `drop_block` after the rows are cleared. -/
def timer_handler_calls (sh : Shapes) (fuel : Nat) (g : Game) : List ((Block × Field) × Call) :=
  if can_move_block sh g.curr_block g.curr_field .DOWN then
    [((g.curr_block, g.curr_field), Call.move .DOWN)]
  else
    let g0 := stop_timer g
    if get_limit_low_block sh g0.curr_block < 0 then []
    else
      match while_loop (fun s : Game × Int × Int => decide (s.2.1 ≠ -1)) (cascade_body sh) fuel
          (g0,
            find_row_field g0.curr_field (get_limit_low_block sh g0.curr_block)
              (get_limit_high_block sh g0.curr_block),
            0) with
      | some s =>
        drop_block_calls sh fuel
          { s.1 with score := s.1.score + score_increment s.1.option_ghost s.2.2 }
      | none => []

/-- The calls made by the body of the input loop of `game_loop` for one key. -/
def key_event_calls (sh : Shapes) (fuel : Nat) (k : Key) (l : Loop) :
    List ((Block × Field) × Call) :=
  if l.game.status = GAME_RUNNING then
    match k with
    | .UP => key_up_calls sh fuel l.game
    | .DOWN => key_move_calls sh fuel .DOWN l.game
    | .LEFT => key_move_calls sh fuel .LEFT l.game
    | .RIGHT => key_move_calls sh fuel .RIGHT l.game
    | .SPACE => key_space_calls sh fuel l.game
    | _ => []
  else if l.game.status = GAME_MENU then
    match k with
    | .RETURN =>
      if l.menu_selection = MENU_PLAY then []
      else if l.menu_selection = MENU_RESTART then init_game_calls sh fuel l.game
      else []
    | _ => []
  else if l.game.status = GAME_OVER then
    match k with
    | .RETURN =>
      if l.game_over_selection = GAME_OVER_RESTART then
        init_game_calls sh fuel { l.game with status := GAME_RUNNING }
      else []
    | _ => []
  else []

/-- The calls made by one execution of `timer_handler` within `game_loop`. -/
def tick_event_calls (sh : Shapes) (fuel : Nat) (l : Loop) : List ((Block × Field) × Call) :=
  timer_handler_calls sh fuel l.game

/-- The calls made by the start of `game_loop`: those of its `init_game`. -/
def game_loop_start_calls (sh : Shapes) (fuel : Nat) (g : Game) :
    List ((Block × Field) × Call) :=
  init_game_calls sh fuel { g with status := GAME_RUNNING }

/-- Every cell of the grid on the rows `[0, rows)` and the columns `[0, cols)` that
is not `BG` satisfies `S`. -/
def OnlyOn (rows cols : Nat) (g : Grid) (S : Int → Int → Prop) : Prop :=
  ∀ r c : Int, 0 ≤ r → r < rows → 0 ≤ c → c < cols → g r c ≠ BG → S r c

/-- A state of `game_loop` in which the game menu is open on its entry Restart. -/
def menu_loop : Loop :=
  { game := { landed_game with status := GAME_MENU, tv_nsec := 0 },
    menu_selection := MENU_RESTART, game_over_selection := GAME_OVER_RESTART,
    game_menu_select := MENU_RESTART, game_over_select := GAME_OVER_RESTART,
    returned := false }

/-- Last element `QUIT` of `enum main_menu` (shared.h): `NEW_GAME`, `OPTIONS`,
`RULES`, `QUIT`. -/
def QUIT : Int := 3

/-- Last element `OPTION_OK` of `enum options` (shared.h): `OPTION_GHOST`,
`OPTION_COLOR`, `OPTION_OK`. -/
def OPTION_OK : Int := 2

/-- Last element `OPT_COLOR_BLACK` of `enum color_option` (shared.h):
`OPT_COLOR_DEFAULT`, `OPT_COLOR_BLUE`, `OPT_COLOR_BLACK`. -/
def OPT_COLOR_BLACK : Int := 2

/-- Last element `RULES_PAGE_2` of `enum rules` (shared.h): `RULES_PAGE_1`,
`RULES_PAGE_2`. -/
def RULES_PAGE_2 : Int := 1

/-- The function `scroll_down_main_menu` of gui.c: the new value of
`main_menu_select`, which is also the value returned. The operator `%` of C is the
truncated remainder. -/
def scroll_down_main_menu (main_menu_select : Int) : Int :=
  Int.tmod (main_menu_select + 1) (QUIT + 1)

/-- The function `scroll_up_main_menu` of gui.c. -/
def scroll_up_main_menu (main_menu_select : Int) : Int :=
  Int.tmod (main_menu_select - 1 + (QUIT + 1)) (QUIT + 1)

/-- The function `scroll_down_options_win` of gui.c. -/
def scroll_down_options_win (options_select : Int) : Int :=
  Int.tmod (options_select + 1) (OPTION_OK + 1)

/-- The function `scroll_up_options_win` of gui.c. -/
def scroll_up_options_win (options_select : Int) : Int :=
  Int.tmod (options_select - 1 + (OPTION_OK + 1)) (OPTION_OK + 1)

/-- The function `scroll_right_option_ghost` of gui.c. -/
def scroll_right_option_ghost (ghost_select : Int) : Int :=
  Int.tmod (ghost_select + 1) (OPT_GHOST_OFF + 1)

/-- The function `scroll_left_option_ghost` of gui.c. -/
def scroll_left_option_ghost (ghost_select : Int) : Int :=
  Int.tmod (ghost_select - 1 + (OPT_GHOST_OFF + 1)) (OPT_GHOST_OFF + 1)

/-- The function `scroll_right_option_color` of gui.c. -/
def scroll_right_option_color (color_select : Int) : Int :=
  Int.tmod (color_select + 1) (OPT_COLOR_BLACK + 1)

/-- The function `scroll_left_option_color` of gui.c. -/
def scroll_left_option_color (color_select : Int) : Int :=
  Int.tmod (color_select - 1 + (OPT_COLOR_BLACK + 1)) (OPT_COLOR_BLACK + 1)

/-- The function `scroll_down_rules_win` of gui.c (the rules box has no function
that scrolls up). -/
def scroll_down_rules_win (rules_page_select : Int) : Int :=
  Int.tmod (rules_page_select + 1) (RULES_PAGE_2 + 1)

/-- A selector with `N` entries scrolls circularly: from a value in `[0, N - 1]`,
`down` gives `(value + 1) mod N` and `up` gives `(value - 1 + N) mod N`, both in
`[0, N - 1]`; `down` from the last entry gives the first, `up` from the first
gives the last, and each undoes the other. -/
def Circular (N : Int) (down up : Int → Int) : Prop :=
  (∀ v : Int, 0 ≤ v → v < N →
    down v = (v + 1) % N ∧ up v = (v - 1 + N) % N ∧
    0 ≤ down v ∧ down v < N ∧ 0 ≤ up v ∧ up v < N ∧
    up (down v) = v ∧ down (up v) = v) ∧
  down (N - 1) = 0 ∧ up 0 = N - 1

/-- Number of cells of row `r` that are not `BG`, on the columns `[0, n)`. -/
def count_row_upto (g : Grid) (r : Int) : Nat → Nat
  | 0 => 0
  | n + 1 => count_row_upto g r n + (if g r n ≠ BG then 1 else 0)

/-- Number of cells of the field that are not `BG`, on the rows `[0, m)` and the
columns `[0, cols)`. -/
def count_below (f : Field) : Nat → Nat
  | 0 => 0
  | m + 1 => count_below f m + count_row_upto f.grid m f.cols

/-- Number of cells of the field that are not `BG`. -/
def count_cells (f : Field) : Nat :=
  count_below f f.rows

/-- The kick by one step in the direction `dir` is feasible: the step is feasible
and the rotation is feasible after it. -/
def kick1 (sh : Shapes) (dir : Direction) (s : Block × Field) : Bool :=
  can_move_block sh s.1 s.2 dir &&
    can_rotate_block sh (move_block sh s.1 s.2 dir).1 (move_block sh s.1 s.2 dir).2

/-- The kick by two steps in the direction `dir` is feasible: both steps are
feasible, the rotation is not feasible after the first and is feasible after the
second. -/
def kick2 (sh : Shapes) (dir : Direction) (s : Block × Field) : Bool :=
  can_move_block sh s.1 s.2 dir &&
    !can_rotate_block sh (move_block sh s.1 s.2 dir).1 (move_block sh s.1 s.2 dir).2 &&
    can_move_block sh (move_block sh s.1 s.2 dir).1 (move_block sh s.1 s.2 dir).2 dir &&
    can_rotate_block sh
      (move_block sh (move_block sh s.1 s.2 dir).1 (move_block sh s.1 s.2 dir).2 dir).1
      (move_block sh (move_block sh s.1 s.2 dir).1 (move_block sh s.1 s.2 dir).2 dir).2

/-- Specification of `fix_block_position`, written from the words of the spec (it
is compared with the embedding of the code): the column offset chosen by the pure
decision procedure, which evaluates the candidates left-1, left-2, right-1 and
right-2 in this order on the state at the call and takes the first one that is
feasible, and `none` when none is. -/
def kick_offset_spec (sh : Shapes) (s : Block × Field) : Option Int :=
  if kick1 sh .LEFT s then some (-1)
  else if kick2 sh .LEFT s then some (-2)
  else if kick1 sh .RIGHT s then some 1
  else if kick2 sh .RIGHT s then some 2
  else none

/-- Specification of `fix_block_position`, written from the words of the spec: the
offset chosen by `kick_offset_spec` is committed by one `update_block` to the next
rotation at the shifted column, and nothing changes when no candidate is
feasible. -/
def fix_block_position_spec (sh : Shapes) (s : Block × Field) : Block × Field :=
  match kick_offset_spec sh s with
  | none => s
  | some dc => update_block sh s.1 s.2 ((s.1.rot + 1) % 4) s.1.row (s.1.col + dc)

/-- A field of five rows and three columns that holds a vertical bar of tag 3 in
its last column and one settled cell of tag 7 at row 2, column 0. -/
def corner_field : Field :=
  { rows := 5, cols := 3,
    grid := fun r c => if c = 2 ∧ 1 ≤ r ∧ r ≤ 3 then 3 else if r = 2 ∧ c = 0 then 7 else 0 }

/-- The vertical bar stamped on `corner_field`. -/
def corner_bar : Block :=
  { type := 3, rot := 1, row := 2, col := 2, mark := 3 }

/-- A state of the game with the ghost option enabled in which the current block,
a horizontal bar, is on row 17 of an otherwise empty field. -/
def hovering_game : Game :=
  { landed_game with
    curr_field :=
      { rows := ROWS, cols := COLUMNS,
        grid := fun r c => if r = 17 ∧ 4 ≤ c ∧ c ≤ 6 then 3 else 0 },
    curr_block := { type := 3, rot := 0, row := 17, col := 5, mark := 3 } }

/-- The case `KEY_DOWN`, `KEY_LEFT` or `KEY_RIGHT` of `game_loop` (main.c, lines 335
to 364) when the signal of the timer is delivered after the test
`can_move_block(curr_block, curr_field, dir)` and before the call
`move_block(curr_block, curr_field, dir)`. The function `timer_handler` is the
handler of a signal that `game_loop` never blocks (`make_timer` of timer.c installs
it with an empty mask), so it can run between two statements of a key handler:
here it runs on the state that the test has read, and the call of the key handler
is made on the state that it leaves. -/
def key_move_interrupted (sh : Shapes) (fuel : Nat) (dir : Direction) (g : Game) :
    Option Game :=
  if can_move_block sh g.curr_block g.curr_field dir then
    (timer_handler sh fuel g).bind fun g1 =>
      ghost_sync sh fuel { g1 with
        curr_block := (move_block sh g1.curr_block g1.curr_field dir).1,
        curr_field := (move_block sh g1.curr_block g1.curr_field dir).2 }
  else some g

/-- The calls of `move_block` and `rotate_block` made by `key_move_interrupted`,
each with the state in which it is made: the calls of the tick, then the call of
the key handler in the state that the tick leaves, then the calls of the ghost
update. -/
def key_move_interrupted_calls (sh : Shapes) (fuel : Nat) (dir : Direction) (g : Game) :
    List ((Block × Field) × Call) :=
  if can_move_block sh g.curr_block g.curr_field dir then
    timer_handler_calls sh fuel g ++
      match timer_handler sh fuel g with
      | none => []
      | some g1 =>
        ((g1.curr_block, g1.curr_field), Call.move dir) ::
          ghost_sync_calls sh fuel { g1 with
            curr_block := (move_block sh g1.curr_block g1.curr_field dir).1,
            curr_field := (move_block sh g1.curr_block g1.curr_field dir).2 }
  else []

/-- A state of the running game, the timer armed and the ghost option disabled, in
which the current block, a horizontal bar, is on row 20 of an otherwise empty
field of 22 rows and 11 columns: one row above the last row. -/
def floor_game : Game :=
  { landed_game with
    curr_field :=
      { rows := ROWS, cols := COLUMNS,
        grid := fun r c => if r = 20 ∧ 4 ≤ c ∧ c ≤ 6 then 3 else 0 },
    curr_block := { type := 3, rot := 0, row := 20, col := 5, mark := 3 },
    option_ghost := OPT_GHOST_OFF }

/-- Modelled from the spec: a constraint on the missing geometry table, for pieces
"analogous to pentomino/tetromino-style pieces" in a window "centered conceptually
on the anchor". Each of the 15 kinds has, in each rotation, a cell on the row of
its anchor and a cell on every row between its first row and the row of its
anchor. -/
def Shapes.anchored (sh : Shapes) : Prop :=
  ∀ kind rot : Int, F ≤ kind → kind ≤ I_SHORT → 0 ≤ rot → rot < 4 →
    (∃ d ∈ sh kind rot, d.1 = 0) ∧
    ∀ d ∈ sh kind rot, ∀ k : Int, d.1 ≤ k → k ≤ 0 → ∃ e ∈ sh kind rot, e.1 = k

/-- No row of the grid that lies above every cell of the block is completed. -/
def TopInv (sh : Shapes) (b : Block) (f : Field) : Prop :=
  ∀ r : Int, 0 ≤ r → (∀ p ∈ b.cells sh, r < p.1) → ¬ f.completed r

/-- What the position of the current block keeps in `game_loop`, handler after
handler: the invariant `GameInv`, a valid type and rotation of the current block,
and no completed row above the current block. -/
def BandInv (sh : Shapes) (g : Game) : Prop :=
  GameInv sh g ∧ ValidBlock g.curr_block ∧ TopInv sh g.curr_block g.curr_field

/-- A state of `game_loop` in which the game runs with the timer armed and the
ghost option disabled, the grid holds nothing but the current block, and the last
row of the current block is the row `m`. -/
def Falling (sh : Shapes) (l : Loop) (m : Int) : Prop :=
  LoopReachable sh l ∧ l.returned = false ∧ l.game.tv_nsec ≠ 0 ∧
  l.game.status = GAME_RUNNING ∧ l.game.option_ghost = OPT_GHOST_OFF ∧
  OnlyOn ROWS COLUMNS l.game.curr_field.grid
    (fun r c => (r, c) ∈ l.game.curr_block.cells sh) ∧
  (∀ p ∈ l.game.curr_block.cells sh, p.1 ≤ m) ∧ ∃ p ∈ l.game.curr_block.cells sh, p.1 = m

/-! ## Lemmas -/

/-- A loop that assigns the cells of one row, column by column, with values that
do not depend on the cells of that row. -/
theorem loop_up_set_row (row hi : Int) (val : Grid → Int → Int)
    (hval : ∀ (g : Grid) (c x c' : Int), val (g.set row c x) c' = val g c') :
    ∀ (n : Nat) (i : Int) (g : Grid), n = (hi - i).toNat →
      loop_up hi (fun col g' => g'.set row col (val g' col)) n i g
        = fun r c => if r = row ∧ i ≤ c ∧ c < hi then val g c else g r c := by
  intro n
  induction n with
  | zero =>
    intro i g hn
    funext r c
    have : ¬ (r = row ∧ i ≤ c ∧ c < hi) := by omega
    simp [loop_up, this]
  | succ n ih =>
    intro i g hn
    have hlt : i < hi := by omega
    simp only [loop_up, hlt, if_true]
    rw [ih (i + 1) _ (by omega)]
    funext r c
    simp only [hval]
    by_cases h1 : r = row ∧ i + 1 ≤ c ∧ c < hi
    · have h2 : r = row ∧ i ≤ c ∧ c < hi := by omega
      simp [h1, h2]
    · by_cases h3 : r = row ∧ c = i
      · have h2 : r = row ∧ i ≤ c ∧ c < hi := by omega
        obtain ⟨rfl, rfl⟩ := h3
        simp [Grid.set, hlt]
      · have h2 : ¬ (r = row ∧ i ≤ c ∧ c < hi) := by omega
        simp [h1, h2, Grid.set, h3]

/-- The row loop `for (col = 0; col < cols; col++) g[row][col] = val(g, col)`. -/
theorem for_up_set_row (row : Int) (cols : Nat) (val : Grid → Int → Int)
    (hval : ∀ (g : Grid) (c x c' : Int), val (g.set row c x) c' = val g c') (g : Grid) :
    for_up 0 cols (fun col g' => g'.set row col (val g' col)) g
      = fun r c => if r = row ∧ 0 ≤ c ∧ c < (cols : Int) then val g c else g r c := by
  unfold for_up
  exact loop_up_set_row row cols val hval _ 0 g rfl

/-- The inner loop of `clear_row_field` copies row `row - 1` into row `row`. -/
theorem copy_row_eq (row : Int) (cols : Nat) (g : Grid) :
    for_up 0 cols (fun col g' => g'.set row col (g' (row - 1) col)) g
      = fun r c => if r = row ∧ 0 ≤ c ∧ c < (cols : Int) then g (row - 1) c else g r c := by
  refine for_up_set_row row cols (fun g c => g (row - 1) c) ?_ g
  intro g c x c'
  have : ¬ (row - 1 = row ∧ c' = c) := by omega
  simp [Grid.set, this]

/-- The outer loop of `clear_row_field` moves the rows `[0, i)` one row down. -/
theorem shift_rows_eq (cols : Nat) :
    ∀ (n : Nat) (i : Int) (g : Grid), n = i.toNat →
      loop_down 0
          (fun row g => for_up 0 cols (fun col g' => g'.set row col (g' (row - 1) col)) g) n i g
        = fun r c => if 1 ≤ r ∧ r ≤ i ∧ 0 ≤ c ∧ c < (cols : Int) then g (r - 1) c else g r c := by
  intro n
  induction n with
  | zero =>
    intro i g hn
    funext r c
    have : ¬ (1 ≤ r ∧ r ≤ i ∧ 0 ≤ c ∧ c < (cols : Int)) := by omega
    simp [loop_down, this]
  | succ n ih =>
    intro i g hn
    have hpos : i > 0 := by omega
    simp only [loop_down, hpos, if_true]
    rw [ih (i - 1) _ (by omega), copy_row_eq]
    funext r c
    beta_reduce
    split_ifs <;>
      first
      | rfl
      | (exfalso; omega)
      | (have hri : r = i := by omega
         subst hri; rfl)

/-- Every cell of the grid after `clear_row_field`, in terms of the grid before. -/
theorem clear_row_field_grid (f : Field) (k r c : Int) :
    (clear_row_field f k).grid r c =
      if 0 ≤ c ∧ c < (f.cols : Int) then
        (if r = 0 then BG else if 1 ≤ r ∧ r ≤ k then f.grid (r - 1) c else f.grid r c)
      else f.grid r c := by
  simp only [clear_row_field, for_down]
  rw [shift_rows_eq f.cols _ k f.grid (by simp)]
  rw [for_up_set_row 0 f.cols (fun _ _ => BG) (fun _ _ _ _ => rfl)]
  beta_reduce
  split_ifs <;> first | rfl | (exfalso; omega)

/-- After `clear_row_field` the cells of row 0 on the columns `[0, cols)` are `BG`. -/
theorem clear_row_field_grid_zero (f : Field) (k c : Int) (hc0 : 0 ≤ c) (hc : c < f.cols) :
    (clear_row_field f k).grid 0 c = BG := by
  rw [clear_row_field_grid, if_pos ⟨hc0, hc⟩, if_pos rfl]

/-- After `clear_row_field f k` row `r + 1` holds the old row `r`, for `0 ≤ r < k`. -/
theorem clear_row_field_grid_succ (f : Field) (k r c : Int) (hr : 0 ≤ r) (hk : r < k)
    (hc0 : 0 ≤ c) (hc : c < f.cols) :
    (clear_row_field f k).grid (r + 1) c = f.grid r c := by
  rw [clear_row_field_grid, if_pos ⟨hc0, hc⟩, if_neg (by omega), if_pos (by omega)]
  congr 1
  omega

/-- The rows after `k`, and the rows of negative index, are not touched by
`clear_row_field f k`. -/
theorem clear_row_field_grid_gt (f : Field) (k r c : Int) (hr : r ≠ 0) (hk : k < r ∨ r < 0) :
    (clear_row_field f k).grid r c = f.grid r c := by
  rw [clear_row_field_grid]
  split_ifs <;> first | rfl | (exfalso; omega)

/-- The inner loop of `find_row_field` started at column `col` ends at `cols`
exactly when no cell of the row from `col` on is `BG`. -/
theorem scan_row_eq_cols (f : Field) (row : Int) :
    ∀ (n : Nat) (col : Int), n = ((f.cols : Int) - col).toNat → col ≤ f.cols →
      (scan_row f row n col = f.cols ↔
        ∀ c : Int, col ≤ c → c < f.cols → f.grid row c ≠ BG) := by
  intro n
  induction n with
  | zero =>
    intro col hn hle
    have : col = f.cols := by omega
    simp only [scan_row]
    constructor
    · intro _ c h1 h2
      omega
    · intro _
      exact this
  | succ n ih =>
    intro col hn hle
    have hlt : col < f.cols := by omega
    simp only [scan_row]
    by_cases hcell : f.grid row col ≠ BG
    · rw [if_pos ⟨hlt, hcell⟩, ih (col + 1) (by omega) (by omega)]
      constructor
      · intro h c h1 h2
        by_cases hc : c = col
        · subst hc; exact hcell
        · exact h c (by omega) h2
      · intro h c h1 h2
        exact h c (by omega) h2
    · rw [if_neg (fun h => hcell h.2)]
      constructor
      · intro h; omega
      · intro h
        exact absurd (h col (le_refl _) hlt) hcell

/-- The test `col == f->cols` of `find_row_field` holds exactly on a completed row. -/
theorem scan_row_completed (f : Field) (row : Int) :
    scan_row f row f.cols 0 = f.cols ↔ f.completed row :=
  scan_row_eq_cols f row f.cols 0 (by simp) (by simp)

/-- The outer loop of `find_row_field` started at `row`: either it returns `-1` and
no row of `[from, row]` is completed, or it returns the greatest completed row. -/
theorem find_row_loop_spec (f : Field) (from_ : Int) :
    ∀ (n : Nat) (row : Int), n = (row - from_ + 1).toNat →
      (find_row_loop f from_ n row = -1 ∧
          ∀ r : Int, from_ ≤ r → r ≤ row → ¬ f.completed r) ∨
      (from_ ≤ find_row_loop f from_ n row ∧ find_row_loop f from_ n row ≤ row ∧
          f.completed (find_row_loop f from_ n row) ∧
          ∀ r : Int, find_row_loop f from_ n row < r → r ≤ row → ¬ f.completed r) := by
  intro n
  induction n with
  | zero =>
    intro row hn
    left
    refine ⟨rfl, ?_⟩
    intro r h1 h2
    omega
  | succ n ih =>
    intro row hn
    have hge : row ≥ from_ := by omega
    simp only [find_row_loop, hge, if_true]
    by_cases hc : f.completed row
    · right
      rw [if_pos ((scan_row_completed f row).2 hc)]
      refine ⟨hge, le_refl _, hc, ?_⟩
      intro r h1 h2
      omega
    · rw [if_neg (fun h => hc ((scan_row_completed f row).1 h))]
      rcases ih (row - 1) (by omega) with ⟨h1, h2⟩ | ⟨h1, h2, h3, h4⟩
      · left
        refine ⟨h1, ?_⟩
        intro r hr1 hr2
        by_cases hr : r = row
        · subst hr; exact hc
        · exact h2 r hr1 (by omega)
      · right
        refine ⟨h1, by omega, h3, ?_⟩
        intro r hr1 hr2
        by_cases hr : r = row
        · subst hr; exact hc
        · exact h4 r hr1 (by omega)

/-- The result of `find_row_field`: `-1` with no completed row in `[from, to]`, or
the greatest completed row of `[from, to]`. -/
theorem find_row_field_cases (f : Field) (from_ to_ : Int) :
    (find_row_field f from_ to_ = -1 ∧
        ∀ r : Int, from_ ≤ r → r ≤ to_ → ¬ f.completed r) ∨
    (from_ ≤ find_row_field f from_ to_ ∧ find_row_field f from_ to_ ≤ to_ ∧
        f.completed (find_row_field f from_ to_) ∧
        ∀ r : Int, find_row_field f from_ to_ < r → r ≤ to_ → ¬ f.completed r) :=
  find_row_loop_spec f from_ _ to_ rfl

/-- The scan returns `R` when `R` is the greatest completed row of the band. -/
theorem find_row_field_eq (f : Field) (lo hi R : Int) (h1 : lo ≤ R) (h2 : R ≤ hi)
    (hc : f.completed R) (hgt : ∀ r : Int, R < r → r ≤ hi → ¬ f.completed r) :
    find_row_field f lo hi = R := by
  rcases find_row_field_cases f lo hi with ⟨_, h⟩ | ⟨h3, h4, h5, h6⟩
  · exact absurd hc (h R h1 h2)
  · by_contra hne
    rcases lt_or_gt_of_ne hne with hlt | hgt2
    · exact h6 R hlt h2 hc
    · exact hgt _ hgt2 h4 h5

/-- The scan returns `-1` when the band has no completed row. -/
theorem find_row_field_none (f : Field) (lo hi : Int)
    (h : ∀ r : Int, lo ≤ r → r ≤ hi → ¬ f.completed r) :
    find_row_field f lo hi = -1 := by
  rcases find_row_field_cases f lo hi with ⟨h1, _⟩ | ⟨h3, h4, h5, _⟩
  · exact h1
  · exact absurd h5 (h _ h3 h4)

/-- Completed rows after `clear_row_field`, on a field with at least one column. -/
theorem completed_clear_row (f : Field) (k r : Int) (hcols : 1 ≤ f.cols) :
    (clear_row_field f k).completed r ↔
      r ≠ 0 ∧ (if 1 ≤ r ∧ r ≤ k then f.completed (r - 1) else f.completed r) := by
  have hc : (clear_row_field f k).cols = f.cols := rfl
  constructor
  · intro h
    have hr : r ≠ 0 := by
      intro h0
      have := h 0 (le_refl _) (by rw [hc]; exact_mod_cast hcols)
      rw [clear_row_field_grid, if_pos ⟨le_refl _, by exact_mod_cast hcols⟩, if_pos h0] at this
      exact this rfl
    refine ⟨hr, ?_⟩
    split_ifs with hk
    · intro c h0 h1
      have := h c h0 (by rw [hc]; exact h1)
      rwa [clear_row_field_grid, if_pos ⟨h0, h1⟩, if_neg hr, if_pos hk] at this
    · intro c h0 h1
      have := h c h0 (by rw [hc]; exact h1)
      rwa [clear_row_field_grid, if_pos ⟨h0, h1⟩, if_neg hr, if_neg hk] at this
  · rintro ⟨hr, h⟩ c h0 h1
    rw [hc] at h1
    rw [clear_row_field_grid, if_pos ⟨h0, h1⟩, if_neg hr]
    split_ifs at h ⊢ with hk
    · exact h c h0 h1
    · exact h c h0 h1

/-- One trip of the cascade loop when the scan finds a row. -/
theorem field_cascade_step (lo hi : Int) (fuel : Nat) (f : Field) (R : Int)
    (hfind : find_row_field f lo hi = R) (hR : R ≠ -1) :
    field_cascade lo hi (fuel + 1) f
      = (field_cascade lo hi fuel (clear_row_field f R)).map (fun p => (p.1, p.2 + 1)) := by
  simp only [field_cascade, hfind]
  rw [if_pos hR]

/-- The exit of the cascade loop when the scan finds no row. -/
theorem field_cascade_done (lo hi : Int) (fuel : Nat) (f : Field)
    (hfind : find_row_field f lo hi = -1) :
    field_cascade lo hi (fuel + 1) f = some (f, 0) := by
  simp only [field_cascade, hfind]
  rw [if_neg (by simp)]

/-- The completed rows of `field_5x2` are the rows 1, 2 and 4. -/
theorem field_5x2_completed (r : Int) (_h0 : 0 ≤ r) (_h1 : r < field_5x2.rows) :
    field_5x2.completed r ↔ r = 1 ∨ r = 2 ∨ r = 4 := by
  constructor
  · intro h
    by_contra hne
    have h1 := h 1 (by decide) (by decide)
    simp only [field_5x2] at h1
    rw [if_neg hne, if_neg (by omega)] at h1
    exact h1 rfl
  · intro h c _ _
    simp only [field_5x2]
    rw [if_pos h]
    decide

/-- Every cell of a grid after `Grid.fill`. -/
theorem Grid.fill_apply (cells : List (Int × Int)) (v : Int) :
    ∀ (g : Grid) (r c : Int),
      g.fill cells v r c = if (r, c) ∈ cells ∧ 0 ≤ r then v else g r c := by
  induction cells with
  | nil => intro g r c; simp [Grid.fill]
  | cons p ps ih =>
    intro g r c
    have hstep : g.fill (p :: ps) v
        = Grid.fill (if 0 ≤ p.1 then g.set p.1 p.2 v else g) ps v := rfl
    rw [hstep, ih]
    by_cases hmem : (r, c) ∈ ps ∧ 0 ≤ r
    · rw [if_pos hmem, if_pos ⟨List.mem_cons_of_mem _ hmem.1, hmem.2⟩]
    · rw [if_neg hmem]
      by_cases hp : (r, c) = p
      · subst hp
        by_cases h0 : 0 ≤ r
        · simp [Grid.set, h0]
        · simp [h0]
      · have hne : ¬ ((r, c) ∈ p :: ps ∧ 0 ≤ r) := by
          rintro ⟨h1, h2⟩
          rcases List.mem_cons.1 h1 with h3 | h3
          · exact hp h3
          · exact hmem ⟨h3, h2⟩
        rw [if_neg hne]
        by_cases h0 : 0 ≤ p.1
        · rw [if_pos h0]
          have : ¬ (r = p.1 ∧ c = p.2) := by
            rintro ⟨h1, h2⟩
            exact hp (Prod.ext h1 h2)
          simp [Grid.set, this]
        · rw [if_neg h0]

/-- Erasing the cells that were just filled gives the grid with these cells erased. -/
theorem Grid.fill_fill (g : Grid) (cells : List (Int × Int)) (v w : Int) :
    (g.fill cells v).fill cells w = g.fill cells w := by
  funext r c
  simp only [Grid.fill_apply]
  split_ifs <;> rfl

/-- Filling with `BG` cells that are `BG` already changes nothing. -/
theorem Grid.fill_BG_of_empty (g : Grid) (cells : List (Int × Int))
    (h : ∀ p ∈ cells, 0 ≤ p.1 → g p.1 p.2 = BG) : g.fill cells BG = g := by
  funext r c
  rw [Grid.fill_apply]
  split_ifs with hm
  · exact (h (r, c) hm.1 hm.2).symm
  · rfl

/-- A field is determined by its dimensions and its grid. -/
theorem Field.ext_iff_fields (f g : Field) (h1 : f.rows = g.rows) (h2 : f.cols = g.cols)
    (h3 : f.grid = g.grid) : f = g := by
  cases f; cases g
  simp only at h1 h2 h3
  subst h1 h2 h3
  rfl

/-- A resulting cell accepted by the feasibility test, when on the grid, is a cell
that the settled field leaves empty. -/
theorem cell_free_settled (sh : Shapes) (f0 : Field) (b : Block) (f : Field)
    (hs : Stamped sh f0 b f)
    (_hsettled : ∀ r c : Int, 0 ≤ r → r < f0.rows → 0 ≤ c → c < f0.cols → f0.grid r c ≠ GHOST)
    (t : Int × Int) (hfree : cell_free sh b f t = true) (h0 : 0 ≤ t.1) :
    f0.grid t.1 t.2 = BG := by
  obtain ⟨_, _, hcells, hgrid⟩ := hs
  simp only [cell_free, Bool.and_eq_true, Bool.or_eq_true, decide_eq_true_eq] at hfree
  obtain ⟨_, hcase⟩ := hfree
  by_cases hmem : t ∈ b.cells sh
  · exact hcells t hmem h0
  · have hft : f.grid t.1 t.2 = f0.grid t.1 t.2 := by
      rw [hgrid, Grid.fill_apply, if_neg]
      rintro ⟨h, _⟩
      exact hmem h
    rcases hcase with (h | h) | h
    · omega
    · rw [← hft]; exact h
    · exact absurd h hmem

/-- An `update_block` towards cells that the settled field leaves empty keeps the
piece stamped on the settled field. -/
theorem stamped_update_block (sh : Shapes) (f0 : Field) (b : Block) (f : Field)
    (hs : Stamped sh f0 b f) (new_rot new_row new_col : Int)
    (hnew : ∀ p ∈ Block.cells sh { b with rot := new_rot, row := new_row, col := new_col },
      0 ≤ p.1 → f0.grid p.1 p.2 = BG) :
    Stamped sh f0 (update_block sh b f new_rot new_row new_col).1
      (update_block sh b f new_rot new_row new_col).2 := by
  obtain ⟨hr, hc, hcells, hgrid⟩ := hs
  refine ⟨hr, hc, hnew, ?_⟩
  simp only [update_block, write_block, erase_block]
  rw [hgrid, Grid.fill_fill, Grid.fill_BG_of_empty f0.grid _ hcells]

/-- The cells of a piece after a translation of its anchor. -/
theorem cells_translate (sh : Shapes) (b : Block) (dr dc : Int) :
    Block.cells sh { b with rot := b.rot, row := b.row + dr, col := b.col + dc }
      = (b.cells sh).map (fun p => (p.1 + dr, p.2 + dc)) := by
  simp only [Block.cells, List.map_map]
  apply List.map_congr_left
  intro d _
  simp only [Function.comp]
  ext <;> simp <;> ring

/-- One guarded action keeps the piece stamped on the settled field. -/
theorem stamped_test_action (sh : Shapes) (f0 : Field)
    (hsettled : ∀ r c : Int, 0 ≤ r → r < f0.rows → 0 ≤ c → c < f0.cols → f0.grid r c ≠ GHOST)
    (a : Action) (s : Block × Field) (hs : Stamped sh f0 s.1 s.2) :
    Stamped sh f0 (test_action sh a s).1 (test_action sh a s).2 := by
  have hmove : ∀ dir : Direction, can_move_block sh s.1 s.2 dir = true →
      Stamped sh f0 (move_block sh s.1 s.2 dir).1 (move_block sh s.1 s.2 dir).2 := by
    intro dir hcan
    apply stamped_update_block sh f0 s.1 s.2 hs
    intro p hp h0
    rw [cells_translate, List.mem_map] at hp
    obtain ⟨q, hq, rfl⟩ := hp
    simp only [can_move_block, List.all_eq_true] at hcan
    exact cell_free_settled sh f0 s.1 s.2 hs hsettled _ (hcan q hq) h0
  cases a with
  | rotate =>
    simp only [test_action]
    split_ifs with hcan
    · apply stamped_update_block sh f0 s.1 s.2 hs
      intro p hp h0
      simp only [can_rotate_block, List.all_eq_true] at hcan
      exact cell_free_settled sh f0 s.1 s.2 hs hsettled _ (hcan p hp) h0
    · exact hs
  | down =>
    simp only [test_action]
    split_ifs with hcan
    · exact hmove _ hcan
    · exact hs
  | left =>
    simp only [test_action]
    split_ifs with hcan
    · exact hmove _ hcan
    · exact hs
  | right =>
    simp only [test_action]
    split_ifs with hcan
    · exact hmove _ hcan
    · exact hs

/-- A sequence of guarded actions keeps the piece stamped on the settled field. -/
theorem stamped_test_actions (sh : Shapes) (f0 : Field)
    (hsettled : ∀ r c : Int, 0 ≤ r → r < f0.rows → 0 ≤ c → c < f0.cols → f0.grid r c ≠ GHOST)
    (acts : List Action) :
    ∀ s : Block × Field, Stamped sh f0 s.1 s.2 →
      Stamped sh f0 (test_actions sh acts s).1 (test_actions sh acts s).2 := by
  induction acts with
  | nil => intro s hs; exact hs
  | cons a as ih =>
    intro s hs
    exact ih (test_action sh a s) (stamped_test_action sh f0 hsettled a s hs)

/-- A piece that lies entirely above the grid is stamped on any field. -/
theorem stamped_above (sh : Shapes) (f0 : Field) (b0 : Block)
    (habove : ∀ p ∈ b0.cells sh, p.1 < 0) : Stamped sh f0 b0 f0 := by
  refine ⟨rfl, rfl, ?_, ?_⟩
  · intro p hp h0
    have := habove p hp
    omega
  · funext r c
    rw [Grid.fill_apply, if_neg]
    rintro ⟨h1, h2⟩
    have := habove (r, c) h1
    simp only at this
    omega

/-- More fuel does not change the result of a loop that has ended. -/
theorem while_loop_mono {σ : Type} (cond : σ → Bool) (body : σ → σ) :
    ∀ (fuel : Nat) (s s' : σ), while_loop cond body fuel s = some s' →
      ∀ k : Nat, while_loop cond body (fuel + k) s = some s' := by
  intro fuel
  induction fuel with
  | zero => intro s s' h; simp [while_loop] at h
  | succ n ih =>
    intro s s' h k
    have e : n + 1 + k = (n + k) + 1 := by omega
    rw [e]
    simp only [while_loop] at h ⊢
    split_ifs at h ⊢ with hc
    · exact ih _ _ h k
    · exact h

/-- More fuel does not change the result of a loop that has ended. -/
theorem while_loop_mono_le {σ : Type} (cond : σ → Bool) (body : σ → σ)
    (fuel fuel' : Nat) (s s' : σ) (h : while_loop cond body fuel s = some s')
    (hle : fuel ≤ fuel') : while_loop cond body fuel' s = some s' := by
  obtain ⟨k, rfl⟩ : ∃ k, fuel' = fuel + k := ⟨fuel' - fuel, by omega⟩
  exact while_loop_mono cond body fuel s s' h k

/-- An invariant of the body holds at the exit of the loop, where the condition
is false. -/
theorem while_loop_inv {σ : Type} (cond : σ → Bool) (body : σ → σ) (I : σ → Prop)
    (hstep : ∀ s, I s → cond s = true → I (body s)) :
    ∀ (fuel : Nat) (s s' : σ), I s → while_loop cond body fuel s = some s' →
      I s' ∧ cond s' = false := by
  intro fuel
  induction fuel with
  | zero => intro s s' _ h; simp [while_loop] at h
  | succ n ih =>
    intro s s' hI h
    simp only [while_loop] at h
    split_ifs at h with hc
    · exact ih _ _ (hstep s hI hc) h
    · simp only [Option.some.injEq] at h
      subst h
      exact ⟨hI, by simpa using hc⟩

/-- A loop whose body decreases a measure ends within that many trips. -/
theorem while_loop_term {σ : Type} (cond : σ → Bool) (body : σ → σ) (I : σ → Prop)
    (μ : σ → Nat) (hstep : ∀ s, I s → cond s = true → I (body s))
    (hdec : ∀ s, I s → cond s = true → μ (body s) < μ s) :
    ∀ (fuel : Nat) (s : σ), I s → μ s < fuel → ∃ s', while_loop cond body fuel s = some s' := by
  intro fuel
  induction fuel with
  | zero => intro s _ h; omega
  | succ n ih =>
    intro s hI hμ
    simp only [while_loop]
    split_ifs with hc
    · exact ih _ (hstep s hI hc) (by have := hdec s hI hc; omega)
    · exact ⟨s, rfl⟩

/-- The loop of `timer_handler` acts on the field as `field_cascade`, and adds the
number of cleared rows to the counters. -/
theorem cascade_loop_eq (sh : Shapes) (lo hi : Int) :
    ∀ (fuel : Nat) (g : Game) (k : Int),
      get_limit_low_block sh g.curr_block = lo → get_limit_high_block sh g.curr_block = hi →
      while_loop (fun s : Game × Int × Int => decide (s.2.1 ≠ -1)) (cascade_body sh) fuel
          (g, find_row_field g.curr_field lo hi, k)
        = (field_cascade lo hi fuel g.curr_field).map (cascade_result g k) := by
  intro fuel
  induction fuel with
  | zero => intro g k _ _; rfl
  | succ n ih =>
    intro g k hlo hhi
    simp only [while_loop, field_cascade]
    by_cases hf : find_row_field g.curr_field lo hi = -1
    · simp only [hf, ne_eq, not_true_eq_false, decide_False, Bool.false_eq_true, if_false,
        Option.map_some', cascade_result, levels_after]
      simp
    · simp only [hf, ne_eq, not_false_eq_true, decide_True, if_true, Option.map_map]
      have hb : cascade_body sh (g, find_row_field g.curr_field lo hi, k)
          = ((cascade_body sh (g, find_row_field g.curr_field lo hi, k)).1,
              find_row_field (cascade_body sh (g, find_row_field g.curr_field lo hi, k)).1.curr_field
                lo hi, k + 1) := by
        simp only [cascade_body, hlo, hhi]
      rw [hb, ih _ (k + 1) (by simpa [cascade_body] using hlo) (by simpa [cascade_body] using hhi)]
      have hcf : (cascade_body sh (g, find_row_field g.curr_field lo hi, k)).1.curr_field
          = clear_row_field g.curr_field (find_row_field g.curr_field lo hi) := rfl
      rw [hcf]
      congr 1
      funext p
      simp only [Function.comp, cascade_result, cascade_body, levels_after]
      refine Prod.ext ?_ (Prod.ext rfl ?_)
      · simp only
        congr 1
        push_cast
        ring
      · simp only
        push_cast
        ring

/-- The indicator of a completed row is 1. -/
theorem completed_ind_pos (f : Field) (r : Int) (h : f.completed r) : completed_ind f r = 1 := by
  simp only [completed_ind]
  rw [if_pos ((scan_row_completed f r).2 h)]

/-- The indicator of a row that is not completed is 0. -/
theorem completed_ind_neg (f : Field) (r : Int) (h : ¬ f.completed r) : completed_ind f r = 0 := by
  simp only [completed_ind]
  rw [if_neg (fun h' => h ((scan_row_completed f r).1 h'))]

/-- Rows that are completed together have the same indicator. -/
theorem completed_ind_congr (f g : Field) (r r' : Int) (h : f.completed r ↔ g.completed r') :
    completed_ind f r = completed_ind g r' := by
  by_cases hc : f.completed r
  · rw [completed_ind_pos f r hc, completed_ind_pos g r' (h.1 hc)]
  · rw [completed_ind_neg f r hc, completed_ind_neg g r' (fun h' => hc (h.2 h'))]

/-- The rows `[0, m]` after `clear_row_field f R`, for `m ≤ R`, have as many
completed rows as the rows `[0, m)` before. -/
theorem completed_below_clear_le (f : Field) (R : Int) (hcols : 1 ≤ f.cols) :
    ∀ m : Nat, (m : Int) ≤ R →
      completed_below (clear_row_field f R) (m + 1) = completed_below f m := by
  intro m
  induction m with
  | zero =>
    intro _
    simp only [completed_below, zero_add]
    apply completed_ind_neg
    rw [completed_clear_row f R _ hcols]
    simp
  | succ m ih =>
    intro hm
    rw [completed_below, ih (by omega), completed_below]
    congr 1
    apply completed_ind_congr
    rw [completed_clear_row f R _ hcols]
    have h1 : ((m + 1 : Nat) : Int) ≠ 0 := by omega
    have h2 : 1 ≤ ((m + 1 : Nat) : Int) ∧ ((m + 1 : Nat) : Int) ≤ R := by omega
    rw [if_pos h2]
    have h3 : ((m + 1 : Nat) : Int) - 1 = (m : Int) := by omega
    rw [h3]
    exact ⟨fun h => h.2, fun h => ⟨h1, h⟩⟩

/-- Clearing a completed row `R` removes one completed row from the rows `[0, m)`,
for `m > R`. -/
theorem completed_below_clear (f : Field) (R : Int) (hcols : 1 ≤ f.cols) (hR0 : 0 ≤ R)
    (hR : f.completed R) :
    ∀ m : Nat, R < (m : Int) →
      completed_below (clear_row_field f R) m + 1 = completed_below f m := by
  intro m
  induction m with
  | zero => intro h; omega
  | succ m ih =>
    intro hm
    by_cases hlt : R < (m : Int)
    · rw [completed_below, completed_below, ← ih hlt]
      have : completed_ind (clear_row_field f R) m = completed_ind f m := by
        apply completed_ind_congr
        rw [completed_clear_row f R _ hcols]
        have h2 : ¬ (1 ≤ (m : Int) ∧ (m : Int) ≤ R) := by omega
        rw [if_neg h2]
        exact ⟨fun h => h.2, fun h => ⟨by omega, h⟩⟩
      omega
    · have hRm : R = (m : Int) := by omega
      rw [completed_below_clear_le f R hcols m (by omega), completed_below,
        completed_ind_pos f m (hRm ▸ hR)]

/-- The cascade loop ends, after at most as many clears as there are completed
rows among the rows `[0, hi]`. -/
theorem field_cascade_terminates (lo hi : Int) (hlo : 0 ≤ lo) :
    ∀ (c : Nat) (f : Field), 1 ≤ f.cols → completed_below f (hi + 1).toNat ≤ c →
      ∃ (n : Nat) (f' : Field), n ≤ c ∧
        ∀ fuel : Nat, c + 1 ≤ fuel → field_cascade lo hi fuel f = some (f', n) := by
  intro c
  induction c with
  | zero =>
    intro f hcols hc
    rcases find_row_field_cases f lo hi with ⟨h1, _⟩ | ⟨h1, h2, h3, _⟩
    · refine ⟨0, f, le_refl _, ?_⟩
      intro fuel hfuel
      obtain ⟨k, rfl⟩ : ∃ k, fuel = k + 1 := ⟨fuel - 1, by omega⟩
      exact field_cascade_done lo hi k f h1
    · have := completed_below_clear f _ hcols (by omega) h3 (hi + 1).toNat (by omega)
      omega
  | succ c ih =>
    intro f hcols hc
    rcases find_row_field_cases f lo hi with ⟨h1, _⟩ | ⟨h1, h2, h3, _⟩
    · refine ⟨0, f, by omega, ?_⟩
      intro fuel hfuel
      obtain ⟨k, rfl⟩ : ∃ k, fuel = k + 1 := ⟨fuel - 1, by omega⟩
      exact field_cascade_done lo hi k f h1
    · have hdec := completed_below_clear f _ hcols (by omega) h3 (hi + 1).toNat (by omega)
      obtain ⟨n, f', hn, hres⟩ :=
        ih (clear_row_field f (find_row_field f lo hi)) hcols (by omega)
      refine ⟨n + 1, f', by omega, ?_⟩
      intro fuel hfuel
      obtain ⟨k, rfl⟩ : ∃ k, fuel = k + 1 := ⟨fuel - 1, by omega⟩
      rw [field_cascade_step lo hi k f _ rfl (by omega), hres k (by omega)]
      rfl

/-- At the exit of the cascade loop the scan finds no completed row in the band,
and the field has kept its dimensions. -/
theorem field_cascade_exit (lo hi : Int) :
    ∀ (fuel : Nat) (f f' : Field) (n : Nat), field_cascade lo hi fuel f = some (f', n) →
      find_row_field f' lo hi = -1 ∧ f'.rows = f.rows ∧ f'.cols = f.cols := by
  intro fuel
  induction fuel with
  | zero => intro f f' n h; simp [field_cascade] at h
  | succ k ih =>
    intro f f' n h
    by_cases hf : find_row_field f lo hi = -1
    · rw [field_cascade_done lo hi k f hf] at h
      simp only [Option.some.injEq, Prod.mk.injEq] at h
      obtain ⟨rfl, _⟩ := h
      exact ⟨hf, rfl, rfl⟩
    · rw [field_cascade_step lo hi k f _ rfl hf] at h
      simp only [Option.map_eq_some', Prod.mk.injEq] at h
      obtain ⟨⟨f1, n1⟩, h1, rfl, _⟩ := h
      exact ih (clear_row_field f (find_row_field f lo hi)) f1 n1 h1

/-- The block after `move_block`: the anchor has moved by one step. -/
theorem move_block_fst (sh : Shapes) (b : Block) (f : Field) (dir : Direction) :
    (move_block sh b f dir).1
      = { b with rot := b.rot, row := b.row + dir.drow, col := b.col + dir.dcol } := rfl

/-- The field after `move_block` has the same dimensions. -/
theorem move_block_snd_dims (sh : Shapes) (b : Block) (f : Field) (dir : Direction) :
    (move_block sh b f dir).2.rows = f.rows ∧ (move_block sh b f dir).2.cols = f.cols :=
  ⟨rfl, rfl⟩

/-- A piece that can move down has every cell at least two rows above the end of
the field. -/
theorem can_move_down_row (sh : Shapes) (b : Block) (f : Field)
    (h : can_move_block sh b f .DOWN = true) (d : Int × Int) (hd : d ∈ sh b.type b.rot) :
    b.row + d.1 + 1 < f.rows := by
  simp only [can_move_block, List.all_eq_true] at h
  have hmem : (b.row + d.1, b.col + d.2) ∈ b.cells sh :=
    List.mem_map.2 ⟨d, hd, rfl⟩
  have := h _ hmem
  simp only [cell_free, Bool.and_eq_true, decide_eq_true_eq, Direction.drow] at this
  exact this.1.2

/-- A move down keeps the invariant of the falling loops. -/
theorem fallInv_step (sh : Shapes) (b : Block) (f : Field) (s : Block × Field)
    (h : FallInv b f s) : FallInv b f (move_block sh s.1 s.2 .DOWN) := by
  obtain ⟨h1, h2, h3, h4, h5, h6⟩ := h
  refine ⟨h1, h2, ?_, h4, h5, h6⟩
  simp only [move_block_fst, Direction.dcol, add_zero]
  exact h3

/-- A loop that moves a block down while a condition that implies
`can_move_block` holds ends, whatever the field, as soon as the block has a cell. -/
theorem fall_terminates (sh : Shapes) (cond : Block × Field → Bool)
    (hcond : ∀ s, cond s = true → can_move_block sh s.1 s.2 .DOWN = true)
    (b : Block) (f : Field) (hshape : sh b.type b.rot ≠ []) :
    ∃ (fuel0 : Nat) (s' : Block × Field), ∀ fuel : Nat, fuel0 ≤ fuel →
      while_loop cond (fun s => move_block sh s.1 s.2 .DOWN) fuel (b, f) = some s' := by
  obtain ⟨d, hd⟩ := List.exists_mem_of_ne_nil _ hshape
  have hterm := while_loop_term cond (fun s => move_block sh s.1 s.2 .DOWN) (FallInv b f)
    (fun s => ((f.rows : Int) - (s.1.row + d.1)).toNat)
    (fun s hI _ => fallInv_step sh b f s hI)
    (fun s hI hc => by
      have hrow := can_move_down_row sh s.1 s.2 (hcond s hc) d (by rw [hI.1, hI.2.1]; exact hd)
      rw [hI.2.2.2.2.1] at hrow
      simp only [move_block_fst, Direction.drow]
      omega)
    (((f.rows : Int) - (b.row + d.1)).toNat + 1) (b, f) ⟨rfl, rfl, rfl, rfl, rfl, rfl⟩
    (by simp)
  obtain ⟨s', hs'⟩ := hterm
  exact ⟨_, s', fun fuel hfuel => while_loop_mono_le _ _ _ fuel _ _ hs' hfuel⟩

/-- At the exit of a falling loop the invariant holds and the condition is false. -/
theorem fall_exit (sh : Shapes) (cond : Block × Field → Bool) (b : Block) (f : Field)
    (fuel : Nat) (s' : Block × Field)
    (h : while_loop cond (fun s => move_block sh s.1 s.2 .DOWN) fuel (b, f) = some s') :
    FallInv b f s' ∧ cond s' = false :=
  while_loop_inv cond (fun s => move_block sh s.1 s.2 .DOWN) (FallInv b f)
    (fun s hI _ => fallInv_step sh b f s hI) fuel (b, f) s' ⟨rfl, rfl, rfl, rfl, rfl, rfl⟩ h

/-- The ghost part of `drop_block` ends when the next block has a cell. -/
theorem drop_ghost_total (sh : Shapes) (g : Game)
    (hshape : sh g.next_block.type g.next_block.rot ≠ []) :
    ∃ (fuel0 : Nat) (g1 : Game), ∀ fuel : Nat, fuel0 ≤ fuel →
      drop_ghost sh fuel g = some g1 := by
  by_cases hopt : g.option_ghost = OPT_GHOST_ON
  · obtain ⟨fuel0, s', hs'⟩ := fall_terminates sh
      (fun s : Block × Field => can_move_block sh s.1 s.2 .DOWN) (fun _ h => h)
      (init_ghost_block g.ghost_block g.next_block.type g.next_block.rot
        (-(BLOCK_MAX_SIZE : Int)) ((COLUMNS / 2 : Nat) : Int)) g.curr_field hshape
    refine ⟨fuel0, { g with ghost_block := s'.1, curr_field := write_block sh s'.1 s'.2 },
      fun fuel hfuel => ?_⟩
    simp only [drop_ghost]
    rw [if_pos hopt, hs' fuel hfuel]
    rfl
  · exact ⟨0, g, fun fuel _ => by simp only [drop_ghost]; rw [if_neg hopt]⟩

/-- The ghost part of `drop_block` changes the ghost block and the cells of the
current field only. -/
theorem drop_ghost_frame (sh : Shapes) (fuel : Nat) (g g1 : Game)
    (h : drop_ghost sh fuel g = some g1) :
    SameStats g g1 ∧ g1.next_block = g.next_block ∧ g1.curr_block = g.curr_block ∧
    g1.next_field = g.next_field ∧ g1.rand = g.rand ∧
    g1.curr_field.rows = g.curr_field.rows ∧ g1.curr_field.cols = g.curr_field.cols := by
  simp only [drop_ghost] at h
  split_ifs at h with hopt
  · simp only [Option.map_eq_some'] at h
    obtain ⟨s', hs', rfl⟩ := h
    obtain ⟨⟨_, _, _, _, h5, h6⟩, _⟩ := fall_exit sh _ _ _ fuel s' hs'
    exact ⟨⟨rfl, rfl, rfl, rfl, rfl, rfl, rfl⟩, rfl, rfl, rfl, rfl, h5, h6⟩
  · simp only [Option.some.injEq] at h
    subst h
    exact ⟨⟨rfl, rfl, rfl, rfl, rfl, rfl, rfl⟩, rfl, rfl, rfl, rfl, rfl, rfl⟩

/-- The part of `drop_block` that positions the current block ends when the next
block has a cell. -/
theorem drop_curr_total (sh : Shapes) (g : Game)
    (hshape : sh g.next_block.type g.next_block.rot ≠ []) :
    ∃ (fuel0 : Nat) (g1 : Game), ∀ fuel : Nat, fuel0 ≤ fuel →
      drop_curr sh fuel g = some g1 := by
  obtain ⟨fuel0, s', hs'⟩ := fall_terminates sh
    (fun s : Block × Field =>
      decide (get_limit_high_block sh s.1 < 0) && can_move_block sh s.1 s.2 .DOWN)
    (fun _ h => by
      simp only [Bool.and_eq_true] at h
      exact h.2)
    (init_block g.curr_block g.next_block.type g.next_block.rot
      (-(BLOCK_MAX_SIZE : Int)) ((COLUMNS / 2 : Nat) : Int)) g.curr_field hshape
  refine ⟨fuel0, { g with curr_block := s'.1, curr_field := write_block sh s'.1 s'.2 },
    fun fuel hfuel => ?_⟩
  simp only [drop_curr]
  rw [hs' fuel hfuel]
  rfl

/-- The part of `drop_block` that positions the current block changes the current
block and the cells of the current field only. -/
theorem drop_curr_frame (sh : Shapes) (fuel : Nat) (g g1 : Game)
    (h : drop_curr sh fuel g = some g1) :
    SameStats g g1 ∧ Spawned g g1 ∧ g1.next_block = g.next_block ∧
    g1.ghost_block = g.ghost_block ∧ g1.next_field = g.next_field ∧ g1.rand = g.rand := by
  simp only [drop_curr, Option.map_eq_some'] at h
  obtain ⟨s', hs', rfl⟩ := h
  obtain ⟨⟨h1, h2, h3, h4, h5, h6⟩, _⟩ := fall_exit sh _ _ _ fuel s' hs'
  exact ⟨⟨rfl, rfl, rfl, rfl, rfl, rfl, rfl⟩, ⟨h1, h2, h3, h4, h5, h6⟩, rfl, rfl, rfl, rfl⟩

/-- The function `drop_block` ends when the next block has a cell. -/
theorem drop_block_total (sh : Shapes) (g : Game)
    (hshape : sh g.next_block.type g.next_block.rot ≠ []) :
    ∃ (fuel0 : Nat) (g' : Game), ∀ fuel : Nat, fuel0 ≤ fuel →
      drop_block sh fuel g = some g' := by
  obtain ⟨n1, g1, h1⟩ := drop_ghost_total sh g hshape
  have hnb : g1.next_block = g.next_block := (drop_ghost_frame sh n1 g g1 (h1 n1 (le_refl _))).2.1
  obtain ⟨n2, g2, h2⟩ := drop_curr_total sh g1 (by rw [hnb]; exact hshape)
  refine ⟨max n1 n2, drop_next sh g2, fun fuel hfuel => ?_⟩
  simp only [drop_block]
  rw [h1 fuel (le_trans (le_max_left _ _) hfuel)]
  simp only [Option.some_bind]
  rw [h2 fuel (le_trans (le_max_right _ _) hfuel)]
  rfl

/-- The function `drop_block` keeps the statistics, the options and the timer, and
spawns the former next block. -/
theorem drop_block_frame (sh : Shapes) (fuel : Nat) (g g' : Game)
    (h : drop_block sh fuel g = some g') : SameStats g g' ∧ Spawned g g' := by
  simp only [drop_block, Option.map_eq_some', Option.bind_eq_some] at h
  obtain ⟨g2, ⟨g1, h1, h2⟩, rfl⟩ := h
  obtain ⟨⟨a1, a2, a3, a4, a5, a6, a7⟩, hnb, _, _, _, hr, hc⟩ := drop_ghost_frame sh fuel g g1 h1
  obtain ⟨⟨b1, b2, b3, b4, b5, b6, b7⟩, ⟨c1, c2, c3, c4, c5, c6⟩, _⟩ :=
    drop_curr_frame sh fuel g1 g2 h2
  refine ⟨⟨?_, ?_, ?_, ?_, ?_, ?_, ?_⟩, ⟨?_, ?_, ?_, ?_, ?_, ?_⟩⟩
  · exact b1.trans a1
  · exact b2.trans a2
  · exact b3.trans a3
  · exact b4.trans a4
  · exact b5.trans a5
  · exact b6.trans a6
  · exact b7.trans a7
  · exact c1.trans (by rw [hnb])
  · exact c2.trans (by rw [hnb])
  · exact c3
  · exact c4.trans (by rw [hnb])
  · exact c5.trans hr
  · exact c6.trans hc

/-- The function `timer_handler` on a blocked piece that is entirely on the screen:
the cascade on the field, then `drop_block`, then `start_timer`. -/
theorem timer_handler_blocked (sh : Shapes) (fuel : Nat) (g : Game)
    (hblocked : can_move_block sh g.curr_block g.curr_field .DOWN = false)
    (hlow : 0 ≤ get_limit_low_block sh g.curr_block) :
    timer_handler sh fuel g =
      (field_cascade (get_limit_low_block sh g.curr_block) (get_limit_high_block sh g.curr_block)
          fuel g.curr_field).bind fun p =>
        (drop_block sh fuel (after_cascade g p.1 p.2)).map fun g1 =>
          start_timer g1
            (INIT_VALUE_MILLIS - INTERVAL_REDUCTION_PER_LEVEL_MILLIS * (g1.level - 1)) := by
  have hlow' : ¬ get_limit_low_block sh (stop_timer g).curr_block < 0 := by
    simp only [stop_timer]; omega
  simp only [timer_handler, hblocked, Bool.false_eq_true, if_false]
  rw [if_neg hlow']
  rw [show (stop_timer g).curr_field = g.curr_field from rfl,
    show (stop_timer g).curr_block = g.curr_block from rfl]
  have hloop := cascade_loop_eq sh (get_limit_low_block sh g.curr_block)
    (get_limit_high_block sh g.curr_block) fuel (stop_timer g) 0 rfl rfl
  rw [show (stop_timer g).curr_field = g.curr_field from rfl] at hloop
  rw [hloop]
  cases hfc : field_cascade (get_limit_low_block sh g.curr_block)
      (get_limit_high_block sh g.curr_block) fuel g.curr_field with
  | none => rfl
  | some p =>
    simp only [Option.map_some', Option.some_bind, cascade_result, after_cascade, stop_timer]
    simp

/-- A tick on a blocked piece that is entirely on the screen ends, on a field with
at least one column and with a next block that has a cell: the cascade clears `n`
rows and leaves the field `f'`, `drop_block` gives the state `gd`, and the timer is
started again. -/
theorem tick_blocked_core (sh : Shapes) (g : Game)
    (hblocked : can_move_block sh g.curr_block g.curr_field .DOWN = false)
    (hlow : 0 ≤ get_limit_low_block sh g.curr_block)
    (hcols : 1 ≤ g.curr_field.cols)
    (hshape : sh g.next_block.type g.next_block.rot ≠ []) :
    ∃ (n : Nat) (f' : Field) (gd : Game) (fuel0 : Nat),
      n ≤ completed_below g.curr_field (get_limit_high_block sh g.curr_block + 1).toNat ∧
      (∀ fuel : Nat, fuel0 ≤ fuel →
        field_cascade (get_limit_low_block sh g.curr_block)
          (get_limit_high_block sh g.curr_block) fuel g.curr_field = some (f', n)) ∧
      (∀ fuel : Nat, fuel0 ≤ fuel → drop_block sh fuel (after_cascade g f' n) = some gd) ∧
      (∀ fuel : Nat, fuel0 ≤ fuel →
        timer_handler sh fuel g =
          some (start_timer gd
            (INIT_VALUE_MILLIS - INTERVAL_REDUCTION_PER_LEVEL_MILLIS * (gd.level - 1)))) := by
  obtain ⟨n, f', hn, hfc⟩ := field_cascade_terminates (get_limit_low_block sh g.curr_block)
    (get_limit_high_block sh g.curr_block) hlow _ g.curr_field hcols (le_refl _)
  obtain ⟨fuel1, gd, hdb⟩ := drop_block_total sh (after_cascade g f' n) hshape
  refine ⟨n, f', gd, max (completed_below g.curr_field
    (get_limit_high_block sh g.curr_block + 1).toNat + 1) fuel1, hn, ?_, ?_, ?_⟩
  · intro fuel hfuel
    exact hfc fuel (le_trans (le_max_left _ _) hfuel)
  · intro fuel hfuel
    exact hdb fuel (le_trans (le_max_right _ _) hfuel)
  · intro fuel hfuel
    rw [timer_handler_blocked sh fuel g hblocked hlow,
      hfc fuel (le_trans (le_max_left _ _) hfuel)]
    simp only [Option.some_bind]
    rw [hdb fuel (le_trans (le_max_right _ _) hfuel)]
    rfl

/-- The score increment for the first counts of rows, with and without the ghost. -/
theorem score_increment_table :
    (∀ n : Int, score_increment OPT_GHOST_ON n = 100 * n ^ 2 * 1) ∧
    (∀ n : Int, score_increment OPT_GHOST_OFF n = 100 * n ^ 2 * 2) ∧
    score_increment OPT_GHOST_ON 0 = 0 ∧ score_increment OPT_GHOST_OFF 0 = 0 ∧
    score_increment OPT_GHOST_ON 1 = 100 ∧ score_increment OPT_GHOST_ON 2 = 400 ∧
    score_increment OPT_GHOST_ON 3 = 900 ∧ score_increment OPT_GHOST_ON 4 = 1600 ∧
    score_increment OPT_GHOST_OFF 1 = 200 ∧ score_increment OPT_GHOST_OFF 2 = 800 ∧
    score_increment OPT_GHOST_OFF 3 = 1800 ∧ score_increment OPT_GHOST_OFF 4 = 3200 := by
  refine ⟨fun n => ?_, fun n => ?_, ?_, ?_, ?_, ?_, ?_, ?_, ?_, ?_, ?_, ?_⟩ <;>
    simp [score_increment, OPT_GHOST_ON, OPT_GHOST_OFF, SCORE_PER_ROW, BONUS_EXPONENT,
      BONUS_GHOST_OFF]

/-- A tick on a block that can move down keeps the counter of cleared rows and the
level. -/
theorem tick_moves_down_core (sh : Shapes) (fuel : Nat) (g : Game)
    (hcan : can_move_block sh g.curr_block g.curr_field .DOWN = true) :
    ∃ g' : Game, timer_handler sh fuel g = some g' ∧ g'.rows = g.rows ∧ g'.level = g.level :=
  ⟨{ g with
      curr_block := (move_block sh g.curr_block g.curr_field .DOWN).1,
      curr_field := (move_block sh g.curr_block g.curr_field .DOWN).2 },
    by simp only [timer_handler, hcan, if_true], rfl, rfl⟩

/-- A tick that ends the game keeps the counter of cleared rows and the level. -/
theorem tick_game_over_core (sh : Shapes) (fuel : Nat) (g : Game)
    (hblocked : can_move_block sh g.curr_block g.curr_field .DOWN = false)
    (hlow : get_limit_low_block sh g.curr_block < 0) :
    ∃ g' : Game, timer_handler sh fuel g = some g' ∧ g'.rows = g.rows ∧ g'.level = g.level := by
  refine ⟨{ stop_timer g with status := GAME_OVER }, ?_, rfl, rfl⟩
  have hlow' : get_limit_low_block sh (stop_timer g).curr_block < 0 := hlow
  simp only [timer_handler, hblocked, Bool.false_eq_true, if_false]
  rw [if_pos hlow']

/-- The level updates of the cascade keep the relation between the level and the
counter of cleared rows. -/
theorem levels_after_inv :
    ∀ (n : Nat) (level rows : Int), LevelInv level rows →
      LevelInv (levels_after n level rows) (rows + n) := by
  intro n
  induction n with
  | zero => intro level rows h; simpa [levels_after] using h
  | succ n ih =>
    intro level rows h
    have hstep : LevelInv
        (if (rows + 1) % ROWS_PER_LEVEL = 0 ∧ level < LEVEL_CAP then level + 1 else level)
        (rows + 1) := by
      obtain ⟨h0, h1⟩ := h
      simp only [ROWS_PER_LEVEL, LEVEL_CAP, LevelInv]
      split_ifs with hc <;> omega
    have := ih _ _ hstep
    have e : rows + ((n + 1 : Nat) : Int) = rows + 1 + (n : Int) := by push_cast; ring
    rw [e]
    exact this

/-- The statistics after a tick: some number `n` of rows has been cleared. -/
theorem timer_handler_stats (sh : Shapes) (fuel : Nat) (g g' : Game)
    (h : timer_handler sh fuel g = some g') :
    ∃ n : Nat, g'.rows = g.rows + n ∧ g'.level = levels_after n g.level g.rows := by
  by_cases hcan : can_move_block sh g.curr_block g.curr_field .DOWN = true
  · obtain ⟨g1, h1, hr⟩ := tick_moves_down_core sh fuel g hcan
    rw [h1] at h
    simp only [Option.some.injEq] at h
    subst h
    exact ⟨0, by simp [hr.1], by simp [levels_after, hr.2]⟩
  · have hblocked : can_move_block sh g.curr_block g.curr_field .DOWN = false := by
      simpa using hcan
    by_cases hlow : get_limit_low_block sh g.curr_block < 0
    · obtain ⟨g1, h1, hr⟩ := tick_game_over_core sh fuel g hblocked hlow
      rw [h1] at h
      simp only [Option.some.injEq] at h
      subst h
      exact ⟨0, by simp [hr.1], by simp [levels_after, hr.2]⟩
    · rw [timer_handler_blocked sh fuel g hblocked (by omega)] at h
      simp only [Option.bind_eq_some, Option.map_eq_some'] at h
      obtain ⟨p, _, gd, hdb, rfl⟩ := h
      obtain ⟨⟨h1, h2, _⟩, _⟩ := drop_block_frame sh fuel _ gd hdb
      exact ⟨p.2, h2, h1⟩

/-- The function `init_game` starts a round at level 1 with no cleared row. -/
theorem init_game_stats (sh : Shapes) (fuel : Nat) (g0 g : Game)
    (h : init_game sh fuel g0 = some g) : g.level = 1 ∧ g.rows = 0 ∧ g.score = 0 := by
  simp only [init_game] at h
  obtain ⟨⟨h1, h2, h3, _⟩, _⟩ := drop_block_frame sh fuel _ g h
  exact ⟨h1, h2, h3⟩

/-- The relation between the level and the counter of cleared rows holds in every
state of a round. -/
theorem tickReachable_levelInv (sh : Shapes) (g : Game) (h : TickReachable sh g) :
    LevelInv g.level g.rows := by
  induction h with
  | init fuel g0 g hinit =>
    obtain ⟨h1, h2, _⟩ := init_game_stats sh fuel g0 g hinit
    rw [h1, h2]
    simp [LevelInv]
  | tick fuel g g' _ htick ih =>
    obtain ⟨n, h1, h2⟩ := timer_handler_stats sh fuel g g' htick
    rw [h1, h2]
    exact levels_after_inv n _ _ ih

/-- After the cascade of a tick the scan finds no completed row in the band, so no
row of the band is completed. -/
theorem field_cascade_band_clear (lo hi : Int) (hlo : 0 ≤ lo) (fuel : Nat) (f f' : Field)
    (n : Nat) (h : field_cascade lo hi fuel f = some (f', n)) :
    ∀ r : Int, lo ≤ r → r ≤ hi → ¬ f'.completed r := by
  obtain ⟨hfind, _, _⟩ := field_cascade_exit lo hi fuel f f' n h
  rcases find_row_field_cases f' lo hi with ⟨_, h2⟩ | ⟨h1, _, _, _⟩
  · exact h2
  · omega

/-- The cascade on a band with exactly one completed row, the row just above the
band being not completed: one row is cleared. -/
theorem field_cascade_one (lo hi R : Int) (f : Field) (hcols : 1 ≤ f.cols) (hlo : 0 ≤ lo)
    (h1 : lo ≤ R) (h2 : R ≤ hi)
    (hone : ∀ r : Int, lo ≤ r → r ≤ hi → (f.completed r ↔ r = R))
    (habove : lo = 0 ∨ ¬ f.completed (lo - 1)) (fuel : Nat) :
    field_cascade lo hi (fuel + 2) f = some (clear_row_field f R, 1) := by
  have hf1 : find_row_field f lo hi = R :=
    find_row_field_eq f lo hi R h1 h2 ((hone R h1 h2).2 rfl)
      (fun r hr1 hr2 hc => by
        have := (hone r (by omega) hr2).1 hc
        omega)
  have hf2 : find_row_field (clear_row_field f R) lo hi = -1 := by
    apply find_row_field_none
    intro r hr1 hr2
    rw [completed_clear_row f R r hcols]
    rintro ⟨hr0, hc⟩
    split_ifs at hc with hk
    · by_cases hlt : lo ≤ r - 1
      · have := (hone (r - 1) hlt (by omega)).1 hc
        omega
      · have hr : r - 1 = lo - 1 := by omega
        rw [hr] at hc
        rcases habove with h0 | hnot
        · omega
        · exact hnot hc
    · have := (hone r hr1 hr2).1 hc
      omega
  rw [field_cascade_step lo hi (fuel + 1) f R hf1 (by omega),
    field_cascade_done lo hi fuel _ hf2]
  rfl

/-- In `landed_field` row 21 is completed. -/
theorem landed_field_row21 : landed_field.completed 21 := by
  intro c h0 h1
  have h1' : c < 11 := h1
  simp only [landed_field]
  rw [if_pos ⟨h0, h1'⟩]
  simp only [if_true]
  split_ifs <;> decide

/-- In `landed_field` no row other than row 21 is completed. -/
theorem landed_field_other (r : Int) (hr : r ≠ 21) : ¬ landed_field.completed r := by
  intro h
  have := h 0 (by decide) (by decide)
  simp only [landed_field] at this
  rw [if_pos (by decide), if_neg hr] at this
  exact this rfl

/-- The feasibility test on one cell, as a proposition. -/
theorem cell_free_iff (sh : Shapes) (b : Block) (f : Field) (p : Int × Int) :
    cell_free sh b f p = true ↔
      0 ≤ p.2 ∧ p.2 < f.cols ∧ p.1 < f.rows ∧
        (p.1 < 0 ∨ passable (f.grid p.1 p.2) ∨ p ∈ b.cells sh) := by
  simp only [cell_free, passable, Bool.and_eq_true, Bool.or_eq_true, decide_eq_true_eq]
  tauto

/-- The cells of a piece after a rotation in place. -/
theorem cells_rotate (sh : Shapes) (b : Block) :
    Block.cells sh { b with rot := (b.rot + 1) % 4, row := b.row, col := b.col }
      = (sh b.type ((b.rot + 1) % 4)).map (fun d => (b.row + d.1, b.col + d.2)) := rfl

/-- The function `can_move_block`, as a proposition. -/
theorem can_move_iff (sh : Shapes) (b : Block) (f : Field) (dir : Direction) :
    can_move_block sh b f dir = true ↔
      ∀ p ∈ b.cells sh, cell_free sh b f (p.1 + dir.drow, p.2 + dir.dcol) = true := by
  simp only [can_move_block, List.all_eq_true]

/-- The function `can_rotate_block`, as a proposition. -/
theorem can_rotate_iff (sh : Shapes) (b : Block) (f : Field) :
    can_rotate_block sh b f = true ↔
      ∀ d ∈ sh b.type ((b.rot + 1) % 4),
        cell_free sh b f (b.row + d.1, b.col + d.2) = true := by
  simp only [can_rotate_block, List.all_eq_true, Block.cells, List.mem_map]
  constructor
  · intro h d hd
    exact h _ ⟨d, hd, rfl⟩
  · rintro h p ⟨d, hd, rfl⟩
    exact h d hd

/-- The block after `rotate_block`. -/
theorem rotate_block_fst (sh : Shapes) (b : Block) (f : Field) :
    (rotate_block sh b f).1 = { b with rot := (b.rot + 1) % 4, row := b.row, col := b.col } :=
  rfl

/-- The grid after `update_block`. -/
theorem update_block_grid (sh : Shapes) (b : Block) (f : Field) (nr nw nc : Int) :
    (update_block sh b f nr nw nc).2.grid
      = (f.grid.fill (b.cells sh) BG).fill
          (Block.cells sh { b with rot := nr, row := nw, col := nc }) b.mark := rfl

/-- A cell that lies neither on the old nor on the new position of the block keeps
its tag through `update_block`. -/
theorem update_block_grid_other (sh : Shapes) (b : Block) (f : Field) (nr nw nc : Int)
    (r c : Int) (h1 : (r, c) ∉ b.cells sh)
    (h2 : (r, c) ∉ Block.cells sh { b with rot := nr, row := nw, col := nc }) :
    (update_block sh b f nr nw nc).2.grid r c = f.grid r c := by
  rw [update_block_grid, Grid.fill_apply, if_neg (fun h => h2 h.1), Grid.fill_apply,
    if_neg (fun h => h1 h.1)]

/-- After a lateral step that makes a blocked rotation possible, and that rotation,
the step back is not possible: it would put the block where the rotation in place
was refused. -/
theorem no_step_back (sh : Shapes) (s : Block × Field) (dir : Direction)
    (hdir : dir = .LEFT ∨ dir = .RIGHT)
    (hrot : can_rotate_block sh s.1 s.2 = false)
    (hmove : can_move_block sh s.1 s.2 dir = true)
    (hrot2 : can_rotate_block sh (move_block sh s.1 s.2 dir).1 (move_block sh s.1 s.2 dir).2
      = true) :
    can_move_block sh
      (rotate_block sh (move_block sh s.1 s.2 dir).1 (move_block sh s.1 s.2 dir).2).1
      (rotate_block sh (move_block sh s.1 s.2 dir).1 (move_block sh s.1 s.2 dir).2).2
      dir.opp = false := by
  obtain ⟨b, f⟩ := s
  simp only at hrot hmove hrot2 ⊢
  have hrow : dir.drow = 0 := by rcases hdir with rfl | rfl <;> rfl
  have hopp : dir.opp.drow = 0 ∧ dir.dcol + dir.opp.dcol = 0 := by
    rcases hdir with rfl | rfl <;> exact ⟨rfl, by decide⟩
  -- a cell that refuses the rotation in place
  have hex : ∃ d ∈ sh b.type ((b.rot + 1) % 4),
      cell_free sh b f (b.row + d.1, b.col + d.2) = false := by
    by_contra hno
    have : can_rotate_block sh b f = true := by
      rw [can_rotate_iff]
      intro d hd
      by_contra hd2
      exact hno ⟨d, hd, by simpa using hd2⟩
    rw [this] at hrot
    exact Bool.noConfusion hrot
  obtain ⟨d, hd, hblocked⟩ := hex
  set b1 := (move_block sh b f dir).1 with hb1
  set f1 := (move_block sh b f dir).2 with hf1
  set b2 := (rotate_block sh b1 f1).1 with hb2
  set f2 := (rotate_block sh b1 f1).2 with hf2
  have hb1row : b1.row = b.row + dir.drow := rfl
  have hb1col : b1.col = b.col + dir.dcol := rfl
  have hb1rot : b1.rot = b.rot := rfl
  have hb1type : b1.type = b.type := rfl
  have hcells1 : b1.cells sh = (b.cells sh).map (fun p => (p.1 + dir.drow, p.2 + dir.dcol)) :=
    cells_translate sh b dir.drow dir.dcol
  -- the cell of the rotated block that lands on the refused cell
  have hmem2 : (b1.row + d.1, b1.col + d.2) ∈ b2.cells sh := by
    have : b2.cells sh
        = (sh b1.type ((b1.rot + 1) % 4)).map (fun d => (b1.row + d.1, b1.col + d.2)) :=
      cells_rotate sh b1
    rw [this, hb1type, hb1rot]
    exact List.mem_map.2 ⟨d, hd, rfl⟩
  have htarget : (b1.row + d.1 + dir.opp.drow, b1.col + d.2 + dir.opp.dcol)
      = (b.row + d.1, b.col + d.2) := by
    rw [hb1row, hb1col, hrow, hopp.1]
    ext
    · simp
    · simp only; linarith [hopp.2]
  by_contra hcan
  have hcan' : can_move_block sh b2 f2 dir.opp = true := by simpa using hcan
  rw [can_move_iff] at hcan'
  have hfree2 := hcan' _ hmem2
  simp only at hfree2
  rw [htarget] at hfree2
  -- the refused cell, seen from the three states
  have hnot : ¬ (cell_free sh b f (b.row + d.1, b.col + d.2) = true) := by
    rw [hblocked]; exact Bool.noConfusion
  rw [cell_free_iff] at hnot hfree2
  obtain ⟨c0, c1, r1, hcase⟩ := hfree2
  have hdims : f2.cols = f.cols ∧ f2.rows = f.rows := ⟨rfl, rfl⟩
  rw [hdims.1] at c1
  rw [hdims.2] at r1
  simp only at c0 c1 r1 hcase hnot
  have hr0 : ¬ (b.row + d.1 < 0) := fun h => hnot ⟨c0, c1, r1, Or.inl h⟩
  have hnp : ¬ passable (f.grid (b.row + d.1) (b.col + d.2)) :=
    fun h => hnot ⟨c0, c1, r1, Or.inr (Or.inl h)⟩
  have hnb : (b.row + d.1, b.col + d.2) ∉ b.cells sh :=
    fun h => hnot ⟨c0, c1, r1, Or.inr (Or.inr h)⟩
  have hnb1 : (b.row + d.1, b.col + d.2) ∉ b1.cells sh := by
    intro h
    rw [hcells1, List.mem_map] at h
    obtain ⟨p, hp, hpe⟩ := h
    have := (can_move_iff sh b f dir).1 hmove p hp
    rw [hpe] at this
    exact hnot ((cell_free_iff sh b f _).1 this)
  have hf1t : f1.grid (b.row + d.1) (b.col + d.2) = f.grid (b.row + d.1) (b.col + d.2) :=
    update_block_grid_other sh b f _ _ _ _ _ hnb (by rw [← hcells1] at *; exact hnb1)
  have hnb2 : (b.row + d.1, b.col + d.2) ∉ b2.cells sh := by
    intro h
    have hc : (b.row + d.1, b.col + d.2) ∈
        (sh b1.type ((b1.rot + 1) % 4)).map (fun d => (b1.row + d.1, b1.col + d.2)) := h
    rw [List.mem_map] at hc
    obtain ⟨e, he, hee⟩ := hc
    have := (can_rotate_iff sh b1 f1).1 hrot2 e he
    rw [hee, cell_free_iff] at this
    obtain ⟨_, _, _, h3⟩ := this
    simp only at h3
    rcases h3 with h3 | h3 | h3
    · exact hr0 h3
    · rw [hf1t] at h3; exact hnp h3
    · exact hnb1 h3
  have hf2t : f2.grid (b.row + d.1) (b.col + d.2) = f.grid (b.row + d.1) (b.col + d.2) := by
    rw [← hf1t]
    exact update_block_grid_other sh b1 f1 _ _ _ _ _ hnb1 hnb2
  rcases hcase with h | h | h
  · exact hr0 h
  · rw [hf2t] at h; exact hnp h
  · exact hnb2 h

/-- A block is determined by its five fields. -/
theorem Block.ext_fields (a b : Block) (h1 : a.type = b.type) (h2 : a.rot = b.rot)
    (h3 : a.row = b.row) (h4 : a.col = b.col) (h5 : a.mark = b.mark) : a = b := by
  cases a; cases b
  simp only at h1 h2 h3 h4 h5
  subst h1 h2 h3 h4 h5
  rfl

/-- A lateral step followed by the opposite step gives back the block. -/
theorem move_back_fst (sh : Shapes) (b : Block) (f : Field) (dir : Direction)
    (hdir : dir = .LEFT ∨ dir = .RIGHT) :
    (move_block sh (move_block sh b f dir).1 (move_block sh b f dir).2 dir.opp).1 = b := by
  apply Block.ext_fields
  · rfl
  · rfl
  · rcases hdir with rfl | rfl <;> simp [move_block_fst, Direction.drow, Direction.opp]
  · rcases hdir with rfl | rfl <;> simp [move_block_fst, Direction.dcol, Direction.opp]
  · rfl

/-- The left half of `fix_block_position` is `fix_half` for `LEFT`. -/
theorem fix_left_eq (sh : Shapes) (s : Block × Field) : fix_left sh s = fix_half sh .LEFT s :=
  rfl

/-- The right half of `fix_block_position` is `fix_half` for `RIGHT`. -/
theorem fix_right_eq (sh : Shapes) (s : Block × Field) :
    fix_right sh s = fix_half sh .RIGHT s := rfl

/-- The result of a half of `fix_block_position` when the probe by one step
succeeds. -/
theorem fix_half_probe1 (sh : Shapes) (dir : Direction) (s : Block × Field)
    (h : probe1 sh dir s) :
    fix_half sh dir s
      = rotate_block sh (move_block sh s.1 s.2 dir).1 (move_block sh s.1 s.2 dir).2 := by
  simp only [fix_half, h.1, h.2, if_true]

/-- The result of a half of `fix_block_position` when the probe by two steps
succeeds. -/
theorem fix_half_probe2 (sh : Shapes) (dir : Direction) (s : Block × Field)
    (h : probe2 sh dir s) :
    fix_half sh dir s
      = rotate_block sh
          (move_block sh (move_block sh s.1 s.2 dir).1 (move_block sh s.1 s.2 dir).2 dir).1
          (move_block sh (move_block sh s.1 s.2 dir).1 (move_block sh s.1 s.2 dir).2 dir).2 := by
  obtain ⟨h1, h2, h3, h4⟩ := h
  simp only [fix_half, h1, h2, h3, h4, if_true, Bool.false_eq_true, if_false]

/-- A half of `fix_block_position` whose probes give no feasible rotation leaves
the block as it was. -/
theorem fix_half_fail_fst (sh : Shapes) (dir : Direction) (hdir : dir = .LEFT ∨ dir = .RIGHT)
    (s : Block × Field) (h1 : ¬ probe1 sh dir s) (h2 : ¬ probe2 sh dir s) :
    (fix_half sh dir s).1 = s.1 := by
  simp only [fix_half]
  by_cases hm : can_move_block sh s.1 s.2 dir = true
  · rw [if_pos hm]
    by_cases hr : can_rotate_block sh (move_block sh s.1 s.2 dir).1
        (move_block sh s.1 s.2 dir).2 = true
    · exact absurd ⟨hm, hr⟩ h1
    · simp only [hr, if_false]
      have hr' : can_rotate_block sh (move_block sh s.1 s.2 dir).1
          (move_block sh s.1 s.2 dir).2 = false := by simpa using hr
      by_cases hm2 : can_move_block sh (move_block sh s.1 s.2 dir).1
          (move_block sh s.1 s.2 dir).2 dir = true
      · rw [if_pos hm2]
        by_cases hr2 : can_rotate_block sh
            (move_block sh (move_block sh s.1 s.2 dir).1 (move_block sh s.1 s.2 dir).2 dir).1
            (move_block sh (move_block sh s.1 s.2 dir).1 (move_block sh s.1 s.2 dir).2 dir).2
            = true
        · exact absurd ⟨hm, hr', hm2, hr2⟩ h2
        · simp only [hr2, if_false]
          rw [move_back_fst sh _ _ dir hdir]
          exact move_back_fst sh s.1 s.2 dir hdir
      · simp only [hm2, if_false]
        exact move_back_fst sh s.1 s.2 dir hdir
  · rw [if_neg hm]

/-- The block after one lateral step and a rotation. -/
theorem kick1_block (sh : Shapes) (s : Block × Field) (dir : Direction)
    (hdir : dir = .LEFT ∨ dir = .RIGHT) :
    (rotate_block sh (move_block sh s.1 s.2 dir).1 (move_block sh s.1 s.2 dir).2).1
      = { s.1 with rot := (s.1.rot + 1) % 4, row := s.1.row, col := s.1.col + dir.dcol } := by
  apply Block.ext_fields
  · rfl
  · rfl
  · rcases hdir with rfl | rfl <;> simp [rotate_block_fst, move_block_fst, Direction.drow]
  · rfl
  · rfl

/-- The block after two lateral steps and a rotation. -/
theorem kick2_block (sh : Shapes) (s : Block × Field) (dir : Direction)
    (hdir : dir = .LEFT ∨ dir = .RIGHT) :
    (rotate_block sh
        (move_block sh (move_block sh s.1 s.2 dir).1 (move_block sh s.1 s.2 dir).2 dir).1
        (move_block sh (move_block sh s.1 s.2 dir).1 (move_block sh s.1 s.2 dir).2 dir).2).1
      = { s.1 with
          rot := (s.1.rot + 1) % 4, row := s.1.row, col := s.1.col + 2 * dir.dcol } := by
  apply Block.ext_fields
  · rfl
  · rfl
  · rcases hdir with rfl | rfl <;> simp [rotate_block_fst, move_block_fst, Direction.drow]
  · rcases hdir with rfl | rfl <;>
      simp [rotate_block_fst, move_block_fst, Direction.dcol] <;> ring
  · rfl

/-- A grid has the same content as itself. -/
theorem ghostEq_refl (g : Grid) : GhostEq g g := fun _ _ => Or.inl rfl

/-- Having the same content is symmetric. -/
theorem ghostEq_symm {g g' : Grid} (h : GhostEq g g') : GhostEq g' g := by
  intro r c
  rcases h r c with h1 | ⟨h1, h2⟩
  · exact Or.inl h1.symm
  · exact Or.inr ⟨h2, h1⟩

/-- Having the same content is transitive. -/
theorem ghostEq_trans {g1 g2 g3 : Grid} (h : GhostEq g1 g2) (h' : GhostEq g2 g3) :
    GhostEq g1 g3 := by
  intro r c
  rcases h r c with h1 | ⟨h1, h2⟩
  · rcases h' r c with h3 | ⟨h3, h4⟩
    · exact Or.inl (h1.trans h3)
    · exact Or.inr ⟨h1 ▸ h3, h4⟩
  · rcases h' r c with h3 | ⟨_, h4⟩
    · exact Or.inr ⟨h1, h3 ▸ h2⟩
    · exact Or.inr ⟨h1, h4⟩

/-- A grid is a faded copy of itself. -/
theorem fades_refl (g : Grid) : Fades g g := fun _ _ => Or.inl rfl

/-- A faded copy of a faded copy is a faded copy. -/
theorem fades_trans {g1 g2 g3 : Grid} (h : Fades g1 g2) (h' : Fades g2 g3) : Fades g1 g3 := by
  intro r c
  rcases h' r c with h3 | ⟨h3, h4⟩
  · rcases h r c with h1 | ⟨h1, h2⟩
    · exact Or.inl (h3.trans h1)
    · exact Or.inr ⟨h1, h3.trans h2⟩
  · rcases h r c with h1 | ⟨h1, h2⟩
    · exact Or.inr ⟨h1 ▸ h3, h4⟩
    · exact Or.inr ⟨h1, h4⟩

/-- A faded copy has the same content. -/
theorem fades_ghostEq {g g' : Grid} (h : Fades g g') : GhostEq g g' := by
  intro r c
  rcases h r c with h1 | ⟨h1, h2⟩
  · exact Or.inl h1.symm
  · exact Or.inr ⟨h1, h2⟩

/-- A passable tag stays passable in a grid with the same content. -/
theorem ghostEq_passable_iff {g g' : Grid} (h : GhostEq g g') (r c : Int) :
    passable (g r c) ↔ passable (g' r c) := by
  rcases h r c with h1 | ⟨h1, h2⟩
  · rw [h1]
  · exact ⟨fun _ => h2, fun _ => h1⟩

/-- Filling the same cells with the same tag keeps the content equal. -/
theorem ghostEq_fill {g g' : Grid} (h : GhostEq g g') (cells : List (Int × Int)) (v : Int) :
    GhostEq (g.fill cells v) (g'.fill cells v) := by
  intro r c
  rw [Grid.fill_apply, Grid.fill_apply]
  split_ifs
  · exact Or.inl rfl
  · exact h r c

/-- Erasing cells that hold a passable tag in the reference grid keeps the grid a
faded copy of the reference. -/
theorem fades_fill_BG {E X : Grid} (h : Fades E X) (cells : List (Int × Int))
    (hp : ∀ p ∈ cells, 0 ≤ p.1 → passable (E p.1 p.2)) : Fades E (X.fill cells BG) := by
  intro r c
  rw [Grid.fill_apply]
  split_ifs with hm
  · exact Or.inl (hp (r, c) hm.1 hm.2).symm
  · exact h r c

/-- The feasibility test on one cell reads the grid from which the block is erased. -/
theorem cell_free_base (sh : Shapes) (b : Block) (f : Field) (p : Int × Int) :
    cell_free sh b f p = true ↔
      0 ≤ p.2 ∧ p.2 < f.cols ∧ p.1 < f.rows ∧
        (p.1 < 0 ∨ passable (base sh b f.grid p.1 p.2)) := by
  rw [cell_free_iff]
  simp only [base, Grid.fill_apply]
  constructor
  · rintro ⟨h1, h2, h3, h4⟩
    refine ⟨h1, h2, h3, ?_⟩
    by_cases h0 : p.1 < 0
    · exact Or.inl h0
    · right
      split_ifs with hm
      · exact rfl
      · rcases h4 with h4 | h4 | h4
        · exact absurd h4 h0
        · exact h4
        · exact absurd ⟨h4, by omega⟩ hm
  · rintro ⟨h1, h2, h3, h4⟩
    refine ⟨h1, h2, h3, ?_⟩
    rcases h4 with h4 | h4
    · exact Or.inl h4
    · split_ifs at h4 with hm
      · exact Or.inr (Or.inr hm.1)
      · exact Or.inr (Or.inl h4)

/-- The feasibility test on one cell is the same on two fields with the same
dimensions and, once the block is erased, the same content. -/
theorem cell_free_congr (sh : Shapes) (b : Block) (f f' : Field) (hr : f'.rows = f.rows)
    (hc : f'.cols = f.cols) (h : GhostEq (base sh b f.grid) (base sh b f'.grid))
    (p : Int × Int) : cell_free sh b f' p = cell_free sh b f p := by
  have : cell_free sh b f' p = true ↔ cell_free sh b f p = true := by
    rw [cell_free_base, cell_free_base, hr, hc, ghostEq_passable_iff h]
  cases h1 : cell_free sh b f' p <;> cases h2 : cell_free sh b f p <;> simp_all

/-- The function `can_move_block` is the same on two fields with the same dimensions
and, once the block is erased, the same content. -/
theorem can_move_congr (sh : Shapes) (b : Block) (f f' : Field) (hr : f'.rows = f.rows)
    (hc : f'.cols = f.cols) (h : GhostEq (base sh b f.grid) (base sh b f'.grid))
    (dir : Direction) : can_move_block sh b f' dir = can_move_block sh b f dir := by
  simp only [can_move_block, cell_free_congr sh b f f' hr hc h]

/-- The function `can_rotate_block` is the same on two fields with the same
dimensions and, once the block is erased, the same content. -/
theorem can_rotate_congr (sh : Shapes) (b : Block) (f f' : Field) (hr : f'.rows = f.rows)
    (hc : f'.cols = f.cols) (h : GhostEq (base sh b f.grid) (base sh b f'.grid)) :
    can_rotate_block sh b f' = can_rotate_block sh b f := by
  simp only [can_rotate_block, cell_free_congr sh b f f' hr hc h]

/-- The grid after `update_block`, once the block is erased again: the old grid
with the old and the new cells of the block erased. -/
theorem base_update_block (sh : Shapes) (b : Block) (f : Field) (nr nw nc : Int) :
    base sh (update_block sh b f nr nw nc).1 (update_block sh b f nr nw nc).2.grid
      = (base sh b f.grid).fill
          (Block.cells sh { b with rot := nr, row := nw, col := nc }) BG := by
  simp only [base, update_block_grid]
  exact Grid.fill_fill _ _ _ _

/-- The state after `update_block` holds the tag of the block on its cells. -/
theorem update_block_marked (sh : Shapes) (b : Block) (f : Field) (nr nw nc : Int) :
    Marked sh (update_block sh b f nr nw nc) := by
  intro p hp h0
  rw [update_block_grid, Grid.fill_apply, if_pos ⟨hp, h0⟩]
  rfl

/-- The function `update_block` keeps two states alike. -/
theorem alike_update (sh : Shapes) (s s' : Block × Field) (h : Alike sh s s')
    (nr nw nc : Int) :
    Alike sh (update_block sh s.1 s.2 nr nw nc) (update_block sh s'.1 s'.2 nr nw nc) := by
  obtain ⟨b, f⟩ := s
  obtain ⟨b', f'⟩ := s'
  obtain ⟨hb, hr, hc, hg⟩ := h
  simp only at hb hr hc hg
  subst hb
  refine ⟨rfl, hr, hc, ?_⟩
  rw [base_update_block, base_update_block]
  exact ghostEq_fill hg _ _

/-- The function `move_block` keeps two states alike. -/
theorem alike_move (sh : Shapes) (s s' : Block × Field) (h : Alike sh s s')
    (dir : Direction) :
    Alike sh (move_block sh s.1 s.2 dir) (move_block sh s'.1 s'.2 dir) := by
  have h' := alike_update sh s s' h s.1.rot (s.1.row + dir.drow) (s.1.col + dir.dcol)
  have hb : s'.1 = s.1 := h.1
  simp only [move_block, hb]
  rw [hb] at h'
  exact h'

/-- Two states that are alike give the same answer to `can_move_block`. -/
theorem alike_can_move (sh : Shapes) (s s' : Block × Field) (h : Alike sh s s')
    (dir : Direction) :
    can_move_block sh s'.1 s'.2 dir = can_move_block sh s.1 s.2 dir := by
  obtain ⟨hb, hr, hc, hg⟩ := h
  rw [hb] at hg ⊢
  exact can_move_congr sh s.1 s.2 s'.2 hr hc hg dir

/-- Two states that are alike give the same answer to `can_rotate_block`. -/
theorem alike_can_rotate (sh : Shapes) (s s' : Block × Field) (h : Alike sh s s') :
    can_rotate_block sh s'.1 s'.2 = can_rotate_block sh s.1 s.2 := by
  obtain ⟨hb, hr, hc, hg⟩ := h
  rw [hb] at hg ⊢
  exact can_rotate_congr sh s.1 s.2 s'.2 hr hc hg

/-- Two states that are alike agree on the probe by one step. -/
theorem probe1_alike (sh : Shapes) (dir : Direction) (s s' : Block × Field)
    (h : Alike sh s s') : probe1 sh dir s' ↔ probe1 sh dir s := by
  simp only [probe1, alike_can_move sh s s' h, alike_can_rotate sh _ _ (alike_move sh s s' h dir)]

/-- Two states that are alike agree on the probe by two steps. -/
theorem probe2_alike (sh : Shapes) (dir : Direction) (s s' : Block × Field)
    (h : Alike sh s s') : probe2 sh dir s' ↔ probe2 sh dir s := by
  have h1 := alike_move sh s s' h dir
  have h2 := alike_move sh _ _ h1 dir
  simp only [probe2, alike_can_move sh s s' h, alike_can_rotate sh _ _ h1,
    alike_can_move sh _ _ h1, alike_can_rotate sh _ _ h2]

/-- An `update_block` to a position whose cells are passable in the reference grid
keeps the grid, once the block is erased, a faded copy of the reference. -/
theorem fades_update (sh : Shapes) (E : Grid) (b : Block) (f : Field) (nr nw nc : Int)
    (h : Fades E (base sh b f.grid))
    (hp : ∀ p ∈ Block.cells sh { b with rot := nr, row := nw, col := nc },
      0 ≤ p.1 → passable (E p.1 p.2)) :
    Fades E (base sh (update_block sh b f nr nw nc).1 (update_block sh b f nr nw nc).2.grid) := by
  rw [base_update_block]
  exact fades_fill_BG h _ hp

/-- The cells reached by a feasible move are passable in the reference grid. -/
theorem move_cells_passable (sh : Shapes) (E : Grid) (b : Block) (f : Field) (dir : Direction)
    (h : Fades E (base sh b f.grid)) (hm : can_move_block sh b f dir = true) :
    ∀ p ∈ (move_block sh b f dir).1.cells sh, 0 ≤ p.1 → passable (E p.1 p.2) := by
  intro p hp h0
  rw [move_block_fst, cells_translate, List.mem_map] at hp
  obtain ⟨q, hq, rfl⟩ := hp
  have hfree := (can_move_iff sh b f dir).mp hm q hq
  rw [cell_free_base] at hfree
  rcases hfree.2.2.2 with h1 | h1
  · exact absurd h1 (not_lt.mpr h0)
  · exact (ghostEq_passable_iff (fades_ghostEq h) _ _).mpr h1

/-- A move to a position whose cells are passable in the reference grid keeps the
grid, once the block is erased, a faded copy of the reference. -/
theorem fades_move_to (sh : Shapes) (E : Grid) (b : Block) (f : Field) (dir : Direction)
    (h : Fades E (base sh b f.grid))
    (hp : ∀ p ∈ (move_block sh b f dir).1.cells sh, 0 ≤ p.1 → passable (E p.1 p.2)) :
    Fades E (base sh (move_block sh b f dir).1 (move_block sh b f dir).2.grid) :=
  fades_update sh E b f _ _ _ h hp

/-- A half of `fix_block_position` keeps the dimensions of the field. -/
theorem fix_half_dims (sh : Shapes) (dir : Direction) (s : Block × Field) :
    (fix_half sh dir s).2.rows = s.2.rows ∧ (fix_half sh dir s).2.cols = s.2.cols := by
  simp only [fix_half]
  split_ifs <;> exact ⟨rfl, rfl⟩

/-- A half of `fix_block_position` leaves the tag of the block on its cells. -/
theorem fix_half_marked (sh : Shapes) (dir : Direction) (s : Block × Field)
    (h : Marked sh s) : Marked sh (fix_half sh dir s) := by
  simp only [fix_half]
  split_ifs
  · exact update_block_marked sh _ _ _ _ _
  · exact update_block_marked sh _ _ _ _ _
  · exact update_block_marked sh _ _ _ _ _
  · exact update_block_marked sh _ _ _ _ _
  · exact h

/-- A half of `fix_block_position` whose probes give no feasible rotation leaves
the grid, once the block is erased, a faded copy of the reference. -/
theorem fix_half_fail_fades (sh : Shapes) (dir : Direction)
    (hdir : dir = .LEFT ∨ dir = .RIGHT) (E : Grid) (s : Block × Field)
    (hE : Fades E (base sh s.1 s.2.grid))
    (hcells : ∀ p ∈ s.1.cells sh, 0 ≤ p.1 → passable (E p.1 p.2))
    (h1 : ¬ probe1 sh dir s) (h2 : ¬ probe2 sh dir s) :
    Fades E (base sh (fix_half sh dir s).1 (fix_half sh dir s).2.grid) := by
  have hfst := fix_half_fail_fst sh dir hdir s h1 h2
  simp only [fix_half] at hfst ⊢
  by_cases hm : can_move_block sh s.1 s.2 dir = true
  · rw [if_pos hm] at hfst ⊢
    have hr : can_rotate_block sh (move_block sh s.1 s.2 dir).1
        (move_block sh s.1 s.2 dir).2 = false := by
      cases hc : can_rotate_block sh (move_block sh s.1 s.2 dir).1 (move_block sh s.1 s.2 dir).2
      · rfl
      · exact absurd ⟨hm, hc⟩ h1
    have P1 := move_cells_passable sh E s.1 s.2 dir hE hm
    have F1 := fades_move_to sh E s.1 s.2 dir hE P1
    simp only [hr, Bool.false_eq_true, if_false] at hfst ⊢
    by_cases hm2 : can_move_block sh (move_block sh s.1 s.2 dir).1
        (move_block sh s.1 s.2 dir).2 dir = true
    · rw [if_pos hm2] at hfst ⊢
      have hr2 : can_rotate_block sh
          (move_block sh (move_block sh s.1 s.2 dir).1 (move_block sh s.1 s.2 dir).2 dir).1
          (move_block sh (move_block sh s.1 s.2 dir).1 (move_block sh s.1 s.2 dir).2 dir).2
            = false := by
        cases hc : can_rotate_block sh
          (move_block sh (move_block sh s.1 s.2 dir).1 (move_block sh s.1 s.2 dir).2 dir).1
          (move_block sh (move_block sh s.1 s.2 dir).1 (move_block sh s.1 s.2 dir).2 dir).2
        · rfl
        · exact absurd ⟨hm, hr, hm2, hc⟩ h2
      simp only [hr2, Bool.false_eq_true, if_false] at hfst ⊢
      have P2 := move_cells_passable sh E _ _ dir F1 hm2
      have F2 := fades_move_to sh E _ _ dir F1 P2
      have hb3 := move_back_fst sh (move_block sh s.1 s.2 dir).1
        (move_block sh s.1 s.2 dir).2 dir hdir
      have F3 := fades_move_to sh E _ _ dir.opp F2 (by rw [hb3]; exact P1)
      exact fades_move_to sh E _ _ dir.opp F3 (by rw [hfst]; exact hcells)
    · rw [if_neg hm2] at hfst ⊢
      exact fades_move_to sh E _ _ dir.opp F1 (by rw [hfst]; exact hcells)
  · rw [if_neg hm]
    exact hE

/-- Two blocks at the same position have the same cells. -/
theorem samePos_cells (sh : Shapes) (b b' : Block) (h : SamePos b b') :
    Block.cells sh b' = Block.cells sh b := by
  obtain ⟨h1, h2, h3, h4⟩ := h
  simp only [Block.cells, h1, h2, h3, h4]

/-- The feasibility test on one cell is the same in two states that are akin. -/
theorem akin_cell_free (sh : Shapes) (s s' : Block × Field) (h : Akin sh s s')
    (p : Int × Int) : cell_free sh s'.1 s'.2 p = cell_free sh s.1 s.2 p := by
  obtain ⟨_, hr, hc, hg⟩ := h
  have : cell_free sh s'.1 s'.2 p = true ↔ cell_free sh s.1 s.2 p = true := by
    rw [cell_free_base, cell_free_base, hr, hc, ghostEq_passable_iff hg]
  cases h1 : cell_free sh s'.1 s'.2 p <;> cases h2 : cell_free sh s.1 s.2 p <;> simp_all

/-- Two states that are akin give the same answer to `can_move_block`. -/
theorem akin_can_move (sh : Shapes) (s s' : Block × Field) (h : Akin sh s s')
    (dir : Direction) :
    can_move_block sh s'.1 s'.2 dir = can_move_block sh s.1 s.2 dir := by
  simp only [can_move_block, samePos_cells sh _ _ h.1, akin_cell_free sh s s' h]

/-- The function `move_block` keeps two states akin. -/
theorem akin_move (sh : Shapes) (s s' : Block × Field) (h : Akin sh s s')
    (dir : Direction) :
    Akin sh (move_block sh s.1 s.2 dir) (move_block sh s'.1 s'.2 dir) := by
  obtain ⟨hp, hr, hc, hg⟩ := h
  have hp' : SamePos (move_block sh s.1 s.2 dir).1 (move_block sh s'.1 s'.2 dir).1 := by
    obtain ⟨h1, h2, h3, h4⟩ := hp
    refine ⟨h1, h2, ?_, ?_⟩
    · simp only [move_block_fst, h3]
    · simp only [move_block_fst, h4]
  refine ⟨hp', hr, hc, ?_⟩
  simp only [move_block]
  rw [base_update_block, base_update_block]
  have hcells := samePos_cells sh _ _ hp'
  simp only [move_block_fst] at hcells
  rw [hcells]
  exact ghostEq_fill hg _ _

/-- Two falls that start in states that are akin end, with the same fuel, in states
that are akin. -/
theorem while_akin (sh : Shapes) :
    ∀ (fuel : Nat) (s s' t : Block × Field), Akin sh s s' →
      while_loop (fun s : Block × Field => can_move_block sh s.1 s.2 .DOWN)
        (fun s => move_block sh s.1 s.2 .DOWN) fuel s = some t →
      ∃ t', while_loop (fun s : Block × Field => can_move_block sh s.1 s.2 .DOWN)
        (fun s => move_block sh s.1 s.2 .DOWN) fuel s' = some t' ∧ Akin sh t t' := by
  intro fuel
  induction fuel with
  | zero => intro s s' t _ h; simp [while_loop] at h
  | succ n ih =>
    intro s s' t hak h
    simp only [while_loop] at h ⊢
    rw [akin_can_move sh s s' hak]
    split_ifs at h ⊢ with hc
    · exact ih _ _ t (akin_move sh s s' hak .DOWN) h
    · simp only [Option.some.injEq] at h
      subst h
      exact ⟨s', rfl, hak⟩

/-- The state at the end of a fall: the grid, once the block is erased, is a faded
copy of the grid at the start, the tag of the block is on its cells, and the
block cannot move down. -/
theorem fall_fades (sh : Shapes) (fuel : Nat) (s t : Block × Field) (hs : Marked sh s)
    (h : while_loop (fun s : Block × Field => can_move_block sh s.1 s.2 .DOWN)
      (fun s => move_block sh s.1 s.2 .DOWN) fuel s = some t) :
    Fades (base sh s.1 s.2.grid) (base sh t.1 t.2.grid) ∧ Marked sh t ∧
      can_move_block sh t.1 t.2 .DOWN = false := by
  have := while_loop_inv (fun s : Block × Field => can_move_block sh s.1 s.2 .DOWN)
    (fun s => move_block sh s.1 s.2 .DOWN)
    (fun t => Fades (base sh s.1 s.2.grid) (base sh t.1 t.2.grid) ∧ Marked sh t)
    (fun u hI hc =>
      ⟨fades_move_to sh _ u.1 u.2 .DOWN hI.1 (move_cells_passable sh _ u.1 u.2 .DOWN hI.1 hc),
        update_block_marked sh _ _ _ _ _⟩)
    fuel s t ⟨fades_refl _, hs⟩ h
  exact ⟨this.1.1, this.1.2, this.2⟩

/-- The cells of a block, from the row of its anchor. -/
theorem cells_eq_cells_at (sh : Shapes) (b b' : Block) (h1 : b'.type = b.type)
    (h2 : b'.rot = b.rot) (h3 : b'.col = b.col) :
    Block.cells sh b' = cells_at sh b b'.row := by
  simp only [Block.cells, cells_at, h1, h2, h3]

/-- The grid at the end of a fall, once the block is erased: `BG` on the cells
that the block covered on its way, and the grid of the start elsewhere. -/
theorem fall_visited (sh : Shapes) (fuel : Nat) (s t : Block × Field)
    (h : while_loop (fun s : Block × Field => can_move_block sh s.1 s.2 .DOWN)
      (fun s => move_block sh s.1 s.2 .DOWN) fuel s = some t) :
    s.1.row ≤ t.1.row ∧
    ∀ r c : Int,
      (Visited sh s t r c → base sh t.1 t.2.grid r c = BG) ∧
      (¬ Visited sh s t r c → base sh t.1 t.2.grid r c = base sh s.1 s.2.grid r c) := by
  have := while_loop_inv (fun s : Block × Field => can_move_block sh s.1 s.2 .DOWN)
    (fun s => move_block sh s.1 s.2 .DOWN)
    (fun t => FallInv s.1 s.2 t ∧ s.1.row ≤ t.1.row ∧
      ∀ r c : Int,
        (Visited sh s t r c → base sh t.1 t.2.grid r c = BG) ∧
        (¬ Visited sh s t r c → base sh t.1 t.2.grid r c = base sh s.1 s.2.grid r c))
    (fun u hI _ => by
      obtain ⟨hF, hrow, hV⟩ := hI
      have hF' := fallInv_step sh s.1 s.2 u hF
      have hrow' : (move_block sh u.1 u.2 .DOWN).1.row = u.1.row + 1 := rfl
      refine ⟨hF', by rw [hrow']; omega, fun r c => ?_⟩
      have hb : base sh (move_block sh u.1 u.2 .DOWN).1 (move_block sh u.1 u.2 .DOWN).2.grid r c
          = if (r, c) ∈ cells_at sh s.1 (u.1.row + 1) ∧ 0 ≤ r then BG
            else base sh u.1 u.2.grid r c := by
        simp only [move_block]
        rw [base_update_block, Grid.fill_apply]
        have hc := cells_eq_cells_at sh s.1 (move_block sh u.1 u.2 .DOWN).1 hF'.1 hF'.2.1
          hF'.2.2.1
        simp only [move_block_fst, Direction.drow] at hc
        simp only [Direction.drow, hc]
      rw [hb]
      constructor
      · rintro ⟨k, hk1, hk2, hmem, h0⟩
        split_ifs with hm
        · rfl
        · rw [hrow'] at hk2
          have hk : k ≤ u.1.row := by
            rcases lt_or_eq_of_le hk2 with hlt | heq
            · omega
            · exact absurd ⟨heq ▸ hmem, h0⟩ hm
          exact (hV r c).1 ⟨k, hk1, hk, hmem, h0⟩
      · intro hnv
        have hm : ¬ ((r, c) ∈ cells_at sh s.1 (u.1.row + 1) ∧ 0 ≤ r) := fun hm =>
          hnv ⟨u.1.row + 1, by omega, by rw [hrow'], hm.1, hm.2⟩
        rw [if_neg hm]
        exact (hV r c).2 fun ⟨k, hk1, hk2, hmem, h0⟩ =>
          hnv ⟨k, hk1, by rw [hrow']; omega, hmem, h0⟩)
    fuel s t
    ⟨⟨rfl, rfl, rfl, rfl, rfl, rfl⟩, le_refl _, fun r c =>
      ⟨fun ⟨k, hk1, hk2, hmem, h0⟩ => by
        have hk : k = s.1.row := le_antisymm hk2 hk1
        subst hk
        simp only [base]
        rw [Grid.fill_apply, if_pos ⟨hmem, h0⟩], fun _ => rfl⟩⟩ h
  exact ⟨this.1.2.1, this.1.2.2⟩

/-- The function `update_ghost` returns when its loop ends. -/
theorem update_ghost_run (sh : Shapes) (fuel : Nat) (g g1 : Game) :
    update_ghost sh fuel g = some g1 ↔
      ∃ t, while_loop (fun s : Block × Field => can_move_block sh s.1 s.2 .DOWN)
        (fun s => move_block sh s.1 s.2 .DOWN) fuel (ghost_start sh g) = some t ∧
        g1 = ghost_done sh g t := by
  simp only [update_ghost, ghost_start, ghost_done, Option.map_eq_some']
  constructor
  · rintro ⟨t, ht, rfl⟩
    exact ⟨t, ht, rfl⟩
  · rintro ⟨t, ht, rfl⟩
    exact ⟨t, ht, rfl⟩

/-- The function `update_ghost` returns as soon as the ghost has a cell. -/
theorem update_ghost_total (sh : Shapes) (g : Game)
    (hshape : sh g.ghost_block.type g.curr_block.rot ≠ []) :
    ∃ (fuel0 : Nat) (g1 : Game), ∀ fuel : Nat, fuel0 ≤ fuel →
      update_ghost sh fuel g = some g1 := by
  obtain ⟨fuel0, t, ht⟩ := fall_terminates sh
    (fun s : Block × Field => can_move_block sh s.1 s.2 .DOWN) (fun _ h => h)
    (ghost_start sh g).1 (ghost_start sh g).2 hshape
  exact ⟨fuel0, ghost_done sh g t, fun fuel hfuel =>
    (update_ghost_run sh fuel g _).mpr ⟨t, ht fuel hfuel, rfl⟩⟩

/-- The grid after an `update_block` of a block at its own position. -/
theorem resync_grid (sh : Shapes) (b : Block) (f : Field) (r c : Int) :
    (update_block sh b f b.rot b.row b.col).2.grid r c
      = if (r, c) ∈ b.cells sh ∧ 0 ≤ r then b.mark else f.grid r c := by
  rw [update_block_grid, Grid.fill_apply, Grid.fill_apply]
  have hb : ({ b with rot := b.rot, row := b.row, col := b.col } : Block) = b := rfl
  rw [hb]
  split_ifs <;> rfl

/-- The current block and the dimensions of the field after `update_ghost`. -/
theorem ghost_done_frame (sh : Shapes) (g : Game) (t : Block × Field) :
    (ghost_done sh g t).curr_block = g.curr_block ∧
    (ghost_done sh g t).ghost_block = t.1 ∧
    (ghost_done sh g t).curr_field.rows = t.2.rows ∧
    (ghost_done sh g t).curr_field.cols = t.2.cols :=
  ⟨rfl, rfl, rfl, rfl⟩

/-- The ghost starts on the cells of the current block when it has its type. -/
theorem ghost_start_cells (sh : Shapes) (g : Game)
    (htype : g.ghost_block.type = g.curr_block.type) :
    Block.cells sh (ghost_start sh g).1 = Block.cells sh g.curr_block :=
  samePos_cells sh g.curr_block (ghost_start sh g).1 ⟨htype, rfl, rfl, rfl⟩

/-- The grid in which the loop of `update_ghost` starts, once the ghost is erased,
is `BG` on the cells of the current block. -/
theorem ghost_start_base (sh : Shapes) (g : Game)
    (htype : g.ghost_block.type = g.curr_block.type) (r c : Int)
    (h : (r, c) ∈ g.curr_block.cells sh ∧ 0 ≤ r) :
    base sh (ghost_start sh g).1 (ghost_start sh g).2.grid r c = BG := by
  simp only [base]
  rw [Grid.fill_apply, if_pos ⟨by rw [ghost_start_cells sh g htype]; exact h.1, h.2⟩]

/-- The end of the loop of `update_ghost`: the invariants of the fall. -/
theorem ghost_fall (sh : Shapes) (fuel : Nat) (g : Game) (t : Block × Field)
    (h : while_loop (fun s : Block × Field => can_move_block sh s.1 s.2 .DOWN)
      (fun s => move_block sh s.1 s.2 .DOWN) fuel (ghost_start sh g) = some t) :
    Fades (base sh (ghost_start sh g).1 (ghost_start sh g).2.grid) (base sh t.1 t.2.grid) ∧
    Marked sh t ∧ can_move_block sh t.1 t.2 .DOWN = false ∧
    t.1.type = g.ghost_block.type ∧ t.1.rot = g.curr_block.rot ∧
    t.1.col = g.curr_block.col ∧ t.1.mark = g.ghost_block.mark ∧
    t.2.rows = g.curr_field.rows ∧ t.2.cols = g.curr_field.cols := by
  obtain ⟨h1, h2, h3⟩ := fall_fades sh fuel _ t (update_block_marked sh _ _ _ _ _) h
  obtain ⟨⟨a1, a2, a3, a4, a5, a6⟩, _⟩ := fall_exit sh _ (ghost_start sh g).1
    (ghost_start sh g).2 fuel t h
  exact ⟨h1, h2, h3, a1, a2, a3, a4, a5, a6⟩

/-- After `update_ghost` the ghost cannot move down on the field in which the
current block is written again. -/
theorem ghost_rests (sh : Shapes) (fuel : Nat) (g : Game) (t : Block × Field)
    (htype : g.ghost_block.type = g.curr_block.type)
    (h : while_loop (fun s : Block × Field => can_move_block sh s.1 s.2 .DOWN)
      (fun s => move_block sh s.1 s.2 .DOWN) fuel (ghost_start sh g) = some t) :
    can_move_block sh (ghost_done sh g t).ghost_block (ghost_done sh g t).curr_field .DOWN
      = false := by
  obtain ⟨hF, _, hstop, _⟩ := ghost_fall sh fuel g t h
  cases hc : can_move_block sh (ghost_done sh g t).ghost_block
    (ghost_done sh g t).curr_field .DOWN
  · rfl
  · exfalso
    have hmove : can_move_block sh t.1 t.2 .DOWN = true := by
      rw [can_move_iff] at hc ⊢
      intro p hp
      have hfree := hc p hp
      rw [cell_free_iff] at hfree ⊢
      obtain ⟨b1, b2, b3, b4⟩ := hfree
      refine ⟨b1, b2, b3, ?_⟩
      rcases b4 with b4 | b4 | b4
      · exact Or.inl b4
      · by_cases h0 : p.1 + Direction.DOWN.drow < 0
        · exact Or.inl h0
        · by_cases hown : (p.1 + Direction.DOWN.drow, p.2 + Direction.DOWN.dcol) ∈ t.1.cells sh
          · exact Or.inr (Or.inr hown)
          · right; left
            have hgrid := resync_grid sh g.curr_block t.2 (p.1 + Direction.DOWN.drow)
              (p.2 + Direction.DOWN.dcol)
            have hfade := hF (p.1 + Direction.DOWN.drow) (p.2 + Direction.DOWN.dcol)
            have hbase : base sh t.1 t.2.grid (p.1 + Direction.DOWN.drow)
                (p.2 + Direction.DOWN.dcol)
                = t.2.grid (p.1 + Direction.DOWN.drow) (p.2 + Direction.DOWN.dcol) := by
              simp only [base]
              rw [Grid.fill_apply, if_neg (fun hm => hown hm.1)]
            rw [hbase] at hfade
            by_cases hm : (p.1 + Direction.DOWN.drow, p.2 + Direction.DOWN.dcol)
                ∈ g.curr_block.cells sh ∧ 0 ≤ p.1 + Direction.DOWN.drow
            · rw [ghost_start_base sh g htype _ _ hm] at hfade
              rcases hfade with hfade | hfade
              · exact hfade
              · exact hfade.2
            · have hsame : (ghost_done sh g t).curr_field.grid (p.1 + Direction.DOWN.drow)
                  (p.2 + Direction.DOWN.dcol)
                  = t.2.grid (p.1 + Direction.DOWN.drow) (p.2 + Direction.DOWN.dcol) := by
                simp only [ghost_done]
                rw [hgrid, if_neg hm]
              rw [← hsame]
              exact b4
      · exact Or.inr (Or.inr b4)
    rw [hstop] at hmove
    exact Bool.noConfusion hmove

/-- The grid in which a second `update_ghost` starts its loop, once the ghost is
erased: the grid at the end of the first loop, without the ghost and without the
current block. -/
theorem ghost_restart_base (sh : Shapes) (fuel : Nat) (g : Game) (t : Block × Field)
    (htype : g.ghost_block.type = g.curr_block.type)
    (h : while_loop (fun s : Block × Field => can_move_block sh s.1 s.2 .DOWN)
      (fun s => move_block sh s.1 s.2 .DOWN) fuel (ghost_start sh g) = some t) :
    (ghost_start sh (ghost_done sh g t)).1 = (ghost_start sh g).1 ∧
    ∀ r c : Int,
      base sh (ghost_start sh (ghost_done sh g t)).1
          (ghost_start sh (ghost_done sh g t)).2.grid r c
        = if (r, c) ∈ g.curr_block.cells sh ∧ 0 ≤ r then BG else base sh t.1 t.2.grid r c := by
  obtain ⟨_, _, _, a1, _, _, a4, _, _⟩ := ghost_fall sh fuel g t h
  have hblock : (ghost_start sh (ghost_done sh g t)).1 = (ghost_start sh g).1 :=
    Block.ext_fields _ _ a1 rfl rfl rfl a4
  refine ⟨hblock, fun r c => ?_⟩
  have hcells : Block.cells sh (ghost_start sh (ghost_done sh g t)).1
      = Block.cells sh g.curr_block := by
    rw [hblock]
    exact ghost_start_cells sh g htype
  have hb := base_update_block sh t.1 (ghost_done sh g t).curr_field
    g.curr_block.rot g.curr_block.row g.curr_block.col
  have hb' : base sh (ghost_start sh (ghost_done sh g t)).1
      (ghost_start sh (ghost_done sh g t)).2.grid
      = (base sh t.1 (ghost_done sh g t).curr_field.grid).fill
          (Block.cells sh (ghost_start sh (ghost_done sh g t)).1) BG := hb
  rw [hb', hcells, Grid.fill_apply]
  by_cases hm : (r, c) ∈ g.curr_block.cells sh ∧ 0 ≤ r
  · rw [if_pos hm, if_pos hm]
  · rw [if_neg hm, if_neg hm]
    simp only [base]
    rw [Grid.fill_apply, Grid.fill_apply]
    have hgrid : (ghost_done sh g t).curr_field.grid r c = t.2.grid r c := by
      simp only [ghost_done]
      rw [resync_grid, if_neg hm]
    rw [hgrid]

/-- A second `update_ghost` starts its loop in a state akin to the start of the
first. -/
theorem ghost_restart_akin (sh : Shapes) (fuel : Nat) (g : Game) (t : Block × Field)
    (htype : g.ghost_block.type = g.curr_block.type)
    (h : while_loop (fun s : Block × Field => can_move_block sh s.1 s.2 .DOWN)
      (fun s => move_block sh s.1 s.2 .DOWN) fuel (ghost_start sh g) = some t) :
    Akin sh (ghost_start sh g) (ghost_start sh (ghost_done sh g t)) := by
  obtain ⟨hF, _, _, _, _, _, _, a5, a6⟩ := ghost_fall sh fuel g t h
  obtain ⟨hblock, hbase⟩ := ghost_restart_base sh fuel g t htype h
  refine ⟨by rw [hblock]; exact ⟨rfl, rfl, rfl, rfl⟩, a5, a6, ?_⟩
  intro r c
  rw [hbase]
  by_cases hm : (r, c) ∈ g.curr_block.cells sh ∧ 0 ≤ r
  · rw [if_pos hm, ghost_start_base sh g htype r c hm]
    exact Or.inl rfl
  · rw [if_neg hm]
    exact fades_ghostEq hF r c

/-- The function `update_ghost` on its own result gives this result again. -/
theorem update_ghost_again (sh : Shapes) (fuel : Nat) (g : Game) (t : Block × Field)
    (htype : g.ghost_block.type = g.curr_block.type)
    (h : while_loop (fun s : Block × Field => can_move_block sh s.1 s.2 .DOWN)
      (fun s => move_block sh s.1 s.2 .DOWN) fuel (ghost_start sh g) = some t) :
    update_ghost sh fuel (ghost_done sh g t) = some (ghost_done sh g t) := by
  obtain ⟨hF, hM, _, a1, a2, a3, a4, a5, a6⟩ := ghost_fall sh fuel g t h
  obtain ⟨hblock, hbase⟩ := ghost_restart_base sh fuel g t htype h
  obtain ⟨t2, h2, ⟨⟨p1, p2, p3, p4⟩, d1, d2, _⟩⟩ :=
    while_akin sh fuel _ _ t (ghost_restart_akin sh fuel g t htype h) h
  obtain ⟨_, hM2, _, _, _, _, c4, _, _⟩ := ghost_fall sh fuel (ghost_done sh g t) t2 h2
  have hb2 : t2.1 = t.1 := Block.ext_fields _ _ p1 p2 p3 p4 c4
  obtain ⟨hrow, hV⟩ := fall_visited sh fuel _ t h
  obtain ⟨_, hV2⟩ := fall_visited sh fuel _ t2 h2
  have hvis : ∀ r c, Visited sh (ghost_start sh (ghost_done sh g t)) t2 r c
      ↔ Visited sh (ghost_start sh g) t r c := by
    intro r c
    simp only [Visited, hblock, hb2]
  have hbase2 : ∀ r c, base sh t2.1 t2.2.grid r c = base sh t.1 t.2.grid r c := by
    intro r c
    by_cases hv : Visited sh (ghost_start sh g) t r c
    · rw [(hV2 r c).1 ((hvis r c).mpr hv), (hV r c).1 hv]
    · rw [(hV2 r c).2 (fun hv2 => hv ((hvis r c).mp hv2)), hbase]
      have hm : ¬ ((r, c) ∈ g.curr_block.cells sh ∧ 0 ≤ r) := by
        intro hm
        apply hv
        refine ⟨(ghost_start sh g).1.row, le_refl _, hrow, ?_, hm.2⟩
        have hc := cells_eq_cells_at sh (ghost_start sh g).1 (ghost_start sh g).1 rfl rfl rfl
        rw [← hc, ghost_start_cells sh g htype]
        exact hm.1
      rw [if_neg hm]
  have hgrid : t2.2.grid = t.2.grid := by
    funext r c
    by_cases hm : (r, c) ∈ t.1.cells sh ∧ 0 ≤ r
    · have e1 := hM (r, c) hm.1 hm.2
      have e2 := hM2 (r, c) (by rw [hb2]; exact hm.1) hm.2
      rw [hb2] at e2
      exact e2.trans e1.symm
    · have e := hbase2 r c
      rw [hb2] at e
      simp only [base] at e
      rw [Grid.fill_apply, Grid.fill_apply, if_neg hm, if_neg hm] at e
      exact e
  have hfield : t2.2 = t.2 := Field.ext_iff_fields _ _ d1 d2 hgrid
  have ht2 : t2 = t := Prod.ext hb2 hfield
  rw [update_ghost_run]
  exact ⟨t2, h2, by rw [ht2]; rfl⟩

/-- A feasible move leaves the block inside the field. -/
theorem can_move_inBounds (sh : Shapes) (b : Block) (f : Field) (dir : Direction)
    (h : can_move_block sh b f dir = true) :
    InBounds sh (move_block sh b f dir).1 (move_block sh b f dir).2 := by
  intro p hp
  rw [move_block_fst, cells_translate, List.mem_map] at hp
  obtain ⟨q, hq, rfl⟩ := hp
  have hfree := (can_move_iff sh b f dir).mp h q hq
  rw [cell_free_iff] at hfree
  exact ⟨hfree.1, hfree.2.1, hfree.2.2.1⟩

/-- A feasible rotation leaves the block inside the field. -/
theorem can_rotate_inBounds (sh : Shapes) (b : Block) (f : Field)
    (h : can_rotate_block sh b f = true) :
    InBounds sh (rotate_block sh b f).1 (rotate_block sh b f).2 := by
  intro p hp
  rw [rotate_block_fst, cells_rotate, List.mem_map] at hp
  obtain ⟨d, hd, rfl⟩ := hp
  have hfree := (can_rotate_iff sh b f).mp h d hd
  rw [cell_free_iff] at hfree
  exact ⟨hfree.1, hfree.2.1, hfree.2.2.1⟩

/-- A half of `fix_block_position` leaves the block inside the field. -/
theorem fix_half_inBounds (sh : Shapes) (dir : Direction) (hdir : dir = .LEFT ∨ dir = .RIGHT)
    (s : Block × Field) (h : InBounds sh s.1 s.2) :
    InBounds sh (fix_half sh dir s).1 (fix_half sh dir s).2 := by
  by_cases h1 : probe1 sh dir s
  · rw [fix_half_probe1 sh dir s h1]
    exact can_rotate_inBounds sh _ _ h1.2
  · by_cases h2 : probe2 sh dir s
    · rw [fix_half_probe2 sh dir s h2]
      exact can_rotate_inBounds sh _ _ h2.2.2.2
    · intro p hp
      rw [fix_half_fail_fst sh dir hdir s h1 h2] at hp
      rw [(fix_half_dims sh dir s).1, (fix_half_dims sh dir s).2]
      exact h p hp

/-- The function `fix_block_position` leaves the block inside the field. -/
theorem fix_block_position_inBounds (sh : Shapes) (s : Block × Field)
    (h : InBounds sh s.1 s.2) :
    InBounds sh (fix_block_position sh s).1 (fix_block_position sh s).2 :=
  fix_half_inBounds sh .RIGHT (Or.inr rfl) _ (fix_half_inBounds sh .LEFT (Or.inl rfl) s h)

/-- A half of `fix_block_position` keeps the type and the tag of the block. -/
theorem fix_half_type (sh : Shapes) (dir : Direction) (s : Block × Field) :
    (fix_half sh dir s).1.type = s.1.type ∧ (fix_half sh dir s).1.mark = s.1.mark := by
  simp only [fix_half]
  split_ifs <;> exact ⟨rfl, rfl⟩

/-- The function `fix_block_position` keeps the type and the tag of the block and
the dimensions of the field. -/
theorem fix_block_position_frame (sh : Shapes) (s : Block × Field) :
    (fix_block_position sh s).1.type = s.1.type ∧
    (fix_block_position sh s).1.mark = s.1.mark ∧
    (fix_block_position sh s).2.rows = s.2.rows ∧
    (fix_block_position sh s).2.cols = s.2.cols := by
  have h1 := fix_half_type sh .LEFT s
  have h2 := fix_half_type sh .RIGHT (fix_half sh .LEFT s)
  have d1 := fix_half_dims sh .LEFT s
  have d2 := fix_half_dims sh .RIGHT (fix_half sh .LEFT s)
  exact ⟨h2.1.trans h1.1, h2.2.trans h1.2, d2.1.trans d1.1, d2.2.trans d1.2⟩

/-- A loop that moves a block down while a condition that implies
`can_move_block` holds leaves the block inside the field. -/
theorem fall_inBounds (sh : Shapes) (cond : Block × Field → Bool)
    (hcond : ∀ s, cond s = true → can_move_block sh s.1 s.2 .DOWN = true)
    (fuel : Nat) (s t : Block × Field) (hs : InBounds sh s.1 s.2)
    (h : while_loop cond (fun s => move_block sh s.1 s.2 .DOWN) fuel s = some t) :
    InBounds sh t.1 t.2 :=
  (while_loop_inv cond (fun s => move_block sh s.1 s.2 .DOWN) (fun u => InBounds sh u.1 u.2)
    (fun u _ hc => can_move_inBounds sh u.1 u.2 .DOWN (hcond u hc)) fuel s t hs h).1

/-- A block of a valid type and rotation whose anchor is at the row
`-BLOCK_MAX_SIZE` and the column `COLUMNS / 2` is inside a field of `COLUMNS`
columns. -/
theorem spawn_inBounds (sh : Shapes) (hv : sh.valid) (b : Block) (f : Field)
    (hb : ValidBlock b) (hrow : b.row = -(BLOCK_MAX_SIZE : Int))
    (hcol : b.col = ((COLUMNS / 2 : Nat) : Int)) (hc : f.cols = COLUMNS) :
    InBounds sh b f := by
  intro p hp
  simp only [Block.cells, List.mem_map] at hp
  obtain ⟨d, hd, rfl⟩ := hp
  obtain ⟨_, _, hd'⟩ := hv b.type b.rot hb.1 hb.2.1 hb.2.2.1 hb.2.2.2
  obtain ⟨d1, d2, d3, d4⟩ := hd' d hd
  simp only [hrow, hcol, hc, BLOCK_MAX_SIZE, COLUMNS]
  refine ⟨by omega, by omega, ?_⟩
  have : (0 : Int) ≤ (f.rows : Int) := Int.ofNat_nonneg _
  omega

/-- The fall of the current block is a chain of guarded moves. -/
theorem fall_chain (sh : Shapes) :
    ∀ (fuel : Nat) (g : Game) (s : Block × Field),
      while_loop (fun s : Block × Field => can_move_block sh s.1 s.2 .DOWN)
        (fun s => move_block sh s.1 s.2 .DOWN) fuel (g.curr_block, g.curr_field) = some s →
      Relation.ReflTransGen (Prim sh) g { g with curr_block := s.1, curr_field := s.2 } := by
  intro fuel
  induction fuel with
  | zero => intro g s h; simp [while_loop] at h
  | succ n ih =>
    intro g s h
    simp only [while_loop] at h
    split_ifs at h with hc
    · exact Relation.ReflTransGen.head (Prim.move g .DOWN hc)
        (ih { g with
          curr_block := (move_block sh g.curr_block g.curr_field .DOWN).1,
          curr_field := (move_block sh g.curr_block g.curr_field .DOWN).2 } s h)
    · simp only [Option.some.injEq] at h
      subst h
      exact Relation.ReflTransGen.refl

/-- The ghost update of the key handlers is a chain of primitive steps. -/
theorem ghost_sync_chain (sh : Shapes) (fuel : Nat) (g g1 : Game)
    (h : ghost_sync sh fuel g = some g1) : Relation.ReflTransGen (Prim sh) g g1 := by
  simp only [ghost_sync] at h
  split_ifs at h with hopt
  · exact Relation.ReflTransGen.single (Prim.ghost fuel g g1 hopt h)
  · simp only [Option.some.injEq] at h
    subst h
    exact Relation.ReflTransGen.refl

/-- A key that moves the current block is a chain of primitive steps. -/
theorem key_move_chain (sh : Shapes) (fuel : Nat) (dir : Direction) (g g1 : Game)
    (h : key_move sh fuel dir g = some g1) : Relation.ReflTransGen (Prim sh) g g1 := by
  simp only [key_move] at h
  split_ifs at h with hc
  · exact Relation.ReflTransGen.head (Prim.move g dir hc) (ghost_sync_chain sh fuel _ g1 h)
  · simp only [Option.some.injEq] at h
    subst h
    exact Relation.ReflTransGen.refl

/-- The key `KEY_UP` is a chain of primitive steps. -/
theorem key_up_chain (sh : Shapes) (fuel : Nat) (g g1 : Game)
    (h : key_up sh fuel g = some g1) : Relation.ReflTransGen (Prim sh) g g1 := by
  simp only [key_up] at h
  split_ifs at h with hc
  · exact Relation.ReflTransGen.head (Prim.rotate g hc) (ghost_sync_chain sh fuel _ g1 h)
  · exact Relation.ReflTransGen.head (Prim.fix g (by simpa using hc))
      (ghost_sync_chain sh fuel _ g1 h)

/-- The key `KEY_SPACE` is a chain of primitive steps. -/
theorem key_space_chain (sh : Shapes) (fuel : Nat) (g g1 : Game)
    (h : key_space sh fuel g = some g1) : Relation.ReflTransGen (Prim sh) g g1 := by
  simp only [key_space, Option.bind_eq_some] at h
  obtain ⟨s, hs, h⟩ := h
  exact (fall_chain sh fuel g s hs).trans (ghost_sync_chain sh fuel _ g1 h)

/-- A tick of the timer is one primitive step. -/
theorem timer_handler_chain (sh : Shapes) (fuel : Nat) (g g1 : Game)
    (h : timer_handler sh fuel g = some g1) : Relation.ReflTransGen (Prim sh) g g1 := by
  by_cases hcan : can_move_block sh g.curr_block g.curr_field .DOWN = true
  · simp only [timer_handler, hcan, if_true, Option.some.injEq] at h
    subst h
    exact Relation.ReflTransGen.single (Prim.move g .DOWN hcan)
  · have hblocked : can_move_block sh g.curr_block g.curr_field .DOWN = false := by
      simpa using hcan
    by_cases hlow : get_limit_low_block sh g.curr_block < 0
    · obtain ⟨g', h', _⟩ := tick_game_over_core sh fuel g hblocked hlow
      have hlow' : get_limit_low_block sh (stop_timer g).curr_block < 0 := hlow
      simp only [timer_handler, hblocked, Bool.false_eq_true, if_false] at h
      rw [if_pos hlow'] at h
      simp only [Option.some.injEq] at h
      subst h
      exact Relation.ReflTransGen.single (Prim.game_over g hblocked hlow)
    · rw [timer_handler_blocked sh fuel g hblocked (not_lt.mp hlow)] at h
      simp only [Option.bind_eq_some, Option.map_eq_some'] at h
      obtain ⟨p, hp, gd, hgd, rfl⟩ := h
      exact Relation.ReflTransGen.single (Prim.land fuel g p gd hblocked (not_lt.mp hlow) hp hgd)

/-- A key is a chain of primitive steps on the state of the game. -/
theorem key_event_chain (sh : Shapes) (fuel : Nat) (k : Key) (l l' : Loop)
    (h : key_event sh fuel k l = some l') :
    Relation.ReflTransGen (Prim sh) l.game l'.game := by
  simp only [key_event] at h
  split_ifs at h with h1 h2 h3
  · cases k <;> simp only [key_running, Option.map_eq_some', Option.some.injEq] at h
    · obtain ⟨g1, hg, rfl⟩ := h; exact key_up_chain sh fuel _ _ hg
    · obtain ⟨g1, hg, rfl⟩ := h; exact key_move_chain sh fuel _ _ _ hg
    · obtain ⟨g1, hg, rfl⟩ := h; exact key_move_chain sh fuel _ _ _ hg
    · obtain ⟨g1, hg, rfl⟩ := h; exact key_move_chain sh fuel _ _ _ hg
    · obtain ⟨g1, hg, rfl⟩ := h; exact key_space_chain sh fuel _ _ hg
    · subst h; exact Relation.ReflTransGen.single (Prim.pause l.game)
    · subst h; exact Relation.ReflTransGen.refl
    · subst h; exact Relation.ReflTransGen.refl
  · cases k <;> simp only [key_menu, Option.some.injEq] at h
    · subst h; exact Relation.ReflTransGen.refl
    · subst h; exact Relation.ReflTransGen.refl
    · subst h; exact Relation.ReflTransGen.refl
    · subst h; exact Relation.ReflTransGen.refl
    · subst h; exact Relation.ReflTransGen.refl
    · subst h; exact Relation.ReflTransGen.refl
    · split_ifs at h with a1 a2 a3
      · simp only [Option.some.injEq] at h
        subst h; exact Relation.ReflTransGen.single (Prim.resume l.game)
      · simp only [Option.map_eq_some'] at h
        obtain ⟨g1, hg, rfl⟩ := h
        exact Relation.ReflTransGen.single (Prim.restart_menu fuel l.game g1 hg)
      · simp only [Option.some.injEq] at h
        subst h; exact Relation.ReflTransGen.refl
      · simp only [Option.some.injEq] at h
        subst h; exact Relation.ReflTransGen.refl
    · subst h; exact Relation.ReflTransGen.refl
  · cases k <;> simp only [key_game_over, Option.some.injEq] at h
    · subst h; exact Relation.ReflTransGen.refl
    · subst h; exact Relation.ReflTransGen.refl
    · subst h; exact Relation.ReflTransGen.refl
    · subst h; exact Relation.ReflTransGen.refl
    · subst h; exact Relation.ReflTransGen.refl
    · subst h; exact Relation.ReflTransGen.refl
    · split_ifs at h with a1 a2
      · simp only [Option.map_eq_some'] at h
        obtain ⟨g1, hg, rfl⟩ := h
        exact Relation.ReflTransGen.single (Prim.restart_over fuel l.game g1 hg)
      · simp only [Option.some.injEq] at h
        subst h; exact Relation.ReflTransGen.refl
      · simp only [Option.some.injEq] at h
        subst h; exact Relation.ReflTransGen.refl
    · subst h; exact Relation.ReflTransGen.refl
  · simp only [Option.some.injEq] at h
    subst h; exact Relation.ReflTransGen.refl

/-- A property of the state of the game that holds after `init_game` at the start
of `game_loop` and that every primitive step keeps holds in every state of
`game_loop`. -/
theorem loopReachable_induction (sh : Shapes) (P : Game → Prop)
    (hstart : ∀ (fuel : Nat) (g g1 : Game),
      init_game sh fuel { g with status := GAME_RUNNING } = some g1 →
      P (start_timer g1 INIT_VALUE_MILLIS))
    (hstep : ∀ g g' : Game, P g → Prim sh g g' → P g') :
    ∀ l : Loop, LoopReachable sh l → P l.game := by
  have hchain : ∀ g g' : Game, Relation.ReflTransGen (Prim sh) g g' → P g → P g' := by
    intro g g' hc
    induction hc with
    | refl => exact id
    | tail _ hp ih => exact fun h => hstep _ _ (ih h) hp
  intro l hl
  induction hl with
  | start fuel g sel l h =>
    simp only [game_loop_start, Option.map_eq_some'] at h
    obtain ⟨g1, hg, rfl⟩ := h
    exact hstart fuel g g1 hg
  | key fuel k l l' _ _ h ih => exact hchain _ _ (key_event_chain sh fuel k l l' h) ih
  | tick fuel l l' _ _ _ h ih =>
    simp only [tick_event, Option.map_eq_some'] at h
    obtain ⟨g1, hg, rfl⟩ := h
    exact hchain _ _ (timer_handler_chain sh fuel _ _ hg) ih

/-- The function `game_loop_start` returns when the next block drawn by `init_game`
has a cell. -/
theorem game_loop_start_total (sh : Shapes) (g : Game) (sel : Int)
    (hshape : sh (init_next_block g).next_block.type (init_next_block g).next_block.rot ≠ []) :
    ∃ (fuel0 : Nat) (l : Loop), ∀ fuel : Nat, fuel0 ≤ fuel →
      game_loop_start sh fuel g sel = some l := by
  obtain ⟨fuel0, g1, hg⟩ : ∃ (fuel0 : Nat) (g1 : Game), ∀ fuel : Nat, fuel0 ≤ fuel →
      init_game sh fuel { g with status := GAME_RUNNING } = some g1 :=
    drop_block_total sh _ hshape
  refine ⟨fuel0,
    { game := start_timer g1 INIT_VALUE_MILLIS,
      menu_selection := MENU_PLAY, game_over_selection := GAME_OVER_RESTART,
      game_menu_select := MENU_PLAY, game_over_select := sel, returned := false },
    fun fuel hfuel => ?_⟩
  simp only [game_loop_start]
  rw [hg fuel hfuel]
  rfl

/-- After `init_game` and `start_timer(INIT_VALUE_MILLIS)` the timer runs with the
interval of level 1. -/
theorem start_timerInv (sh : Shapes) (fuel : Nat) (g g1 : Game)
    (h : init_game sh fuel g = some g1) :
    TimerInv (start_timer { g1 with status := GAME_RUNNING } INIT_VALUE_MILLIS) := by
  obtain ⟨h1, _, _⟩ := init_game_stats sh fuel g g1 h
  right
  simp only [start_timer, h1]
  norm_num

/-- Every primitive step leaves the timer stopped or running with the interval of
the current level. -/
theorem prim_timerInv (sh : Shapes) (g g' : Game) (hg : TimerInv g) (h : Prim sh g g') :
    TimerInv g' := by
  cases h with
  | move _ dir hc => exact hg
  | rotate _ hc => exact hg
  | fix _ hc => exact hg
  | ghost fuel _ _ hopt hu =>
    obtain ⟨t, _, rfl⟩ := (update_ghost_run sh fuel g g').mp hu
    exact hg
  | pause => exact Or.inl rfl
  | resume => exact Or.inr rfl
  | restart_menu fuel _ g1 hi => exact start_timerInv sh fuel g g1 hi
  | restart_over fuel _ g1 hi =>
    obtain ⟨h1, _, _⟩ := init_game_stats sh fuel _ g1 hi
    right
    simp only [start_timer, h1]
    norm_num
  | game_over _ hb hl => exact Or.inl rfl
  | land fuel _ p gd hb hl hp hd => exact Or.inr rfl

/-- Being inside the field depends on the dimensions of the field only. -/
theorem inBounds_dims (sh : Shapes) (b : Block) (f f' : Field) (hr : f'.rows = f.rows)
    (hc : f'.cols = f.cols) (h : InBounds sh b f) : InBounds sh b f' := by
  intro p hp
  rw [hr, hc]
  exact h p hp

/-- Being inside the field depends on the position of the block only. -/
theorem inBounds_samePos (sh : Shapes) (b b' : Block) (f : Field) (hp : SamePos b b')
    (h : InBounds sh b f) : InBounds sh b' f := by
  intro p hp'
  rw [samePos_cells sh b b' hp] at hp'
  exact h p hp'

/-- The next block drawn by `init_next_block` has a valid type and rotation. -/
theorem init_next_block_valid (g : Game) : ValidBlock (init_next_block g).next_block := by
  simp only [ValidBlock, init_next_block, init_block, F, I_SHORT]
  omega

/-- The ghost that `drop_block` positions is inside the field and has the type of
the next block. -/
theorem drop_ghost_inv (sh : Shapes) (hv : sh.valid) (fuel : Nat) (g g1 : Game)
    (hc : g.curr_field.cols = COLUMNS) (hnext : ValidBlock g.next_block)
    (h : drop_ghost sh fuel g = some g1) (hopt : g.option_ghost = OPT_GHOST_ON) :
    InBounds sh g1.ghost_block g1.curr_field ∧ g1.ghost_block.type = g.next_block.type := by
  simp only [drop_ghost] at h
  rw [if_pos hopt] at h
  simp only [Option.map_eq_some'] at h
  obtain ⟨s, hs, rfl⟩ := h
  have hstart : InBounds sh
      (init_ghost_block g.ghost_block g.next_block.type g.next_block.rot
        (-(BLOCK_MAX_SIZE : Int)) ((COLUMNS / 2 : Nat) : Int)) g.curr_field :=
    spawn_inBounds sh hv _ _ hnext rfl rfl hc
  have hin := fall_inBounds sh _ (fun _ h => h) fuel _ s hstart hs
  obtain ⟨⟨a1, _⟩, _⟩ := fall_exit sh _ _ _ fuel s hs
  exact ⟨inBounds_dims sh s.1 s.2 _ rfl rfl hin, a1⟩

/-- The current block that `drop_block` positions is inside the field. -/
theorem drop_curr_inv (sh : Shapes) (hv : sh.valid) (fuel : Nat) (g g1 : Game)
    (hc : g.curr_field.cols = COLUMNS) (hnext : ValidBlock g.next_block)
    (h : drop_curr sh fuel g = some g1) :
    InBounds sh g1.curr_block g1.curr_field := by
  simp only [drop_curr, Option.map_eq_some'] at h
  obtain ⟨s, hs, rfl⟩ := h
  have hstart : InBounds sh
      (init_block g.curr_block g.next_block.type g.next_block.rot
        (-(BLOCK_MAX_SIZE : Int)) ((COLUMNS / 2 : Nat) : Int)) g.curr_field :=
    spawn_inBounds sh hv _ _ hnext rfl rfl hc
  have hin := fall_inBounds sh _
    (fun _ h => by
      simp only [Bool.and_eq_true] at h
      exact h.2) fuel _ s hstart hs
  exact inBounds_dims sh s.1 s.2 _ rfl rfl hin

/-- The function `drop_block` establishes the invariant on the position of the
blocks. -/
theorem drop_block_inv (sh : Shapes) (hv : sh.valid) (fuel : Nat) (g gd : Game)
    (hr : g.curr_field.rows = ROWS) (hc : g.curr_field.cols = COLUMNS)
    (hnext : ValidBlock g.next_block) (h : drop_block sh fuel g = some gd) :
    GameInv sh gd := by
  simp only [drop_block, Option.map_eq_some', Option.bind_eq_some] at h
  obtain ⟨g2, ⟨g1, h1, h2⟩, rfl⟩ := h
  obtain ⟨⟨_, _, _, _, o1, _, _⟩, n1, _, _, _, r1, c1⟩ := drop_ghost_frame sh fuel g g1 h1
  obtain ⟨⟨_, _, _, _, o2, _, _⟩, ⟨t2, _, _, _, r2, c2⟩, _, gh2, _, _⟩ :=
    drop_curr_frame sh fuel g1 g2 h2
  have hin2 := drop_curr_inv sh hv fuel g1 g2 (c1.trans hc) (by rw [n1]; exact hnext) h2
  refine ⟨r2.trans (r1.trans hr), c2.trans (c1.trans hc), hin2,
    init_next_block_valid g2, fun hopt => ?_⟩
  have hopt' : g.option_ghost = OPT_GHOST_ON := by
    have e : (drop_next sh g2).option_ghost = g2.option_ghost := rfl
    rw [e, o2, o1] at hopt
    exact hopt
  obtain ⟨hin1, ty1⟩ := drop_ghost_inv sh hv fuel g g1 hc hnext h1 hopt'
  have e1 : (drop_next sh g2).ghost_block = g1.ghost_block := gh2
  have e2 : (drop_next sh g2).curr_block = g2.curr_block := rfl
  have e3 : (drop_next sh g2).curr_field = g2.curr_field := rfl
  rw [e1, e2, e3]
  exact ⟨inBounds_dims sh _ g1.curr_field _ r2 c2 hin1, ty1.trans (t2.trans (by rw [n1])).symm⟩

/-- The function `init_game` establishes the invariant on the position of the
blocks. -/
theorem init_game_inv (sh : Shapes) (hv : sh.valid) (fuel : Nat) (g g1 : Game)
    (h : init_game sh fuel g = some g1) : GameInv sh g1 := by
  simp only [init_game] at h
  exact drop_block_inv sh hv fuel _ g1 rfl rfl (init_next_block_valid _) h

/-- The invariant on the position of the blocks does not depend on the status and
on the timer. -/
theorem gameInv_congr (sh : Shapes) (g g' : Game) (h : GameInv sh g)
    (h1 : g'.curr_field = g.curr_field) (h2 : g'.curr_block = g.curr_block)
    (h3 : g'.ghost_block = g.ghost_block) (h4 : g'.next_block = g.next_block)
    (h5 : g'.option_ghost = g.option_ghost) : GameInv sh g' := by
  unfold GameInv
  rw [h1, h2, h3, h4, h5]
  exact h

/-- The function `update_ghost` keeps the invariant on the position of the
blocks. -/
theorem update_ghost_inv (sh : Shapes) (fuel : Nat) (g g1 : Game) (h : GameInv sh g)
    (hopt : g.option_ghost = OPT_GHOST_ON) (hu : update_ghost sh fuel g = some g1) :
    GameInv sh g1 := by
  obtain ⟨t, ht, rfl⟩ := (update_ghost_run sh fuel g g1).mp hu
  obtain ⟨hr, hc, hin, hnext, hgh⟩ := h
  obtain ⟨_, htype⟩ := hgh hopt
  obtain ⟨_, _, _, a1, _, _, _, a5, a6⟩ := ghost_fall sh fuel g t ht
  have hstart : InBounds sh (ghost_start sh g).1 (ghost_start sh g).2 :=
    inBounds_samePos sh g.curr_block _ _ ⟨htype, rfl, rfl, rfl⟩
      (inBounds_dims sh _ g.curr_field _ rfl rfl hin)
  have hfin := fall_inBounds sh _ (fun _ h => h) fuel _ t hstart ht
  refine ⟨a5.trans hr, a6.trans hc, inBounds_dims sh _ g.curr_field _ a5 a6 hin, hnext,
    fun _ => ⟨inBounds_dims sh _ t.2 _ rfl rfl hfin, a1.trans htype⟩⟩

/-- Every primitive step keeps the invariant on the position of the blocks. -/
theorem prim_gameInv (sh : Shapes) (hv : sh.valid) (g g' : Game) (hg : GameInv sh g)
    (h : Prim sh g g') : GameInv sh g' := by
  obtain ⟨hr, hc, hin, hnext, hgh⟩ := hg
  cases h with
  | move _ dir hm =>
    exact ⟨hr, hc, can_move_inBounds sh _ _ dir hm, hnext,
      fun hopt => ⟨inBounds_dims sh _ g.curr_field _ rfl rfl (hgh hopt).1, (hgh hopt).2⟩⟩
  | rotate _ hm =>
    exact ⟨hr, hc, can_rotate_inBounds sh _ _ hm, hnext,
      fun hopt => ⟨inBounds_dims sh _ g.curr_field _ rfl rfl (hgh hopt).1, (hgh hopt).2⟩⟩
  | fix _ hm =>
    obtain ⟨f1, _, f3, f4⟩ := fix_block_position_frame sh (g.curr_block, g.curr_field)
    exact ⟨f3.trans hr, f4.trans hc,
      fix_block_position_inBounds sh (g.curr_block, g.curr_field) hin, hnext,
      fun hopt => ⟨inBounds_dims sh _ g.curr_field _ f3 f4 (hgh hopt).1,
        (hgh hopt).2.trans f1.symm⟩⟩
  | ghost fuel _ _ hopt hu => exact update_ghost_inv sh fuel g g' ⟨hr, hc, hin, hnext, hgh⟩ hopt hu
  | pause => exact ⟨hr, hc, hin, hnext, hgh⟩
  | resume => exact ⟨hr, hc, hin, hnext, hgh⟩
  | restart_menu fuel _ g1 hi =>
    exact gameInv_congr sh g1 _ (init_game_inv sh hv fuel g g1 hi) rfl rfl rfl rfl rfl
  | restart_over fuel _ g1 hi =>
    exact gameInv_congr sh g1 _ (init_game_inv sh hv fuel _ g1 hi) rfl rfl rfl rfl rfl
  | game_over _ hb hl => exact ⟨hr, hc, hin, hnext, hgh⟩
  | land fuel _ p gd hb hl hp hd =>
    obtain ⟨_, pr, pc⟩ := field_cascade_exit _ _ fuel g.curr_field p.1 p.2 hp
    exact gameInv_congr sh gd _
      (drop_block_inv sh hv fuel (after_cascade g p.1 p.2) gd (pr.trans hr) (pc.trans hc)
        hnext hd) rfl rfl rfl rfl rfl

/-- The invariant on the position of the blocks holds in every state of
`game_loop`. -/
theorem loopReachable_gameInv (sh : Shapes) (hv : sh.valid) (l : Loop)
    (h : LoopReachable sh l) : GameInv sh l.game :=
  loopReachable_induction sh (GameInv sh)
    (fun fuel _ g1 hi =>
      gameInv_congr sh g1 _ (init_game_inv sh hv fuel _ g1 hi) rfl rfl rfl rfl rfl)
    (prim_gameInv sh hv) l h

/-- The sample table `bar_shapes` is a valid geometry table. -/
theorem bar_shapes_valid : bar_shapes.valid := by
  intro kind rot _ _ _ _
  simp only [bar_shapes]
  split_ifs
  · refine ⟨by simp, by simp [BLOCK_MAX_SIZE], ?_⟩
    intro d hd
    simp only [List.mem_cons, List.mem_singleton, List.not_mem_nil, or_false] at hd
    rcases hd with rfl | rfl | rfl <;> simp
  · refine ⟨by simp, by simp [BLOCK_MAX_SIZE], ?_⟩
    intro d hd
    simp only [List.mem_cons, List.mem_singleton, List.not_mem_nil, or_false] at hd
    rcases hd with rfl | rfl | rfl <;> simp

/-- Every call of a loop `while (cond) move_block(b, f, DOWN);` whose condition
implies `can_move_block` is made under its precondition. -/
theorem fall_calls_ok (sh : Shapes) (cond : Block × Field → Bool)
    (hcond : ∀ s, cond s = true → can_move_block sh s.1 s.2 .DOWN = true) :
    ∀ (fuel : Nat) (s : Block × Field), ∀ c ∈ fall_calls sh cond fuel s, call_ok sh c = true := by
  intro fuel
  induction fuel with
  | zero => intro s c hc; simp [fall_calls] at hc
  | succ n ih =>
    intro s c hc
    simp only [fall_calls] at hc
    split_ifs at hc with h
    · rcases List.mem_cons.mp hc with rfl | hc'
      · exact hcond s h
      · exact ih _ c hc'
    · simp at hc

/-- The cells of the block are `BG` in the grid from which the block is erased. -/
theorem base_own (sh : Shapes) (b : Block) (g : Grid) (x : Int × Int) (hx : x ∈ b.cells sh)
    (h0 : 0 ≤ x.1) : base sh b g x.1 x.2 = BG := by
  simp only [base]
  rw [Grid.fill_apply, if_pos ⟨hx, h0⟩]

/-- A cell that is `BG` once the block is erased is still `BG`, once the block is
erased, after `update_block`. -/
theorem base_update_BG (sh : Shapes) (b : Block) (f : Field) (nr nw nc : Int) (r c : Int)
    (h : base sh b f.grid r c = BG) :
    base sh (update_block sh b f nr nw nc).1 (update_block sh b f nr nw nc).2.grid r c = BG := by
  rw [base_update_block, Grid.fill_apply]
  split_ifs
  · rfl
  · exact h

/-- A move to a position that is inside the field and whose cells are `BG` once
the block is erased is feasible. -/
theorem can_move_to_erased (sh : Shapes) (u : Block × Field) (dir : Direction) (b0 : Block)
    (hpos : (move_block sh u.1 u.2 dir).1 = b0) (hin : InBounds sh b0 u.2)
    (hQ : ∀ x ∈ b0.cells sh, 0 ≤ x.1 → base sh u.1 u.2.grid x.1 x.2 = BG) :
    can_move_block sh u.1 u.2 dir = true := by
  rw [can_move_iff]
  intro p hp
  have hmem : (p.1 + dir.drow, p.2 + dir.dcol) ∈ b0.cells sh := by
    rw [← hpos, move_block_fst, cells_translate, List.mem_map]
    exact ⟨p, hp, rfl⟩
  rw [cell_free_base]
  obtain ⟨h1, h2, h3⟩ := hin _ hmem
  refine ⟨h1, h2, h3, ?_⟩
  by_cases h0 : p.1 + dir.drow < 0
  · exact Or.inl h0
  · exact Or.inr (hQ _ hmem (not_lt.mp h0))

/-- Every call of a half of `fix_block_position` is made under its precondition
when the block is inside the field: also the moves back, made without a test. -/
theorem fix_half_calls_ok (sh : Shapes) (dir : Direction) (hdir : dir = .LEFT ∨ dir = .RIGHT)
    (s : Block × Field) (hin : InBounds sh s.1 s.2) :
    ∀ c ∈ fix_half_calls sh dir s, call_ok sh c = true := by
  intro c hc
  simp only [fix_half_calls] at hc
  by_cases hm : can_move_block sh s.1 s.2 dir = true
  · rw [if_pos hm] at hc
    rcases List.mem_cons.mp hc with rfl | hc
    · exact hm
    have hin1 := can_move_inBounds sh s.1 s.2 dir hm
    have hQ1 : ∀ x ∈ s.1.cells sh, 0 ≤ x.1 →
        base sh (move_block sh s.1 s.2 dir).1 (move_block sh s.1 s.2 dir).2.grid x.1 x.2 = BG :=
      fun x hx h0 => base_update_BG sh s.1 s.2 _ _ _ _ _ (base_own sh s.1 s.2.grid x hx h0)
    by_cases hr : can_rotate_block sh (move_block sh s.1 s.2 dir).1
        (move_block sh s.1 s.2 dir).2 = true
    · rw [if_pos hr] at hc
      rcases List.mem_singleton.mp hc with rfl
      exact hr
    · rw [if_neg hr] at hc
      have hr' : can_rotate_block sh (move_block sh s.1 s.2 dir).1
          (move_block sh s.1 s.2 dir).2 = false := by simpa using hr
      by_cases hm2 : can_move_block sh (move_block sh s.1 s.2 dir).1
          (move_block sh s.1 s.2 dir).2 dir = true
      · rw [if_pos hm2] at hc
        rcases List.mem_cons.mp hc with rfl | hc
        · exact hm2
        by_cases hr2 : can_rotate_block sh
            (move_block sh (move_block sh s.1 s.2 dir).1 (move_block sh s.1 s.2 dir).2 dir).1
            (move_block sh (move_block sh s.1 s.2 dir).1 (move_block sh s.1 s.2 dir).2 dir).2
              = true
        · rw [if_pos hr2] at hc
          rcases List.mem_singleton.mp hc with rfl
          exact hr2
        · rw [if_neg hr2] at hc
          have hr2' : can_rotate_block sh
              (move_block sh (move_block sh s.1 s.2 dir).1 (move_block sh s.1 s.2 dir).2 dir).1
              (move_block sh (move_block sh s.1 s.2 dir).1 (move_block sh s.1 s.2 dir).2 dir).2
                = false := by simpa using hr2
          have hfst := fix_half_fail_fst sh dir hdir s (fun h => hr h.2)
            (fun h => hr2 h.2.2.2)
          simp only [fix_half, hm, hr', hm2, hr2', if_true, Bool.false_eq_true, if_false]
            at hfst
          have hb3 := move_back_fst sh (move_block sh s.1 s.2 dir).1
            (move_block sh s.1 s.2 dir).2 dir hdir
          simp only [List.mem_cons, List.mem_singleton, List.not_mem_nil, or_false] at hc
          rcases hc with rfl | rfl
          · exact can_move_to_erased sh _ dir.opp _ hb3
              (inBounds_dims sh _ _ _ rfl rfl hin1)
              (fun x hx h0 => base_update_BG sh _ _ _ _ _ _ _
                (base_own sh _ _ x hx h0))
          · exact can_move_to_erased sh _ dir.opp _ hfst
              (inBounds_dims sh _ s.2 _ rfl rfl hin)
              (fun x hx h0 => base_update_BG sh _ _ _ _ _ _ _
                (base_update_BG sh _ _ _ _ _ _ _ (hQ1 x hx h0)))
      · rw [if_neg hm2] at hc
        rcases List.mem_singleton.mp hc with rfl
        exact can_move_to_erased sh _ dir.opp _ (move_back_fst sh s.1 s.2 dir hdir)
          (inBounds_dims sh _ s.2 _ rfl rfl hin) hQ1
  · rw [if_neg hm] at hc
    simp at hc

/-- Every call of `fix_block_position` is made under its precondition when the
block is inside the field. -/
theorem fix_block_position_calls_ok (sh : Shapes) (s : Block × Field)
    (hin : InBounds sh s.1 s.2) :
    ∀ c ∈ fix_block_position_calls sh s, call_ok sh c = true := by
  intro c hc
  simp only [fix_block_position_calls, List.mem_append] at hc
  rcases hc with hc | hc
  · exact fix_half_calls_ok sh .LEFT (Or.inl rfl) s hin c hc
  · rw [fix_left_eq] at hc
    exact fix_half_calls_ok sh .RIGHT (Or.inr rfl) _
      (fix_half_inBounds sh .LEFT (Or.inl rfl) s hin) c hc

/-- Every call of the ghost update of the key handlers is made under its
precondition. -/
theorem ghost_sync_calls_ok (sh : Shapes) (fuel : Nat) (g : Game) :
    ∀ c ∈ ghost_sync_calls sh fuel g, call_ok sh c = true := by
  intro c hc
  simp only [ghost_sync_calls] at hc
  split_ifs at hc
  · exact fall_calls_ok sh _ (fun _ h => h) fuel _ c hc
  · simp at hc

/-- Every call of `drop_block` is made under its precondition. -/
theorem drop_block_calls_ok (sh : Shapes) (fuel : Nat) (g : Game) :
    ∀ c ∈ drop_block_calls sh fuel g, call_ok sh c = true := by
  intro c hc
  simp only [drop_block_calls, List.mem_append] at hc
  rcases hc with hc | hc
  · split_ifs at hc
    · exact fall_calls_ok sh _ (fun _ h => h) fuel _ c hc
    · simp at hc
  · cases hd : drop_ghost sh fuel g with
    | none => rw [hd] at hc; simp at hc
    | some g1 =>
      rw [hd] at hc
      exact fall_calls_ok sh _
        (fun _ h => by
          simp only [Bool.and_eq_true] at h
          exact h.2) fuel _ c hc

/-- Every call of `timer_handler` is made under its precondition. -/
theorem timer_handler_calls_ok (sh : Shapes) (fuel : Nat) (g : Game) :
    ∀ c ∈ timer_handler_calls sh fuel g, call_ok sh c = true := by
  intro c hc
  simp only [timer_handler_calls] at hc
  split_ifs at hc with h1 h2
  · rcases List.mem_singleton.mp hc with rfl
    exact h1
  · simp at hc
  · split at hc
    · exact drop_block_calls_ok sh fuel _ c hc
    · simp at hc

/-- Every call of the handlers of `KEY_DOWN`, `KEY_LEFT` and `KEY_RIGHT` is made
under its precondition. -/
theorem key_move_calls_ok (sh : Shapes) (fuel : Nat) (dir : Direction) (g : Game) :
    ∀ c ∈ key_move_calls sh fuel dir g, call_ok sh c = true := by
  intro c hc
  simp only [key_move_calls] at hc
  split_ifs at hc with h
  · rcases List.mem_cons.mp hc with rfl | hc
    · exact h
    · exact ghost_sync_calls_ok sh fuel _ c hc
  · simp at hc

/-- Every call of the handler of `KEY_UP` is made under its precondition when the
current block is inside the field. -/
theorem key_up_calls_ok (sh : Shapes) (fuel : Nat) (g : Game)
    (hin : InBounds sh g.curr_block g.curr_field) :
    ∀ c ∈ key_up_calls sh fuel g, call_ok sh c = true := by
  intro c hc
  simp only [key_up_calls] at hc
  split_ifs at hc with h
  · rcases List.mem_cons.mp hc with rfl | hc
    · exact h
    · exact ghost_sync_calls_ok sh fuel _ c hc
  · rcases List.mem_append.mp hc with hc | hc
    · exact fix_block_position_calls_ok sh (g.curr_block, g.curr_field) hin c hc
    · exact ghost_sync_calls_ok sh fuel _ c hc

/-- Every call of the handler of `KEY_SPACE` is made under its precondition. -/
theorem key_space_calls_ok (sh : Shapes) (fuel : Nat) (g : Game) :
    ∀ c ∈ key_space_calls sh fuel g, call_ok sh c = true := by
  intro c hc
  simp only [key_space_calls] at hc
  rcases List.mem_append.mp hc with hc | hc
  · exact fall_calls_ok sh _ (fun _ h => h) fuel _ c hc
  · split at hc
    · exact ghost_sync_calls_ok sh fuel _ c hc
    · simp at hc

/-- The loop over the rows of `clear_field`. -/
theorem loop_up_clear_rows (cols : Nat) (hi : Int) :
    ∀ (n : Nat) (i : Int) (g : Grid), n = (hi - i).toNat →
      loop_up hi (fun row g => for_up 0 cols (fun col g' => g'.set row col BG) g) n i g
        = fun r c => if i ≤ r ∧ r < hi ∧ 0 ≤ c ∧ c < (cols : Int) then BG else g r c := by
  intro n
  induction n with
  | zero =>
    intro i g hn
    funext r c
    have : ¬ (i ≤ r ∧ r < hi ∧ 0 ≤ c ∧ c < (cols : Int)) := by omega
    simp [loop_up, this]
  | succ n ih =>
    intro i g hn
    have hlt : i < hi := by omega
    simp only [loop_up, hlt, if_true]
    rw [ih (i + 1) _ (by omega)]
    rw [for_up_set_row i cols (fun _ _ => BG) (fun _ _ _ _ => rfl) g]
    funext r c
    by_cases h1 : i + 1 ≤ r ∧ r < hi ∧ 0 ≤ c ∧ c < (cols : Int)
    · have h2 : i ≤ r ∧ r < hi ∧ 0 ≤ c ∧ c < (cols : Int) := by omega
      simp only [if_pos h1, if_pos h2]
    · simp only [if_neg h1]
      by_cases h3 : r = i ∧ 0 ≤ c ∧ c < (cols : Int)
      · have h2 : i ≤ r ∧ r < hi ∧ 0 ≤ c ∧ c < (cols : Int) := by omega
        simp only [if_pos h3, if_pos h2]
      · have h2 : ¬ (i ≤ r ∧ r < hi ∧ 0 ≤ c ∧ c < (cols : Int)) := by omega
        simp only [if_neg h3, if_neg h2]

/-- The grid after `clear_field`: `BG` on the rows `[0, rows)` and the columns
`[0, cols)`, and the former grid elsewhere. -/
theorem clear_field_grid (f : Field) (r c : Int) :
    (clear_field f).grid r c
      = if 0 ≤ r ∧ r < (f.rows : Int) ∧ 0 ≤ c ∧ c < (f.cols : Int) then BG else f.grid r c := by
  have h : (clear_field f).grid
      = loop_up (f.rows : Int)
          (fun row g => for_up 0 f.cols (fun col g' => g'.set row col BG) g)
          ((f.rows : Int) - 0).toNat 0 f.grid := rfl
  rw [h, loop_up_clear_rows f.cols f.rows _ 0 f.grid rfl]

/-- The grid after `init_field` is `BG` on its rows and columns. -/
theorem init_field_grid (f : Field) (rows cols : Nat) (r c : Int) (h0 : 0 ≤ r)
    (h1 : r < rows) (h2 : 0 ≤ c) (h3 : c < cols) : (init_field f rows cols).grid r c = BG := by
  simp only [init_field]
  rw [clear_field_grid, if_pos ⟨h0, h1, h2, h3⟩]

/-- After `update_block`, a cell of the grid that is not `BG` is a cell of the
block or was not `BG` before and was not a cell of the block. -/
theorem update_block_onlyOn (sh : Shapes) (rows cols : Nat) (b : Block) (f : Field)
    (nr nw nc : Int) (S : Int → Int → Prop)
    (h : OnlyOn rows cols f.grid (fun r c => (r, c) ∈ b.cells sh ∨ S r c)) :
    OnlyOn rows cols (update_block sh b f nr nw nc).2.grid
      (fun r c => (r, c) ∈ (update_block sh b f nr nw nc).1.cells sh ∨ S r c) := by
  intro r c h0 h1 h2 h3 hne
  rw [update_block_grid, Grid.fill_apply] at hne
  by_cases hm : (r, c) ∈ Block.cells sh { b with rot := nr, row := nw, col := nc } ∧ 0 ≤ r
  · exact Or.inl hm.1
  · rw [if_neg hm, Grid.fill_apply] at hne
    by_cases hm' : (r, c) ∈ b.cells sh ∧ 0 ≤ r
    · rw [if_pos hm'] at hne
      exact absurd rfl hne
    · rw [if_neg hm'] at hne
      rcases h r c h0 h1 h2 h3 hne with hb | hS
      · exact absurd ⟨hb, h0⟩ hm'
      · exact Or.inr hS

/-- After a loop that moves a block down, a cell of the grid that is not `BG` is a
cell of the block or satisfies the property that it satisfied before. -/
theorem fall_onlyOn (sh : Shapes) (rows cols : Nat) (cond : Block × Field → Bool)
    (S : Int → Int → Prop) (fuel : Nat) (s t : Block × Field)
    (hs : OnlyOn rows cols s.2.grid (fun r c => (r, c) ∈ s.1.cells sh ∨ S r c))
    (h : while_loop cond (fun s => move_block sh s.1 s.2 .DOWN) fuel s = some t) :
    OnlyOn rows cols t.2.grid (fun r c => (r, c) ∈ t.1.cells sh ∨ S r c) :=
  (while_loop_inv cond (fun s => move_block sh s.1 s.2 .DOWN)
    (fun u => OnlyOn rows cols u.2.grid (fun r c => (r, c) ∈ u.1.cells sh ∨ S r c))
    (fun u hI _ => update_block_onlyOn sh rows cols u.1 u.2 _ _ _ S hI) fuel s t hs h).1

/-- After `write_block`, a cell of the grid that is not `BG` is a cell of the block
or was not `BG` before. -/
theorem write_block_onlyOn (sh : Shapes) (rows cols : Nat) (b : Block) (f : Field)
    (S : Int → Int → Prop) (h : OnlyOn rows cols f.grid (fun r c => (r, c) ∈ b.cells sh ∨ S r c)) :
    OnlyOn rows cols (write_block sh b f).grid (fun r c => (r, c) ∈ b.cells sh ∨ S r c) := by
  intro r c h0 h1 h2 h3 hne
  simp only [write_block] at hne
  rw [Grid.fill_apply] at hne
  by_cases hm : (r, c) ∈ b.cells sh ∧ 0 ≤ r
  · exact Or.inl hm.1
  · rw [if_neg hm] at hne
    exact h r c h0 h1 h2 h3 hne

/-- After `drop_block` on a field whose grid is `BG`, a cell of the grid that is
not `BG` is a cell of the current block, or a cell of the ghost when the ghost
option is enabled. -/
theorem drop_block_onlyOn (sh : Shapes) (rows cols : Nat) (fuel : Nat) (g gd : Game)
    (hclear : OnlyOn rows cols g.curr_field.grid (fun _ _ => False))
    (h : drop_block sh fuel g = some gd) :
    OnlyOn rows cols gd.curr_field.grid
      (fun r c => (r, c) ∈ gd.curr_block.cells sh ∨
        (gd.option_ghost = OPT_GHOST_ON ∧ (r, c) ∈ gd.ghost_block.cells sh)) := by
  simp only [drop_block, Option.map_eq_some', Option.bind_eq_some] at h
  obtain ⟨g2, ⟨g1, h1, h2⟩, rfl⟩ := h
  have hg1 : OnlyOn rows cols g1.curr_field.grid
      (fun r c => g1.option_ghost = OPT_GHOST_ON ∧ (r, c) ∈ g1.ghost_block.cells sh) := by
    simp only [drop_ghost] at h1
    split_ifs at h1 with hopt
    · simp only [Option.map_eq_some'] at h1
      obtain ⟨s, hs, rfl⟩ := h1
      have h3 := write_block_onlyOn sh rows cols s.1 s.2 (fun _ _ => False)
        (fall_onlyOn sh rows cols _ (fun _ _ => False) fuel _ s
          (fun r c a1 a2 a3 a4 a5 => (hclear r c a1 a2 a3 a4 a5).elim) hs)
      intro r c a1 a2 a3 a4 a5
      rcases h3 r c a1 a2 a3 a4 a5 with hb | hf
      · exact ⟨hopt, hb⟩
      · exact hf.elim
    · simp only [Option.some.injEq] at h1
      subst h1
      intro r c a1 a2 a3 a4 a5
      exact (hclear r c a1 a2 a3 a4 a5).elim
  simp only [drop_curr, Option.map_eq_some'] at h2
  obtain ⟨s, hs, rfl⟩ := h2
  have h3 := write_block_onlyOn sh rows cols s.1 s.2
    (fun r c => g1.option_ghost = OPT_GHOST_ON ∧ (r, c) ∈ g1.ghost_block.cells sh)
    (fall_onlyOn sh rows cols _ _ fuel _ s
      (fun r c a1 a2 a3 a4 a5 => Or.inr (hg1 r c a1 a2 a3 a4 a5)) hs)
  exact h3

/-- The function `init_game` returns, with a valid geometry table. -/
theorem init_game_total (sh : Shapes) (hv : sh.valid) (g : Game) :
    ∃ (fuel0 : Nat) (g1 : Game), ∀ fuel : Nat, fuel0 ≤ fuel →
      init_game sh fuel g = some g1 := by
  have hvalid := init_next_block_valid
    { g with
      level := 1, rows := 0, score := 0,
      curr_field := init_field g.curr_field ROWS COLUMNS,
      next_field := init_field g.next_field BLOCK_MAX_SIZE BLOCK_MAX_SIZE }
  exact drop_block_total sh _
    (hv _ _ hvalid.1 hvalid.2.1 hvalid.2.2.1 hvalid.2.2.2).1

/-- The state after `init_game`: the statistics are reset, the status is kept, the
main field has `ROWS` rows and `COLUMNS` columns, `drop_block` has been called on
a grid that is `BG`, and the cells that are not `BG` afterwards are cells of the
current block or of the ghost. -/
theorem init_game_fresh (sh : Shapes) (fuel : Nat) (g g1 : Game)
    (h : init_game sh fuel g = some g1) :
    g1.level = 1 ∧ g1.score = 0 ∧ g1.rows = 0 ∧ g1.status = g.status ∧
    g1.curr_field.rows = ROWS ∧ g1.curr_field.cols = COLUMNS ∧
    (∃ g0 : Game,
      (∀ r c : Int, 0 ≤ r → r < ROWS → 0 ≤ c → c < COLUMNS → g0.curr_field.grid r c = BG) ∧
      drop_block sh fuel g0 = some g1) ∧
    ∀ r c : Int, 0 ≤ r → r < ROWS → 0 ≤ c → c < COLUMNS → g1.curr_field.grid r c ≠ BG →
      (r, c) ∈ g1.curr_block.cells sh ∨
        (g1.option_ghost = OPT_GHOST_ON ∧ (r, c) ∈ g1.ghost_block.cells sh) := by
  simp only [init_game] at h
  obtain ⟨⟨s1, s2, s3, s4, _, _, _⟩, ⟨_, _, _, _, d1, d2⟩⟩ := drop_block_frame sh fuel _ g1 h
  have hclear : ∀ r c : Int, 0 ≤ r → r < ROWS → 0 ≤ c → c < COLUMNS →
      (init_field g.curr_field ROWS COLUMNS).grid r c = BG :=
    fun r c a1 a2 a3 a4 => init_field_grid g.curr_field ROWS COLUMNS r c a1 a2 a3 a4
  refine ⟨s1, s3, s2, s4, d1, d2, ⟨_, hclear, h⟩, ?_⟩
  exact drop_block_onlyOn sh ROWS COLUMNS fuel _ g1
    (fun r c a1 a2 a3 a4 a5 => a5 (hclear r c a1 a2 a3 a4)) h

/-- Two rows that agree on the columns `[0, n)` have the same number of cells that
are not `BG`. -/
theorem count_row_upto_congr (g g' : Grid) (r r' : Int) :
    ∀ n : Nat, (∀ c : Int, 0 ≤ c → c < n → g r c = g' r' c) →
      count_row_upto g r n = count_row_upto g' r' n := by
  intro n
  induction n with
  | zero => intro _; rfl
  | succ n ih =>
    intro h
    simp only [count_row_upto]
    rw [ih (fun c h0 h1 => h c h0 (by push_cast; omega)),
      h n (by omega) (by push_cast; omega)]

/-- A row that is `BG` on the columns `[0, n)` has no cell that is not `BG`. -/
theorem count_row_upto_empty (g : Grid) (r : Int) :
    ∀ n : Nat, (∀ c : Int, 0 ≤ c → c < n → g r c = BG) → count_row_upto g r n = 0 := by
  intro n
  induction n with
  | zero => intro _; rfl
  | succ n ih =>
    intro h
    simp only [count_row_upto]
    rw [ih (fun c h0 h1 => h c h0 (by push_cast; omega)),
      if_neg (not_not.mpr (h n (by omega) (by push_cast; omega)))]

/-- A row with no `BG` cell on the columns `[0, n)` has `n` cells that are not
`BG`. -/
theorem count_row_upto_full (g : Grid) (r : Int) :
    ∀ n : Nat, (∀ c : Int, 0 ≤ c → c < n → g r c ≠ BG) → count_row_upto g r n = n := by
  intro n
  induction n with
  | zero => intro _; rfl
  | succ n ih =>
    intro h
    simp only [count_row_upto]
    rw [ih (fun c h0 h1 => h c h0 (by push_cast; omega)),
      if_pos (h n (by omega) (by push_cast; omega))]

/-- The rows `[0, m]` after `clear_row_field f k`, for `m ≤ k`, have as many cells
that are not `BG` as the rows `[0, m)` before. -/
theorem count_below_clear_le (f : Field) (k : Int) :
    ∀ m : Nat, (m : Int) ≤ k →
      count_below (clear_row_field f k) (m + 1) = count_below f m := by
  intro m
  induction m with
  | zero =>
    intro _
    simp only [count_below, zero_add]
    apply count_row_upto_empty
    intro c h0 h1
    rw [clear_row_field_grid, if_pos ⟨h0, h1⟩]
    simp
  | succ m ih =>
    intro hm
    rw [count_below, ih (by push_cast at hm; omega), count_below]
    congr 1
    apply count_row_upto_congr
    intro c h0 h1
    have hc : (clear_row_field f k).cols = f.cols := rfl
    rw [hc] at h1
    rw [clear_row_field_grid, if_pos ⟨h0, h1⟩, if_neg (by push_cast; omega),
      if_pos (by push_cast at hm ⊢; omega)]
    congr 1
    push_cast
    omega

/-- Clearing row `k` removes the cells of row `k` from the count over the rows
`[0, m)`, for `m > k`. -/
theorem count_below_clear (f : Field) (k : Int) (hk0 : 0 ≤ k) :
    ∀ m : Nat, k < (m : Int) →
      count_below (clear_row_field f k) m + count_row_upto f.grid k f.cols
        = count_below f m := by
  intro m
  induction m with
  | zero => intro h; simp at h; omega
  | succ m ih =>
    intro hm
    by_cases hlt : k < (m : Int)
    · rw [count_below, count_below, ← ih hlt]
      have : count_row_upto (clear_row_field f k).grid m (clear_row_field f k).cols
          = count_row_upto f.grid m f.cols := by
        apply count_row_upto_congr
        intro c h0 h1
        have hc : (clear_row_field f k).cols = f.cols := rfl
        rw [hc] at h1
        rw [clear_row_field_grid, if_pos ⟨h0, h1⟩, if_neg (by omega), if_neg (by omega)]
      rw [this]
      omega
    · have hkm : k = (m : Int) := by push_cast at hm; omega
      rw [count_below_clear_le f k m (by omega), count_below, hkm]

/-- Every primitive step keeps the relation between the level and the counter of
cleared rows. -/
theorem prim_levelInv (sh : Shapes) (g g' : Game) (hg : LevelInv g.level g.rows)
    (h : Prim sh g g') : LevelInv g'.level g'.rows := by
  cases h with
  | move _ dir hc => exact hg
  | rotate _ hc => exact hg
  | fix _ hc => exact hg
  | ghost fuel _ _ hopt hu =>
    obtain ⟨t, _, rfl⟩ := (update_ghost_run sh fuel g g').mp hu
    exact hg
  | pause => exact hg
  | resume => exact hg
  | restart_menu fuel _ g1 hi =>
    obtain ⟨h1, h2, _⟩ := init_game_stats sh fuel _ g1 hi
    show LevelInv g1.level g1.rows
    rw [h1, h2]
    simp [LevelInv]
  | restart_over fuel _ g1 hi =>
    obtain ⟨h1, h2, _⟩ := init_game_stats sh fuel _ g1 hi
    show LevelInv g1.level g1.rows
    rw [h1, h2]
    simp [LevelInv]
  | game_over _ hb hl => exact hg
  | land fuel _ p gd hb hl hp hd =>
    obtain ⟨⟨s1, s2, _⟩, _⟩ := drop_block_frame sh fuel _ gd hd
    show LevelInv gd.level gd.rows
    rw [s1, s2]
    exact levels_after_inv p.2 g.level g.rows hg

/-- The relation between the level and the counter of cleared rows holds in every
state of `game_loop`. -/
theorem loopReachable_levelInv (sh : Shapes) (l : Loop) (h : LoopReachable sh l) :
    LevelInv l.game.level l.game.rows :=
  loopReachable_induction sh (fun g => LevelInv g.level g.rows)
    (fun fuel _ g1 hi => by
      obtain ⟨h1, h2, _⟩ := init_game_stats sh fuel _ g1 hi
      show LevelInv g1.level g1.rows
      rw [h1, h2]
      simp [LevelInv])
    (prim_levelInv sh) l h

/-- The three outcomes of `timer_handler`: the move down, the game over, or the
cascade followed by `drop_block` and `start_timer`. -/
theorem timer_handler_cases (sh : Shapes) (fuel : Nat) (g g1 : Game)
    (h : timer_handler sh fuel g = some g1) :
    (can_move_block sh g.curr_block g.curr_field .DOWN = true ∧
      g1 = { g with
        curr_block := (move_block sh g.curr_block g.curr_field .DOWN).1,
        curr_field := (move_block sh g.curr_block g.curr_field .DOWN).2 }) ∨
    (can_move_block sh g.curr_block g.curr_field .DOWN = false ∧
      get_limit_low_block sh g.curr_block < 0 ∧
      g1 = { stop_timer g with status := GAME_OVER }) ∨
    (can_move_block sh g.curr_block g.curr_field .DOWN = false ∧
      0 ≤ get_limit_low_block sh g.curr_block ∧
      ∃ (p : Field × Nat) (gd : Game),
        field_cascade (get_limit_low_block sh g.curr_block)
          (get_limit_high_block sh g.curr_block) fuel g.curr_field = some p ∧
        drop_block sh fuel (after_cascade g p.1 p.2) = some gd ∧
        g1 = start_timer gd
          (INIT_VALUE_MILLIS - INTERVAL_REDUCTION_PER_LEVEL_MILLIS * (gd.level - 1))) := by
  by_cases hcan : can_move_block sh g.curr_block g.curr_field .DOWN = true
  · simp only [timer_handler, hcan, if_true, Option.some.injEq] at h
    exact Or.inl ⟨hcan, h.symm⟩
  · have hblocked : can_move_block sh g.curr_block g.curr_field .DOWN = false := by
      simpa using hcan
    by_cases hlow : get_limit_low_block sh g.curr_block < 0
    · have hlow' : get_limit_low_block sh (stop_timer g).curr_block < 0 := hlow
      simp only [timer_handler, hblocked, Bool.false_eq_true, if_false] at h
      rw [if_pos hlow'] at h
      simp only [Option.some.injEq] at h
      exact Or.inr (Or.inl ⟨hblocked, hlow, h.symm⟩)
    · rw [timer_handler_blocked sh fuel g hblocked (not_lt.mp hlow)] at h
      simp only [Option.bind_eq_some, Option.map_eq_some'] at h
      obtain ⟨p, hp, gd, hgd, rfl⟩ := h
      exact Or.inr (Or.inr ⟨hblocked, not_lt.mp hlow, p, gd, hp, hgd, rfl⟩)

/-- The ghost update of the key handlers keeps the status and the timer. -/
theorem ghost_sync_stats (sh : Shapes) (fuel : Nat) (g g1 : Game)
    (h : ghost_sync sh fuel g = some g1) :
    g1.status = g.status ∧ g1.tv_nsec = g.tv_nsec := by
  simp only [ghost_sync] at h
  split_ifs at h
  · obtain ⟨t, _, rfl⟩ := (update_ghost_run sh fuel g g1).mp h
    exact ⟨rfl, rfl⟩
  · simp only [Option.some.injEq] at h
    subst h
    exact ⟨rfl, rfl⟩

/-- A key pressed while the game is running keeps the status and the timer, except
the menu key, which stops the timer and then opens the menu. -/
theorem key_running_stats (sh : Shapes) (fuel : Nat) (k : Key) (l l' : Loop)
    (h : key_running sh fuel k l = some l') :
    (l'.game.status = l.game.status ∧ l'.game.tv_nsec = l.game.tv_nsec) ∨
    (k = .MENU ∧ l'.game = { stop_timer l.game with status := GAME_MENU }) := by
  cases k <;> simp only [key_running, Option.map_eq_some', Option.some.injEq] at h
  · obtain ⟨g1, hg, rfl⟩ := h
    simp only [key_up] at hg
    split_ifs at hg <;>
    · have hs := ghost_sync_stats sh fuel _ g1 hg
      exact Or.inl hs
  · obtain ⟨g1, hg, rfl⟩ := h
    simp only [key_move] at hg
    split_ifs at hg
    · have hs := ghost_sync_stats sh fuel _ g1 hg
      exact Or.inl hs
    · simp only [Option.some.injEq] at hg
      subst hg
      exact Or.inl ⟨rfl, rfl⟩
  · obtain ⟨g1, hg, rfl⟩ := h
    simp only [key_move] at hg
    split_ifs at hg
    · have hs := ghost_sync_stats sh fuel _ g1 hg
      exact Or.inl hs
    · simp only [Option.some.injEq] at hg
      subst hg
      exact Or.inl ⟨rfl, rfl⟩
  · obtain ⟨g1, hg, rfl⟩ := h
    simp only [key_move] at hg
    split_ifs at hg
    · have hs := ghost_sync_stats sh fuel _ g1 hg
      exact Or.inl hs
    · simp only [Option.some.injEq] at hg
      subst hg
      exact Or.inl ⟨rfl, rfl⟩
  · obtain ⟨g1, hg, rfl⟩ := h
    simp only [key_space, Option.bind_eq_some] at hg
    obtain ⟨s, _, hg⟩ := hg
    have hs := ghost_sync_stats sh fuel _ g1 hg
    exact Or.inl hs
  · subst h
    exact Or.inr ⟨rfl, rfl⟩
  · subst h
    exact Or.inl ⟨rfl, rfl⟩
  · subst h
    exact Or.inl ⟨rfl, rfl⟩

/-- The function `init_game` keeps the status. -/
theorem init_game_status (sh : Shapes) (fuel : Nat) (g g1 : Game)
    (h : init_game sh fuel g = some g1) : g1.status = g.status :=
  (init_game_fresh sh fuel g g1 h).2.2.2.1

/-- The timer is armed only while the game is running: one key keeps this
property. -/
theorem key_event_armed (sh : Shapes) (fuel : Nat) (k : Key) (l l' : Loop)
    (hl : l.game.tv_nsec ≠ 0 → l.game.status = GAME_RUNNING)
    (h : key_event sh fuel k l = some l') :
    l'.game.tv_nsec ≠ 0 → l'.game.status = GAME_RUNNING := by
  simp only [key_event] at h
  by_cases h1 : l.game.status = GAME_RUNNING
  · rw [if_pos h1] at h
    rcases key_running_stats sh fuel k l l' h with ⟨a, _⟩ | ⟨_, a⟩
    · exact fun _ => a.trans h1
    · rw [a]
      exact fun hne => absurd rfl hne
  · rw [if_neg h1] at h
    by_cases h2 : l.game.status = GAME_MENU
    · rw [if_pos h2] at h
      cases k with
      | RETURN =>
        simp only [key_menu] at h
        split_ifs at h
        · simp only [Option.some.injEq] at h
          subst h
          exact fun _ => rfl
        · simp only [Option.map_eq_some'] at h
          obtain ⟨g1, _, rfl⟩ := h
          exact fun _ => rfl
        · simp only [Option.some.injEq] at h
          subst h
          exact hl
        · simp only [Option.some.injEq] at h
          subst h
          exact hl
      | _ =>
        simp only [key_menu, Option.some.injEq] at h
        subst h
        exact hl
    · rw [if_neg h2] at h
      by_cases h3 : l.game.status = GAME_OVER
      · rw [if_pos h3] at h
        cases k with
        | RETURN =>
          simp only [key_game_over] at h
          split_ifs at h
          · simp only [Option.map_eq_some'] at h
            obtain ⟨g1, hg, rfl⟩ := h
            exact fun _ => init_game_status sh fuel _ g1 hg
          · simp only [Option.some.injEq] at h
            subst h
            exact hl
          · simp only [Option.some.injEq] at h
            subst h
            exact hl
        | _ =>
          simp only [key_game_over, Option.some.injEq] at h
          subst h
          exact hl
      · rw [if_neg h3] at h
        simp only [Option.some.injEq] at h
        subst h
        exact hl

/-- The timer is armed only while the game is running: one tick, which happens
only when the timer is armed, keeps this property. -/
theorem timer_handler_armed (sh : Shapes) (fuel : Nat) (g g1 : Game)
    (hs : g.status = GAME_RUNNING) (h : timer_handler sh fuel g = some g1) :
    g1.tv_nsec ≠ 0 → g1.status = GAME_RUNNING := by
  rcases timer_handler_cases sh fuel g g1 h with ⟨_, rfl⟩ | ⟨_, _, rfl⟩ | ⟨_, _, p, gd, _, hd, rfl⟩
  · exact fun _ => hs
  · exact fun hne => absurd rfl hne
  · obtain ⟨⟨_, _, _, s4, _⟩, _⟩ := drop_block_frame sh fuel _ gd hd
    exact fun _ => s4.trans hs

/-- In every state of `game_loop` the timer is armed only if the game is
running. -/
theorem loopReachable_armed (sh : Shapes) (l : Loop) (h : LoopReachable sh l) :
    l.game.tv_nsec ≠ 0 → l.game.status = GAME_RUNNING := by
  induction h with
  | start fuel g sel l h =>
    simp only [game_loop_start, Option.map_eq_some'] at h
    obtain ⟨g1, hg, rfl⟩ := h
    exact fun _ => init_game_status sh fuel _ g1 hg
  | key fuel k l l' _ _ h ih => exact key_event_armed sh fuel k l l' ih h
  | tick fuel l l' _ _ harmed h ih =>
    simp only [tick_event, Option.map_eq_some'] at h
    obtain ⟨g1, hg, rfl⟩ := h
    exact timer_handler_armed sh fuel _ g1 (ih harmed) hg

/-- A loop that moves a block down leaves it on its row or lower. -/
theorem fall_row_le (sh : Shapes) (cond : Block × Field → Bool) (fuel : Nat)
    (s t : Block × Field)
    (h : while_loop cond (fun s => move_block sh s.1 s.2 .DOWN) fuel s = some t) :
    s.1.row ≤ t.1.row :=
  (while_loop_inv cond (fun s => move_block sh s.1 s.2 .DOWN) (fun u => s.1.row ≤ u.1.row)
    (fun u hI _ => by
      have hI' : s.1.row ≤ u.1.row := hI
      show s.1.row ≤ u.1.row + 1
      omega) fuel s t (le_refl _) h).1

/-- The three parts of `drop_block`. -/
theorem drop_block_parts (sh : Shapes) (fuel : Nat) (g gd : Game)
    (h : drop_block sh fuel g = some gd) :
    ∃ g1 g2 : Game, drop_ghost sh fuel g = some g1 ∧ drop_curr sh fuel g1 = some g2 ∧
      gd = drop_next sh g2 ∧ g1.next_block = g.next_block ∧ g2.next_block = g.next_block ∧
      g1.rand = g.rand ∧ g2.rand = g.rand ∧ g2.next_field = g.next_field := by
  simp only [drop_block, Option.map_eq_some', Option.bind_eq_some] at h
  obtain ⟨g2, ⟨g1, h1, h2⟩, rfl⟩ := h
  obtain ⟨_, n1, _, f1, r1, _, _⟩ := drop_ghost_frame sh fuel g g1 h1
  obtain ⟨_, _, n2, _, f2, r2⟩ := drop_curr_frame sh fuel g1 g2 h2
  exact ⟨g1, g2, h1, h2, rfl, n1, n2.trans n1, r1, r2.trans r1, f2.trans f1⟩

/-- The current block that `drop_curr` positions is on the row `-BLOCK_MAX_SIZE` or
lower. -/
theorem drop_curr_row (sh : Shapes) (fuel : Nat) (g g1 : Game)
    (h : drop_curr sh fuel g = some g1) : -(BLOCK_MAX_SIZE : Int) ≤ g1.curr_block.row := by
  simp only [drop_curr, Option.map_eq_some'] at h
  obtain ⟨s, hs, rfl⟩ := h
  exact fall_row_le sh _ fuel _ s hs

/-- The next block after `drop_next` is the block drawn by `init_next_block`, which
depends on the random source only. -/
theorem drop_next_block (sh : Shapes) (g g2 : Game) (hr : g2.rand = g.rand) :
    (drop_next sh g2).next_block = (init_next_block g).next_block ∧
    (drop_next sh g2).rand = (init_next_block g).rand := by
  constructor
  · show init_block g2.next_block _ _ _ _ = init_block g.next_block _ _ _ _
    simp only [init_block, hr]
  · show (fun n => g2.rand (n + 2)) = fun n => g.rand (n + 2)
    rw [hr]

/-- The preview grid after `drop_next`: the tag of the next block on its cells and
`BG` elsewhere, on the rows and the columns of the preview field. -/
theorem drop_next_grid (sh : Shapes) (g2 : Game) (r c : Int) (h0 : 0 ≤ r)
    (h1 : r < g2.next_field.rows) (h2 : 0 ≤ c) (h3 : c < g2.next_field.cols) :
    (drop_next sh g2).next_field.grid r c
      = if (r, c) ∈ (drop_next sh g2).next_block.cells sh
        then (drop_next sh g2).next_block.type else BG := by
  have hgrid : (drop_next sh g2).next_field.grid
      = (clear_field g2.next_field).grid.fill ((drop_next sh g2).next_block.cells sh)
          (drop_next sh g2).next_block.mark := rfl
  rw [hgrid, Grid.fill_apply]
  by_cases hm : (r, c) ∈ (drop_next sh g2).next_block.cells sh
  · rw [if_pos ⟨hm, h0⟩, if_pos hm]
    rfl
  · rw [if_neg (fun h => hm h.1), if_neg hm, clear_field_grid, if_pos ⟨h0, h1, h2, h3⟩]

/-- The fold of `max` is below a bound exactly when all its arguments are. -/
theorem foldl_max_lt (a : Int) : ∀ (xs : List Int) (x : Int),
    xs.foldl max x < a ↔ x < a ∧ ∀ y ∈ xs, y < a := by
  intro xs
  induction xs with
  | nil => intro x; simp
  | cons z zs ih =>
    intro x
    simp only [List.foldl_cons, ih, List.mem_cons, forall_eq_or_imp, max_lt_iff]
    tauto

/-- The greatest element of a list without the empty case: it is below a bound
exactly when every element is. -/
theorem list_max_lt (d a : Int) (l : List Int) (hl : l ≠ []) :
    list_max d l < a ↔ ∀ y ∈ l, y < a := by
  cases l with
  | nil => exact absurd rfl hl
  | cons x xs =>
    simp only [list_max, foldl_max_lt, List.mem_cons, forall_eq_or_imp]

/-- The function `get_limit_high_block` is below a bound exactly when every cell of
the block is on a row below it. -/
theorem limit_high_lt (sh : Shapes) (b : Block) (a : Int) (hshape : sh b.type b.rot ≠ []) :
    get_limit_high_block sh b < a ↔ ∀ p ∈ b.cells sh, p.1 < a := by
  have hne : (b.cells sh).map Prod.fst ≠ [] := by
    simp only [Block.cells, ne_eq, List.map_eq_nil_iff]
    exact hshape
  simp only [get_limit_high_block, list_max_lt _ _ _ hne, List.mem_map]
  constructor
  · intro h p hp
    exact h p.1 ⟨p, hp, rfl⟩
  · rintro h y ⟨p, hp, rfl⟩
    exact h p hp

/-- Filling cells that are all above the grid changes nothing. -/
theorem Grid.fill_of_neg (g : Grid) (cells : List (Int × Int)) (v : Int)
    (h : ∀ p ∈ cells, p.1 < 0) : g.fill cells v = g := by
  funext r c
  rw [Grid.fill_apply, if_neg]
  intro hm
  have := h (r, c) hm.1
  simp only at this
  omega

/-- Writing the block on the field does not change what `can_move_block` answers
for it. -/
theorem can_move_write_block (sh : Shapes) (b : Block) (f : Field) (dir : Direction) :
    can_move_block sh b (write_block sh b f) dir = can_move_block sh b f dir := by
  apply can_move_congr sh b f (write_block sh b f) rfl rfl
  have : base sh b (write_block sh b f).grid = base sh b f.grid := by
    simp only [base, write_block]
    exact Grid.fill_fill _ _ _ _
  rw [this]
  exact ghostEq_refl _

/-- The state in which the spawn loop of `drop_block` ends: the loop condition is
false. -/
theorem drop_curr_exit (sh : Shapes) (fuel : Nat) (g g1 : Game)
    (h : drop_curr sh fuel g = some g1) :
    0 ≤ get_limit_high_block sh g1.curr_block ∨
      can_move_block sh g1.curr_block g1.curr_field .DOWN = false := by
  simp only [drop_curr, Option.map_eq_some'] at h
  obtain ⟨s, hs, rfl⟩ := h
  obtain ⟨_, hexit⟩ := fall_exit sh _ _ _ fuel s hs
  simp only [Bool.and_eq_false_iff, decide_eq_false_iff_not, not_lt] at hexit
  rcases hexit with h1 | h1
  · exact Or.inl h1
  · right
    show can_move_block sh s.1 (write_block sh s.1 s.2) .DOWN = false
    rw [can_move_write_block]
    exact h1

/-- On a field whose row 0 is free, the spawn loop of `drop_block` ends with the
lowest cell of the block on row 0. -/
theorem drop_curr_high (sh : Shapes) (hv : sh.valid) (fuel : Nat) (g g1 : Game)
    (hnext : ValidBlock g.next_block) (hc : g.curr_field.cols = COLUMNS)
    (hr : 1 ≤ g.curr_field.rows)
    (hfree : ∀ c : Int, 0 ≤ c → c < g.curr_field.cols → passable (g.curr_field.grid 0 c))
    (h : drop_curr sh fuel g = some g1) :
    get_limit_high_block sh g1.curr_block = 0 := by
  simp only [drop_curr, Option.map_eq_some'] at h
  obtain ⟨s, hs, rfl⟩ := h
  show get_limit_high_block sh s.1 = 0
  obtain ⟨hne, _, hoff⟩ := hv _ _ hnext.1 hnext.2.1 hnext.2.2.1 hnext.2.2.2
  have hstart : InBounds sh
      (init_block g.curr_block g.next_block.type g.next_block.rot
        (-(BLOCK_MAX_SIZE : Int)) ((COLUMNS / 2 : Nat) : Int)) g.curr_field :=
    spawn_inBounds sh hv _ _ hnext rfl rfl hc
  have hinv := while_loop_inv
    (fun s : Block × Field =>
      decide (get_limit_high_block sh s.1 < 0) && can_move_block sh s.1 s.2 .DOWN)
    (fun s => move_block sh s.1 s.2 .DOWN)
    (fun u => FallInv
        (init_block g.curr_block g.next_block.type g.next_block.rot
          (-(BLOCK_MAX_SIZE : Int)) ((COLUMNS / 2 : Nat) : Int)) g.curr_field u ∧
      InBounds sh u.1 u.2 ∧
      (∀ p ∈ u.1.cells sh, p.1 < 1) ∧
      ((∀ p ∈ u.1.cells sh, p.1 < 0) → u.2.grid = g.curr_field.grid))
    (fun u hI hcond => by
      obtain ⟨hF, hin, hle, hgrid⟩ := hI
      simp only [Bool.and_eq_true, decide_eq_true_eq] at hcond
      have hF' := fallInv_step sh _ _ u hF
      have hshape : sh u.1.type u.1.rot ≠ [] := by rw [hF.1, hF.2.1]; exact hne
      have hneg := (limit_high_lt sh u.1 0 hshape).mp hcond.1
      have hcells : ∀ p, p ∈ (move_block sh u.1 u.2 .DOWN).1.cells sh ↔
          ∃ q ∈ u.1.cells sh, (q.1 + 1, q.2) = p := by
        intro p
        rw [move_block_fst, cells_translate, List.mem_map]
        simp only [Direction.drow, Direction.dcol, add_zero]
      refine ⟨hF', can_move_inBounds sh u.1 u.2 .DOWN hcond.2, ?_, ?_⟩
      · intro p hp
        obtain ⟨q, hq, rfl⟩ := (hcells p).mp hp
        have := hneg q hq
        show q.1 + 1 < 1
        omega
      · intro hall
        show (update_block sh u.1 u.2 _ _ _).2.grid = g.curr_field.grid
        rw [update_block_grid]
        exact (Grid.fill_of_neg _ _ _ hall).trans
          ((Grid.fill_of_neg _ _ _ hneg).trans (hgrid hneg)))
    fuel _ s
    ⟨⟨rfl, rfl, rfl, rfl, rfl, rfl⟩, hstart, by
      intro p hp
      simp only [Block.cells, init_block, List.mem_map] at hp
      obtain ⟨d, hd, rfl⟩ := hp
      obtain ⟨_, d2, _, _⟩ := hoff d hd
      simp only [BLOCK_MAX_SIZE]
      omega, fun _ => rfl⟩ hs
  obtain ⟨⟨hF, hin, hle, hgrid⟩, hexit⟩ := hinv
  have hshape : sh s.1.type s.1.rot ≠ [] := by rw [hF.1, hF.2.1]; exact hne
  have hle0 : get_limit_high_block sh s.1 < 1 := (limit_high_lt sh s.1 1 hshape).mpr hle
  by_contra hne0
  have hlt : get_limit_high_block sh s.1 < 0 := by omega
  have hneg := (limit_high_lt sh s.1 0 hshape).mp hlt
  have hcan : can_move_block sh s.1 s.2 .DOWN = true := by
    rw [can_move_iff]
    intro p hp
    rw [cell_free_iff]
    obtain ⟨b1, b2, _⟩ := hin p hp
    have hp0 := hneg p hp
    simp only [Direction.drow, Direction.dcol, add_zero]
    refine ⟨b1, b2, ?_, ?_⟩
    · rw [hF.2.2.2.2.1]
      have : (1 : Int) ≤ (g.curr_field.rows : Int) := by exact_mod_cast hr
      omega
    · by_cases h0 : p.1 + 1 < 0
      · exact Or.inl h0
      · right; left
        have hp1 : p.1 + 1 = 0 := by omega
        rw [hp1, hgrid hneg]
        exact hfree p.2 b1 (by rw [← hF.2.2.2.2.2]; exact b2)
  simp only [Bool.and_eq_false_iff, decide_eq_false_iff_not, not_lt] at hexit
  rcases hexit with h1 | h1
  · omega
  · rw [hcan] at h1
    exact Bool.noConfusion h1

/-- The feasibility of the kick by one step, as a proposition. -/
theorem kick1_iff (sh : Shapes) (dir : Direction) (s : Block × Field) :
    kick1 sh dir s = true ↔ probe1 sh dir s := by
  simp only [kick1, probe1, Bool.and_eq_true]

/-- The feasibility of the kick by two steps, as a proposition. -/
theorem kick2_iff (sh : Shapes) (dir : Direction) (s : Block × Field) :
    kick2 sh dir s = true ↔ probe2 sh dir s := by
  simp only [kick2, probe2, Bool.and_eq_true, Bool.not_eq_true', and_assoc]

/-- A half of `fix_block_position` does nothing when the first step is not
feasible. -/
theorem fix_half_blocked (sh : Shapes) (dir : Direction) (s : Block × Field)
    (h : can_move_block sh s.1 s.2 dir = false) : fix_half sh dir s = s := by
  simp only [fix_half, h, Bool.false_eq_true, if_false]

/-- Filling the same cells with the same tag keeps a faded copy. -/
theorem fades_fill_same {E X : Grid} (h : Fades E X) (cells : List (Int × Int)) (v : Int) :
    Fades (E.fill cells v) (X.fill cells v) := by
  intro r c
  rw [Grid.fill_apply, Grid.fill_apply]
  split_ifs
  · exact Or.inl rfl
  · exact h r c

/-- The grid after a rotation, compared with the grid after one `update_block` of
a block of the same tag to the same position from a reference state: each cell is
the same, or holds `BG` where the reference holds a passable tag. -/
theorem rotate_fades (sh : Shapes) (s u : Block × Field) (nr nw nc : Int)
    (hF : Fades (base sh s.1 s.2.grid) (base sh u.1 u.2.grid))
    (hmark : u.1.mark = s.1.mark)
    (hpos : (rotate_block sh u.1 u.2).1 = (update_block sh s.1 s.2 nr nw nc).1) :
    Fades (update_block sh s.1 s.2 nr nw nc).2.grid (rotate_block sh u.1 u.2).2.grid := by
  have h1 : (rotate_block sh u.1 u.2).2.grid
      = (base sh u.1 u.2.grid).fill ((rotate_block sh u.1 u.2).1.cells sh) u.1.mark := rfl
  have h2 : (update_block sh s.1 s.2 nr nw nc).2.grid
      = (base sh s.1 s.2.grid).fill ((update_block sh s.1 s.2 nr nw nc).1.cells sh)
          s.1.mark := rfl
  rw [h1, h2, hpos, hmark]
  exact fades_fill_same hF _ _

/-- The function `fix_block_position` when its probes give no feasible rotation:
the block is the one of before, and each cell of the grid holds the tag of before
or `BG` where it held a passable tag. -/
theorem fix_fail_fades (sh : Shapes) (s : Block × Field) (hmark : Marked sh s)
    (hl1 : ¬ probe1 sh .LEFT s) (hl2 : ¬ probe2 sh .LEFT s)
    (hr1 : ¬ probe1 sh .RIGHT s) (hr2 : ¬ probe2 sh .RIGHT s) :
    (fix_block_position sh s).1 = s.1 ∧
    (fix_block_position sh s).2.rows = s.2.rows ∧
    (fix_block_position sh s).2.cols = s.2.cols ∧
    Fades s.2.grid (fix_block_position sh s).2.grid := by
  have hcells : ∀ p ∈ s.1.cells sh, 0 ≤ p.1 → passable (base sh s.1 s.2.grid p.1 p.2) :=
    fun p hp h0 => base_own sh s.1 s.2.grid p hp h0
  have hb1 := fix_half_fail_fst sh .LEFT (Or.inl rfl) s hl1 hl2
  have hF1 := fix_half_fail_fades sh .LEFT (Or.inl rfl) _ s (fades_refl _) hcells hl1 hl2
  have hd1 := fix_half_dims sh .LEFT s
  have hal : Alike sh s (fix_half sh .LEFT s) := ⟨hb1, hd1.1, hd1.2, fades_ghostEq hF1⟩
  have hr1' : ¬ probe1 sh .RIGHT (fix_half sh .LEFT s) :=
    fun h => hr1 ((probe1_alike sh .RIGHT s _ hal).mp h)
  have hr2' : ¬ probe2 sh .RIGHT (fix_half sh .LEFT s) :=
    fun h => hr2 ((probe2_alike sh .RIGHT s _ hal).mp h)
  have hb2 := fix_half_fail_fst sh .RIGHT (Or.inr rfl) _ hr1' hr2'
  have hF2 := fix_half_fail_fades sh .RIGHT (Or.inr rfl) _ _ hF1
    (by rw [hb1]; exact hcells) hr1' hr2'
  have hd2 := fix_half_dims sh .RIGHT (fix_half sh .LEFT s)
  have hmk := fix_half_marked sh .RIGHT _ (fix_half_marked sh .LEFT s hmark)
  have hfix : fix_block_position sh s = fix_half sh .RIGHT (fix_half sh .LEFT s) := rfl
  rw [hfix]
  refine ⟨hb2.trans hb1, hd2.1.trans hd1.1, hd2.2.trans hd1.2, ?_⟩
  intro r c
  by_cases hm : (r, c) ∈ s.1.cells sh ∧ 0 ≤ r
  · left
    have h1 := hmk (r, c) (by rw [hb2, hb1]; exact hm.1) hm.2
    rw [hb2, hb1] at h1
    exact h1.trans (hmark (r, c) hm.1 hm.2).symm
  · have h1 := hF2 r c
    rw [hb2, hb1] at h1
    simp only [base, Grid.fill_apply, if_neg hm] at h1
    exact h1

/-- The result of a successful kick by one step, compared with one `update_block`
from a reference state with the same block: the same block, and a grid that holds
the same tags, or `BG` where the reference holds a passable tag. -/
theorem kick1_result (sh : Shapes) (s0 s : Block × Field) (dir : Direction)
    (hdir : dir = .LEFT ∨ dir = .RIGHT)
    (hE : Fades (base sh s0.1 s0.2.grid) (base sh s.1 s.2.grid)) (hb : s.1 = s0.1)
    (hp : probe1 sh dir s) :
    (rotate_block sh (move_block sh s.1 s.2 dir).1 (move_block sh s.1 s.2 dir).2).1
      = (update_block sh s0.1 s0.2 ((s0.1.rot + 1) % 4) s0.1.row (s0.1.col + dir.dcol)).1 ∧
    Fades (update_block sh s0.1 s0.2 ((s0.1.rot + 1) % 4) s0.1.row (s0.1.col + dir.dcol)).2.grid
      (rotate_block sh (move_block sh s.1 s.2 dir).1 (move_block sh s.1 s.2 dir).2).2.grid := by
  have hblock : (rotate_block sh (move_block sh s.1 s.2 dir).1 (move_block sh s.1 s.2 dir).2).1
      = (update_block sh s0.1 s0.2 ((s0.1.rot + 1) % 4) s0.1.row (s0.1.col + dir.dcol)).1 := by
    rw [kick1_block sh s dir hdir, hb]
    rfl
  refine ⟨hblock, ?_⟩
  have hF1 := fades_move_to sh _ s.1 s.2 dir hE (move_cells_passable sh _ s.1 s.2 dir hE hp.1)
  exact rotate_fades sh s0 (move_block sh s.1 s.2 dir) _ _ _ hF1
    (by show s.1.mark = s0.1.mark; rw [hb]) hblock

/-- The result of a successful kick by two steps, compared with one `update_block`
from a reference state with the same block. -/
theorem kick2_result (sh : Shapes) (s0 s : Block × Field) (dir : Direction)
    (hdir : dir = .LEFT ∨ dir = .RIGHT)
    (hE : Fades (base sh s0.1 s0.2.grid) (base sh s.1 s.2.grid)) (hb : s.1 = s0.1)
    (hp : probe2 sh dir s) :
    (rotate_block sh
        (move_block sh (move_block sh s.1 s.2 dir).1 (move_block sh s.1 s.2 dir).2 dir).1
        (move_block sh (move_block sh s.1 s.2 dir).1 (move_block sh s.1 s.2 dir).2 dir).2).1
      = (update_block sh s0.1 s0.2 ((s0.1.rot + 1) % 4) s0.1.row
          (s0.1.col + 2 * dir.dcol)).1 ∧
    Fades
      (update_block sh s0.1 s0.2 ((s0.1.rot + 1) % 4) s0.1.row (s0.1.col + 2 * dir.dcol)).2.grid
      (rotate_block sh
        (move_block sh (move_block sh s.1 s.2 dir).1 (move_block sh s.1 s.2 dir).2 dir).1
        (move_block sh (move_block sh s.1 s.2 dir).1 (move_block sh s.1 s.2 dir).2 dir).2).2.grid
      := by
  have hblock : (rotate_block sh
        (move_block sh (move_block sh s.1 s.2 dir).1 (move_block sh s.1 s.2 dir).2 dir).1
        (move_block sh (move_block sh s.1 s.2 dir).1 (move_block sh s.1 s.2 dir).2 dir).2).1
      = (update_block sh s0.1 s0.2 ((s0.1.rot + 1) % 4) s0.1.row
          (s0.1.col + 2 * dir.dcol)).1 := by
    rw [kick2_block sh s dir hdir, hb]
    rfl
  refine ⟨hblock, ?_⟩
  have hF1 := fades_move_to sh _ s.1 s.2 dir hE (move_cells_passable sh _ s.1 s.2 dir hE hp.1)
  have hF2 := fades_move_to sh _ _ _ dir hF1
    (move_cells_passable sh _ _ _ dir hF1 hp.2.2.1)
  exact rotate_fades sh s0
    (move_block sh (move_block sh s.1 s.2 dir).1 (move_block sh s.1 s.2 dir).2 dir) _ _ _ hF2
    (by show s.1.mark = s0.1.mark; rw [hb]) hblock

/-- The block that the specification of `fix_block_position` gives: the block of
before, or the block rotated once at the column offset -1, -2, 1 or 2. -/
theorem fix_spec_block (sh : Shapes) (s : Block × Field) :
    (fix_block_position_spec sh s).1 = s.1 ∨
    ∃ dc : Int, (dc = -1 ∨ dc = -2 ∨ dc = 1 ∨ dc = 2) ∧
      (fix_block_position_spec sh s).1
        = { s.1 with rot := (s.1.rot + 1) % 4, row := s.1.row, col := s.1.col + dc } := by
  simp only [fix_block_position_spec, kick_offset_spec]
  split_ifs
  · exact Or.inr ⟨-1, Or.inl rfl, rfl⟩
  · exact Or.inr ⟨-2, Or.inr (Or.inl rfl), rfl⟩
  · exact Or.inr ⟨1, Or.inr (Or.inr (Or.inl rfl)), rfl⟩
  · exact Or.inr ⟨2, Or.inr (Or.inr (Or.inr rfl)), rfl⟩
  · exact Or.inl rfl

/-- The specification of `fix_block_position` keeps the dimensions of the
field. -/
theorem fix_spec_dims (sh : Shapes) (s : Block × Field) :
    (fix_block_position_spec sh s).2.rows = s.2.rows ∧
    (fix_block_position_spec sh s).2.cols = s.2.cols := by
  simp only [fix_block_position_spec, kick_offset_spec]
  split_ifs <;> exact ⟨rfl, rfl⟩

/-- The function `fix_block_position` against its specification: the same block,
and a grid that holds the same tags, or `BG` where the grid of the specification
holds a passable tag. -/
theorem fix_refines_core (sh : Shapes) (s : Block × Field)
    (hrot : can_rotate_block sh s.1 s.2 = false) (hmark : Marked sh s) :
    (fix_block_position sh s).1 = (fix_block_position_spec sh s).1 ∧
    Fades (fix_block_position_spec sh s).2.grid (fix_block_position sh s).2.grid := by
  have hfix : fix_block_position sh s = fix_half sh .RIGHT (fix_half sh .LEFT s) := rfl
  have hk1 : ∀ dir, kick1 sh dir s = true ↔ probe1 sh dir s := fun dir => kick1_iff sh dir s
  have hk2 : ∀ dir, kick2 sh dir s = true ↔ probe2 sh dir s := fun dir => kick2_iff sh dir s
  by_cases hl1 : probe1 sh .LEFT s
  · -- left by one
    have hspec : fix_block_position_spec sh s
        = update_block sh s.1 s.2 ((s.1.rot + 1) % 4) s.1.row (s.1.col + -1) := by
      simp only [fix_block_position_spec, kick_offset_spec, (hk1 .LEFT).mpr hl1, if_true]
    have hleft := fix_half_probe1 sh .LEFT s hl1
    have hback := no_step_back sh s .LEFT (Or.inl rfl) hrot hl1.1 hl1.2
    have hright := fix_half_blocked sh .RIGHT _ hback
    rw [hfix, hleft, hright, hspec]
    exact kick1_result sh s s .LEFT (Or.inl rfl) (fades_refl _) rfl hl1
  · have hn1 : kick1 sh .LEFT s = false :=
      Bool.eq_false_iff.mpr (fun h => hl1 ((hk1 .LEFT).mp h))
    by_cases hl2 : probe2 sh .LEFT s
    · -- left by two
      have hspec : fix_block_position_spec sh s
          = update_block sh s.1 s.2 ((s.1.rot + 1) % 4) s.1.row (s.1.col + -2) := by
        simp only [fix_block_position_spec, kick_offset_spec, hn1, (hk2 .LEFT).mpr hl2,
          Bool.false_eq_true, if_false, if_true]
      have hleft := fix_half_probe2 sh .LEFT s hl2
      have hback := no_step_back sh (move_block sh s.1 s.2 .LEFT) .LEFT (Or.inl rfl)
        hl2.2.1 hl2.2.2.1 hl2.2.2.2
      have hright := fix_half_blocked sh .RIGHT _ hback
      rw [hfix, hleft, hright, hspec]
      exact kick2_result sh s s .LEFT (Or.inl rfl) (fades_refl _) rfl hl2
    · have hn2 : kick2 sh .LEFT s = false :=
        Bool.eq_false_iff.mpr (fun h => hl2 ((hk2 .LEFT).mp h))
      -- the left half fails and gives back the block
      have hcells : ∀ p ∈ s.1.cells sh, 0 ≤ p.1 → passable (base sh s.1 s.2.grid p.1 p.2) :=
        fun p hp h0 => base_own sh s.1 s.2.grid p hp h0
      have hb1 := fix_half_fail_fst sh .LEFT (Or.inl rfl) s hl1 hl2
      have hF1 := fix_half_fail_fades sh .LEFT (Or.inl rfl) _ s (fades_refl _) hcells hl1 hl2
      have hd1 := fix_half_dims sh .LEFT s
      have hal : Alike sh s (fix_half sh .LEFT s) := ⟨hb1, hd1.1, hd1.2, fades_ghostEq hF1⟩
      by_cases hr1 : probe1 sh .RIGHT s
      · have hspec : fix_block_position_spec sh s
            = update_block sh s.1 s.2 ((s.1.rot + 1) % 4) s.1.row (s.1.col + 1) := by
          simp only [fix_block_position_spec, kick_offset_spec, hn1, hn2,
            (hk1 .RIGHT).mpr hr1, Bool.false_eq_true, if_false, if_true]
        have hr1' := (probe1_alike sh .RIGHT s _ hal).mpr hr1
        rw [hfix, fix_half_probe1 sh .RIGHT _ hr1', hspec]
        exact kick1_result sh s _ .RIGHT (Or.inr rfl) hF1 hb1 hr1'
      · have hn3 : kick1 sh .RIGHT s = false :=
          Bool.eq_false_iff.mpr (fun h => hr1 ((hk1 .RIGHT).mp h))
        by_cases hr2 : probe2 sh .RIGHT s
        · have hspec : fix_block_position_spec sh s
              = update_block sh s.1 s.2 ((s.1.rot + 1) % 4) s.1.row (s.1.col + 2) := by
            simp only [fix_block_position_spec, kick_offset_spec, hn1, hn2, hn3,
              (hk2 .RIGHT).mpr hr2, Bool.false_eq_true, if_false, if_true]
          have hr2' := (probe2_alike sh .RIGHT s _ hal).mpr hr2
          rw [hfix, fix_half_probe2 sh .RIGHT _ hr2', hspec]
          exact kick2_result sh s _ .RIGHT (Or.inr rfl) hF1 hb1 hr2'
        · have hn4 : kick2 sh .RIGHT s = false :=
            Bool.eq_false_iff.mpr (fun h => hr2 ((hk2 .RIGHT).mp h))
          have hspec : fix_block_position_spec sh s = s := by
            simp only [fix_block_position_spec, kick_offset_spec, hn1, hn2, hn3, hn4,
              Bool.false_eq_true, if_false]
          obtain ⟨a1, _, _, a4⟩ := fix_fail_fades sh s hmark hl1 hl2 hr1 hr2
          rw [hspec]
          exact ⟨a1, a4⟩

/-- A faded copy of a grid is the grid itself: a passable tag is `BG`. -/
theorem fades_eq {g g' : Grid} (h : Fades g g') : g' = g := by
  funext r c
  rcases h r c with h1 | ⟨h1, h2⟩
  · exact h1
  · exact h2.trans (show g r c = BG from h1).symm

/-- When each handler runs to its end before the next one starts (the states of
`LoopReachable`), with a valid geometry table, every call of `move_block` or
`rotate_block` that the controller makes for a key, for a tick of the timer or at
the start of `game_loop` is made in a state in which `can_move_block` for that
direction, respectively `can_rotate_block`, returns true; the calls listed for
`fix_block_position` include its moves back, which the code makes without a
test. -/
theorem whole_handler_calls_ok (sh : Shapes) (hv : sh.valid) (l : Loop) (h : LoopReachable sh l) :
    (∀ (fuel : Nat) (k : Key), ∀ c ∈ key_event_calls sh fuel k l, call_ok sh c = true) ∧
    (∀ fuel : Nat, ∀ c ∈ tick_event_calls sh fuel l, call_ok sh c = true) ∧
    (∀ (fuel : Nat) (g : Game), ∀ c ∈ game_loop_start_calls sh fuel g, call_ok sh c = true) ∧
    (∀ c ∈ fix_block_position_calls sh (l.game.curr_block, l.game.curr_field),
      call_ok sh c = true) := by
  obtain ⟨_, _, hin, _, _⟩ := loopReachable_gameInv sh hv l h
  refine ⟨?_, ?_, ?_, fix_block_position_calls_ok sh _ hin⟩
  · intro fuel k c hc
    simp only [key_event_calls] at hc
    by_cases h1 : l.game.status = GAME_RUNNING
    · rw [if_pos h1] at hc
      cases k <;> simp only [List.not_mem_nil] at hc
      · exact key_up_calls_ok sh fuel l.game hin c hc
      · exact key_move_calls_ok sh fuel _ l.game c hc
      · exact key_move_calls_ok sh fuel _ l.game c hc
      · exact key_move_calls_ok sh fuel _ l.game c hc
      · exact key_space_calls_ok sh fuel l.game c hc
    · rw [if_neg h1] at hc
      by_cases h2 : l.game.status = GAME_MENU
      · rw [if_pos h2] at hc
        cases k <;> simp only [List.not_mem_nil] at hc
        split_ifs at hc
        · simp at hc
        · exact drop_block_calls_ok sh fuel _ c hc
        · simp at hc
      · rw [if_neg h2] at hc
        by_cases h3 : l.game.status = GAME_OVER
        · rw [if_pos h3] at hc
          cases k <;> simp only [List.not_mem_nil] at hc
          split_ifs at hc
          · exact drop_block_calls_ok sh fuel _ c hc
          · simp at hc
        · rw [if_neg h3] at hc
          simp at hc
  · intro fuel c hc
    exact timer_handler_calls_ok sh fuel l.game c hc
  · intro fuel g c hc
    exact drop_block_calls_ok sh fuel _ c hc

/-- An `update_block` keeps the rows above the block not completed when every row
above the new position is above the old one or holds a cell of the old one. -/
theorem topInv_update (sh : Shapes) (b : Block) (f : Field) (nr nw nc : Int)
    (hT : TopInv sh b f)
    (hcond : ∀ r : Int, 0 ≤ r →
      (∀ p ∈ Block.cells sh { b with rot := nr, row := nw, col := nc }, r < p.1) →
      (∀ p ∈ b.cells sh, r < p.1) ∨ ∃ c : Int, (r, c) ∈ b.cells sh ∧ 0 ≤ c ∧ c < f.cols) :
    TopInv sh (update_block sh b f nr nw nc).1 (update_block sh b f nr nw nc).2 := by
  intro r h0 habove hcomp
  have habove' : ∀ p ∈ Block.cells sh { b with rot := nr, row := nw, col := nc }, r < p.1 :=
    habove
  have hgrid : ∀ c : Int, (update_block sh b f nr nw nc).2.grid r c
      = (f.grid.fill (b.cells sh) BG) r c := by
    intro c
    rw [update_block_grid, Grid.fill_apply,
      if_neg (fun h => lt_irrefl r (habove' (r, c) h.1))]
  rcases hcond r h0 habove' with h1 | ⟨c, hc, hc0, hc1⟩
  · apply hT r h0 h1
    intro c hc0 hc1
    have h2 := hcomp c hc0 hc1
    rw [hgrid, Grid.fill_apply, if_neg (fun h => lt_irrefl r (h1 (r, c) h.1))] at h2
    exact h2
  · have h2 := hcomp c hc0 hc1
    rw [hgrid, Grid.fill_apply, if_pos ⟨hc, h0⟩] at h2
    exact h2 rfl

/-- A move to the left or to the right keeps the rows above the block not
completed. -/
theorem topInv_move_lateral (sh : Shapes) (b : Block) (f : Field) (dir : Direction)
    (hdir : dir = .LEFT ∨ dir = .RIGHT) (hT : TopInv sh b f) :
    TopInv sh (move_block sh b f dir).1 (move_block sh b f dir).2 := by
  apply topInv_update sh b f _ _ _ hT
  intro r _ habove
  left
  intro p hp
  rw [cells_translate sh b dir.drow dir.dcol] at habove
  have h := habove (p.1 + dir.drow, p.2 + dir.dcol) (List.mem_map.2 ⟨p, hp, rfl⟩)
  have hd : dir.drow = 0 := by rcases hdir with rfl | rfl <;> rfl
  simp only [hd, add_zero] at h
  exact h

/-- A move down of a block that is inside the field keeps the rows above the block
not completed: the cells that the block leaves on its first row are `BG`. -/
theorem topInv_move_down (sh : Shapes) (b : Block) (f : Field) (hT : TopInv sh b f)
    (hin : InBounds sh b f) :
    TopInv sh (move_block sh b f .DOWN).1 (move_block sh b f .DOWN).2 := by
  apply topInv_update sh b f _ _ _ hT
  intro r _ habove
  by_cases hall : ∀ p ∈ b.cells sh, r < p.1
  · exact Or.inl hall
  · right
    push_neg at hall
    obtain ⟨p, hp, hle⟩ := hall
    rw [cells_translate sh b Direction.DOWN.drow Direction.DOWN.dcol] at habove
    have h := habove (p.1 + Direction.DOWN.drow, p.2 + Direction.DOWN.dcol)
      (List.mem_map.2 ⟨p, hp, rfl⟩)
    simp only [Direction.drow] at h
    have he : p.1 = r := by omega
    obtain ⟨c0, c1, _⟩ := hin p hp
    refine ⟨p.2, ?_, c0, c1⟩
    rw [← he]
    exact hp

/-- A rotation of a block that is inside the field keeps the rows above the block
not completed, when each piece has a cell on every row from its first row to the
row of its anchor. -/
theorem topInv_rotate (sh : Shapes) (ha : sh.anchored) (b : Block) (f : Field)
    (hb : ValidBlock b) (hT : TopInv sh b f) (hin : InBounds sh b f) :
    TopInv sh (rotate_block sh b f).1 (rotate_block sh b f).2 := by
  apply topInv_update sh b f _ _ _ hT
  intro r _ habove
  obtain ⟨t1, t2, r1, r2⟩ := hb
  obtain ⟨⟨d0, hd0, hz⟩, _⟩ := ha b.type ((b.rot + 1) % 4) t1 t2 (by omega) (by omega)
  have hrow : r < b.row := by
    have h := habove (b.row + d0.1, b.col + d0.2) (by
      rw [cells_rotate, List.mem_map]
      exact ⟨d0, hd0, rfl⟩)
    simp only [hz, add_zero] at h
    exact h
  by_cases hall : ∀ p ∈ b.cells sh, r < p.1
  · exact Or.inl hall
  · right
    push_neg at hall
    obtain ⟨p, hp, hle⟩ := hall
    simp only [Block.cells, List.mem_map] at hp
    obtain ⟨d, hd, rfl⟩ := hp
    simp only at hle
    obtain ⟨e, he, hk⟩ := (ha b.type b.rot t1 t2 r1 r2).2 d hd (r - b.row) (by omega) (by omega)
    have hmem : (b.row + e.1, b.col + e.2) ∈ b.cells sh := List.mem_map.2 ⟨e, he, rfl⟩
    obtain ⟨c0, c1, _⟩ := hin _ hmem
    refine ⟨b.col + e.2, ?_, c0, c1⟩
    have : r = b.row + e.1 := by omega
    rw [this]
    exact hmem

/-- A move keeps the type and the rotation of a block valid. -/
theorem validBlock_move (sh : Shapes) (b : Block) (f : Field) (dir : Direction)
    (hb : ValidBlock b) : ValidBlock (move_block sh b f dir).1 := hb

/-- A rotation keeps the type and the rotation of a block valid. -/
theorem validBlock_rotate (sh : Shapes) (b : Block) (f : Field) (hb : ValidBlock b) :
    ValidBlock (rotate_block sh b f).1 := by
  obtain ⟨t1, t2, r1, r2⟩ := hb
  refine ⟨t1, t2, ?_, ?_⟩
  · show 0 ≤ (b.rot + 1) % 4
    omega
  · show (b.rot + 1) % 4 < 4
    omega

/-- A half of `fix_block_position` keeps the type and the rotation of the block
valid and the rows above the block not completed. -/
theorem topInv_fix_half (sh : Shapes) (ha : sh.anchored) (dir : Direction)
    (hdir : dir = .LEFT ∨ dir = .RIGHT) (s : Block × Field) (hb : ValidBlock s.1)
    (hT : TopInv sh s.1 s.2) :
    ValidBlock (fix_half sh dir s).1 ∧ TopInv sh (fix_half sh dir s).1 (fix_half sh dir s).2 := by
  have hopp : dir.opp = .LEFT ∨ dir.opp = .RIGHT := by
    rcases hdir with rfl | rfl
    · exact Or.inr rfl
    · exact Or.inl rfl
  have hT1 := topInv_move_lateral sh s.1 s.2 dir hdir hT
  have hb1 := validBlock_move sh s.1 s.2 dir hb
  have hT2 := topInv_move_lateral sh _ _ dir hdir hT1
  have hb2 := validBlock_move sh (move_block sh s.1 s.2 dir).1 (move_block sh s.1 s.2 dir).2
    dir hb1
  simp only [fix_half]
  split_ifs with c1 c2 c3 c4
  · exact ⟨validBlock_rotate sh _ _ hb1,
      topInv_rotate sh ha _ _ hb1 hT1 (can_move_inBounds sh _ _ dir c1)⟩
  · exact ⟨validBlock_rotate sh _ _ hb2,
      topInv_rotate sh ha _ _ hb2 hT2 (can_move_inBounds sh _ _ dir c3)⟩
  · exact ⟨hb, topInv_move_lateral sh _ _ dir.opp hopp
      (topInv_move_lateral sh _ _ dir.opp hopp hT2)⟩
  · exact ⟨hb, topInv_move_lateral sh _ _ dir.opp hopp hT1⟩
  · exact ⟨hb, hT⟩

/-- The function `fix_block_position` keeps the type and the rotation of the block
valid and the rows above the block not completed. -/
theorem topInv_fix (sh : Shapes) (ha : sh.anchored) (s : Block × Field)
    (hb : ValidBlock s.1) (hT : TopInv sh s.1 s.2) :
    ValidBlock (fix_block_position sh s).1 ∧
      TopInv sh (fix_block_position sh s).1 (fix_block_position sh s).2 := by
  obtain ⟨b1, t1⟩ := topInv_fix_half sh ha .LEFT (Or.inl rfl) s hb hT
  exact topInv_fix_half sh ha .RIGHT (Or.inr rfl) _ b1 t1

/-- The function `update_ghost` keeps the rows above the current block not
completed: the ghost ends on the rows of the current block or lower. -/
theorem topInv_ghost (sh : Shapes) (fuel : Nat) (g g1 : Game)
    (htype : g.ghost_block.type = g.curr_block.type)
    (hT : TopInv sh g.curr_block g.curr_field) (hu : update_ghost sh fuel g = some g1) :
    TopInv sh g1.curr_block g1.curr_field := by
  obtain ⟨t, ht, rfl⟩ := (update_ghost_run sh fuel g _).mp hu
  obtain ⟨hF, _, _, a1, a2, a3, _, _, a6⟩ := ghost_fall sh fuel g t ht
  have hrow : g.curr_block.row ≤ t.1.row := fall_row_le sh _ fuel _ t ht
  intro r h0 habove hcomp
  have habove' : ∀ p ∈ g.curr_block.cells sh, r < p.1 := habove
  apply hT r h0 habove'
  intro c hc0 hc1
  have h1 := hcomp c hc0 (by
    show c < ((ghost_done sh g t).curr_field.cols : Int)
    rw [(ghost_done_frame sh g t).2.2.2, a6]
    exact hc1)
  have hcc : ¬ ((r, c) ∈ g.curr_block.cells sh ∧ 0 ≤ r) :=
    fun h => lt_irrefl r (habove' (r, c) h.1)
  have hgt : ¬ ((r, c) ∈ t.1.cells sh ∧ 0 ≤ r) := by
    rintro ⟨hm, _⟩
    simp only [Block.cells, List.mem_map, a1, a2, a3, htype] at hm
    obtain ⟨d, hd, he⟩ := hm
    have h2 := habove' (g.curr_block.row + d.1, g.curr_block.col + d.2)
      (List.mem_map.2 ⟨d, hd, rfl⟩)
    have h3 : t.1.row + d.1 = r := congrArg Prod.fst he
    simp only at h2
    omega
  have e1 : (ghost_done sh g t).curr_field.grid r c = t.2.grid r c := by
    simp only [ghost_done]
    rw [resync_grid, if_neg hcc]
  have e2 : t.2.grid r c = base sh t.1 t.2.grid r c := by
    simp only [base]
    rw [Grid.fill_apply, if_neg hgt]
  have e3 : base sh t.1 t.2.grid r c
      = base sh (ghost_start sh g).1 (ghost_start sh g).2.grid r c :=
    congrFun (congrFun (fades_eq hF) r) c
  have hgs : Block.cells sh (ghost_start sh g).1 = g.curr_block.cells sh :=
    ghost_start_cells sh g htype
  have e4 : base sh (ghost_start sh g).1 (ghost_start sh g).2.grid r c
      = (ghost_start sh g).2.grid r c := by
    simp only [base]
    rw [Grid.fill_apply, hgs, if_neg hcc]
  have e5 : (ghost_start sh g).2.grid r c
      = (g.curr_field.grid.fill (g.ghost_block.cells sh) BG) r c := by
    show (update_block sh g.ghost_block g.curr_field g.curr_block.rot g.curr_block.row
      g.curr_block.col).2.grid r c = _
    rw [update_block_grid, Grid.fill_apply, if_neg]
    intro h
    have h' : (r, c) ∈ Block.cells sh (ghost_start sh g).1 := h.1
    rw [hgs] at h'
    exact hcc ⟨h', h.2⟩
  rw [e1, e2, e3, e4, e5, Grid.fill_apply] at h1
  split_ifs at h1 with hx
  · exact absurd rfl h1
  · exact h1

/-- The block that `drop_block` spawns has a valid type and rotation and no cell
below row 0, so no row of the grid lies above it. -/
theorem topInv_spawn (sh : Shapes) (hv : sh.valid) (fuel : Nat) (g gd : Game)
    (hnext : ValidBlock g.next_block) (h : drop_block sh fuel g = some gd) :
    ValidBlock gd.curr_block ∧ TopInv sh gd.curr_block gd.curr_field := by
  obtain ⟨g1, g2, _, h2, rfl, n1, _⟩ := drop_block_parts sh fuel g gd h
  simp only [drop_curr, Option.map_eq_some'] at h2
  obtain ⟨s, hs, rfl⟩ := h2
  have hnext1 : ValidBlock g1.next_block := by rw [n1]; exact hnext
  obtain ⟨hne, _, hoff⟩ := hv _ _ hnext1.1 hnext1.2.1 hnext1.2.2.1 hnext1.2.2.2
  have hinv := while_loop_inv
    (fun s : Block × Field =>
      decide (get_limit_high_block sh s.1 < 0) && can_move_block sh s.1 s.2 .DOWN)
    (fun s => move_block sh s.1 s.2 .DOWN)
    (fun u => FallInv
        (init_block g1.curr_block g1.next_block.type g1.next_block.rot
          (-(BLOCK_MAX_SIZE : Int)) ((COLUMNS / 2 : Nat) : Int)) g1.curr_field u ∧
      (∀ p ∈ u.1.cells sh, p.1 < 1))
    (fun u hI hcond => by
      obtain ⟨hF, hle⟩ := hI
      simp only [Bool.and_eq_true, decide_eq_true_eq] at hcond
      have hshape : sh u.1.type u.1.rot ≠ [] := by rw [hF.1, hF.2.1]; exact hne
      have hneg := (limit_high_lt sh u.1 0 hshape).mp hcond.1
      refine ⟨fallInv_step sh _ _ u hF, ?_⟩
      intro p hp
      rw [move_block_fst, cells_translate, List.mem_map] at hp
      obtain ⟨q, hq, rfl⟩ := hp
      have := hneg q hq
      show q.1 + Direction.DOWN.drow < 1
      simp only [Direction.drow]
      omega)
    fuel _ s
    ⟨⟨rfl, rfl, rfl, rfl, rfl, rfl⟩, by
      intro p hp
      simp only [Block.cells, init_block, List.mem_map] at hp
      obtain ⟨d, hd, rfl⟩ := hp
      obtain ⟨_, d2, _, _⟩ := hoff d hd
      simp only [BLOCK_MAX_SIZE]
      omega⟩ hs
  obtain ⟨⟨hF, hle⟩, _⟩ := hinv
  have hvb : ValidBlock s.1 := by
    obtain ⟨t1, t2, r1, r2⟩ := hnext1
    exact ⟨by rw [hF.1]; exact t1, by rw [hF.1]; exact t2, by rw [hF.2.1]; exact r1,
      by rw [hF.2.1]; exact r2⟩
  refine ⟨hvb, ?_⟩
  intro r h0 habove _
  have hshape : sh s.1.type s.1.rot ≠ [] := by rw [hF.1, hF.2.1]; exact hne
  obtain ⟨d, hd⟩ := List.exists_mem_of_ne_nil _ hshape
  have hmem : (s.1.row + d.1, s.1.col + d.2) ∈ s.1.cells sh := List.mem_map.2 ⟨d, hd, rfl⟩
  have h1 := hle _ hmem
  have h2 : r < s.1.row + d.1 := habove _ hmem
  simp only at h1
  omega

/-- Every primitive step keeps `BandInv`, for a valid geometry table whose pieces
have a cell on every row from their first row to the row of their anchor. -/
theorem prim_bandInv (sh : Shapes) (hv : sh.valid) (ha : sh.anchored) (g g' : Game)
    (hg : BandInv sh g) (h : Prim sh g g') : BandInv sh g' := by
  obtain ⟨hG, hb, hT⟩ := hg
  refine ⟨prim_gameInv sh hv g g' hG h, ?_⟩
  obtain ⟨_, _, hin, hnext, hgh⟩ := hG
  cases h with
  | move _ dir hm =>
    refine ⟨hb, ?_⟩
    cases dir with
    | LEFT => exact topInv_move_lateral sh _ _ .LEFT (Or.inl rfl) hT
    | RIGHT => exact topInv_move_lateral sh _ _ .RIGHT (Or.inr rfl) hT
    | DOWN => exact topInv_move_down sh _ _ hT hin
  | rotate _ hm =>
    exact ⟨validBlock_rotate sh g.curr_block g.curr_field hb,
      topInv_rotate sh ha _ _ hb hT hin⟩
  | fix _ hm => exact topInv_fix sh ha (g.curr_block, g.curr_field) hb hT
  | ghost fuel _ _ hopt hu =>
    obtain ⟨t, _, rfl⟩ := (update_ghost_run sh fuel g _).mp hu
    exact ⟨hb, topInv_ghost sh fuel g _ (hgh hopt).2 hT hu⟩
  | pause => exact ⟨hb, hT⟩
  | resume => exact ⟨hb, hT⟩
  | restart_menu fuel _ g1 hi =>
    simp only [init_game] at hi
    exact topInv_spawn sh hv fuel _ g1 (init_next_block_valid _) hi
  | restart_over fuel _ g1 hi =>
    simp only [init_game] at hi
    exact topInv_spawn sh hv fuel _ g1 (init_next_block_valid _) hi
  | game_over _ hbl hl => exact ⟨hb, hT⟩
  | land fuel _ p gd hbl hl hp hd =>
    exact topInv_spawn sh hv fuel (after_cascade g p.1 p.2) gd hnext hd

/-- In every state of `game_loop`, for a valid geometry table whose pieces have a
cell on every row from their first row to the row of their anchor, the current
block has a valid type and rotation and no row above it is completed. -/
theorem loopReachable_bandInv (sh : Shapes) (hv : sh.valid) (ha : sh.anchored) (l : Loop)
    (h : LoopReachable sh l) : BandInv sh l.game :=
  loopReachable_induction sh (BandInv sh)
    (fun fuel _ g1 hi => by
      refine ⟨gameInv_congr sh g1 _ (init_game_inv sh hv fuel _ g1 hi) rfl rfl rfl rfl rfl, ?_⟩
      simp only [init_game] at hi
      exact topInv_spawn sh hv fuel _ g1 (init_next_block_valid _) hi)
    (prim_bandInv sh hv ha) l h

/-- The least element of a list is below each of its elements. -/
theorem foldl_min_le (xs : List Int) : ∀ x : Int,
    xs.foldl min x ≤ x ∧ ∀ y ∈ xs, xs.foldl min x ≤ y := by
  induction xs with
  | nil => intro x; simp
  | cons z zs ih =>
    intro x
    simp only [List.foldl_cons, List.mem_cons, forall_eq_or_imp]
    obtain ⟨h1, h2⟩ := ih (min x z)
    exact ⟨le_trans h1 (min_le_left _ _), le_trans h1 (min_le_right _ _), h2⟩

/-- The function `get_limit_low_block` is below the row of every cell of the block. -/
theorem limit_low_le (sh : Shapes) (b : Block) (p : Int × Int) (hp : p ∈ b.cells sh) :
    get_limit_low_block sh b ≤ p.1 := by
  have hmem : p.1 ∈ (b.cells sh).map Prod.fst := List.mem_map.2 ⟨p, hp, rfl⟩
  simp only [get_limit_low_block]
  cases hl : (b.cells sh).map Prod.fst with
  | nil => rw [hl] at hmem; simp at hmem
  | cons x xs =>
    rw [hl] at hmem
    simp only [list_min]
    rcases List.mem_cons.1 hmem with e | e
    · rw [e]; exact (foldl_min_le xs x).1
    · exact (foldl_min_le xs x).2 _ e

/-- When no row above the block is completed, the row just above the band of the
block is not completed, unless the band starts at row 0. -/
theorem topInv_row_above (sh : Shapes) (b : Block) (f : Field) (hT : TopInv sh b f)
    (hlow : 0 ≤ get_limit_low_block sh b) :
    get_limit_low_block sh b = 0 ∨ ¬ f.completed (get_limit_low_block sh b - 1) := by
  by_cases h0 : get_limit_low_block sh b = 0
  · exact Or.inl h0
  · right
    apply hT _ (by omega)
    intro p hp
    have := limit_low_le sh b p hp
    omega

/-- The sample table `bar_shapes` has a cell on the row of the anchor of each piece
and on every row from its first row to that row. -/
theorem bar_shapes_anchored : bar_shapes.anchored := by
  intro kind rot _ _ _ _
  simp only [bar_shapes]
  split_ifs
  · refine ⟨⟨(0, 0), by simp, rfl⟩, ?_⟩
    intro d hd k h1 h2
    simp only [List.mem_cons, List.mem_singleton, List.not_mem_nil, or_false] at hd
    have hk : k = 0 := by rcases hd with rfl | rfl | rfl <;> simp at h1 <;> omega
    subst hk
    exact ⟨(0, 0), by simp, rfl⟩
  · refine ⟨⟨(0, 0), by simp, rfl⟩, ?_⟩
    intro d hd k h1 h2
    simp only [List.mem_cons, List.mem_singleton, List.not_mem_nil, or_false] at hd
    have hk : k = -1 ∨ k = 0 := by rcases hd with rfl | rfl | rfl <;> simp at h1 <;> omega
    rcases hk with rfl | rfl
    · exact ⟨(-1, 0), by simp, rfl⟩
    · exact ⟨(0, 0), by simp, rfl⟩

/-- On a field of `COLUMNS` columns and at least six rows whose rows 0 to 5 are
free, the ghost part of `drop_block` leaves row 0 free: the ghost falls through
the free rows and rests with every cell on row 1 or lower. -/
theorem drop_ghost_top_free (sh : Shapes) (hv : sh.valid) (fuel : Nat) (g g1 : Game)
    (hnext : ValidBlock g.next_block) (hc : g.curr_field.cols = COLUMNS)
    (hr : 6 ≤ g.curr_field.rows)
    (hfree : ∀ r c : Int, 0 ≤ r → r ≤ 5 → 0 ≤ c → c < g.curr_field.cols →
      passable (g.curr_field.grid r c))
    (h : drop_ghost sh fuel g = some g1) :
    ∀ c : Int, 0 ≤ c → c < g1.curr_field.cols → passable (g1.curr_field.grid 0 c) := by
  simp only [drop_ghost] at h
  split_ifs at h with hopt
  · simp only [Option.map_eq_some'] at h
    obtain ⟨s, hs, rfl⟩ := h
    obtain ⟨_, _, hoff⟩ := hv _ _ hnext.1 hnext.2.1 hnext.2.2.1 hnext.2.2.2
    have hinv := while_loop_inv (fun s : Block × Field => can_move_block sh s.1 s.2 .DOWN)
      (fun s => move_block sh s.1 s.2 .DOWN)
      (fun u => FallInv
          (init_ghost_block g.ghost_block g.next_block.type g.next_block.rot
            (-(BLOCK_MAX_SIZE : Int)) ((COLUMNS / 2 : Nat) : Int)) g.curr_field u ∧
        ∀ r c : Int, 0 ≤ r → r ≤ 5 → 0 ≤ c → c < g.curr_field.cols →
          u.2.grid r c = BG ∨ (r, c) ∈ u.1.cells sh)
      (fun u hI _ => by
        obtain ⟨hF, hg⟩ := hI
        refine ⟨fallInv_step sh _ _ u hF, ?_⟩
        intro r c h0 h5 hc0 hc1
        show (update_block sh u.1 u.2 _ _ _).2.grid r c = BG ∨
          (r, c) ∈ (update_block sh u.1 u.2 _ _ _).1.cells sh
        rw [update_block_grid, Grid.fill_apply, Grid.fill_apply]
        by_cases hnew : (r, c) ∈ (update_block sh u.1 u.2 u.1.rot
            (u.1.row + Direction.DOWN.drow) (u.1.col + Direction.DOWN.dcol)).1.cells sh
        · exact Or.inr hnew
        · left
          rw [if_neg (fun hm => hnew hm.1)]
          split_ifs with hold
          · rfl
          · rcases hg r c h0 h5 hc0 hc1 with e | e
            · exact e
            · exact absurd ⟨e, h0⟩ hold)
      fuel _ s ⟨⟨rfl, rfl, rfl, rfl, rfl, rfl⟩, fun r c h0 h5 hc0 hc1 =>
        Or.inl (show g.curr_field.grid r c = BG from hfree r c h0 h5 hc0 hc1)⟩ hs
    obtain ⟨⟨hF, hg⟩, hstop⟩ := hinv
    have hcells : ∀ p ∈ s.1.cells sh, ∃ d ∈ sh g.next_block.type g.next_block.rot,
        p = (s.1.row + d.1, ((COLUMNS / 2 : Nat) : Int) + d.2) := by
      intro p hp
      simp only [Block.cells, List.mem_map, hF.1, hF.2.1, hF.2.2.1] at hp
      obtain ⟨d, hd, rfl⟩ := hp
      exact ⟨d, hd, rfl⟩
    have hrow : 3 ≤ s.1.row := by
      by_contra hlt
      apply Bool.false_ne_true
      rw [← hstop, can_move_iff]
      intro p hp
      obtain ⟨d, hd, rfl⟩ := hcells p hp
      obtain ⟨d1, d2, d3, d4⟩ := hoff d hd
      rw [cell_free_iff]
      simp only [Direction.drow, Direction.dcol, add_zero]
      have hcols : (s.2.cols : Int) = 11 := by rw [hF.2.2.2.2.2, hc]; rfl
      have hrows : (6 : Int) ≤ (s.2.rows : Int) := by rw [hF.2.2.2.2.1]; exact_mod_cast hr
      have hcol5 : (((COLUMNS / 2 : Nat) : Int)) = 5 := rfl
      refine ⟨by omega, by omega, by omega, ?_⟩
      by_cases h0 : s.1.row + d.1 + 1 < 0
      · exact Or.inl h0
      · right
        have hcg : ((COLUMNS / 2 : Nat) : Int) + d.2 < (g.curr_field.cols : Int) := by
          rw [hc]
          show ((COLUMNS / 2 : Nat) : Int) + d.2 < 11
          omega
        rcases hg (s.1.row + d.1 + 1) (((COLUMNS / 2 : Nat) : Int) + d.2) (by omega) (by omega)
          (by omega) hcg with e | e
        · exact Or.inl e
        · exact Or.inr e
    intro c hc0 hc1
    show (s.2.grid.fill (s.1.cells sh) s.1.mark) 0 c = BG
    rw [Grid.fill_apply, if_neg]
    · have hc1' : c < (g.curr_field.cols : Int) := by
        have : (s.2.cols : Int) = g.curr_field.cols := by rw [hF.2.2.2.2.2]
        rw [← this]
        exact hc1
      rcases hg 0 c (le_refl _) (by omega) hc0 hc1' with e | e
      · exact e
      · exfalso
        obtain ⟨d, hd, he⟩ := hcells _ e
        obtain ⟨d1, _, _, _⟩ := hoff d hd
        have : (0 : Int) = s.1.row + d.1 := congrArg Prod.fst he
        omega
    · rintro ⟨hm, _⟩
      obtain ⟨d, hd, he⟩ := hcells _ hm
      obtain ⟨d1, _, _, _⟩ := hoff d hd
      have : (0 : Int) = s.1.row + d.1 := congrArg Prod.fst he
      omega
  · simp only [Option.some.injEq] at h
    subst h
    intro c hc0 hc1
    exact hfree 0 c (le_refl _) (by omega) hc0 hc1

/-- A block that falls alone in the field can move down while its last row is
above the last row of the field. -/
theorem falling_can_move (sh : Shapes) (hv : sh.valid) (l : Loop) (m : Int)
    (h : Falling sh l m) (hm : m ≤ 20) :
    can_move_block sh l.game.curr_block l.game.curr_field .DOWN = true := by
  obtain ⟨hreach, _, _, _, _, honly, hmax, _⟩ := h
  obtain ⟨hr, hc, hin, _, _⟩ := loopReachable_gameInv sh hv l hreach
  rw [can_move_iff]
  intro p hp
  rw [cell_free_iff]
  obtain ⟨c0, c1, _⟩ := hin p hp
  have hpm := hmax p hp
  simp only [Direction.drow, Direction.dcol, add_zero]
  have hrows : (l.game.curr_field.rows : Int) = 22 := by rw [hr]; rfl
  refine ⟨c0, c1, by omega, ?_⟩
  by_cases h0 : p.1 + 1 < 0
  · exact Or.inl h0
  · right
    by_cases hbg : l.game.curr_field.grid (p.1 + 1) p.2 = BG
    · exact Or.inl hbg
    · right
      have hc1 : p.2 < ((COLUMNS : Nat) : Int) := by rw [← hc]; exact c1
      exact honly (p.1 + 1) p.2 (by omega) (by show p.1 + 1 < 22; omega) c0 hc1 hbg

/-- A tick moves a block that falls alone in the field one row down. -/
theorem falling_tick (sh : Shapes) (hv : sh.valid) (l : Loop) (m : Int)
    (h : Falling sh l m) (hm : m ≤ 20) : ∃ l' : Loop, Falling sh l' (m + 1) := by
  have hcan := falling_can_move sh hv l m h hm
  obtain ⟨hreach, hret, htv, hst, hopt, honly, hmax, p0, hp0, hpm⟩ := h
  have htick : tick_event sh 0 l = some
      { l with
        game := { l.game with
          curr_block := (move_block sh l.game.curr_block l.game.curr_field .DOWN).1,
          curr_field := (move_block sh l.game.curr_block l.game.curr_field .DOWN).2 },
        game_over_select :=
          if can_move_block sh l.game.curr_block l.game.curr_field .DOWN = false ∧
              get_limit_low_block sh l.game.curr_block < 0
          then GAME_OVER_RESTART else l.game_over_select } := by
    simp only [tick_event, timer_handler, hcan, if_true, Option.map_some']
  refine ⟨_, LoopReachable.tick 0 l _ hreach hret htv htick, hret, htv, hst, hopt, ?_, ?_, ?_⟩
  · have h1 := update_block_onlyOn sh ROWS COLUMNS l.game.curr_block l.game.curr_field
      l.game.curr_block.rot (l.game.curr_block.row + Direction.DOWN.drow)
      (l.game.curr_block.col + Direction.DOWN.dcol) (fun _ _ => False)
      (fun r c a1 a2 a3 a4 a5 => Or.inl (honly r c a1 a2 a3 a4 a5))
    intro r c a1 a2 a3 a4 a5
    rcases h1 r c a1 a2 a3 a4 a5 with e | e
    · exact e
    · exact absurd e id
  · intro p hp
    have hp' : p ∈ (move_block sh l.game.curr_block l.game.curr_field .DOWN).1.cells sh := hp
    rw [move_block_fst, cells_translate, List.mem_map] at hp'
    obtain ⟨q, hq, rfl⟩ := hp'
    have := hmax q hq
    show q.1 + Direction.DOWN.drow ≤ m + 1
    simp only [Direction.drow]
    omega
  · refine ⟨(p0.1 + Direction.DOWN.drow, p0.2 + Direction.DOWN.dcol), ?_, ?_⟩
    · show _ ∈ (move_block sh l.game.curr_block l.game.curr_field .DOWN).1.cells sh
      rw [move_block_fst, cells_translate, List.mem_map]
      exact ⟨p0, hp0, rfl⟩
    · show p0.1 + Direction.DOWN.drow = m + 1
      simp only [Direction.drow]
      omega

/-- With the ghost option disabled, on a field of `COLUMNS` columns whose row 0 is
free, `drop_block` leaves the last row of the current block on row 0. -/
theorem drop_block_high_off (sh : Shapes) (hv : sh.valid) (fuel : Nat) (g gd : Game)
    (h : drop_block sh fuel g = some gd) (hopt : g.option_ghost ≠ OPT_GHOST_ON)
    (hnext : ValidBlock g.next_block) (hc : g.curr_field.cols = COLUMNS)
    (hr : 1 ≤ g.curr_field.rows)
    (hfree : ∀ c : Int, 0 ≤ c → c < g.curr_field.cols → passable (g.curr_field.grid 0 c)) :
    get_limit_high_block sh gd.curr_block = 0 := by
  obtain ⟨g1, g2, h1, h2, rfl, _⟩ := drop_block_parts sh fuel g gd h
  have h1' : drop_ghost sh fuel g = some g := by
    simp only [drop_ghost]
    rw [if_neg hopt]
  have he : g1 = g := Option.some.inj (h1.symm.trans h1')
  subst he
  exact drop_curr_high sh hv fuel g1 g2 hnext hc hr hfree h2

/-- The start of `game_loop` with the ghost option disabled leaves the block alone
in the field, its last row on row 0. -/
theorem falling_start (sh : Shapes) (hv : sh.valid) (g0 : Game) (sel : Int)
    (hopt : g0.option_ghost = OPT_GHOST_OFF) : ∃ l : Loop, Falling sh l 0 := by
  have hvalid := init_next_block_valid g0
  obtain ⟨fuel0, l, hl⟩ := game_loop_start_total sh g0 sel
    (hv _ _ hvalid.1 hvalid.2.1 hvalid.2.2.1 hvalid.2.2.2).1
  have hstart := hl fuel0 (le_refl _)
  have hreach : LoopReachable sh l := LoopReachable.start fuel0 g0 sel l hstart
  simp only [game_loop_start, Option.map_eq_some'] at hstart
  obtain ⟨g1, hg, rfl⟩ := hstart
  obtain ⟨_, _, _, hst, hr, hc, _, honly⟩ := init_game_fresh sh fuel0 _ g1 hg
  have hi := hg
  simp only [init_game] at hi
  obtain ⟨⟨_, _, _, _, ho, _, _⟩, ⟨t1, t2, _, _, _, _⟩⟩ := drop_block_frame sh fuel0 _ g1 hi
  have hopt1 : g1.option_ghost = OPT_GHOST_OFF := ho.trans hopt
  have hhigh := drop_block_high_off sh hv fuel0 _ g1 hi
    (by
      show ¬ g0.option_ghost = OPT_GHOST_ON
      rw [hopt]
      decide)
    (init_next_block_valid _) rfl (show 1 ≤ ROWS from by decide)
    (fun c h0 h1 => init_field_grid g0.curr_field ROWS COLUMNS 0 c (le_refl _) (by decide) h0 h1)
  have hshape : sh g1.curr_block.type g1.curr_block.rot ≠ [] := by
    rw [t1, t2]
    exact (hv _ _ (init_next_block_valid _).1 (init_next_block_valid _).2.1
      (init_next_block_valid _).2.2.1 (init_next_block_valid _).2.2.2).1
  have hle : ∀ p ∈ g1.curr_block.cells sh, p.1 < 1 :=
    (limit_high_lt sh g1.curr_block 1 hshape).mp (by omega)
  have hex : ∃ p ∈ g1.curr_block.cells sh, p.1 = 0 := by
    by_contra hno
    push_neg at hno
    have : get_limit_high_block sh g1.curr_block < 0 :=
      (limit_high_lt sh g1.curr_block 0 hshape).mpr (fun p hp => by
        have := hle p hp
        have := hno p hp
        omega)
    omega
  refine ⟨_, hreach, rfl, ?_, hst, hopt1, ?_, fun p hp => ?_, hex⟩
  · show INIT_VALUE_MILLIS * 1000000 ≠ 0
    decide
  · intro r c a1 a2 a3 a4 a5
    rcases honly r c a1 a2 a3 a4 a5 with e | ⟨e, _⟩
    · exact e
    · rw [hopt1] at e
      exact absurd e (by decide)
  · have := hle p hp
    omega

/-- With the ghost option disabled, `game_loop` reaches, for each row `k` from 0 to
20, a state in which the block falls alone in the field with its last row on the
row `k`. -/
theorem falling_reach (sh : Shapes) (hv : sh.valid) (g0 : Game)
    (hopt : g0.option_ghost = OPT_GHOST_OFF) :
    ∀ k : Nat, k ≤ 20 → ∃ l : Loop, Falling sh l k := by
  intro k
  induction k with
  | zero => exact fun _ => falling_start sh hv g0 0 hopt
  | succ n ih =>
    intro hk
    obtain ⟨l, hl⟩ := ih (by omega)
    obtain ⟨l', hl'⟩ := falling_tick sh hv l n hl (by omega)
    exact ⟨l', by push_cast; exact hl'⟩

/-- The handler of `KEY_DOWN` interrupted by a tick, in a state in which the block
falls alone in the field with its last row one row above the last row of the
field: the test of the handler succeeds, the tick moves the block to the last row,
where `can_move_block` for `DOWN` is false, and the call of the handler moves the
block to row 22. -/
theorem falling_race (sh : Shapes) (hv : sh.valid) (l : Loop) (h : Falling sh l 20) :
    can_move_block sh l.game.curr_block l.game.curr_field .DOWN = true ∧
    ∀ fuel : Nat, ∃ g1 g2 : Game, timer_handler sh fuel l.game = some g1 ∧
      can_move_block sh g1.curr_block g1.curr_field .DOWN = false ∧
      key_move_interrupted sh fuel .DOWN l.game = some g2 ∧
      (g2.curr_field.rows : Int) = 22 ∧ ∃ p ∈ g2.curr_block.cells sh, p.1 = 22 := by
  have hcan := falling_can_move sh hv l 20 h (le_refl _)
  obtain ⟨hreach, _, _, _, hopt, _, _, p0, hp0, hpm⟩ := h
  obtain ⟨hr, _, _, _, _⟩ := loopReachable_gameInv sh hv l hreach
  refine ⟨hcan, fun fuel => ?_⟩
  have hp1 : (p0.1 + Direction.DOWN.drow, p0.2 + Direction.DOWN.dcol)
      ∈ (move_block sh l.game.curr_block l.game.curr_field .DOWN).1.cells sh := by
    rw [move_block_fst, cells_translate, List.mem_map]
    exact ⟨p0, hp0, rfl⟩
  have hblocked : can_move_block sh
      (move_block sh l.game.curr_block l.game.curr_field .DOWN).1
      (move_block sh l.game.curr_block l.game.curr_field .DOWN).2 .DOWN = false := by
    apply Bool.eq_false_iff.mpr
    intro hm
    have hfree := (can_move_iff sh _ _ .DOWN).mp hm _ hp1
    rw [cell_free_iff] at hfree
    have hlt := hfree.2.2.1
    have hrows : ((move_block sh l.game.curr_block l.game.curr_field .DOWN).2.rows : Int)
        = 22 := by
      show (l.game.curr_field.rows : Int) = 22
      rw [hr]
      rfl
    simp only [Direction.drow] at hlt
    omega
  refine ⟨{ l.game with
      curr_block := (move_block sh l.game.curr_block l.game.curr_field .DOWN).1,
      curr_field := (move_block sh l.game.curr_block l.game.curr_field .DOWN).2 },
    { l.game with
      curr_block := (move_block sh
        (move_block sh l.game.curr_block l.game.curr_field .DOWN).1
        (move_block sh l.game.curr_block l.game.curr_field .DOWN).2 .DOWN).1,
      curr_field := (move_block sh
        (move_block sh l.game.curr_block l.game.curr_field .DOWN).1
        (move_block sh l.game.curr_block l.game.curr_field .DOWN).2 .DOWN).2 },
    by simp only [timer_handler, hcan, if_true], hblocked, ?_, ?_, ?_⟩
  · simp only [key_move_interrupted, hcan, if_true, timer_handler, Option.some_bind,
      ghost_sync]
    rw [if_neg]
    show ¬ l.game.option_ghost = OPT_GHOST_ON
    rw [hopt]
    decide
  · show (l.game.curr_field.rows : Int) = 22
    rw [hr]
    rfl
  · refine ⟨(p0.1 + Direction.DOWN.drow + Direction.DOWN.drow,
      p0.2 + Direction.DOWN.dcol + Direction.DOWN.dcol), ?_, ?_⟩
    · show _ ∈ (move_block sh
          (move_block sh l.game.curr_block l.game.curr_field .DOWN).1
          (move_block sh l.game.curr_block l.game.curr_field .DOWN).2 .DOWN).1.cells sh
      rw [move_block_fst, cells_translate, List.mem_map]
      exact ⟨_, hp1, rfl⟩
    · show p0.1 + Direction.DOWN.drow + Direction.DOWN.drow = 22
      simp only [Direction.drow]
      omega

/-- The handler of `KEY_DOWN` interrupted by a tick, in a state in which the block
falls alone in the field with its last row one row above the last row of the
field, calls `move_block` for `DOWN` in a state in which `can_move_block` for
`DOWN` is false. -/
theorem falling_race_call (sh : Shapes) (hv : sh.valid) (l : Loop) (h : Falling sh l 20)
    (fuel : Nat) :
    ∃ c ∈ key_move_interrupted_calls sh fuel .DOWN l.game, call_ok sh c = false := by
  obtain ⟨hcan, hrace⟩ := falling_race sh hv l h
  obtain ⟨g1, _, ht, hblocked, _⟩ := hrace fuel
  refine ⟨((g1.curr_block, g1.curr_field), Call.move .DOWN), ?_, hblocked⟩
  simp only [key_move_interrupted_calls, hcan, if_true, ht, List.mem_append, List.mem_cons]
  simp

/-! ## Claims -/

/-- C1: for `0 ≤ k < f.rows`, after `clear_row_field f k` row 0 is entirely `BG`
on the columns `[0, cols)` and every row `r` with `1 ≤ r ≤ k` equals the old row
`r - 1` there; for `k = 0` no cell other than those of row 0 changes. -/
theorem clear_row_field_shift (f : Field) (k : Int) (_hk0 : 0 ≤ k) (_hk : k < f.rows) :
    (∀ c : Int, 0 ≤ c → c < f.cols → (clear_row_field f k).grid 0 c = BG) ∧
    (∀ r : Int, 1 ≤ r → r ≤ k → ∀ c : Int, 0 ≤ c → c < f.cols →
        (clear_row_field f k).grid r c = f.grid (r - 1) c) ∧
    (k = 0 → ∀ r c : Int, r ≠ 0 → (clear_row_field f k).grid r c = f.grid r c) := by
  refine ⟨?_, ?_, ?_⟩
  · intro c h0 h1
    rw [clear_row_field_grid, if_pos ⟨h0, h1⟩, if_pos rfl]
  · intro r hr1 hr2 c h0 h1
    rw [clear_row_field_grid, if_pos ⟨h0, h1⟩, if_neg (by omega), if_pos ⟨hr1, hr2⟩]
  · intro hk r c hr
    rw [clear_row_field_grid]
    split_ifs <;> first | rfl | (exfalso; omega)

/-- C1, instance: clearing row 1 of `field_3x2`. -/
theorem clear_row_field_shift_witness :
    (0 : Int) ≤ 1 ∧ (1 : Int) < field_3x2.rows ∧
    ((∀ c : Int, 0 ≤ c → c < field_3x2.cols → (clear_row_field field_3x2 1).grid 0 c = BG) ∧
    (∀ r : Int, 1 ≤ r → r ≤ 1 → ∀ c : Int, 0 ≤ c → c < field_3x2.cols →
        (clear_row_field field_3x2 1).grid r c = field_3x2.grid (r - 1) c) ∧
    ((1 : Int) = 0 → ∀ r c : Int, r ≠ 0 →
        (clear_row_field field_3x2 1).grid r c = field_3x2.grid r c)) :=
  ⟨by decide, by decide, clear_row_field_shift field_3x2 1 (by decide) (by decide)⟩

/-- C2: for `0 ≤ from` and `to < f.rows`, `find_row_field f from to` is `-1`
exactly when no row of `[from, to]` is completed, and otherwise it is the greatest
row of `[from, to]` whose cells on the columns `[0, cols)` all differ from `BG`. -/
theorem find_row_field_spec (f : Field) (from_ to_ : Int)
    (hfrom : 0 ≤ from_) (_hto : to_ < f.rows) :
    (find_row_field f from_ to_ = -1 ↔
        ∀ r : Int, from_ ≤ r → r ≤ to_ → ¬ f.completed r) ∧
    (find_row_field f from_ to_ ≠ -1 →
        from_ ≤ find_row_field f from_ to_ ∧ find_row_field f from_ to_ ≤ to_ ∧
        f.completed (find_row_field f from_ to_) ∧
        ∀ r : Int, find_row_field f from_ to_ < r → r ≤ to_ → ¬ f.completed r) := by
  rcases find_row_field_cases f from_ to_ with ⟨h1, h2⟩ | ⟨h1, h2, h3, h4⟩
  · exact ⟨⟨fun _ => h2, fun _ => h1⟩, fun h => absurd h1 h⟩
  · refine ⟨⟨fun h => by omega, fun h => absurd h3 (h _ h1 h2)⟩, fun _ => ⟨h1, h2, h3, h4⟩⟩

/-- C2, instance: the scan of rows `[0, 2]` of `field_3x2`. -/
theorem find_row_field_spec_witness :
    (0 : Int) ≤ 0 ∧ (2 : Int) < field_3x2.rows ∧
    ((find_row_field field_3x2 0 2 = -1 ↔
        ∀ r : Int, (0 : Int) ≤ r → r ≤ 2 → ¬ field_3x2.completed r) ∧
    (find_row_field field_3x2 0 2 ≠ -1 →
        0 ≤ find_row_field field_3x2 0 2 ∧ find_row_field field_3x2 0 2 ≤ 2 ∧
        field_3x2.completed (find_row_field field_3x2 0 2) ∧
        ∀ r : Int, find_row_field field_3x2 0 2 < r → r ≤ 2 → ¬ field_3x2.completed r)) :=
  ⟨by decide, by decide, find_row_field_spec field_3x2 0 2 (by decide) (by decide)⟩

/-- C3: on a grid with at least one column in which exactly the rows
`R1 < R2 < R3` are completed, the find/clear loop over a band `[lo, hi]` that
contains them ends after exactly 3 clears (of the rows `R3`, `R2 + 1`, `R1 + 2`, in
this order); in the final grid the rows 0, 1, 2 are entirely `BG`, every original
non-completed row `s` is found at row `s` plus the number of completed rows that
were below it (so the rows below `R3` have not moved), and no row is completed. -/
theorem cascade_three_rows (f : Field) (lo hi R1 R2 R3 : Int)
    (hcols : 1 ≤ f.cols) (hlo0 : 0 ≤ lo) (hlo : lo ≤ R1) (h12 : R1 < R2) (h23 : R2 < R3)
    (hhi : R3 ≤ hi) (hrows : hi < f.rows)
    (hcomp : ∀ r : Int, 0 ≤ r → r < f.rows → (f.completed r ↔ r = R1 ∨ r = R2 ∨ r = R3)) :
    (∀ fuel : Nat, 4 ≤ fuel →
      field_cascade lo hi fuel f =
        some (clear_row_field (clear_row_field (clear_row_field f R3) (R2 + 1)) (R1 + 2), 3)) ∧
    (∀ f' : Field,
      f' = clear_row_field (clear_row_field (clear_row_field f R3) (R2 + 1)) (R1 + 2) →
      f'.rows = f.rows ∧ f'.cols = f.cols ∧
      (∀ r : Int, 0 ≤ r → r ≤ 2 → f'.empty_row r) ∧
      (∀ s : Int, 0 ≤ s → s ≠ R1 → s ≠ R2 → s ≠ R3 → ∀ c : Int, 0 ≤ c → c < f.cols →
        f'.grid (s + below3 R1 R2 R3 s) c = f.grid s c) ∧
      (∀ r : Int, 0 ≤ r → r < f.rows → ¬ f'.completed r)) := by
  have hc1 : ∀ r : Int, 0 ≤ r → r < f.rows →
      ((clear_row_field f R3).completed r ↔ r = R1 + 1 ∨ r = R2 + 1) := by
    intro r h0 h1
    rw [completed_clear_row f R3 r hcols]
    split_ifs with hk
    · rw [hcomp (r - 1) (by omega) (by omega)]; omega
    · rw [hcomp r h0 h1]; omega
  have hc2 : ∀ r : Int, 0 ≤ r → r < f.rows →
      ((clear_row_field (clear_row_field f R3) (R2 + 1)).completed r ↔ r = R1 + 2) := by
    intro r h0 h1
    rw [completed_clear_row (clear_row_field f R3) (R2 + 1) r hcols]
    split_ifs with hk
    · rw [hc1 (r - 1) (by omega) (by omega)]; omega
    · rw [hc1 r h0 h1]; omega
  have hc3 : ∀ r : Int, 0 ≤ r → r < f.rows →
      ¬ (clear_row_field (clear_row_field (clear_row_field f R3) (R2 + 1)) (R1 + 2)).completed r := by
    intro r h0 h1
    rw [completed_clear_row (clear_row_field (clear_row_field f R3) (R2 + 1)) (R1 + 2) r hcols]
    split_ifs with hk
    · rw [hc2 (r - 1) (by omega) (by omega)]; omega
    · rw [hc2 r h0 h1]; omega
  have hf1 : find_row_field f lo hi = R3 :=
    find_row_field_eq f lo hi R3 (by omega) hhi ((hcomp R3 (by omega) (by omega)).2 (by omega))
      (fun r h1 h2 h3 => by
        have := (hcomp r (by omega) (by omega)).1 h3
        omega)
  have hf2 : find_row_field (clear_row_field f R3) lo hi = R2 + 1 :=
    find_row_field_eq _ lo hi (R2 + 1) (by omega) (by omega)
      ((hc1 (R2 + 1) (by omega) (by omega)).2 (by omega))
      (fun r h1 h2 h3 => by
        have := (hc1 r (by omega) (by omega)).1 h3
        omega)
  have hf3 : find_row_field (clear_row_field (clear_row_field f R3) (R2 + 1)) lo hi = R1 + 2 :=
    find_row_field_eq _ lo hi (R1 + 2) (by omega) (by omega)
      ((hc2 (R1 + 2) (by omega) (by omega)).2 rfl)
      (fun r h1 h2 h3 => by
        have := (hc2 r (by omega) (by omega)).1 h3
        omega)
  have hf4 : find_row_field
      (clear_row_field (clear_row_field (clear_row_field f R3) (R2 + 1)) (R1 + 2)) lo hi = -1 :=
    find_row_field_none _ lo hi (fun r h1 h2 => hc3 r (by omega) (by omega))
  refine ⟨?_, ?_⟩
  · intro fuel hfuel
    obtain ⟨n, rfl⟩ : ∃ n, fuel = n + 4 := ⟨fuel - 4, by omega⟩
    rw [field_cascade_step lo hi (n + 3) f R3 hf1 (by omega),
      field_cascade_step lo hi (n + 2) _ (R2 + 1) hf2 (by omega),
      field_cascade_step lo hi (n + 1) _ (R1 + 2) hf3 (by omega),
      field_cascade_done lo hi n _ hf4]
    rfl
  · rintro f' rfl
    refine ⟨rfl, rfl, ?_, ?_, hc3⟩
    · intro r h0 h2 c hc0 hcc
      have hcc' : c < (f.cols : Int) := hcc
      have hr : r = 0 ∨ r = 0 + 1 ∨ r = 0 + 1 + 1 := by omega
      rcases hr with rfl | rfl | rfl
      · exact clear_row_field_grid_zero (clear_row_field (clear_row_field f R3) (R2 + 1)) (R1 + 2) c hc0 hcc'
      · rw [clear_row_field_grid_succ (clear_row_field (clear_row_field f R3) (R2 + 1)) (R1 + 2) 0 c (le_refl _) (by omega) hc0 hcc']
        exact clear_row_field_grid_zero (clear_row_field f R3) (R2 + 1) c hc0 hcc'
      · rw [clear_row_field_grid_succ (clear_row_field (clear_row_field f R3) (R2 + 1)) (R1 + 2) (0 + 1) c (by omega) (by omega) hc0 hcc',
          clear_row_field_grid_succ (clear_row_field f R3) (R2 + 1) 0 c (le_refl _) (by omega) hc0 hcc']
        exact clear_row_field_grid_zero f R3 c hc0 hcc'
    · intro s h0 n1 n2 n3 c hc0 hcc
      have hs : s < R1 ∨ (R1 < s ∧ s < R2) ∨ (R2 < s ∧ s < R3) ∨ R3 < s := by omega
      rcases hs with h | h | h | h
      · have e : s + below3 R1 R2 R3 s = s + 1 + 1 + 1 := by
          simp only [below3]; rw [if_pos h]; omega
        rw [e, clear_row_field_grid_succ (clear_row_field (clear_row_field f R3) (R2 + 1)) (R1 + 2) (s + 1 + 1) c (by omega) (by omega) hc0 hcc,
          clear_row_field_grid_succ (clear_row_field f R3) (R2 + 1) (s + 1) c (by omega) (by omega) hc0 hcc,
          clear_row_field_grid_succ f R3 s c (by omega) (by omega) hc0 hcc]
      · have e : s + below3 R1 R2 R3 s = s + 1 + 1 := by
          simp only [below3]; rw [if_neg (by omega), if_pos h.2]; omega
        rw [e, clear_row_field_grid_gt (clear_row_field (clear_row_field f R3) (R2 + 1)) (R1 + 2) (s + 1 + 1) c (by omega) (by omega),
          clear_row_field_grid_succ (clear_row_field f R3) (R2 + 1) (s + 1) c (by omega) (by omega) hc0 hcc,
          clear_row_field_grid_succ f R3 s c (by omega) (by omega) hc0 hcc]
      · have e : s + below3 R1 R2 R3 s = s + 1 := by
          simp only [below3]; rw [if_neg (by omega), if_neg (by omega), if_pos h.2]
        rw [e, clear_row_field_grid_gt (clear_row_field (clear_row_field f R3) (R2 + 1)) (R1 + 2) (s + 1) c (by omega) (by omega),
          clear_row_field_grid_gt (clear_row_field f R3) (R2 + 1) (s + 1) c (by omega) (by omega),
          clear_row_field_grid_succ f R3 s c (by omega) (by omega) hc0 hcc]
      · have e : s + below3 R1 R2 R3 s = s := by
          simp only [below3]
          rw [if_neg (by omega), if_neg (by omega), if_neg (by omega)]; omega
        rw [e, clear_row_field_grid_gt (clear_row_field (clear_row_field f R3) (R2 + 1)) (R1 + 2) s c (by omega) (by omega),
          clear_row_field_grid_gt (clear_row_field f R3) (R2 + 1) s c (by omega) (by omega),
          clear_row_field_grid_gt f R3 s c (by omega) (by omega)]

/-- C3, instance: the cascade over the band `[0, 4]` of `field_5x2`. -/
theorem cascade_three_rows_witness :
    1 ≤ field_5x2.cols ∧ (0 : Int) ≤ 0 ∧ (0 : Int) ≤ 1 ∧ (1 : Int) < 2 ∧ (2 : Int) < 4 ∧
    (4 : Int) ≤ 4 ∧ (4 : Int) < field_5x2.rows ∧
    (∀ r : Int, 0 ≤ r → r < field_5x2.rows →
      (field_5x2.completed r ↔ r = 1 ∨ r = 2 ∨ r = 4)) ∧
    field_cascade 0 4 4 field_5x2 =
      some (clear_row_field (clear_row_field (clear_row_field field_5x2 4) (2 + 1)) (1 + 2), 3) :=
  ⟨by decide, by decide, by decide, by decide, by decide, by decide, by decide,
    field_5x2_completed,
    (cascade_three_rows field_5x2 0 4 1 2 4 (by decide) (by decide) (by decide) (by decide)
      (by decide) (by decide) (by decide) field_5x2_completed).1 4 (le_refl _)⟩

/-- C4: when a tick finds the current block blocked with its lowest row index
non-negative (on a field with at least one column, the next block having at least
one cell), `timer_handler` ends; its cascade clears some number `n` of rows and
leaves no completed row in the band of the block; the counter of cleared rows
increases by exactly `n`; then `drop_block` spawns the former next block and the
timer is started again. When exactly one row of the band is completed, `n` is 1,
the counter increases by 1 and the score by 100 (200 with the ghost disabled): in
every state in which the row just above the band is not completed or the band
starts at row 0, and so in every state of `game_loop`, where no row above the
current block is completed (for a valid geometry table whose pieces have a cell on
every row from their first row to the row of their anchor). -/
theorem tick_blocked_cascade (sh : Shapes) (g : Game)
    (hblocked : can_move_block sh g.curr_block g.curr_field .DOWN = false)
    (hlow : 0 ≤ get_limit_low_block sh g.curr_block)
    (hcols : 1 ≤ g.curr_field.cols)
    (hshape : sh g.next_block.type g.next_block.rot ≠ []) :
    ∃ (n : Nat) (f' : Field) (gd g' : Game) (fuel0 : Nat),
      (∀ fuel : Nat, fuel0 ≤ fuel →
        field_cascade (get_limit_low_block sh g.curr_block)
          (get_limit_high_block sh g.curr_block) fuel g.curr_field = some (f', n)) ∧
      (∀ r : Int, get_limit_low_block sh g.curr_block ≤ r →
        r ≤ get_limit_high_block sh g.curr_block → ¬ f'.completed r) ∧
      (∀ fuel : Nat, fuel0 ≤ fuel → timer_handler sh fuel g = some g') ∧
      g'.rows = g.rows + n ∧
      (∀ fuel : Nat, fuel0 ≤ fuel → drop_block sh fuel (after_cascade g f' n) = some gd) ∧
      g' = start_timer gd
        (INIT_VALUE_MILLIS - INTERVAL_REDUCTION_PER_LEVEL_MILLIS * (gd.level - 1)) ∧
      g'.curr_block.type = g.next_block.type ∧ g'.curr_block.rot = g.next_block.rot ∧
      g'.curr_block.col = ((COLUMNS / 2 : Nat) : Int) ∧
      (∀ R : Int, get_limit_low_block sh g.curr_block ≤ R →
        R ≤ get_limit_high_block sh g.curr_block →
        (∀ r : Int, get_limit_low_block sh g.curr_block ≤ r →
          r ≤ get_limit_high_block sh g.curr_block → (g.curr_field.completed r ↔ r = R)) →
        (get_limit_low_block sh g.curr_block = 0 ∨
          ¬ g.curr_field.completed (get_limit_low_block sh g.curr_block - 1)) →
        n = 1 ∧ g'.rows = g.rows + 1 ∧
        g'.score = g.score + (if g.option_ghost = OPT_GHOST_OFF then 200 else 100)) ∧
      (sh.valid → sh.anchored → (∃ l : Loop, LoopReachable sh l ∧ l.game = g) →
        ∀ R : Int, get_limit_low_block sh g.curr_block ≤ R →
        R ≤ get_limit_high_block sh g.curr_block →
        (∀ r : Int, get_limit_low_block sh g.curr_block ≤ r →
          r ≤ get_limit_high_block sh g.curr_block → (g.curr_field.completed r ↔ r = R)) →
        n = 1 ∧ g'.rows = g.rows + 1 ∧
        g'.score = g.score + (if g.option_ghost = OPT_GHOST_OFF then 200 else 100)) := by
  obtain ⟨n, f', gd, fuel0, _, hfc, hdb, hth⟩ := tick_blocked_core sh g hblocked hlow hcols hshape
  obtain ⟨⟨_, hrows, hscore, _⟩, ⟨s1, s2, s3, _⟩⟩ :=
    drop_block_frame sh fuel0 _ gd (hdb fuel0 (le_refl _))
  have hone : ∀ R : Int, get_limit_low_block sh g.curr_block ≤ R →
      R ≤ get_limit_high_block sh g.curr_block →
      (∀ r : Int, get_limit_low_block sh g.curr_block ≤ r →
        r ≤ get_limit_high_block sh g.curr_block → (g.curr_field.completed r ↔ r = R)) →
      (get_limit_low_block sh g.curr_block = 0 ∨
        ¬ g.curr_field.completed (get_limit_low_block sh g.curr_block - 1)) →
      n = 1 ∧ gd.rows = g.rows + 1 ∧
      gd.score = g.score + (if g.option_ghost = OPT_GHOST_OFF then 200 else 100) := by
    intro R hR1 hR2 hone habove
    have h1 := field_cascade_one _ _ R g.curr_field hcols hlow hR1 hR2 hone habove fuel0
    rw [hfc (fuel0 + 2) (by omega)] at h1
    simp only [Option.some.injEq, Prod.mk.injEq] at h1
    obtain ⟨_, hn⟩ := h1
    subst hn
    refine ⟨rfl, by simpa using hrows, ?_⟩
    rw [hscore]
    simp only [after_cascade, score_increment, SCORE_PER_ROW, BONUS_EXPONENT, BONUS_GHOST_OFF]
    split_ifs <;> norm_num
  refine ⟨n, f', gd, _, fuel0, hfc, ?_, hth, hrows, hdb, rfl, s1, s2, s3, hone, ?_⟩
  · exact field_cascade_band_clear _ _ hlow fuel0 _ f' n (hfc fuel0 (le_refl _))
  · rintro hv ha ⟨l, hl, rfl⟩ R hR1 hR2 hex
    exact hone R hR1 hR2 hex
      (topInv_row_above sh _ _ (loopReachable_bandInv sh hv ha l hl).2.2 hlow)

/-- C4, instance: a tick on `landed_game`, whose band is row 21, clears this row;
the counter of cleared rows increases by 1 and the score by 100. -/
theorem tick_blocked_cascade_witness :
    can_move_block bar_shapes landed_game.curr_block landed_game.curr_field .DOWN = false ∧
    0 ≤ get_limit_low_block bar_shapes landed_game.curr_block ∧
    1 ≤ landed_game.curr_field.cols ∧
    bar_shapes landed_game.next_block.type landed_game.next_block.rot ≠ [] ∧
    ∃ (g' : Game) (fuel0 : Nat),
      (∀ fuel : Nat, fuel0 ≤ fuel → timer_handler bar_shapes fuel landed_game = some g') ∧
      g'.rows = landed_game.rows + 1 ∧ g'.score = landed_game.score + 100 ∧
      g'.curr_block.type = landed_game.next_block.type := by
  refine ⟨by decide, by decide, by decide, by decide, ?_⟩
  obtain ⟨n, f', gd, g', fuel0, _, _, hth, _, _, _, htype, _, _, hex, _⟩ :=
    tick_blocked_cascade bar_shapes landed_game (by decide) (by decide) (by decide) (by decide)
  have hlo : get_limit_low_block bar_shapes landed_game.curr_block = 21 := by decide
  have hhi : get_limit_high_block bar_shapes landed_game.curr_block = 21 := by decide
  rw [hlo, hhi] at hex
  obtain ⟨_, h1, h2⟩ := hex 21 (le_refl _) (le_refl _)
    (fun r hr1 hr2 => by
      have : r = 21 := by omega
      subst this
      exact ⟨fun _ => rfl, fun _ => landed_field_row21⟩)
    (Or.inr (landed_field_other _ (by decide)))
  exact ⟨g', fuel0, hth, h1, h2, htype⟩

/-- C5: a tick that runs the cascade (the current block is blocked, its lowest row
index is non-negative) ends, on a field with at least one column and with a next
block that has a cell; for the number `n` of rows that the cascade clears,
`timer_handler` increases the score by exactly `100 * n^2 * bonus`, where the
bonus is 2 when the ghost option is `OPT_GHOST_OFF` and 1 otherwise. The
increments for 0 to 4 rows are 0, 100, 400, 900, 1600 with the ghost enabled and
0, 200, 800, 1800, 3200 with the ghost disabled; `n = 0` leaves the score
unchanged. -/
theorem tick_score (sh : Shapes) (g : Game)
    (hblocked : can_move_block sh g.curr_block g.curr_field .DOWN = false)
    (hlow : 0 ≤ get_limit_low_block sh g.curr_block)
    (hcols : 1 ≤ g.curr_field.cols)
    (hshape : sh g.next_block.type g.next_block.rot ≠ []) :
    ∃ (n : Nat) (f' : Field) (g' : Game) (fuel0 : Nat),
      (∀ fuel : Nat, fuel0 ≤ fuel →
        field_cascade (get_limit_low_block sh g.curr_block)
          (get_limit_high_block sh g.curr_block) fuel g.curr_field = some (f', n)) ∧
      (∀ fuel : Nat, fuel0 ≤ fuel → timer_handler sh fuel g = some g') ∧
      g'.score = g.score + score_increment g.option_ghost n ∧
      g'.score = g.score + 100 * (n : Int) ^ 2 * (if g.option_ghost = OPT_GHOST_OFF then 2 else 1) ∧
      (n = 0 → g'.score = g.score) ∧
      ((∀ m : Int, score_increment OPT_GHOST_ON m = 100 * m ^ 2 * 1) ∧
      (∀ m : Int, score_increment OPT_GHOST_OFF m = 100 * m ^ 2 * 2) ∧
      score_increment OPT_GHOST_ON 0 = 0 ∧ score_increment OPT_GHOST_OFF 0 = 0 ∧
      score_increment OPT_GHOST_ON 1 = 100 ∧ score_increment OPT_GHOST_ON 2 = 400 ∧
      score_increment OPT_GHOST_ON 3 = 900 ∧ score_increment OPT_GHOST_ON 4 = 1600 ∧
      score_increment OPT_GHOST_OFF 1 = 200 ∧ score_increment OPT_GHOST_OFF 2 = 800 ∧
      score_increment OPT_GHOST_OFF 3 = 1800 ∧ score_increment OPT_GHOST_OFF 4 = 3200) := by
  obtain ⟨n, f', gd, fuel0, _, hfc, hdb, hth⟩ := tick_blocked_core sh g hblocked hlow hcols hshape
  obtain ⟨⟨_, _, hscore, _⟩, _⟩ := drop_block_frame sh fuel0 _ gd (hdb fuel0 (le_refl _))
  have hs : gd.score = g.score + score_increment g.option_ghost n := hscore
  refine ⟨n, f', _, fuel0, hfc, hth, hs, ?_, ?_, score_increment_table⟩
  · show gd.score = _
    rw [hs]
    simp only [score_increment, SCORE_PER_ROW, BONUS_EXPONENT, BONUS_GHOST_OFF]
  · intro hn
    show gd.score = _
    rw [hs, hn]
    simp [score_increment, BONUS_EXPONENT]

/-- C5, instance: the score after a tick on `stacked_game`. -/
theorem tick_score_witness :
    can_move_block bar_shapes stacked_game.curr_block stacked_game.curr_field .DOWN = false ∧
    0 ≤ get_limit_low_block bar_shapes stacked_game.curr_block ∧
    1 ≤ stacked_game.curr_field.cols ∧
    bar_shapes stacked_game.next_block.type stacked_game.next_block.rot ≠ [] ∧
    ∃ (n : Nat) (g' : Game) (fuel0 : Nat),
      (∀ fuel : Nat, fuel0 ≤ fuel → timer_handler bar_shapes fuel stacked_game = some g') ∧
      g'.score = stacked_game.score + 100 * (n : Int) ^ 2 *
        (if stacked_game.option_ghost = OPT_GHOST_OFF then 2 else 1) := by
  refine ⟨by decide, by decide, by decide, by decide, ?_⟩
  obtain ⟨n, _, g', fuel0, _, hth, _, hs, _⟩ :=
    tick_score bar_shapes stacked_game (by decide) (by decide) (by decide) (by decide)
  exact ⟨n, g', fuel0, hth, hs⟩

/-- C6: in every state reached from `init_game` by ticks, the level is
`min(10, 1 + rows / 5)` for the counter `rows` of cleared rows, which is never
negative: the level is `1 + rows / 5` up to 44 rows (2, 3, 4, ... from exactly 5,
10, 15, ... rows) and stays at 10 from 45 rows on. -/
theorem level_formula (sh : Shapes) (g : Game) (h : TickReachable sh g) :
    g.level = min LEVEL_CAP (1 + g.rows / ROWS_PER_LEVEL) ∧ 0 ≤ g.rows ∧
    (g.rows < 45 → g.level = 1 + g.rows / 5) ∧ (45 ≤ g.rows → g.level = 10) ∧
    (∀ k : Int, 1 ≤ k → k ≤ 9 → (g.level = k ↔ 5 * (k - 1) ≤ g.rows ∧ g.rows < 5 * k)) := by
  obtain ⟨h0, h1⟩ := tickReachable_levelInv sh g h
  refine ⟨?_, h0, ?_, ?_, ?_⟩
  · simp only [LEVEL_CAP, ROWS_PER_LEVEL, min_def]
    split_ifs <;> omega
  · intro _; omega
  · intro _; omega
  · intro k hk1 hk9
    omega

/-- C6, instance: the state in which `init_game` leaves the game started from
`landed_game`. -/
theorem level_formula_witness :
    ∃ g : Game, TickReachable bar_shapes g ∧
      (g.level = min LEVEL_CAP (1 + g.rows / ROWS_PER_LEVEL) ∧ 0 ≤ g.rows ∧
      (g.rows < 45 → g.level = 1 + g.rows / 5) ∧ (45 ≤ g.rows → g.level = 10) ∧
      (∀ k : Int, 1 ≤ k → k ≤ 9 → (g.level = k ↔ 5 * (k - 1) ≤ g.rows ∧ g.rows < 5 * k))) := by
  obtain ⟨fuel0, g, hg⟩ : ∃ (fuel0 : Nat) (g : Game), ∀ fuel : Nat, fuel0 ≤ fuel →
      init_game bar_shapes fuel landed_game = some g :=
    drop_block_total bar_shapes _ (by decide)
  have hreach : TickReachable bar_shapes g :=
    TickReachable.init fuel0 landed_game g (hg fuel0 (le_refl _))
  exact ⟨g, hreach, level_formula bar_shapes g hreach⟩

/-- C7: when the current block cannot move down and its lowest row index is
negative, one tick sets the status to `GAME_OVER` and nothing else happens: the
grid, the level, the score and the counter of cleared rows are unchanged, no block
is spawned (the three blocks, the preview field and the random source are
unchanged), and the timer is left stopped. -/
theorem tick_game_over (sh : Shapes) (fuel : Nat) (g : Game)
    (hblocked : can_move_block sh g.curr_block g.curr_field .DOWN = false)
    (hlow : get_limit_low_block sh g.curr_block < 0) :
    ∃ g' : Game, timer_handler sh fuel g = some g' ∧
      g'.status = GAME_OVER ∧ g'.curr_field = g.curr_field ∧ g'.level = g.level ∧
      g'.score = g.score ∧ g'.rows = g.rows ∧ g'.curr_block = g.curr_block ∧
      g'.next_block = g.next_block ∧ g'.ghost_block = g.ghost_block ∧
      g'.next_field = g.next_field ∧ g'.rand = g.rand ∧ g'.tv_nsec = 0 := by
  refine ⟨{ stop_timer g with status := GAME_OVER }, ?_,
    rfl, rfl, rfl, rfl, rfl, rfl, rfl, rfl, rfl, rfl, rfl⟩
  have hlow' : get_limit_low_block sh (stop_timer g).curr_block < 0 := hlow
  simp only [timer_handler, hblocked, Bool.false_eq_true, if_false]
  rw [if_pos hlow']

/-- C7, instance: a tick on `stuck_game`. -/
theorem tick_game_over_witness :
    can_move_block bar_shapes stuck_game.curr_block stuck_game.curr_field .DOWN = false ∧
    get_limit_low_block bar_shapes stuck_game.curr_block < 0 ∧
    ∃ g' : Game, timer_handler bar_shapes 1 stuck_game = some g' ∧
      g'.status = GAME_OVER ∧ g'.curr_field = stuck_game.curr_field ∧
      g'.level = stuck_game.level ∧ g'.score = stuck_game.score ∧
      g'.rows = stuck_game.rows ∧ g'.curr_block = stuck_game.curr_block ∧
      g'.next_block = stuck_game.next_block ∧ g'.ghost_block = stuck_game.ghost_block ∧
      g'.next_field = stuck_game.next_field ∧ g'.rand = stuck_game.rand ∧ g'.tv_nsec = 0 :=
  ⟨by decide, by decide, tick_game_over bar_shapes 1 stuck_game (by decide) (by decide)⟩

/-- C8: when `can_move_block` of the current block for `DOWN` is true, one tick
moves the current block exactly one row down, with the same column, rotation, type
and tag, and leaves the level, the score, the counter of cleared rows, the status,
the next block, the ghost block and the timer unchanged. -/
theorem tick_moves_down (sh : Shapes) (fuel : Nat) (g : Game)
    (hcan : can_move_block sh g.curr_block g.curr_field .DOWN = true) :
    ∃ g' : Game, timer_handler sh fuel g = some g' ∧
      g'.curr_block.row = g.curr_block.row + 1 ∧ g'.curr_block.col = g.curr_block.col ∧
      g'.curr_block.rot = g.curr_block.rot ∧ g'.curr_block.type = g.curr_block.type ∧
      g'.curr_block.mark = g.curr_block.mark ∧
      g'.level = g.level ∧ g'.score = g.score ∧ g'.rows = g.rows ∧ g'.status = g.status ∧
      g'.next_block = g.next_block ∧ g'.ghost_block = g.ghost_block ∧
      g'.next_field = g.next_field ∧ g'.tv_nsec = g.tv_nsec := by
  refine ⟨{ g with
      curr_block := (move_block sh g.curr_block g.curr_field .DOWN).1,
      curr_field := (move_block sh g.curr_block g.curr_field .DOWN).2 }, ?_,
    rfl, ?_, rfl, rfl, rfl, rfl, rfl, rfl, rfl, rfl, rfl, rfl, rfl⟩
  · simp only [timer_handler, hcan, if_true]
  · simp only [move_block_fst, Direction.dcol, add_zero]

/-- C8, instance: a tick on `falling_game`. -/
theorem tick_moves_down_witness :
    can_move_block bar_shapes falling_game.curr_block falling_game.curr_field .DOWN = true ∧
    ∃ g' : Game, timer_handler bar_shapes 1 falling_game = some g' ∧
      g'.curr_block.row = falling_game.curr_block.row + 1 ∧
      g'.curr_block.col = falling_game.curr_block.col ∧
      g'.curr_block.rot = falling_game.curr_block.rot ∧
      g'.curr_block.type = falling_game.curr_block.type ∧
      g'.curr_block.mark = falling_game.curr_block.mark ∧
      g'.level = falling_game.level ∧ g'.score = falling_game.score ∧
      g'.rows = falling_game.rows ∧ g'.status = falling_game.status ∧
      g'.next_block = falling_game.next_block ∧ g'.ghost_block = falling_game.ghost_block ∧
      g'.next_field = falling_game.next_field ∧ g'.tv_nsec = falling_game.tv_nsec :=
  ⟨by decide, tick_moves_down bar_shapes 1 falling_game (by decide)⟩

/-- C9: on a field of settled cells (no `GHOST` tag on it), for a piece that starts
above the grid, after any finite sequence of guarded actions (rotate, move Down,
move Left, move Right, each performed only when its test returns true),
`erase_block` of the piece gives back the original settled field, cell for cell. -/
theorem guarded_actions_keep_field (sh : Shapes) (f0 : Field) (b0 : Block)
    (hsettled : ∀ r c : Int, 0 ≤ r → r < f0.rows → 0 ≤ c → c < f0.cols → f0.grid r c ≠ GHOST)
    (habove : ∀ p ∈ b0.cells sh, p.1 < 0) (acts : List Action) :
    erase_block sh (test_actions sh acts (b0, f0)).1 (test_actions sh acts (b0, f0)).2 = f0 := by
  obtain ⟨hr, hc, hcells, hgrid⟩ :=
    stamped_test_actions sh f0 hsettled acts (b0, f0) (stamped_above sh f0 b0 habove)
  refine Field.ext_iff_fields _ _ hr hc ?_
  simp only [erase_block]
  rw [hgrid, Grid.fill_fill, Grid.fill_BG_of_empty f0.grid _ hcells]

/-- C9, instance: the bar dropped in `settled_4x3`, moved and rotated. -/
theorem guarded_actions_keep_field_witness :
    (∀ r c : Int, 0 ≤ r → r < settled_4x3.rows → 0 ≤ c → c < settled_4x3.cols →
      settled_4x3.grid r c ≠ GHOST) ∧
    (∀ p ∈ bar_above.cells bar_shapes, p.1 < 0) ∧
    erase_block bar_shapes
      (test_actions bar_shapes
        [.down, .down, .down, .down, .down, .down, .rotate, .left, .down, .right, .right]
        (bar_above, settled_4x3)).1
      (test_actions bar_shapes
        [.down, .down, .down, .down, .down, .down, .rotate, .left, .down, .right, .right]
        (bar_above, settled_4x3)).2 = settled_4x3 :=
  have h1 : ∀ r c : Int, 0 ≤ r → r < settled_4x3.rows → 0 ≤ c → c < settled_4x3.cols →
      settled_4x3.grid r c ≠ GHOST := by
    intro r c _ _ _ _
    simp only [settled_4x3]
    split_ifs <;> decide
  have h2 : ∀ p ∈ bar_above.cells bar_shapes, p.1 < 0 := by decide
  ⟨h1, h2, guarded_actions_keep_field bar_shapes settled_4x3 bar_above h1 h2 _⟩

/-- C10, as amended: when the cells of the piece that lie on the grid are all `BG`
before the stamp, `erase_block` applied immediately after `write_block` restores
the field to its state before the stamp exactly. -/
theorem erase_write_block (sh : Shapes) (b : Block) (f : Field)
    (hempty : ∀ p ∈ b.cells sh, 0 ≤ p.1 → f.grid p.1 p.2 = BG) :
    erase_block sh b (write_block sh b f) = f := by
  refine Field.ext_iff_fields _ _ rfl rfl ?_
  simp only [erase_block, write_block]
  rw [Grid.fill_fill, Grid.fill_BG_of_empty f.grid _ hempty]

/-- C10, instance of the amended claim: the bar stamped on the empty field. -/
theorem erase_write_block_witness :
    (∀ p ∈ bar_row0.cells bar_shapes, 0 ≤ p.1 → empty_1x3.grid p.1 p.2 = BG) ∧
    erase_block bar_shapes bar_row0 (write_block bar_shapes bar_row0 empty_1x3) = empty_1x3 :=
  have h : ∀ p ∈ bar_row0.cells bar_shapes, 0 ≤ p.1 → empty_1x3.grid p.1 p.2 = BG :=
    fun _ _ _ => rfl
  ⟨h, erase_write_block bar_shapes bar_row0 empty_1x3 h⟩

/-- C10, as stated, fails: on a field where the bar is already stamped (a
re-stamp), a stamp followed by an erase leaves `BG` in the cell (0, 1), which held
the tag 3 before the stamp. -/
theorem erase_write_block_restamp :
    (write_block bar_shapes bar_row0 empty_1x3).grid 0 1 = 3 ∧
    (erase_block bar_shapes bar_row0
      (write_block bar_shapes bar_row0 (write_block bar_shapes bar_row0 empty_1x3))).grid 0 1
      = BG ∧
    erase_block bar_shapes bar_row0
      (write_block bar_shapes bar_row0 (write_block bar_shapes bar_row0 empty_1x3))
      ≠ write_block bar_shapes bar_row0 empty_1x3 := by
  have h1 : (write_block bar_shapes bar_row0 empty_1x3).grid 0 1 = 3 := by decide
  have h2 : (erase_block bar_shapes bar_row0
      (write_block bar_shapes bar_row0 (write_block bar_shapes bar_row0 empty_1x3))).grid 0 1
      = BG := by decide
  refine ⟨h1, h2, ?_⟩
  intro h
  rw [h, h1] at h2
  exact absurd h2 (by decide)

/-- C12: when the block cannot rotate in place, can move one step `LEFT` and can
rotate after that step, `fix_block_position` ends with the block one column to the
left, rotated once (`rot = (old rot + 1) % 4`), on the same row, with the same type
and tag: it returns the state reached by the left half, the right half that the
code still executes changes nothing (its first test `can_move_block(RIGHT)` is
false). -/
theorem fix_left_kick_one (sh : Shapes) (s : Block × Field)
    (hrot : can_rotate_block sh s.1 s.2 = false)
    (hleft : can_move_block sh s.1 s.2 .LEFT = true)
    (hrot1 : can_rotate_block sh (move_block sh s.1 s.2 .LEFT).1
      (move_block sh s.1 s.2 .LEFT).2 = true) :
    fix_block_position sh s = fix_left sh s ∧
    fix_left sh s
      = rotate_block sh (move_block sh s.1 s.2 .LEFT).1 (move_block sh s.1 s.2 .LEFT).2 ∧
    can_move_block sh (fix_left sh s).1 (fix_left sh s).2 .RIGHT = false ∧
    (fix_block_position sh s).1.col = s.1.col - 1 ∧
    (fix_block_position sh s).1.rot = (s.1.rot + 1) % 4 ∧
    (fix_block_position sh s).1.row = s.1.row ∧
    (fix_block_position sh s).1.type = s.1.type ∧
    (fix_block_position sh s).1.mark = s.1.mark := by
  have hl : fix_left sh s
      = rotate_block sh (move_block sh s.1 s.2 .LEFT).1 (move_block sh s.1 s.2 .LEFT).2 := by
    rw [fix_left_eq]
    exact fix_half_probe1 sh .LEFT s ⟨hleft, hrot1⟩
  have hback : can_move_block sh (fix_left sh s).1 (fix_left sh s).2 .RIGHT = false := by
    rw [hl]
    exact no_step_back sh s .LEFT (Or.inl rfl) hrot hleft hrot1
  have hfix : fix_block_position sh s = fix_left sh s := by
    simp only [fix_block_position, fix_right, hback, Bool.false_eq_true, if_false]
  have hb := kick1_block sh s .LEFT (Or.inl rfl)
  rw [← hl, ← hfix] at hb
  refine ⟨hfix, hl, hback, ?_, ?_, ?_, ?_, ?_⟩ <;> rw [hb]
  · simp only [Direction.dcol]; ring

/-- C12, instance: a vertical bar against the right wall is moved one column to the
left and rotated. -/
theorem fix_left_kick_one_witness :
    can_rotate_block bar_shapes wall_right_bar wall_right_field = false ∧
    can_move_block bar_shapes wall_right_bar wall_right_field .LEFT = true ∧
    can_rotate_block bar_shapes
      (move_block bar_shapes wall_right_bar wall_right_field .LEFT).1
      (move_block bar_shapes wall_right_bar wall_right_field .LEFT).2 = true ∧
    (fix_block_position bar_shapes (wall_right_bar, wall_right_field)).1.col = 1 ∧
    (fix_block_position bar_shapes (wall_right_bar, wall_right_field)).1.rot = 2 ∧
    (fix_block_position bar_shapes (wall_right_bar, wall_right_field)).1.row = 2 :=
  have h := fix_left_kick_one bar_shapes (wall_right_bar, wall_right_field)
    (by decide) (by decide) (by decide)
  ⟨by decide, by decide, by decide, h.2.2.2.1, h.2.2.2.2.1, h.2.2.2.2.2.1⟩

/-- C14: when the left probing of `fix_block_position` ends without a rotation
(neither the probe by one step nor the probe by two steps gave a feasible
rotation), the block is back at its original column, row and rotation before the
right probing starts; then, if a step `RIGHT` is feasible and the rotation is
feasible after it, the call ends with the block at the original column + 1,
rotated once, and otherwise, if a second step `RIGHT` is feasible and the rotation
is feasible after it, at the original column + 2, rotated once. -/
theorem fix_left_failed_then_right (sh : Shapes) (s : Block × Field)
    (h1 : ¬ probe1 sh .LEFT s) (h2 : ¬ probe2 sh .LEFT s) :
    (fix_left sh s).1 = s.1 ∧
    (probe1 sh .RIGHT (fix_left sh s) →
      (fix_block_position sh s).1
        = { s.1 with rot := (s.1.rot + 1) % 4, row := s.1.row, col := s.1.col + 1 }) ∧
    (probe2 sh .RIGHT (fix_left sh s) →
      (fix_block_position sh s).1
        = { s.1 with rot := (s.1.rot + 1) % 4, row := s.1.row, col := s.1.col + 2 }) := by
  have hl : (fix_left sh s).1 = s.1 := by
    rw [fix_left_eq]
    exact fix_half_fail_fst sh .LEFT (Or.inl rfl) s h1 h2
  refine ⟨hl, ?_, ?_⟩
  · intro hp
    simp only [fix_block_position]
    rw [fix_right_eq, fix_half_probe1 sh .RIGHT _ hp, kick1_block sh _ .RIGHT (Or.inr rfl), hl]
    rfl
  · intro hp
    simp only [fix_block_position]
    rw [fix_right_eq, fix_half_probe2 sh .RIGHT _ hp, kick2_block sh _ .RIGHT (Or.inr rfl), hl]
    rfl

/-- C14, instance: a vertical bar against the left wall cannot move `LEFT`; it
is moved one column to the right and rotated. -/
theorem fix_left_failed_then_right_witness :
    ¬ probe1 bar_shapes .LEFT (wall_left_bar, wall_left_field) ∧
    ¬ probe2 bar_shapes .LEFT (wall_left_bar, wall_left_field) ∧
    probe1 bar_shapes .RIGHT (fix_left bar_shapes (wall_left_bar, wall_left_field)) ∧
    (fix_block_position bar_shapes (wall_left_bar, wall_left_field)).1
      = { wall_left_bar with
          rot := (wall_left_bar.rot + 1) % 4, row := wall_left_bar.row,
          col := wall_left_bar.col + 1 } :=
  have h1 : ¬ probe1 bar_shapes .LEFT (wall_left_bar, wall_left_field) :=
    fun h => absurd h.1 (by decide)
  have h2 : ¬ probe2 bar_shapes .LEFT (wall_left_bar, wall_left_field) :=
    fun h => absurd h.1 (by decide)
  have h3 : probe1 bar_shapes .RIGHT (fix_left bar_shapes (wall_left_bar, wall_left_field)) :=
    ⟨by decide, by decide⟩
  ⟨h1, h2, h3,
    (fix_left_failed_then_right bar_shapes (wall_left_bar, wall_left_field) h1 h2).2.1 h3⟩

/-- C16: when the ghost has the type of the current block and at least one cell,
`update_ghost` returns (with enough fuel), and on every state `g1` that it returns
the ghost has the rotation and the column of the current block, is not above it
and cannot move down, and a second `update_ghost` (the ghost placed at the
rotation and the anchor of the current block, then moved down while
`can_move_block` is true) returns `g1` itself: the same ghost position and the
same grid. -/
theorem update_ghost_idempotent (sh : Shapes) (g : Game)
    (htype : g.ghost_block.type = g.curr_block.type)
    (hshape : sh g.ghost_block.type g.curr_block.rot ≠ []) :
    (∃ (fuel0 : Nat) (g1 : Game), ∀ fuel : Nat, fuel0 ≤ fuel →
      update_ghost sh fuel g = some g1) ∧
    ∀ (fuel : Nat) (g1 : Game), update_ghost sh fuel g = some g1 →
      g1.ghost_block.rot = g1.curr_block.rot ∧
      g1.ghost_block.col = g1.curr_block.col ∧
      g1.curr_block.row ≤ g1.ghost_block.row ∧
      can_move_block sh g1.ghost_block g1.curr_field .DOWN = false ∧
      update_ghost sh fuel g1 = some g1 := by
  refine ⟨update_ghost_total sh g hshape, fun fuel g1 h1 => ?_⟩
  obtain ⟨t, ht, rfl⟩ := (update_ghost_run sh fuel g g1).mp h1
  obtain ⟨_, _, _, _, a2, a3, _, _, _⟩ := ghost_fall sh fuel g t ht
  exact ⟨a2, a3, (fall_visited sh fuel _ t ht).1, ghost_rests sh fuel g t htype ht,
    update_ghost_again sh fuel g t htype ht⟩

/-- C16, witness: the statement on `landed_game`. -/
theorem update_ghost_idempotent_witness :
    (∃ (fuel0 : Nat) (g1 : Game), ∀ fuel : Nat, fuel0 ≤ fuel →
      update_ghost bar_shapes fuel landed_game = some g1) ∧
    ∀ (fuel : Nat) (g1 : Game), update_ghost bar_shapes fuel landed_game = some g1 →
      g1.ghost_block.rot = g1.curr_block.rot ∧
      g1.ghost_block.col = g1.curr_block.col ∧
      g1.curr_block.row ≤ g1.ghost_block.row ∧
      can_move_block bar_shapes g1.ghost_block g1.curr_field .DOWN = false ∧
      update_ghost bar_shapes fuel g1 = some g1 :=
  update_ghost_idempotent bar_shapes landed_game (by decide) (by decide)

/-- C17: when the ghost has the tag `GHOST`, the current block another tag, and the
ghost at least one cell, `update_ghost` returns (with enough fuel), and on every
state that it returns the current block is the one of before, every cell of the
current block on the grid holds the tag of the current block and not `GHOST`, and
every cell of the ghost on the grid that is not a cell of the current block holds
`GHOST`. -/
theorem update_ghost_stamps (sh : Shapes) (g : Game)
    (hgm : g.ghost_block.mark = GHOST) (hcm : g.curr_block.mark ≠ GHOST)
    (hshape : sh g.ghost_block.type g.curr_block.rot ≠ []) :
    (∃ (fuel0 : Nat) (g1 : Game), ∀ fuel : Nat, fuel0 ≤ fuel →
      update_ghost sh fuel g = some g1) ∧
    ∀ (fuel : Nat) (g1 : Game), update_ghost sh fuel g = some g1 →
      g1.curr_block = g.curr_block ∧
      (∀ p ∈ g1.curr_block.cells sh, 0 ≤ p.1 →
        g1.curr_field.grid p.1 p.2 = g1.curr_block.mark ∧
        g1.curr_field.grid p.1 p.2 ≠ GHOST) ∧
      (∀ p ∈ g1.ghost_block.cells sh, 0 ≤ p.1 → p ∉ g1.curr_block.cells sh →
        g1.curr_field.grid p.1 p.2 = GHOST) := by
  refine ⟨update_ghost_total sh g hshape, fun fuel g1 h1 => ?_⟩
  obtain ⟨t, ht, rfl⟩ := (update_ghost_run sh fuel g g1).mp h1
  obtain ⟨_, hM, _, _, _, _, a4, _, _⟩ := ghost_fall sh fuel g t ht
  have hgrid : ∀ r c, (ghost_done sh g t).curr_field.grid r c
      = if (r, c) ∈ g.curr_block.cells sh ∧ 0 ≤ r then g.curr_block.mark else t.2.grid r c :=
    fun r c => resync_grid sh g.curr_block t.2 r c
  refine ⟨rfl, fun p hp h0 => ?_, fun p hp h0 hnot => ?_⟩
  · have hp' : (p.1, p.2) ∈ g.curr_block.cells sh := hp
    rw [hgrid, if_pos ⟨hp', h0⟩]
    exact ⟨rfl, hcm⟩
  · have hnot' : ¬ ((p.1, p.2) ∈ g.curr_block.cells sh ∧ 0 ≤ p.1) := fun hm => hnot hm.1
    rw [hgrid, if_neg hnot']
    exact (hM p hp h0).trans (a4.trans hgm)

/-- C17, witness: the statement on `landed_game`. -/
theorem update_ghost_stamps_witness :
    (∃ (fuel0 : Nat) (g1 : Game), ∀ fuel : Nat, fuel0 ≤ fuel →
      update_ghost bar_shapes fuel landed_game = some g1) ∧
    ∀ (fuel : Nat) (g1 : Game), update_ghost bar_shapes fuel landed_game = some g1 →
      g1.curr_block = landed_game.curr_block ∧
      (∀ p ∈ g1.curr_block.cells bar_shapes, 0 ≤ p.1 →
        g1.curr_field.grid p.1 p.2 = g1.curr_block.mark ∧
        g1.curr_field.grid p.1 p.2 ≠ GHOST) ∧
      (∀ p ∈ g1.ghost_block.cells bar_shapes, 0 ≤ p.1 → p ∉ g1.curr_block.cells bar_shapes →
        g1.curr_field.grid p.1 p.2 = GHOST) :=
  update_ghost_stamps bar_shapes landed_game (by decide) (by decide) (by decide)

/-- C20: in every state of `game_loop` the timer is stopped or runs with the
interval `800 - 50*(level - 1)` milliseconds of the current level (every start of
the timer sets this interval); `game_loop` starts the timer with 800 milliseconds
at level 1, and so do the two restarts; and the interval is strictly decreasing
in the level over the levels 1 to 10. -/
theorem timer_interval (sh : Shapes) (l : Loop) (h : LoopReachable sh l) :
    (l.game.tv_nsec = 0 ∨
      l.game.tv_nsec
        = (INIT_VALUE_MILLIS - INTERVAL_REDUCTION_PER_LEVEL_MILLIS * (l.game.level - 1))
            * 1000000) ∧
    (∀ (fuel : Nat) (g : Game) (sel : Int) (l0 : Loop),
      game_loop_start sh fuel g sel = some l0 →
      l0.game.level = 1 ∧ l0.game.tv_nsec = 800 * 1000000) ∧
    (∀ (fuel : Nat) (l' : Loop),
      ((l.game.status = GAME_MENU ∧ l.menu_selection = MENU_RESTART) ∨
        (l.game.status = GAME_OVER ∧ l.game_over_selection = GAME_OVER_RESTART)) →
      key_event sh fuel .RETURN l = some l' →
      l'.game.level = 1 ∧ l'.game.tv_nsec = 800 * 1000000) ∧
    (∀ a b : Int, 1 ≤ a → a < b → b ≤ LEVEL_CAP →
      INIT_VALUE_MILLIS - INTERVAL_REDUCTION_PER_LEVEL_MILLIS * (b - 1)
        < INIT_VALUE_MILLIS - INTERVAL_REDUCTION_PER_LEVEL_MILLIS * (a - 1) ∧
      0 < INIT_VALUE_MILLIS - INTERVAL_REDUCTION_PER_LEVEL_MILLIS * (b - 1)) := by
  refine ⟨?_, ?_, ?_, ?_⟩
  · exact loopReachable_induction sh TimerInv
      (fun fuel g g1 hi => by
        obtain ⟨h1, _, _⟩ := init_game_stats sh fuel _ g1 hi
        right
        simp only [start_timer, h1]
        norm_num)
      (prim_timerInv sh) l h
  · intro fuel g sel l0 h0
    simp only [game_loop_start, Option.map_eq_some'] at h0
    obtain ⟨g1, hg, rfl⟩ := h0
    obtain ⟨h1, _, _⟩ := init_game_stats sh fuel _ g1 hg
    exact ⟨h1, rfl⟩
  · intro fuel l' hsel hk
    rcases hsel with ⟨hs, hm⟩ | ⟨hs, hm⟩
    · have hne : ¬ l.game.status = GAME_RUNNING := by rw [hs]; decide
      have hmp : ¬ l.menu_selection = MENU_PLAY := by rw [hm]; decide
      simp only [key_event, key_menu] at hk
      rw [if_neg hne, if_pos hs, if_neg hmp, if_pos hm] at hk
      simp only [Option.map_eq_some'] at hk
      obtain ⟨g1, hg, rfl⟩ := hk
      obtain ⟨h1, _, _⟩ := init_game_stats sh fuel _ g1 hg
      exact ⟨h1, rfl⟩
    · have hne : ¬ l.game.status = GAME_RUNNING := by rw [hs]; decide
      have hnm : ¬ l.game.status = GAME_MENU := by rw [hs]; decide
      simp only [key_event, key_game_over] at hk
      rw [if_neg hne, if_neg hnm, if_pos hs, if_pos hm] at hk
      simp only [Option.map_eq_some'] at hk
      obtain ⟨g1, hg, rfl⟩ := hk
      obtain ⟨h1, _, _⟩ := init_game_stats sh fuel _ g1 hg
      exact ⟨h1, rfl⟩
  · intro a b ha hab hb
    simp only [INIT_VALUE_MILLIS, INTERVAL_REDUCTION_PER_LEVEL_MILLIS, LEVEL_CAP] at *
    constructor <;> omega

/-- C20, instance: the state in which `game_loop` starts from `landed_game`. -/
theorem timer_interval_witness :
    ∃ l : Loop, LoopReachable bar_shapes l ∧
      ((l.game.tv_nsec = 0 ∨
        l.game.tv_nsec
          = (INIT_VALUE_MILLIS - INTERVAL_REDUCTION_PER_LEVEL_MILLIS * (l.game.level - 1))
              * 1000000) ∧
      (∀ (fuel : Nat) (g : Game) (sel : Int) (l0 : Loop),
        game_loop_start bar_shapes fuel g sel = some l0 →
        l0.game.level = 1 ∧ l0.game.tv_nsec = 800 * 1000000) ∧
      (∀ (fuel : Nat) (l' : Loop),
        ((l.game.status = GAME_MENU ∧ l.menu_selection = MENU_RESTART) ∨
          (l.game.status = GAME_OVER ∧ l.game_over_selection = GAME_OVER_RESTART)) →
        key_event bar_shapes fuel .RETURN l = some l' →
        l'.game.level = 1 ∧ l'.game.tv_nsec = 800 * 1000000) ∧
      (∀ a b : Int, 1 ≤ a → a < b → b ≤ LEVEL_CAP →
        INIT_VALUE_MILLIS - INTERVAL_REDUCTION_PER_LEVEL_MILLIS * (b - 1)
          < INIT_VALUE_MILLIS - INTERVAL_REDUCTION_PER_LEVEL_MILLIS * (a - 1) ∧
        0 < INIT_VALUE_MILLIS - INTERVAL_REDUCTION_PER_LEVEL_MILLIS * (b - 1))) := by
  obtain ⟨fuel0, l, hl⟩ := game_loop_start_total bar_shapes landed_game 0 (by decide)
  have hreach : LoopReachable bar_shapes l :=
    LoopReachable.start fuel0 landed_game 0 l (hl fuel0 (le_refl _))
  exact ⟨l, hreach, timer_interval bar_shapes l hreach⟩

/-- C19: with a valid geometry table, from every state of `game_loop` in which the
game menu is open on Restart, or the game-over menu on Restart, the key `RETURN`
returns (with enough fuel), and in every state that it returns the level is 1, the
score 0, the counter of cleared rows 0 and the status `GAME_RUNNING`; the main
field has 22 rows and 11 columns; `drop_block` has been called on a grid whose 22
x 11 cells are all `BG`; and every cell of the main grid that is not `BG` is a
cell of the current block or, when the ghost option is enabled, of the ghost. -/
theorem restart_resets (sh : Shapes) (hv : sh.valid) (l : Loop)
    (hsel : (l.game.status = GAME_MENU ∧ l.menu_selection = MENU_RESTART) ∨
      (l.game.status = GAME_OVER ∧ l.game_over_selection = GAME_OVER_RESTART)) :
    (∃ (fuel0 : Nat) (l' : Loop), ∀ fuel : Nat, fuel0 ≤ fuel →
      key_event sh fuel .RETURN l = some l') ∧
    ∀ (fuel : Nat) (l' : Loop), key_event sh fuel .RETURN l = some l' →
      l'.game.level = 1 ∧ l'.game.score = 0 ∧ l'.game.rows = 0 ∧
      l'.game.status = GAME_RUNNING ∧
      l'.game.curr_field.rows = ROWS ∧ l'.game.curr_field.cols = COLUMNS ∧
      (∃ g0 g1 : Game,
        (∀ r c : Int, 0 ≤ r → r < ROWS → 0 ≤ c → c < COLUMNS →
          g0.curr_field.grid r c = BG) ∧
        drop_block sh fuel g0 = some g1 ∧ l'.game.curr_field = g1.curr_field ∧
        l'.game.curr_block = g1.curr_block ∧ l'.game.ghost_block = g1.ghost_block) ∧
      ∀ r c : Int, 0 ≤ r → r < ROWS → 0 ≤ c → c < COLUMNS →
        l'.game.curr_field.grid r c ≠ BG →
        (r, c) ∈ l'.game.curr_block.cells sh ∨
          (l'.game.option_ghost = OPT_GHOST_ON ∧ (r, c) ∈ l'.game.ghost_block.cells sh) := by
  rcases hsel with ⟨hs, hm⟩ | ⟨hs, hm⟩
  · have hne : ¬ l.game.status = GAME_RUNNING := by rw [hs]; decide
    have hmp : ¬ l.menu_selection = MENU_PLAY := by rw [hm]; decide
    have hkey : ∀ fuel, key_event sh fuel .RETURN l
        = (init_game sh fuel l.game).map fun g =>
          { l with
            game_menu_select := MENU_PLAY,
            game := start_timer { g with status := GAME_RUNNING } INIT_VALUE_MILLIS,
            menu_selection := MENU_PLAY } := by
      intro fuel
      simp only [key_event, key_menu]
      rw [if_neg hne, if_pos hs, if_neg hmp, if_pos hm]
    constructor
    · obtain ⟨fuel0, g1, hg⟩ := init_game_total sh hv l.game
      exact ⟨fuel0, _, fun fuel hfuel => by rw [hkey, hg fuel hfuel]; rfl⟩
    · intro fuel l' hk
      rw [hkey] at hk
      simp only [Option.map_eq_some'] at hk
      obtain ⟨g1, hg, rfl⟩ := hk
      obtain ⟨a1, a2, a3, _, a5, a6, ⟨g0, hclear, hd⟩, a8⟩ := init_game_fresh sh fuel _ g1 hg
      exact ⟨a1, a2, a3, rfl, a5, a6, ⟨g0, g1, hclear, hd, rfl, rfl, rfl⟩, a8⟩
  · have hne : ¬ l.game.status = GAME_RUNNING := by rw [hs]; decide
    have hnm : ¬ l.game.status = GAME_MENU := by rw [hs]; decide
    have hkey : ∀ fuel, key_event sh fuel .RETURN l
        = (init_game sh fuel { l.game with status := GAME_RUNNING }).map fun g =>
          { l with
            game_menu_select := MENU_PLAY,
            game := start_timer g INIT_VALUE_MILLIS,
            game_over_selection := GAME_OVER_RESTART } := by
      intro fuel
      simp only [key_event, key_game_over]
      rw [if_neg hne, if_neg hnm, if_pos hs, if_pos hm]
    constructor
    · obtain ⟨fuel0, g1, hg⟩ := init_game_total sh hv { l.game with status := GAME_RUNNING }
      exact ⟨fuel0, _, fun fuel hfuel => by rw [hkey, hg fuel hfuel]; rfl⟩
    · intro fuel l' hk
      rw [hkey] at hk
      simp only [Option.map_eq_some'] at hk
      obtain ⟨g1, hg, rfl⟩ := hk
      obtain ⟨a1, a2, a3, a4, a5, a6, ⟨g0, hclear, hd⟩, a8⟩ := init_game_fresh sh fuel _ g1 hg
      exact ⟨a1, a2, a3, a4, a5, a6, ⟨g0, g1, hclear, hd, rfl, rfl, rfl⟩, a8⟩

/-- C19, witness: the statement on `menu_loop`. -/
theorem restart_resets_witness :
    (∃ (fuel0 : Nat) (l' : Loop), ∀ fuel : Nat, fuel0 ≤ fuel →
      key_event bar_shapes fuel .RETURN menu_loop = some l') ∧
    ∀ (fuel : Nat) (l' : Loop), key_event bar_shapes fuel .RETURN menu_loop = some l' →
      l'.game.level = 1 ∧ l'.game.score = 0 ∧ l'.game.rows = 0 ∧
      l'.game.status = GAME_RUNNING ∧
      l'.game.curr_field.rows = ROWS ∧ l'.game.curr_field.cols = COLUMNS ∧
      (∃ g0 g1 : Game,
        (∀ r c : Int, 0 ≤ r → r < ROWS → 0 ≤ c → c < COLUMNS →
          g0.curr_field.grid r c = BG) ∧
        drop_block bar_shapes fuel g0 = some g1 ∧ l'.game.curr_field = g1.curr_field ∧
        l'.game.curr_block = g1.curr_block ∧ l'.game.ghost_block = g1.ghost_block) ∧
      ∀ r c : Int, 0 ≤ r → r < ROWS → 0 ≤ c → c < COLUMNS →
        l'.game.curr_field.grid r c ≠ BG →
        (r, c) ∈ l'.game.curr_block.cells bar_shapes ∨
          (l'.game.option_ghost = OPT_GHOST_ON ∧
            (r, c) ∈ l'.game.ghost_block.cells bar_shapes) :=
  restart_resets bar_shapes bar_shapes_valid menu_loop (Or.inl ⟨rfl, rfl⟩)

/-- C25: for every field `f`, `clear_field f` holds `BG` in every cell `(r, c)`
with `0 ≤ r < f.rows` and `0 ≤ c < f.cols` and has the dimensions of `f`;
`init_field f rows cols` has the dimensions `(rows, cols)` and holds `BG` in every
cell within them, so with `cols ≥ 1` the function `find_row_field` returns `-1` on
it for every band of rows `[lo, hi]` with `0 ≤ lo` and `hi < rows`. -/
theorem clear_init_field (f : Field) (rows cols : Nat) :
    (∀ r c : Int, 0 ≤ r → r < f.rows → 0 ≤ c → c < f.cols → (clear_field f).grid r c = BG) ∧
    (clear_field f).rows = f.rows ∧ (clear_field f).cols = f.cols ∧
    (init_field f rows cols).rows = rows ∧ (init_field f rows cols).cols = cols ∧
    (∀ r c : Int, 0 ≤ r → r < rows → 0 ≤ c → c < cols →
      (init_field f rows cols).grid r c = BG) ∧
    (1 ≤ cols → ∀ lo hi : Int, 0 ≤ lo → hi < rows →
      find_row_field (init_field f rows cols) lo hi = -1) := by
  refine ⟨?_, rfl, rfl, rfl, rfl, ?_, ?_⟩
  · intro r c h0 h1 h2 h3
    rw [clear_field_grid, if_pos ⟨h0, h1, h2, h3⟩]
  · intro r c h0 h1 h2 h3
    exact init_field_grid f rows cols r c h0 h1 h2 h3
  · intro hcols lo hi hlo hhi
    apply find_row_field_none
    intro r h1 h2 hcomp
    have hc : (0 : Int) < ((init_field f rows cols).cols : Int) := by
      show (0 : Int) < (cols : Int)
      exact_mod_cast hcols
    exact hcomp 0 (le_refl _) hc
      (init_field_grid f rows cols r 0 (by omega) (by omega) (le_refl _) (by exact_mod_cast hcols))

/-- C27: every selector of gui.c that has two scroll functions scrolls circularly
(in the sense of `Circular`): the main menu over 4 entries, the options window,
the colour option and the game menu over 3 entries, the ghost option and the
game-over menu over 2 entries; the rules box, which only scrolls down, goes from
a page in `[0, 1]` to `(page + 1) mod 2`. -/
theorem selectors_circular :
    Circular 4 scroll_down_main_menu scroll_up_main_menu ∧
    Circular 3 scroll_down_options_win scroll_up_options_win ∧
    Circular 3 scroll_down_game_menu scroll_up_game_menu ∧
    Circular 2 scroll_right_option_ghost scroll_left_option_ghost ∧
    Circular 2 scroll_down_game_over_win scroll_up_game_over_win ∧
    Circular 3 scroll_right_option_color scroll_left_option_color ∧
    (∀ v : Int, 0 ≤ v → v < 2 →
      scroll_down_rules_win v = (v + 1) % 2 ∧
      0 ≤ scroll_down_rules_win v ∧ scroll_down_rules_win v < 2) := by
  refine ⟨⟨?_, by decide, by decide⟩, ⟨?_, by decide, by decide⟩, ⟨?_, by decide, by decide⟩,
    ⟨?_, by decide, by decide⟩, ⟨?_, by decide, by decide⟩, ⟨?_, by decide, by decide⟩, ?_⟩ <;>
  · intro v h0 h1
    interval_cases v <;> decide

/-- C28: for `0 ≤ k < f.rows`, `clear_row_field f k` leaves every cell of the rows
`r` with `k < r` unchanged and keeps `f.rows` and `f.cols`; when row `k` was
completed, the number of cells of the grid that are not `BG` decreases by exactly
`f.cols`. -/
theorem clear_row_field_frame (f : Field) (k : Int) (hk0 : 0 ≤ k) (hk : k < f.rows) :
    (∀ r c : Int, k < r → (clear_row_field f k).grid r c = f.grid r c) ∧
    (clear_row_field f k).rows = f.rows ∧ (clear_row_field f k).cols = f.cols ∧
    (f.completed k → count_cells (clear_row_field f k) + f.cols = count_cells f) := by
  refine ⟨?_, rfl, rfl, ?_⟩
  · intro r c hr
    rw [clear_row_field_grid]
    split_ifs <;> first | rfl | (exfalso; omega)
  · intro hcomp
    have h := count_below_clear f k hk0 f.rows hk
    rw [count_row_upto_full f.grid k f.cols (fun c h0 h1 => hcomp c h0 h1)] at h
    exact h

/-- C28, instance: clearing the completed row 1 of `field_3x2` takes the number of
cells that are not `BG` from 2 to 0. -/
theorem clear_row_field_frame_witness :
    (0 : Int) ≤ 1 ∧ (1 : Int) < field_3x2.rows ∧
    ((∀ r c : Int, 1 < r → (clear_row_field field_3x2 1).grid r c = field_3x2.grid r c) ∧
    (clear_row_field field_3x2 1).rows = field_3x2.rows ∧
    (clear_row_field field_3x2 1).cols = field_3x2.cols ∧
    (field_3x2.completed 1 →
      count_cells (clear_row_field field_3x2 1) + field_3x2.cols = count_cells field_3x2)) ∧
    count_cells field_3x2 = 2 :=
  ⟨by decide, by decide, clear_row_field_frame field_3x2 1 (by decide) (by decide),
    by decide⟩

/-- C29: for every field with at least one column and every band `[lo, hi]` with
`0 ≤ lo`, the cascade (find a completed row of the band with `find_row_field`,
clear it with `clear_row_field`, until `-1`) ends: with `N` the number of
completed rows of the rows `[0, hi]` before the loop, `N + 1` tests of the
condition are enough, the number `n` of rows cleared is at most `N`, and the loop
of `timer_handler` on a game with this field and this band ends in the same way,
with `row_to_clear = -1` and its counter increased by `n`. -/
theorem cascade_terminates (f : Field) (lo hi : Int) (hcols : 1 ≤ f.cols) (hlo : 0 ≤ lo) :
    ∃ (n : Nat) (f' : Field),
      n ≤ completed_below f (hi + 1).toNat ∧
      (∀ fuel : Nat, completed_below f (hi + 1).toNat + 1 ≤ fuel →
        field_cascade lo hi fuel f = some (f', n)) ∧
      (∀ (sh : Shapes) (g : Game) (k : Int) (fuel : Nat), g.curr_field = f →
        get_limit_low_block sh g.curr_block = lo → get_limit_high_block sh g.curr_block = hi →
        completed_below f (hi + 1).toNat + 1 ≤ fuel →
        ∃ s : Game × Int × Int,
          while_loop (fun s : Game × Int × Int => decide (s.2.1 ≠ -1)) (cascade_body sh) fuel
            (g, find_row_field g.curr_field lo hi, k) = some s ∧
          s.1.curr_field = f' ∧ s.2.1 = -1 ∧ s.2.2 = k + n ∧ s.1.rows = g.rows + n) := by
  obtain ⟨n, f', hn, hfc⟩ := field_cascade_terminates lo hi hlo _ f hcols (le_refl _)
  refine ⟨n, f', hn, hfc, ?_⟩
  intro sh g k fuel hf h1 h2 hfuel
  rw [cascade_loop_eq sh lo hi fuel g k h1 h2, hf, hfc fuel hfuel]
  exact ⟨_, rfl, rfl, rfl, rfl, rfl⟩

/-- C29, instance: the cascade on `field_5x2` over the band `[1, 4]`. -/
theorem cascade_terminates_witness :
    1 ≤ field_5x2.cols ∧ (0 : Int) ≤ 1 ∧
    ∃ (n : Nat) (f' : Field),
      n ≤ completed_below field_5x2 ((4 : Int) + 1).toNat ∧
      (∀ fuel : Nat, completed_below field_5x2 ((4 : Int) + 1).toNat + 1 ≤ fuel →
        field_cascade 1 4 fuel field_5x2 = some (f', n)) ∧
      (∀ (sh : Shapes) (g : Game) (k : Int) (fuel : Nat), g.curr_field = field_5x2 →
        get_limit_low_block sh g.curr_block = 1 → get_limit_high_block sh g.curr_block = 4 →
        completed_below field_5x2 ((4 : Int) + 1).toNat + 1 ≤ fuel →
        ∃ s : Game × Int × Int,
          while_loop (fun s : Game × Int × Int => decide (s.2.1 ≠ -1)) (cascade_body sh) fuel
            (g, find_row_field g.curr_field 1 4, k) = some s ∧
          s.1.curr_field = f' ∧ s.2.1 = -1 ∧ s.2.2 = k + n ∧ s.1.rows = g.rows + n) :=
  ⟨by decide, by decide, cascade_terminates field_5x2 1 4 (by decide) (by decide)⟩

/-- C30: in every state of `game_loop` the level is between 1 and 10, so the
interval `800 - 50*(level - 1)` that `start_timer` receives is between 350 and
800 milliseconds, hence positive; the product `interval_millis*1000000` of
`start_timer` is at most 800000000, which is less than `10^9` and less than
`2^31` (no overflow of a 32-bit signed `int`); and the timer of the state is
stopped or holds a value between 350000000 and 800000000. -/
theorem timer_interval_range (sh : Shapes) (l : Loop) (h : LoopReachable sh l) :
    1 ≤ l.game.level ∧ l.game.level ≤ LEVEL_CAP ∧
    350 ≤ INIT_VALUE_MILLIS - INTERVAL_REDUCTION_PER_LEVEL_MILLIS * (l.game.level - 1) ∧
    INIT_VALUE_MILLIS - INTERVAL_REDUCTION_PER_LEVEL_MILLIS * (l.game.level - 1) ≤ 800 ∧
    0 < INIT_VALUE_MILLIS - INTERVAL_REDUCTION_PER_LEVEL_MILLIS * (l.game.level - 1) ∧
    (start_timer l.game
      (INIT_VALUE_MILLIS - INTERVAL_REDUCTION_PER_LEVEL_MILLIS * (l.game.level - 1))).tv_nsec
        ≤ 800000000 ∧
    (800000000 : Int) < 10 ^ 9 ∧ (800000000 : Int) < 2 ^ 31 ∧
    0 < (start_timer l.game
      (INIT_VALUE_MILLIS - INTERVAL_REDUCTION_PER_LEVEL_MILLIS * (l.game.level - 1))).tv_nsec ∧
    (l.game.tv_nsec = 0 ∨ (350000000 ≤ l.game.tv_nsec ∧ l.game.tv_nsec ≤ 800000000)) := by
  obtain ⟨h0, h1⟩ := loopReachable_levelInv sh l h
  have ht := loopReachable_induction sh TimerInv
    (fun fuel _ g1 hi => by
      obtain ⟨h1, _, _⟩ := init_game_stats sh fuel _ g1 hi
      right
      simp only [start_timer, h1]
      norm_num)
    (prim_timerInv sh) l h
  have hl1 : 1 ≤ l.game.level := by omega
  have hl2 : l.game.level ≤ 10 := by omega
  simp only [TimerInv, INIT_VALUE_MILLIS, INTERVAL_REDUCTION_PER_LEVEL_MILLIS] at ht
  simp only [start_timer, INIT_VALUE_MILLIS, INTERVAL_REDUCTION_PER_LEVEL_MILLIS, LEVEL_CAP]
  refine ⟨hl1, hl2, by omega, by omega, by omega, by omega, by norm_num, by norm_num,
    by omega, ?_⟩
  rcases ht with ht | ht
  · exact Or.inl ht
  · right
    rw [ht]
    constructor <;> omega

/-- C30, instance: the state in which `game_loop` starts from `landed_game`. -/
theorem timer_interval_range_witness :
    ∃ l : Loop, LoopReachable bar_shapes l ∧
      (1 ≤ l.game.level ∧ l.game.level ≤ LEVEL_CAP ∧
      350 ≤ INIT_VALUE_MILLIS - INTERVAL_REDUCTION_PER_LEVEL_MILLIS * (l.game.level - 1) ∧
      INIT_VALUE_MILLIS - INTERVAL_REDUCTION_PER_LEVEL_MILLIS * (l.game.level - 1) ≤ 800 ∧
      0 < INIT_VALUE_MILLIS - INTERVAL_REDUCTION_PER_LEVEL_MILLIS * (l.game.level - 1) ∧
      (start_timer l.game
        (INIT_VALUE_MILLIS - INTERVAL_REDUCTION_PER_LEVEL_MILLIS * (l.game.level - 1))).tv_nsec
          ≤ 800000000 ∧
      (800000000 : Int) < 10 ^ 9 ∧ (800000000 : Int) < 2 ^ 31 ∧
      0 < (start_timer l.game
        (INIT_VALUE_MILLIS - INTERVAL_REDUCTION_PER_LEVEL_MILLIS * (l.game.level - 1))).tv_nsec ∧
      (l.game.tv_nsec = 0 ∨ (350000000 ≤ l.game.tv_nsec ∧ l.game.tv_nsec ≤ 800000000))) := by
  obtain ⟨fuel0, l, hl⟩ := game_loop_start_total bar_shapes landed_game 0 (by decide)
  have hreach : LoopReachable bar_shapes l :=
    LoopReachable.start fuel0 landed_game 0 l (hl fuel0 (le_refl _))
  exact ⟨l, hreach, timer_interval_range bar_shapes l hreach⟩

/-- C21: with the timer armed when `tv_nsec ≠ 0` (`start_timer` sets it to the
interval, `stop_timer` to 0), in every state of `game_loop`, between two
executions of a handler, the timer is armed only if the status is `GAME_RUNNING`.
The handlers change the two in this order: the menu key gives the state
`stop_timer` with the status `GAME_MENU` set on it; a tick that ends the game
gives `stop_timer` with the status `GAME_OVER` set on it; resume arms the timer on
the state whose status is already `GAME_RUNNING`, and so do the two restarts. -/
theorem timer_armed_only_running (sh : Shapes) (l : Loop) (h : LoopReachable sh l) :
    (l.game.tv_nsec ≠ 0 → l.game.status = GAME_RUNNING) ∧
    (∀ (fuel : Nat) (l' : Loop), l.game.status = GAME_RUNNING →
      key_event sh fuel .MENU l = some l' →
      l'.game = { stop_timer l.game with status := GAME_MENU } ∧
      l'.game.tv_nsec = 0 ∧ l'.game.status = GAME_MENU) ∧
    (∀ (fuel : Nat) (l' : Loop), tick_event sh fuel l = some l' →
      l'.game.status ≠ l.game.status →
      l'.game = { stop_timer l.game with status := GAME_OVER } ∧ l'.game.tv_nsec = 0) ∧
    (∀ (fuel : Nat) (l' : Loop), l.game.status = GAME_MENU → l.menu_selection = MENU_PLAY →
      key_event sh fuel .RETURN l = some l' →
      l'.game = start_timer { l.game with status := GAME_RUNNING }
        (INIT_VALUE_MILLIS - INTERVAL_REDUCTION_PER_LEVEL_MILLIS * (l.game.level - 1)) ∧
      l'.game.status = GAME_RUNNING) ∧
    (∀ (fuel : Nat) (l' : Loop), l.game.status = GAME_MENU → l.menu_selection = MENU_RESTART →
      key_event sh fuel .RETURN l = some l' →
      ∃ g1 : Game, init_game sh fuel l.game = some g1 ∧
        l'.game = start_timer { g1 with status := GAME_RUNNING } INIT_VALUE_MILLIS ∧
        l'.game.status = GAME_RUNNING) ∧
    (∀ (fuel : Nat) (l' : Loop), l.game.status = GAME_OVER →
      l.game_over_selection = GAME_OVER_RESTART →
      key_event sh fuel .RETURN l = some l' →
      ∃ g1 : Game, init_game sh fuel { l.game with status := GAME_RUNNING } = some g1 ∧
        g1.status = GAME_RUNNING ∧ l'.game = start_timer g1 INIT_VALUE_MILLIS ∧
        l'.game.status = GAME_RUNNING) := by
  refine ⟨loopReachable_armed sh l h, ?_, ?_, ?_, ?_, ?_⟩
  · intro fuel l' hs hk
    simp only [key_event] at hk
    rw [if_pos hs] at hk
    simp only [key_running, Option.some.injEq] at hk
    subst hk
    exact ⟨rfl, rfl, rfl⟩
  · intro fuel l' hk hne
    simp only [tick_event, Option.map_eq_some'] at hk
    obtain ⟨g1, hg, rfl⟩ := hk
    rcases timer_handler_cases sh fuel _ g1 hg with ⟨_, rfl⟩ | ⟨_, _, rfl⟩ | ⟨_, _, p, gd, _, hd, rfl⟩
    · exact absurd rfl hne
    · exact ⟨rfl, rfl⟩
    · obtain ⟨⟨_, _, _, s4, _⟩, _⟩ := drop_block_frame sh fuel _ gd hd
      exact absurd s4 hne
  · intro fuel l' hs hm hk
    have hne : ¬ l.game.status = GAME_RUNNING := by rw [hs]; decide
    simp only [key_event, key_menu] at hk
    rw [if_neg hne, if_pos hs, if_pos hm] at hk
    simp only [Option.some.injEq] at hk
    subst hk
    exact ⟨rfl, rfl⟩
  · intro fuel l' hs hm hk
    have hne : ¬ l.game.status = GAME_RUNNING := by rw [hs]; decide
    have hmp : ¬ l.menu_selection = MENU_PLAY := by rw [hm]; decide
    simp only [key_event, key_menu] at hk
    rw [if_neg hne, if_pos hs, if_neg hmp, if_pos hm] at hk
    simp only [Option.map_eq_some'] at hk
    obtain ⟨g1, hg, rfl⟩ := hk
    exact ⟨g1, hg, rfl, rfl⟩
  · intro fuel l' hs hm hk
    have hne : ¬ l.game.status = GAME_RUNNING := by rw [hs]; decide
    have hnm : ¬ l.game.status = GAME_MENU := by rw [hs]; decide
    simp only [key_event, key_game_over] at hk
    rw [if_neg hne, if_neg hnm, if_pos hs, if_pos hm] at hk
    simp only [Option.map_eq_some'] at hk
    obtain ⟨g1, hg, rfl⟩ := hk
    have hst := init_game_status sh fuel _ g1 hg
    exact ⟨g1, hg, hst, rfl, hst⟩

/-- C21, instance: the state in which `game_loop` starts from `landed_game`. -/
theorem timer_armed_only_running_witness :
    ∃ l : Loop, LoopReachable bar_shapes l ∧
      (l.game.tv_nsec ≠ 0 → l.game.status = GAME_RUNNING) ∧
      l.game.tv_nsec ≠ 0 := by
  obtain ⟨fuel0, l, hl⟩ := game_loop_start_total bar_shapes landed_game 0 (by decide)
  have hreach : LoopReachable bar_shapes l :=
    LoopReachable.start fuel0 landed_game 0 l (hl fuel0 (le_refl _))
  have hfuel := hl fuel0 (le_refl _)
  simp only [game_loop_start, Option.map_eq_some'] at hfuel
  obtain ⟨g1, _, rfl⟩ := hfuel
  exact ⟨_, hreach, (timer_armed_only_running bar_shapes _ hreach).1, by
    show INIT_VALUE_MILLIS * 1000000 ≠ 0
    decide⟩

/-- C22: when the next block has at least one cell, `drop_block` returns (with
enough fuel), and in every state that it returns the current block has the type
and the rotation that the next block had before the call, its anchor column is
`COLUMNS / 2 = 5` and its anchor row is `-BLOCK_MAX_SIZE = -5` or lower on the
screen; the current block is positioned by `drop_curr` in a state where the next
block is still the one of before the call, and the next block is replaced
afterwards, by `drop_next`, with the block drawn from the random source. -/
theorem spawn_from_next (sh : Shapes) (g : Game)
    (hshape : sh g.next_block.type g.next_block.rot ≠ []) :
    (∃ (fuel0 : Nat) (gd : Game), ∀ fuel : Nat, fuel0 ≤ fuel →
      drop_block sh fuel g = some gd) ∧
    ∀ (fuel : Nat) (gd : Game), drop_block sh fuel g = some gd →
      gd.curr_block.type = g.next_block.type ∧ gd.curr_block.rot = g.next_block.rot ∧
      gd.curr_block.col = 5 ∧ -5 ≤ gd.curr_block.row ∧
      gd.curr_block.mark = g.next_block.type ∧
      (∃ g1 g2 : Game, drop_ghost sh fuel g = some g1 ∧ drop_curr sh fuel g1 = some g2 ∧
        g2.next_block = g.next_block ∧ g2.curr_block = gd.curr_block ∧
        gd = drop_next sh g2) ∧
      gd.next_block = (init_next_block g).next_block := by
  refine ⟨drop_block_total sh g hshape, fun fuel gd h => ?_⟩
  obtain ⟨_, ⟨t1, t2, t3, t4, _, _⟩⟩ := drop_block_frame sh fuel g gd h
  obtain ⟨g1, g2, h1, h2, rfl, _, n2, _, r2, _⟩ := drop_block_parts sh fuel g gd h
  have hrow := drop_curr_row sh fuel g1 g2 h2
  refine ⟨t1, t2, t3, hrow, t4, ⟨g1, g2, h1, h2, n2, rfl, rfl⟩,
    (drop_next_block sh g g2 r2).1⟩

/-- C22, witness: the statement on `landed_game`. -/
theorem spawn_from_next_witness :
    (∃ (fuel0 : Nat) (gd : Game), ∀ fuel : Nat, fuel0 ≤ fuel →
      drop_block bar_shapes fuel landed_game = some gd) ∧
    ∀ (fuel : Nat) (gd : Game), drop_block bar_shapes fuel landed_game = some gd →
      gd.curr_block.type = 3 ∧ gd.curr_block.rot = 1 ∧
      gd.curr_block.col = 5 ∧ -5 ≤ gd.curr_block.row ∧
      gd.curr_block.mark = 3 ∧
      (∃ g1 g2 : Game, drop_ghost bar_shapes fuel landed_game = some g1 ∧
        drop_curr bar_shapes fuel g1 = some g2 ∧
        g2.next_block = landed_game.next_block ∧ g2.curr_block = gd.curr_block ∧
        gd = drop_next bar_shapes g2) ∧
      gd.next_block = (init_next_block landed_game).next_block :=
  spawn_from_next bar_shapes landed_game (by decide)

/-- C24: whatever the values of `rand()` (natural numbers), the block drawn by
`init_next_block` (the statement `init_block(next_block, rand() % I_SHORT + 1,
rand() % 4, 2, 2)` of `drop_block` and `init_game`) has a type in `F .. I_SHORT`
(1 to 15), hence neither `BG` nor `GHOST`, and a rotation in `0 .. 3`; every type
and every rotation is drawn for some values of `rand()`. When the former next
block has at least one cell, `drop_block` returns (with enough fuel), and in every
state that it returns the next block is the block drawn, anchored at row 2 and
column 2, and on the rows and the columns of the preview field the grid holds the
type of the next block on its cells and `BG` everywhere else; with a valid
geometry table and a 5 x 5 preview field, every cell of the next block is on the
preview field. -/
theorem next_piece_valid (sh : Shapes) (g : Game)
    (hshape : sh g.next_block.type g.next_block.rot ≠ []) :
    (F ≤ (init_next_block g).next_block.type ∧ (init_next_block g).next_block.type ≤ I_SHORT ∧
      (init_next_block g).next_block.type ≠ BG ∧ (init_next_block g).next_block.type ≠ GHOST ∧
      0 ≤ (init_next_block g).next_block.rot ∧ (init_next_block g).next_block.rot < 4) ∧
    (∀ kind rot : Int, F ≤ kind → kind ≤ I_SHORT → 0 ≤ rot → rot < 4 →
      ∃ r0 r1 : Nat,
        (init_next_block { g with rand := fun n => if n = 0 then r0 else r1 }).next_block.type
          = kind ∧
        (init_next_block { g with rand := fun n => if n = 0 then r0 else r1 }).next_block.rot
          = rot) ∧
    (∃ (fuel0 : Nat) (gd : Game), ∀ fuel : Nat, fuel0 ≤ fuel →
      drop_block sh fuel g = some gd) ∧
    ∀ (fuel : Nat) (gd : Game), drop_block sh fuel g = some gd →
      gd.next_block = (init_next_block g).next_block ∧
      gd.next_block.row = 2 ∧ gd.next_block.col = 2 ∧
      gd.next_block.mark = gd.next_block.type ∧
      gd.next_field.rows = g.next_field.rows ∧ gd.next_field.cols = g.next_field.cols ∧
      (∀ r c : Int, 0 ≤ r → r < gd.next_field.rows → 0 ≤ c → c < gd.next_field.cols →
        gd.next_field.grid r c
          = if (r, c) ∈ gd.next_block.cells sh then gd.next_block.type else BG) ∧
      (sh.valid → ∀ p ∈ gd.next_block.cells sh,
        0 ≤ p.1 ∧ p.1 < 5 ∧ 0 ≤ p.2 ∧ p.2 < 5) := by
  have hvalid := init_next_block_valid g
  refine ⟨?_, ?_, drop_block_total sh g hshape, ?_⟩
  · obtain ⟨v1, v2, v3, v4⟩ := hvalid
    simp only [F, I_SHORT] at v1 v2
    refine ⟨v1, v2, ?_, ?_, v3, v4⟩
    · simp only [BG]; omega
    · simp only [GHOST]; omega
  · intro kind rot k1 k2 r1 r2
    simp only [F, I_SHORT] at k1 k2
    refine ⟨(kind - 1).toNat, rot.toNat, ?_, ?_⟩
    · simp only [init_next_block, init_block, I_SHORT, if_true]
      rw [Int.toNat_of_nonneg (by omega)]
      omega
    · simp only [init_next_block, init_block]
      rw [if_neg (by decide), Int.toNat_of_nonneg r1]
      omega
  · intro fuel gd h
    obtain ⟨g1, g2, _, _, rfl, _, _, _, r2, f2⟩ := drop_block_parts sh fuel g gd h
    have hnb := (drop_next_block sh g g2 r2).1
    have hrows : (drop_next sh g2).next_field.rows = g2.next_field.rows := rfl
    have hcols : (drop_next sh g2).next_field.cols = g2.next_field.cols := rfl
    refine ⟨hnb, rfl, rfl, rfl, by rw [hrows, f2], by rw [hcols, f2], ?_, ?_⟩
    · intro r c h0 h1 h2 h3
      exact drop_next_grid sh g2 r c h0 (by rw [← hrows]; exact h1) h2 (by rw [← hcols]; exact h3)
    · intro hv p hp
      rw [hnb] at hp
      simp only [Block.cells, List.mem_map] at hp
      obtain ⟨d, hd, rfl⟩ := hp
      obtain ⟨_, _, hd'⟩ := hv _ _ hvalid.1 hvalid.2.1 hvalid.2.2.1 hvalid.2.2.2
      obtain ⟨d1, d2, d3, d4⟩ := hd' d hd
      have hr : (init_next_block g).next_block.row = 2 := rfl
      have hc : (init_next_block g).next_block.col = 2 := rfl
      rw [hr, hc]
      refine ⟨by omega, by omega, by omega, by omega⟩

/-- C24, witness: the statement on `landed_game`. -/
theorem next_piece_valid_witness :
    (∃ (fuel0 : Nat) (gd : Game), ∀ fuel : Nat, fuel0 ≤ fuel →
      drop_block bar_shapes fuel landed_game = some gd) ∧
    ∀ (fuel : Nat) (gd : Game), drop_block bar_shapes fuel landed_game = some gd →
      gd.next_block = (init_next_block landed_game).next_block ∧
      gd.next_block.row = 2 ∧ gd.next_block.col = 2 ∧
      gd.next_block.mark = gd.next_block.type ∧
      gd.next_field.rows = landed_game.next_field.rows ∧
      gd.next_field.cols = landed_game.next_field.cols ∧
      (∀ r c : Int, 0 ≤ r → r < gd.next_field.rows → 0 ≤ c → c < gd.next_field.cols →
        gd.next_field.grid r c
          = if (r, c) ∈ gd.next_block.cells bar_shapes then gd.next_block.type else BG) ∧
      (bar_shapes.valid → ∀ p ∈ gd.next_block.cells bar_shapes,
        0 ≤ p.1 ∧ p.1 < 5 ∧ 0 ≤ p.2 ∧ p.2 < 5) :=
  (next_piece_valid bar_shapes landed_game (by decide)).2.2

/-- C23: when the next block has at least one cell, the spawn loop of `drop_block`
(the loop of `drop_curr`) ends on every field, and so does `drop_block`; in every
state that `drop_block` returns, `get_limit_high_block` of the current block is at
least 0 or the current block cannot move down. With a valid geometry table, a next
block of a valid type and rotation and a field of `COLUMNS` columns,
`get_limit_high_block` of the current block is exactly 0: when the rows 0 to 5 of
a field of at least six rows are free; when row 0 is free and the ghost option is
disabled; and, in general, when row 0 is free in the field on which the spawn loop
runs, the one that the ghost part of `drop_block` returns. -/
theorem spawn_loop_stops (sh : Shapes) (g : Game)
    (hshape : sh g.next_block.type g.next_block.rot ≠ []) :
    (∃ (fuel0 : Nat) (g1 : Game), ∀ fuel : Nat, fuel0 ≤ fuel →
      drop_curr sh fuel g = some g1) ∧
    (∃ (fuel0 : Nat) (gd : Game), ∀ fuel : Nat, fuel0 ≤ fuel →
      drop_block sh fuel g = some gd) ∧
    (∀ (fuel : Nat) (gd : Game), drop_block sh fuel g = some gd →
      0 ≤ get_limit_high_block sh gd.curr_block ∨
        can_move_block sh gd.curr_block gd.curr_field .DOWN = false) ∧
    (sh.valid → ValidBlock g.next_block → g.curr_field.cols = COLUMNS →
      6 ≤ g.curr_field.rows →
      (∀ r c : Int, 0 ≤ r → r ≤ 5 → 0 ≤ c → c < g.curr_field.cols →
        passable (g.curr_field.grid r c)) →
      ∀ (fuel : Nat) (gd : Game), drop_block sh fuel g = some gd →
        get_limit_high_block sh gd.curr_block = 0) ∧
    (sh.valid → ValidBlock g.next_block → g.curr_field.cols = COLUMNS →
      1 ≤ g.curr_field.rows → g.option_ghost ≠ OPT_GHOST_ON →
      (∀ c : Int, 0 ≤ c → c < g.curr_field.cols → passable (g.curr_field.grid 0 c)) →
      ∀ (fuel : Nat) (gd : Game), drop_block sh fuel g = some gd →
        get_limit_high_block sh gd.curr_block = 0) ∧
    (sh.valid → ValidBlock g.next_block → g.curr_field.cols = COLUMNS →
      1 ≤ g.curr_field.rows →
      ∀ (fuel : Nat) (g1 gd : Game), drop_ghost sh fuel g = some g1 →
        (∀ c : Int, 0 ≤ c → c < g1.curr_field.cols → passable (g1.curr_field.grid 0 c)) →
        drop_block sh fuel g = some gd → get_limit_high_block sh gd.curr_block = 0) := by
  have hexact : sh.valid → ValidBlock g.next_block → g.curr_field.cols = COLUMNS →
      1 ≤ g.curr_field.rows →
      ∀ (fuel : Nat) (g1 gd : Game), drop_ghost sh fuel g = some g1 →
        (∀ c : Int, 0 ≤ c → c < g1.curr_field.cols → passable (g1.curr_field.grid 0 c)) →
        drop_block sh fuel g = some gd → get_limit_high_block sh gd.curr_block = 0 := by
    intro hv hnext hc hr fuel g1 gd h1 hfree h
    obtain ⟨g1', g2, h1', h2, rfl, _⟩ := drop_block_parts sh fuel g gd h
    have he : g1' = g1 := Option.some.inj (h1'.symm.trans h1)
    subst he
    obtain ⟨_, n1, _, _, _, r1, c1⟩ := drop_ghost_frame sh fuel g g1' h1
    exact drop_curr_high sh hv fuel g1' g2 (by rw [n1]; exact hnext) (c1.trans hc)
      (by rw [r1]; exact hr) hfree h2
  refine ⟨drop_curr_total sh g hshape, drop_block_total sh g hshape, ?_, ?_, ?_, hexact⟩
  · intro fuel gd h
    obtain ⟨g1, g2, _, h2, rfl, _⟩ := drop_block_parts sh fuel g gd h
    exact drop_curr_exit sh fuel g1 g2 h2
  · intro hv hnext hc hr hfree fuel gd h
    obtain ⟨g1, _, h1, _⟩ := drop_block_parts sh fuel g gd h
    exact hexact hv hnext hc (by omega) fuel g1 gd h1
      (drop_ghost_top_free sh hv fuel g g1 hnext hc hr hfree h1) h
  · intro hv hnext hc hr hopt hfree fuel gd h
    have h1 : drop_ghost sh fuel g = some g := by
      simp only [drop_ghost]
      rw [if_neg hopt]
    exact hexact hv hnext hc hr fuel g gd h1 hfree h

/-- C23, witness: the statement on `falling_game`, whose row 0 is empty and whose
ghost option is disabled, and on `hovering_game`, whose rows 0 to 5 are empty and
whose ghost option is enabled. -/
theorem spawn_loop_stops_witness :
    (∃ (fuel0 : Nat) (gd : Game), ∀ fuel : Nat, fuel0 ≤ fuel →
      drop_block bar_shapes fuel falling_game = some gd) ∧
    (∀ (fuel : Nat) (gd : Game), drop_block bar_shapes fuel falling_game = some gd →
      get_limit_high_block bar_shapes gd.curr_block = 0) ∧
    hovering_game.option_ghost = OPT_GHOST_ON ∧
    (∀ (fuel : Nat) (gd : Game), drop_block bar_shapes fuel hovering_game = some gd →
      get_limit_high_block bar_shapes gd.curr_block = 0) :=
  have h := spawn_loop_stops bar_shapes falling_game (by decide)
  have h' := spawn_loop_stops bar_shapes hovering_game (by decide)
  ⟨h.2.1, h.2.2.2.2.1 bar_shapes_valid (by unfold ValidBlock; decide) rfl (by decide)
    (by decide)
    (fun c _ _ => by
      show (if (0 : Int) = 3 ∧ 4 ≤ c ∧ c ≤ 6 then (3 : Int) else 0) = BG
      rw [if_neg (by omega)]
      rfl),
    rfl,
    h'.2.2.2.1 bar_shapes_valid (by unfold ValidBlock; decide) rfl (by decide)
      (fun r c _ h5 _ _ => by
        show (if r = 17 ∧ 4 ≤ c ∧ c ≤ 6 then (3 : Int) else 0) = BG
        rw [if_neg (by omega)]
        rfl)⟩

/-- C13: when none of the four probes of `fix_block_position` (left by one, left by
two, right by one, right by two) gives a feasible rotation and the piece is stamped
on the grid (every cell of the piece on the grid holds its tag), the call leaves
the piece as it was (same rotation, row and column) and the field as it was: the
same dimensions and the same tag in every cell of the grid. -/
theorem fix_block_position_no_kick (sh : Shapes) (s : Block × Field) (hmark : Marked sh s)
    (hl1 : ¬ probe1 sh .LEFT s) (hl2 : ¬ probe2 sh .LEFT s)
    (hr1 : ¬ probe1 sh .RIGHT s) (hr2 : ¬ probe2 sh .RIGHT s) :
    (fix_block_position sh s).1 = s.1 ∧
    (fix_block_position sh s).2.rows = s.2.rows ∧
    (fix_block_position sh s).2.cols = s.2.cols ∧
    ∀ r c : Int, (fix_block_position sh s).2.grid r c = s.2.grid r c := by
  obtain ⟨a1, a2, a3, a4⟩ := fix_fail_fades sh s hmark hl1 hl2 hr1 hr2
  exact ⟨a1, a2, a3, fun r c => congrFun (congrFun (fades_eq a4) r) c⟩

/-- C13, witness: on `corner_field` the bar cannot rotate in place; the first probe
moves it one column to the left, where the settled cell refuses the rotation and
the second step, and moves it back; the wall refuses the probes to the right. The
piece and every cell of the grid are as before. -/
theorem fix_block_position_no_kick_witness :
    Marked bar_shapes (corner_bar, corner_field) ∧
    can_rotate_block bar_shapes corner_bar corner_field = false ∧
    can_move_block bar_shapes corner_bar corner_field .LEFT = true ∧
    (fix_block_position bar_shapes (corner_bar, corner_field)).1 = corner_bar ∧
    ∀ r c : Int,
      (fix_block_position bar_shapes (corner_bar, corner_field)).2.grid r c
        = corner_field.grid r c :=
  have hm : Marked bar_shapes (corner_bar, corner_field) := by
    unfold Marked
    decide
  have h := fix_block_position_no_kick bar_shapes (corner_bar, corner_field) hm
    (by simp only [probe1]; decide) (by simp only [probe2]; decide)
    (by simp only [probe1]; decide) (by simp only [probe2]; decide)
  ⟨hm, by decide, by decide, h.1, h.2.2.2⟩

/-- C26: for every state in which the piece is stamped on the grid and cannot
rotate in place, `fix_block_position` (speculative moves, retests and moves back)
returns the piece and the field of the pure decision procedure
`fix_block_position_spec` (candidates left-1, left-2, right-1, right-2 in this
order, the first feasible one committed, nothing changed otherwise); so the piece
is unchanged, or rotated once at the column offset -1, -2, 1 or 2 on the same
row. -/
theorem fix_block_position_refines (sh : Shapes) (s : Block × Field)
    (hrot : can_rotate_block sh s.1 s.2 = false) (hmark : Marked sh s) :
    fix_block_position sh s = fix_block_position_spec sh s ∧
    ((fix_block_position sh s).1 = s.1 ∨
      ∃ dc : Int, (dc = -1 ∨ dc = -2 ∨ dc = 1 ∨ dc = 2) ∧
        (fix_block_position sh s).1
          = { s.1 with rot := (s.1.rot + 1) % 4, row := s.1.row, col := s.1.col + dc }) := by
  obtain ⟨hb, hF⟩ := fix_refines_core sh s hrot hmark
  obtain ⟨_, _, f3, f4⟩ := fix_block_position_frame sh s
  obtain ⟨d1, d2⟩ := fix_spec_dims sh s
  refine ⟨?_, ?_⟩
  · exact Prod.ext hb
      (Field.ext_iff_fields _ _ (f3.trans d1.symm) (f4.trans d2.symm) (fades_eq hF))
  · rw [hb]
    exact fix_spec_block sh s

/-- C26, witness: the statement on `wall_right_field`, where the procedure commits
the candidate left-1, and on `corner_field`, where it changes nothing. -/
theorem fix_block_position_refines_witness :
    (Marked bar_shapes (wall_right_bar, wall_right_field) ∧
      kick_offset_spec bar_shapes (wall_right_bar, wall_right_field) = some (-1) ∧
      fix_block_position bar_shapes (wall_right_bar, wall_right_field)
        = fix_block_position_spec bar_shapes (wall_right_bar, wall_right_field)) ∧
    (Marked bar_shapes (corner_bar, corner_field) ∧
      kick_offset_spec bar_shapes (corner_bar, corner_field) = none ∧
      fix_block_position bar_shapes (corner_bar, corner_field)
        = fix_block_position_spec bar_shapes (corner_bar, corner_field)) :=
  have hm : Marked bar_shapes (wall_right_bar, wall_right_field) := by
    unfold Marked
    decide
  have hm2 : Marked bar_shapes (corner_bar, corner_field) := by
    unfold Marked
    decide
  ⟨⟨hm, by decide,
      (fix_block_position_refines bar_shapes (wall_right_bar, wall_right_field)
        (by decide) hm).1⟩,
    ⟨hm2, by decide,
      (fix_block_position_refines bar_shapes (corner_bar, corner_field) (by decide) hm2).1⟩⟩

/-- C11, failing input: on `floor_game` the key `KEY_DOWN` finds that the block can
move down; the tick delivered before the call of `move_block` moves the block to
row 21, the last row, and the call of the key handler then moves it to row 22: the
three cells of the block are on row 22 of a field of 22 rows, and the tag of the
block is written there. Such a state is a state of `game_loop`: with the ghost
option disabled, the ticks that follow the start bring the first block, alone in
the field, one row above the last row, and the interrupted handler then leaves a
cell of the block on row 22. -/
theorem interrupted_move_leaves_field :
    (floor_game.status = GAME_RUNNING ∧ floor_game.tv_nsec ≠ 0 ∧
      can_move_block bar_shapes floor_game.curr_block floor_game.curr_field .DOWN = true ∧
      (key_move_interrupted bar_shapes 5 .DOWN floor_game).map
        (fun g2 => (g2.curr_field.rows, g2.curr_block.cells bar_shapes,
          g2.curr_field.grid 22 5)) = some (22, [(22, 4), (22, 5), (22, 6)], 3)) ∧
    ∃ l : Loop, LoopReachable bar_shapes l ∧ l.returned = false ∧
      l.game.status = GAME_RUNNING ∧ l.game.tv_nsec ≠ 0 ∧
      can_move_block bar_shapes l.game.curr_block l.game.curr_field .DOWN = true ∧
      ∀ fuel : Nat, ∃ g2 : Game,
        key_move_interrupted bar_shapes fuel .DOWN l.game = some g2 ∧
        (g2.curr_field.rows : Int) = 22 ∧ ∃ p ∈ g2.curr_block.cells bar_shapes, p.1 = 22 := by
  refine ⟨by decide, ?_⟩
  obtain ⟨l, hl⟩ := falling_reach bar_shapes bar_shapes_valid falling_game rfl 20 (le_refl _)
  obtain ⟨hcan, hrace⟩ := falling_race bar_shapes bar_shapes_valid l hl
  refine ⟨l, hl.1, hl.2.1, hl.2.2.2.1, hl.2.2.1, hcan, fun fuel => ?_⟩
  obtain ⟨_, g2, _, _, h3, h4, h5⟩ := hrace fuel
  exact ⟨g2, h3, h4, h5⟩

/-- C15, failing input: on `floor_game` the key `KEY_DOWN` finds that the block can
move down; the tick delivered before the call of `move_block` moves the block to
the last row, where `can_move_block` for `DOWN` is false, and the key handler then
calls `move_block` for `DOWN` in that state: of the two calls made, the one of the
tick is made under its precondition and the one of the key handler is not. Such a
state is a state of `game_loop`: with the ghost option disabled, the ticks that
follow the start bring the first block one row above the last row, where the
interrupted handler makes a call of `move_block` that its test does not allow. -/
theorem interrupted_move_unguarded :
    (floor_game.status = GAME_RUNNING ∧ floor_game.tv_nsec ≠ 0 ∧
      can_move_block bar_shapes floor_game.curr_block floor_game.curr_field .DOWN = true ∧
      (timer_handler bar_shapes 5 floor_game).map
        (fun g1 => (g1.curr_block.row,
          can_move_block bar_shapes g1.curr_block g1.curr_field .DOWN)) = some (21, false) ∧
      (key_move_interrupted_calls bar_shapes 5 .DOWN floor_game).map
        (fun c => (c.1.1.row, call_ok bar_shapes c)) = [(20, true), (21, false)]) ∧
    ∃ l : Loop, LoopReachable bar_shapes l ∧ l.returned = false ∧
      l.game.status = GAME_RUNNING ∧ l.game.tv_nsec ≠ 0 ∧
      can_move_block bar_shapes l.game.curr_block l.game.curr_field .DOWN = true ∧
      ∀ fuel : Nat, ∃ c ∈ key_move_interrupted_calls bar_shapes fuel .DOWN l.game,
        call_ok bar_shapes c = false := by
  refine ⟨by decide, ?_⟩
  obtain ⟨l, hl⟩ := falling_reach bar_shapes bar_shapes_valid falling_game rfl 20 (le_refl _)
  exact ⟨l, hl.1, hl.2.1, hl.2.2.2.1, hl.2.2.1,
    (falling_race bar_shapes bar_shapes_valid l hl).1,
    fun fuel => falling_race_call bar_shapes bar_shapes_valid l hl fuel⟩

end TetrisC
